import Mathlib

/-!
# scrub.js — a shallow embedding

`scrub(value, spec, options)` walks a JavaScript value against a spec and
returns `null` or an error (or the transformed value with `returnValue`).

Modelling decisions, which hold for the whole development:

* JavaScript values are finite trees (`Val`).  An object is the list of its own
  enumerable properties in `for..in` order, keys distinct; a new property is
  appended, which is where JavaScript enumerates it unless its key is an array
  index (`isIntegerKey`).  Inherited properties (`constructor`, `toString`, ...)
  are looked up where the strict loop of `checkObject` reads the field map
  (`inherits`) and nowhere else.  Sparse arrays, accessors, cyclic values and
  values shared between two places are outside the model.
* A number is named by a decimal (`Num`); parsing text into numbers is left
  to the host (`Host.parseFloat`, `Host.parseInt`), so nothing depends on
  how the host rounds.
* A function value is a handle `func id`; the host says what calling it does
  (`Host.call`).  A callable sees its two explicit arguments `(value, options)`
  and answers with a returned or a thrown value.  It has no other effect: it
  does not write to its arguments and what it returns is not shared with them,
  and it does not consult `this`.  A second evaluator (`_scrubW`, over `HostW`)
  lifts two of these limits: there a callable is handed the root value as
  `this` and may write to the options object, which the stages of a node
  share; on callables that do neither, the two evaluators agree.
* `scrub` works in place.  Every function that mutates the value it was
  handed reports, next to what it returns, the state in which it leaves that
  value (`post`), also when it returns an error.
* A native exception leaving `scrub` is a result of its own (`Res.raise`).
  `Res.diverge` is the embedding running out of fuel; `scrub` supplies fuel
  from the depth of the spec and is shown never to diverge.
* `console.log` output (option `log`) is not part of the result and is left out.
-/

namespace Scrub

/-! ## Numbers -/

/-- A JavaScript number: `fin neg m e` names `(-1)^neg * m * 10^e`. -/
inductive Num
  | nan
  | inf (neg : Bool)
  | fin (neg : Bool) (mant : Nat) (exp : Int)
deriving DecidableEq, Repr

namespace Num

/-- The number `n`. -/
def ofNat (n : Nat) : Num := .fin false n 0

/-- Math.abs. -/
def abs : Num → Num
  | .nan => .nan
  | .inf _ => .inf false
  | .fin _ m e => .fin false m e

/-- ToBoolean on a number: false for `0`, `-0` and `NaN`. -/
def truthy : Num → Bool
  | .nan => false
  | .inf _ => true
  | .fin _ m _ => m != 0

/-- The mantissa of `m * 10^e` once the exponent is lowered to `base`. -/
def scaled (m : Nat) (e base : Int) : Nat := m * 10 ^ (e - base).toNat

/-- The comparison `a < b` of JavaScript (false when either side is `NaN`). -/
def lt : Num → Num → Bool
  | .nan, _ => false
  | _, .nan => false
  | .inf a, .inf b => a && !b
  | .inf a, .fin _ _ _ => a
  | .fin _ _ _, .inf b => !b
  | .fin n1 m1 e1, .fin n2 m2 e2 =>
    let a1 := scaled m1 e1 (min e1 e2)
    let a2 := scaled m2 e2 (min e1 e2)
    match n1, n2 with
    | false, false => decide (a1 < a2)
    | true, true => decide (a2 < a1)
    | true, false => a1 != 0 || a2 != 0
    | false, true => false

/-- The comparison `a > b`. -/
def gt (a b : Num) : Bool := lt b a

/-- Strict equality `a === b` on numbers: `NaN` equals nothing, `0 === -0`. -/
def seq : Num → Num → Bool
  | .nan, _ => false
  | _, .nan => false
  | .inf a, .inf b => a == b
  | .inf _, .fin _ _ _ => false
  | .fin _ _ _, .inf _ => false
  | .fin n1 m1 e1, .fin n2 m2 e2 =>
    let a1 := scaled m1 e1 (min e1 e2)
    let a2 := scaled m2 e2 (min e1 e2)
    a1 == a2 && (n1 == n2 || a1 == 0)

/-- Drop the zeros at the end of a digit list given in reverse, counting them. -/
def stripZeros : List Char → Nat × List Char
  | '0' :: ds => let r := stripZeros ds; (r.1 + 1, r.2)
  | ds => (0, ds)

/-- The digits `ds` of a positive number whose decimal point stands after `n` digits,
as Number::toString writes them. -/
def digitsToStr (ds : List Char) (n : Int) : String :=
  let k : Int := ds.length
  if k ≤ n ∧ n ≤ 21 then
    String.mk (ds ++ List.replicate (n - k).toNat '0')
  else if 0 < n ∧ n ≤ 21 then
    String.mk (ds.take n.toNat ++ '.' :: ds.drop n.toNat)
  else if -6 < n ∧ n ≤ 0 then
    String.mk ('0' :: '.' :: List.replicate (-n).toNat '0' ++ ds)
  else
    let e := n - 1
    let sign := if e < 0 then "-" else "+"
    let head := match ds with
      | [] => ""
      | [d] => String.mk [d]
      | d :: rest => String.mk (d :: '.' :: rest)
    head ++ "e" ++ sign ++ Nat.repr e.natAbs

/-- Number::toString in radix 10. -/
def toStr : Num → String
  | .nan => "NaN"
  | .inf neg => if neg then "-Infinity" else "Infinity"
  | .fin neg m e =>
    if m = 0 then "0" else
    let r := stripZeros (Nat.toDigits 10 m).reverse
    let ds := r.2.reverse
    let body := digitsToStr ds ((ds.length : Int) + (r.1 : Int) + e)
    if neg then "-" ++ body else body

/-- Whether the number is neither `NaN` nor infinite. -/
def finite : Num → Bool
  | .fin _ _ _ => true
  | _ => false

end Num

/-! ## Values -/

/-- A JavaScript value.  `obj` is a plain object, `error` an instance of `Error`
(its properties, `message` among them), `regexp` is named by its literal text and
`date` by its ISO text and its display text. -/
inductive Val
  | undefined
  | null
  | bool (b : Bool)
  | num (n : Num)
  | str (s : String)
  | func (id : Nat)
  | obj (props : List (String × Val))
  | arr (elems : List Val)
  | regexp (text : String)
  | date (iso : String) (text : String)
  | error (props : List (String × Val))
deriving Repr

/-- The own properties of an object, in order. -/
abbrev Props := List (String × Val)

/-- How a call of a spec function ends. -/
inductive CallResult
  | ret (v : Val)
  | throw (v : Val)

/-- What the host provides: the behaviour and the source text of each function
value, and the two number parsers. -/
structure Host where
  call : Nat → Val → Val → CallResult
  source : Nat → String
  parseFloat : String → Num
  parseInt : String → Num

/-- The completion of a function of scrub.js: it returns, or an exception leaves it. -/
inductive Res (α : Type)
  | ret (a : α)
  | raise (msg : String)
  | diverge
deriving Repr

namespace Res

/-- Sequencing: an exception (or divergence) of the first part is that of the whole. -/
def bind {α β : Type} : Res α → (α → Res β) → Res β
  | .ret a, k => k a
  | .raise m, _ => .raise m
  | .diverge, _ => .diverge

/-- Sequencing of two stages of a function body; `Except.error e` stands for
`return e`, which skips the stages that follow. -/
def andThen {α β : Type} (r : Res (Except Val α)) (k : α → Res (Except Val β)) :
    Res (Except Val β) :=
  r.bind fun x =>
    match x with
    | .ok a => k a
    | .error e => .ret (.error e)

end Res

/-- Whether a key is a decimal numeral without a sign and without a leading zero, which is
how an array index is written.  JavaScript enumerates the keys of an object that are array
indices first, in ascending order, and the other keys after them in the order of their
insertion. -/
def isIntegerKey (k : String) : Bool :=
  !k.data.isEmpty && k.data.all Char.isDigit && (k.data.head? != some '0' || k == "0")

namespace Props

/-- The value stored under `k`, if any. -/
def find (k : String) : Props → Option Val
  | [] => none
  | (k', v) :: rest => if k' = k then some v else find k rest

/-- Assignment `o[k] = v`: overwrite in place, or append a new property.  The list is read
in the order in which JavaScript enumerates the keys of the object, which is the order of
insertion for the keys that are not array indices (`isIntegerKey`).  A new key that is an
array index is enumerated before those, in ascending order, which appending does not
render: statements about the order of the keys hold for objects without such keys. -/
def set (k : String) (v : Val) : Props → Props
  | [] => [(k, v)]
  | (k', v') :: rest => if k' = k then (k, v) :: rest else (k', v') :: set k v rest

/-- The statement `delete o[k]`. -/
def erase (k : String) : Props → Props
  | [] => []
  | (k', v') :: rest => if k' = k then rest else (k', v') :: erase k rest

end Props

namespace Val

/-- The read `v[k]` on an object (or an error).  On the other values the source only
ever reads `default`, `required` and `message`, which they do not carry. -/
def get : Val → String → Val
  | .obj ps, k => (Props.find k ps).getD .undefined
  | .error ps, k =>
    match Props.find k ps with
    | some v => v
    | none => if k = "message" then .str "" else .undefined
  | _, _ => .undefined

/-- The read `v[k]` on an arbitrary value: reading from `null` or `undefined` throws. -/
def getProp (v : Val) (k : String) : Res Val :=
  match v with
  | .undefined => .raise ("TypeError: Cannot read properties of undefined (reading " ++ k ++ ")")
  | .null => .raise ("TypeError: Cannot read properties of null (reading " ++ k ++ ")")
  | _ => .ret (v.get k)

/-- The write `v[k] = x` on an object (or an error); a write to a primitive is lost. -/
def put : Val → String → Val → Val
  | .obj ps, k, x => .obj (Props.set k x ps)
  | .error ps, k, x => .error (Props.set k x ps)
  | v, _, _ => v

/-- The statement `delete v[k]`. -/
def delete : Val → String → Val
  | .obj ps, k => .obj (Props.erase k ps)
  | v, _ => v

/-- The keys a `for (key in v)` loop visits. -/
def keys : Val → List String
  | .obj ps => ps.map Prod.fst
  | _ => []

/-- The read `v.length` of an array. -/
def length : Val → Nat
  | .arr es => es.length
  | _ => 0

/-- The read `v[i]` of an array. -/
def item : Val → Nat → Val
  | .arr es, i => es.getD i .undefined
  | _, _ => .undefined

/-- The write `v[i] = x` into an array, below its length. -/
def setAt : Val → Nat → Val → Val
  | .arr es, i, x => .arr (es.set i x)
  | v, _, _ => v

/-- ToBoolean. -/
def truthy : Val → Bool
  | .undefined => false
  | .null => false
  | .bool b => b
  | .num n => n.truthy
  | .str s => s != ""
  | _ => true

end Val

/-! ## tipe.js -/

/-- The type tag of a value (function `tipe`). -/
def tipe : Val → String
  | .undefined => "undefined"
  | .null => "null"
  | .bool _ => "boolean"
  | .num _ => "number"
  | .str _ => "string"
  | .func _ => "function"
  | .obj _ => "object"
  | .arr _ => "array"
  | .regexp _ => "regexp"
  | .date _ _ => "date"
  | .error _ => "error"

/-- `tipe.isUndefined`. -/
def isUndefined : Val → Bool
  | .undefined => true
  | _ => false

/-- `tipe.isDefined`. -/
def isDefined (v : Val) : Bool := !isUndefined v

/-- `tipe.isNull`. -/
def isNull : Val → Bool
  | .null => true
  | _ => false

/-- `tipe.isObject`: a plain object. -/
def isObject : Val → Bool
  | .obj _ => true
  | _ => false

/-- `tipe.isFunction`. -/
def isFunction : Val → Bool
  | .func _ => true
  | _ => false

/-- `tipe.isString`. -/
def isString : Val → Bool
  | .str _ => true
  | _ => false

/-- `tipe.isArray`. -/
def isArray : Val → Bool
  | .arr _ => true
  | _ => false

/-- `tipe.isError`. -/
def isError : Val → Bool
  | .error _ => true
  | _ => false

/-- `tipe.isScalar`: not an instance of Object. -/
def isScalar : Val → Bool
  | .undefined => true
  | .null => true
  | .bool _ => true
  | .num _ => true
  | .str _ => true
  | _ => false

/-- The method `toLowerCase` of a string. -/
def toLowerCase (s : String) : String := String.mk (s.data.map Char.toLower)

/-- `tipe.isTruthy`: positive numbers, strings that parse to a positive integer and
the strings `true` and `yes`. -/
def isTruthy (h : Host) : Val → Val
  | .num n => .bool (Num.gt n (Num.ofNat 0))
  | .str s =>
    let v := toLowerCase s
    if v = "true" ∨ v = "yes" then .bool true
    else if Num.gt (h.parseInt v) (Num.ofNat 0) then .bool true
    else .bool false
  | v => v

/-! ## Host operations on values -/

mutual
/-- ToString, as string concatenation applies it. -/
def toStr (h : Host) : Val → String
  | .undefined => "undefined"
  | .null => "null"
  | .bool b => if b then "true" else "false"
  | .num n => n.toStr
  | .str s => s
  | .func id => h.source id
  | .obj _ => "[object Object]"
  | .arr es => joinStr h es
  | .regexp text => text
  | .date _ text => text
  | .error ps =>
    let name := propStr h "name" "Error" ps
    let msg := propStr h "message" "" ps
    if name = "" then msg else if msg = "" then name else name ++ ": " ++ msg
/-- The method `join` of an array: `null` and `undefined` give the empty text. -/
def joinStr (h : Host) : List Val → String
  | [] => ""
  | [v] => elemStr h v
  | v :: rest => elemStr h v ++ "," ++ joinStr h rest
/-- One element of a joined array. -/
def elemStr (h : Host) : Val → String
  | .undefined => ""
  | .null => ""
  | .bool b => if b then "true" else "false"
  | .num n => n.toStr
  | .str s => s
  | .func id => h.source id
  | .obj _ => "[object Object]"
  | .arr es => joinStr h es
  | .regexp text => text
  | .date _ text => text
  | .error ps =>
    let name := propStr h "name" "Error" ps
    let msg := propStr h "message" "" ps
    if name = "" then msg else if msg = "" then name else name ++ ": " ++ msg
/-- The text of property `k`, or `dflt` when it is missing or undefined. -/
def propStr (h : Host) (k : String) (dflt : String) : Props → String
  | [] => dflt
  | (k', v) :: rest =>
    if k' = k then
      match v with
      | .undefined => dflt
      | w => toStr h w
    else propStr h k dflt rest
end

mutual
/-- What `JSON.parse(JSON.stringify(v))` makes of a value found inside a container;
`none` when JSON leaves the value out. -/
def jsonVal : Val → Option Val
  | .undefined => none
  | .func _ => none
  | .null => some .null
  | .bool b => some (.bool b)
  | .num n =>
    match n with
    | .fin neg m e => some (.num (if m = 0 then .fin false 0 0 else .fin neg m e))
    | _ => some .null
  | .str s => some (.str s)
  | .obj ps => some (.obj (jsonProps ps))
  | .arr es => some (.arr (jsonElems es))
  | .regexp _ => some (.obj [])
  | .date iso _ => some (.str iso)
  | .error ps => some (.obj ((jsonProps ps).filter fun p => p.1 != "message"))
/-- The properties JSON keeps. -/
def jsonProps : Props → Props
  | [] => []
  | (k, v) :: rest =>
    match jsonVal v with
    | some w => (k, w) :: jsonProps rest
    | none => jsonProps rest
/-- The elements of an array after JSON: what it leaves out becomes `null`. -/
def jsonElems : List Val → List Val
  | [] => []
  | v :: rest => (jsonVal v).getD .null :: jsonElems rest
end

/-- Pipe-delimited pieces of a text (the method `split`). -/
def splitChars (sep : Char) : List Char → List (List Char)
  | [] => [[]]
  | c :: cs =>
    if c = sep then [] :: splitChars sep cs
    else
      match splitChars sep cs with
      | [] => [[c]]
      | w :: ws => (c :: w) :: ws

/-- The members of a pipe-delimited enumeration: `strEnum.split(|)`. -/
def members (strEnum : String) : List String :=
  (splitChars '|' strEnum.data).map String.mk

/-- Strict equality `a === b`.  In scrub.js one side is always a string, a number
or a boolean, which is never strictly equal to an object. -/
def strictEq : Val → Val → Bool
  | .undefined, .undefined => true
  | .null, .null => true
  | .bool a, .bool b => decide (a = b)
  | .num a, .num b => Num.seq a b
  | .str a, .str b => decide (a = b)
  | _, _ => false

/-- Function `match` of scrub.js: `str` is strictly equal to a member of `strEnum`. -/
def matchEnum (str strEnum : Val) : Bool :=
  match strEnum with
  | .str e => (members e).any fun member => strictEq (.str member) str
  | _ => false

/-- Function `clone`: scalars as they are, anything else through JSON. -/
def clone (obj : Val) : Val :=
  if isScalar obj then obj
  else
    match jsonVal obj with
    | some clonedObj => clonedObj
    | none =>
      .error [("message", .str "Default value could not be cloned: Unexpected token u in JSON at position 0"),
        ("code", .str "badSpec")]

/-- Function `prune`: a new object without the falsy entries. -/
def prune (obj : Val) : Val :=
  match obj with
  | .obj ps => .obj (ps.filter fun p => p.2.truthy)
  | _ => .obj []

/-- The built-in options `_options`. -/
def _options : Val :=
  .obj [("returnValue", .bool false), ("ignoreDefaults", .bool false),
    ("ignoreRequired", .bool false), ("doNotCoerce", .bool false),
    ("strict", .bool false), ("log", .bool false)]

/-- Function `override`: the keys of `obj1`, each replaced by the entry of `obj2` when
the two have the same tipe; with `allowNew`, keys that `obj1` lacks are taken too. -/
def override (obj1 obj2 : Val) (allowNew : Bool) : Val :=
  if !(isObject obj1 && isObject obj2) then obj1
  else
    obj2.keys.foldl
      (fun newObj key =>
        if allowNew && isUndefined (obj1.get key) then newObj.put key (obj2.get key)
        else if tipe (obj1.get key) = tipe (obj2.get key) then newObj.put key (obj2.get key)
        else newObj)
      obj1

/-- The table `codeMap` of function `fail`. -/
def codeMap (code : String) : String :=
  if code = "missingParam" then "Missing Required Parameter"
  else if code = "badParam" then "Unrecognized Parameter"
  else if code = "badType" then "Invalid Type"
  else if code = "badValue" then "Invalid Value"
  else if code = "badSpec" then "Invalid Spec"
  else "undefined"

/-- The arguments `(value, spec, options)` of the function that fails. -/
structure Args where
  value : Val
  spec : Val
  options : Val

/-- The object that `fail` stores as `err.details`. -/
def details (rootSpec : Val) (args : Args) : Val :=
  let options := prune args.options
  if (options.get "key").truthy then
    .obj [("value", args.value), ("spec", args.spec), ("key", options.get "key"),
      ("options", options.delete "key"), ("rootSpec", rootSpec)]
  else
    .obj [("value", args.value), ("spec", args.spec), ("options", options),
      ("rootSpec", rootSpec)]

/-- Function `fail` called as `fail(error, args)`. -/
def failWith (rootSpec : Val) (err : Val) (args : Args) : Val :=
  err.put "details" (details rootSpec args)

/-- The call `new Error(msg)`. -/
def newError (h : Host) (msg : Val) : Val :=
  match msg with
  | .undefined => .error []
  | m => .error [("message", .str (toStr h m))]

/-- Function `fail` called as `fail(code, msg, args)`. -/
def fail (h : Host) (rootSpec : Val) (code : String) (msg : Val) (args : Args) : Val :=
  failWith rootSpec
    ((newError h (.str (codeMap code ++ ": " ++ toStr h msg))).put "code" (.str code)) args

/-- Function `callClientFunction`: call `fn(value, options)`; what it throws is given
the code `badSpec` and returned. -/
def callClientFunction (h : Host) (fn value options : Val) : Res Val :=
  match fn with
  | .func id =>
    match h.call id value options with
    | .ret result => .ret result
    | .throw specErr =>
      (specErr.getProp "message").bind fun m =>
        .ret ((specErr.put "message"
          (.str ("Spec function threw exception: " ++ toStr h m))).put "code" (.str "badSpec"))
  | _ => .raise "TypeError: fn.call is not a function"

/-- Function `callSetter`. -/
def callSetter (h : Host) (fn value options : Val) : Res Val :=
  callClientFunction h fn value options

/-- Function `callValidator`: `null`, or the error the validator answered with. -/
def callValidator (h : Host) (fn value options : Val) : Res Val :=
  (callClientFunction h fn value options).bind fun err =>
    if err.truthy then
      let err := if !isError err then newError h err else err
      .ret (err.put "code" (if (err.get "code").truthy then err.get "code" else .str "badValue"))
    else .ret .null

/-- Function `setDefault`. -/
def setDefault (h : Host) (spec options : Val) : Res Val :=
  if isFunction (spec.get "default") then callSetter h (spec.get "default") .undefined options
  else .ret (clone (spec.get "default"))

/-- The numeric branch of `coerceType`: the two assignments to `value`, then the
test `value === 0` on the text `0`. -/
def coerceNumber (h : Host) (value : Val) : Val :=
  let f := h.parseFloat (toStr h value)
  let i := h.parseInt (toStr h value)
  let coerced : Val :=
    if Num.gt f.abs i.abs then .num f
    else if i.truthy then .num i
    else value
  if strictEq coerced (.str "0") then .num (Num.ofNat 0) else coerced

/-- Function `coerceType`. -/
def coerceType (h : Host) (value spec options : Val) : Val :=
  if (options.get "doNotCoerce").truthy then value
  else if !isString value then value
  else if strictEq (spec.get "type") (.str "number") then coerceNumber h value
  else if strictEq (spec.get "type") (.str "boolean") then isTruthy h value
  else value

/-- Function `checkScalar`. -/
def checkScalar (h : Host) (rootSpec : Val) (value spec options : Val) : Val :=
  if !isObject spec || isNull value || isUndefined value then value
  else
    let t := tipe (spec.get "value")
    if t = "undefined" ∨ t = "function" then value
    else if t = "string" then
      if matchEnum value (spec.get "value") then value
      else fail h rootSpec "badValue"
        (.str (toStr h (options.get "key") ++ ": " ++ toStr h (spec.get "value")))
        ⟨value, spec, options⟩
    else if t = "number" ∨ t = "boolean" then
      if strictEq (spec.get "value") value then value
      else fail h rootSpec "badValue"
        (.str (toStr h (options.get "key") ++ ": " ++ toStr h (spec.get "value")))
        ⟨value, spec, options⟩
    else fail h rootSpec "badSpec" (spec.get "value") ⟨value, spec, options⟩

/-! ## The checkers -/

/-- What `_scrub` hands back: the value or error it returns, and the state in which
it leaves the value it was called on. -/
structure Out where
  result : Val
  post : Val
deriving Repr

/-- What `checkObject` and `checkArray` hand back: what they return, the state of
the value they worked on, and the state of the options object, whose `key` they set. -/
structure Checked where
  result : Val
  post : Val
  options : Val
deriving Repr

/-- The statement `if (isError(result)) return fail(result, arguments) else value = result`. -/
def orFail (rootSpec : Val) (r : Res Val) (args : Args) : Res (Except Val Val) :=
  r.bind fun result =>
    if isError result then .ret (.error (failWith rootSpec result args))
    else .ret (.ok result)

/-- The names of the members that a plain object inherits from `Object.prototype`. -/
def objectPrototype : List String :=
  ["constructor", "__defineGetter__", "__defineSetter__", "hasOwnProperty",
    "__lookupGetter__", "__lookupSetter__", "isPrototypeOf", "propertyIsEnumerable",
    "toString", "valueOf", "__proto__", "toLocaleString"]

/-- Whether the read `o[key]` on a plain object finds an inherited member when `o` has no
property of its own under `key`. -/
def inherits (key : String) : Bool := decide (key ∈ objectPrototype)

/-- Strict mode loop of `checkObject`: the first key of the value for which
`isUndefined(specFields[key])` holds.  The read finds the property that `specFields` has
under `key`, if it has one, and otherwise the member that it inherits, if `key` names one;
such a member is not `undefined`. -/
def unknownKey (specFields : Val) : List String → Option String
  | [] => none
  | key :: keys =>
    if isUndefined (specFields.get key) &&
        (decide (key ∈ specFields.keys) || !inherits key) then some key
    else unknownKey specFields keys

/-- Loop `Set defaults for undefined keys` of `checkObject`, over the keys of
`specFields`; `Except.error` is the early return, with the value as it then stands. -/
def fillDefaults (h : Host) (rootSpec spec specFields options : Val) :
    List String → Val → Res (Except Out Val)
  | [], value => .ret (.ok value)
  | key :: keys, value =>
    if isUndefined (value.get key) then
      ((specFields.get key).getProp "default").bind fun d =>
        if isDefined d && !(options.get "ignoreDefaults").truthy then
          (setDefault h (specFields.get key) options).bind fun result =>
            if isError result then
              .ret (.error ⟨failWith rootSpec result ⟨value, spec, options⟩, value⟩)
            else fillDefaults h rootSpec spec specFields options keys (value.put key result)
        else fillDefaults h rootSpec spec specFields options keys value
    else fillDefaults h rootSpec spec specFields options keys value

/-- Loop `Check for missing required` of `checkObject`, over the keys of `specFields`:
the first required key whose value is undefined or null. -/
def missingRequired (specFields value : Val) : List String → Res (Option String)
  | [] => .ret none
  | key :: keys =>
    ((specFields.get key).getProp "required").bind fun r =>
      if r.truthy && (isUndefined (value.get key) || isNull (value.get key)) then .ret (some key)
      else missingRequired specFields value keys

/-- Loop `Recursively check the value's properties` of `checkObject`, over the keys
of the value; `child` is the recursive call of `_scrub`. -/
def scrubProps (child : Val → Val → Val → Res Out) (rootSpec spec specFields : Val) :
    List String → Val → Val → Res Checked
  | [], value, options => .ret ⟨value, value, options⟩
  | key :: keys, value, options =>
    if isObject (specFields.get key) then
      (child (value.get key) (specFields.get key) (options.put "key" (.str key))).bind fun out =>
        if isError out.result then
          .ret ⟨failWith rootSpec out.result
              ⟨value.put key out.post, spec, options.put "key" (.str key)⟩,
            value.put key out.post, options.put "key" (.str key)⟩
        else
          scrubProps child rootSpec spec specFields keys (value.put key out.result)
            (options.put "key" (.str key))
    else scrubProps child rootSpec spec specFields keys value options

/-- The local `specFields` of `checkObject`: the field map is `spec.value` when the
type of the spec lists `object` and `spec.value` is an object, else the spec itself. -/
def specFields (spec : Val) : Val :=
  if matchEnum (.str "object") (spec.get "type") && isObject (spec.get "value")
  then spec.get "value" else spec

/-- Function `checkObject`. -/
def checkObject (h : Host) (child : Val → Val → Val → Res Out)
    (rootSpec value spec options : Val) : Res Checked :=
  match (if (options.get "strict").truthy
      then unknownKey (specFields spec) value.keys else none) with
  | some key =>
    .ret ⟨fail h rootSpec "badParam" (.str key) ⟨value, spec, options⟩, value, options⟩
  | none =>
    (fillDefaults h rootSpec spec (specFields spec) options
        (specFields spec).keys value).bind fun filled =>
      match filled with
      | .error out => .ret ⟨out.result, out.post, options⟩
      | .ok value =>
        (if !(options.get "ignoreRequired").truthy
          then missingRequired (specFields spec) value (specFields spec).keys
          else .ret none).bind fun missing =>
          match missing with
          | some key =>
            .ret ⟨fail h rootSpec "missingParam" (.str key) ⟨value, spec, options⟩,
              value, options⟩
          | none =>
            scrubProps child rootSpec spec (specFields spec) value.keys value options

/-- The loop of `checkArray`, over the indices of the value. -/
def scrubItems (child : Val → Val → Val → Res Out) (rootSpec spec : Val) :
    List Nat → Val → Val → Res Checked
  | [], value, options => .ret ⟨value, value, options⟩
  | i :: rest, value, options =>
    (child (value.item i) (spec.get "value")
        (options.put "key" (.num (Num.ofNat i)))).bind fun out =>
      if isError out.result then
        .ret ⟨failWith rootSpec out.result
            ⟨value.setAt i out.post, spec, options.put "key" (.num (Num.ofNat i))⟩,
          value.setAt i out.post, options.put "key" (.num (Num.ofNat i))⟩
      else
        scrubItems child rootSpec spec rest (value.setAt i out.result)
          (options.put "key" (.num (Num.ofNat i)))

/-- Function `checkArray`. -/
def checkArray (child : Val → Val → Val → Res Out)
    (rootSpec value spec options : Val) : Res Checked :=
  if isObject (spec.get "value") then
    scrubItems child rootSpec spec (List.range value.length) value options
  else .ret ⟨value, value, options⟩

/-! ## The node evaluator -/

/-- Stage `Call init` of `_scrub`.  `Except.error` is an early `return fail(...)`. -/
def initStage (h : Host) (rootSpec value spec options : Val) : Res (Except Val Val) :=
  if isFunction (spec.get "init") then
    orFail rootSpec (callSetter h (spec.get "init") value options) ⟨value, spec, options⟩
  else .ret (.ok value)

/-- Stage `Set default` of `_scrub`. -/
def defaultStage (h : Host) (rootSpec value spec options : Val) : Res (Except Val Val) :=
  if isUndefined value && isDefined (spec.get "default") &&
      !(options.get "IgnoreDefaults").truthy then
    orFail rootSpec (setDefault h spec options) ⟨value, spec, options⟩
  else .ret (.ok value)

/-- Stage `Check required` of `_scrub`. -/
def requiredStage (h : Host) (rootSpec value spec options : Val) : Res (Except Val Val) :=
  if (spec.get "required").truthy && !(options.get "ignoreRequire").truthy &&
      (isUndefined value || isNull value) then
    .ret (.error (fail h rootSpec "missingParam" (options.get "key") ⟨value, spec, options⟩))
  else .ret (.ok value)

/-- Stage `Check type` of `_scrub`, coercion included. -/
def typeStage (h : Host) (rootSpec value spec options : Val) : Res (Except Val Val) :=
  if isDefined value && isDefined (spec.get "type") && !isObject (spec.get "type") then
    if !isString (spec.get "type") then
      .ret (.error (fail h rootSpec "badSpec" (.str "spec.type must be a string")
        ⟨value, spec, options⟩))
    else if !matchEnum (.str (tipe (coerceType h value spec options))) (spec.get "type") then
      .ret (.error (fail h rootSpec "badType"
        (.str (tipe (coerceType h value spec options)))
        ⟨coerceType h value spec options, spec, options⟩))
    else .ret (.ok (coerceType h value spec options))
  else .ret (.ok value)

/-- Stage `If spec.value is a setter call it` of `_scrub`. -/
def setterStage (h : Host) (rootSpec value spec options : Val) : Res (Except Val Val) :=
  if isFunction (spec.get "value") then
    orFail rootSpec (callSetter h (spec.get "value") value options) ⟨value, spec, options⟩
  else .ret (.ok value)

/-- Stage `Check final validator function` of `_scrub`. -/
def validateStage (h : Host) (rootSpec value spec options : Val) : Res (Except Val Val) :=
  if isFunction (spec.get "validate") then
    (callValidator h (spec.get "validate") value options).bind fun err =>
      if err.truthy then .ret (.error (failWith rootSpec err ⟨value, spec, options⟩))
      else .ret (.ok value)
  else .ret (.ok value)

/-- Stage `Call finish` of `_scrub`. -/
def finishStage (h : Host) (rootSpec value spec options : Val) : Res (Except Val Val) :=
  if isFunction (spec.get "finish") then
    orFail rootSpec (callSetter h (spec.get "finish") value options) ⟨value, spec, options⟩
  else .ret (.ok value)

/-- The stages of `_scrub` before the dispatch on the type of the value, in order. -/
def scrubHead (h : Host) (rootSpec value spec options : Val) : Res (Except Val Val) :=
  Res.andThen (initStage h rootSpec value spec options) fun v1 =>
  Res.andThen (defaultStage h rootSpec v1 spec options) fun v2 =>
  Res.andThen (requiredStage h rootSpec v2 spec options) fun v3 =>
  Res.andThen (typeStage h rootSpec v3 spec options) fun v4 =>
  setterStage h rootSpec v4 spec options

/-- The stages of `_scrub` after the dispatch: validate and finish. -/
def scrubTail (h : Host) (rootSpec value spec options : Val) : Res (Except Val Val) :=
  Res.andThen (validateStage h rootSpec value spec options) fun v =>
  finishStage h rootSpec v spec options

/-- Whether `_scrub` works on the very object it was handed: no setter has put
another value in its place. -/
def inPlace (value spec : Val) : Bool :=
  !isFunction (spec.get "init") && !isFunction (spec.get "value") &&
    (isObject value || isArray value)

mutual
/-- The depth of a value as a tree. -/
def Val.depth : Val → Nat
  | .obj ps => depthProps ps + 1
  | .arr es => depthElems es + 1
  | .error ps => depthProps ps + 1
  | _ => 0
/-- The depth of the deepest property. -/
def depthProps : Props → Nat
  | [] => 0
  | (_, v) :: rest => max v.depth (depthProps rest)
/-- The depth of the deepest element. -/
def depthElems : List Val → Nat
  | [] => 0
  | v :: rest => max v.depth (depthElems rest)
end

/-- Stage `Check value based on type` of `_scrub`: the switch on the tipe of the
value; `child` is the recursive call. -/
def dispatch (h : Host) (child : Val → Val → Val → Res Out)
    (rootSpec value spec options : Val) : Res Checked :=
  if tipe value = "object" then checkObject h child rootSpec value spec options
  else if tipe value = "array" then checkArray child rootSpec value spec options
  else .ret ⟨checkScalar h rootSpec value spec options, value, options⟩

/-- Function `_scrub`, the main worker.  The first argument bounds the depth of the
recursion. -/
def _scrub (h : Host) (rootSpec : Val) : Nat → Val → Val → Val → Res Out
  | 0, _, _, _ => .diverge
  | fuel + 1, value, spec, options =>
    if !isObject spec then .ret ⟨value, value⟩
    else
      (scrubHead h rootSpec value spec (override options spec false)).bind fun head =>
        match head with
        | .error err => .ret ⟨err, value⟩
        | .ok v =>
          (dispatch h (_scrub h rootSpec fuel) rootSpec v spec
              (override options spec false)).bind fun c =>
            if isError c.result then
              .ret ⟨c.result, if inPlace value spec then c.post else value⟩
            else
              (scrubTail h rootSpec c.result spec c.options).bind fun tail =>
                match tail with
                | .error err => .ret ⟨err, if inPlace value spec then c.post else value⟩
                | .ok result => .ret ⟨result, if inPlace value spec then c.post else value⟩

/-- Function `scrub`: what it returns, and the state in which it leaves `rootValue`. -/
def scrub (h : Host) (rootValue rootSpec rootOptions : Val) : Res Out :=
  (_scrub h rootSpec (rootSpec.depth + 1) rootValue rootSpec
      (override _options rootOptions true)).bind fun out =>
    if isError out.result then .ret out
    else if ((override _options rootOptions true).get "returnValue").truthy then .ret out
    else .ret ⟨.null, out.post⟩

/-! ## A host with decimal parsers

The parsers below read decimal text exactly (no rounding to binary floating point).
They serve to run the embedding on concrete inputs. -/

/-- White space that the number parsers skip at the start of a text. -/
def isSpace (c : Char) : Bool :=
  c = ' ' || c = '\t' || c = '\n' || c = '\r'

/-- The value of a decimal digit. -/
def digitVal (c : Char) : Nat := c.toNat - 48

/-- The number written by a list of decimal digits. -/
def natOfDigits (ds : List Char) : Nat :=
  ds.foldl (fun n c => 10 * n + digitVal c) 0

/-- The value of a hexadecimal digit, if it is one. -/
def hexVal (c : Char) : Option Nat :=
  if c.isDigit then some (c.toNat - 48)
  else if 'a' ≤ c ∧ c ≤ 'f' then some (c.toNat - 87)
  else if 'A' ≤ c ∧ c ≤ 'F' then some (c.toNat - 55)
  else none

/-- The longest run of hexadecimal digits at the start, as a number with its length. -/
def hexPrefix : List Char → Nat → Nat → Nat × Nat
  | [], acc, len => (acc, len)
  | c :: cs, acc, len =>
    match hexVal c with
    | some d => hexPrefix cs (16 * acc + d) (len + 1)
    | none => (acc, len)

/-- An optional sign at the start of a text. -/
def takeSign : List Char → Bool × List Char
  | '-' :: cs => (true, cs)
  | '+' :: cs => (false, cs)
  | cs => (false, cs)

/-- Remove up to `k` zeros from the end of the mantissa, raising the exponent. -/
def stripMant : Nat → Nat → Int → Nat × Int
  | 0, m, e => (m, e)
  | k + 1, m, e => if m % 10 = 0 then stripMant k (m / 10) (e + 1) else (m, e)

/-- The number `(-1)^neg * m * 10^e` with its exponent as close to zero as can be. -/
def mkNum (neg : Bool) (m : Nat) (e : Int) : Num :=
  if m = 0 then .fin neg 0 0
  else if 0 ≤ e then .fin neg (m * 10 ^ e.toNat) 0
  else .fin neg (stripMant (-e).toNat m e).1 (stripMant (-e).toNat m e).2

/-- The global `parseInt` (no radix given) on decimal or `0x` text. -/
def parseIntDec (s : String) : Num :=
  let r := takeSign (s.data.dropWhile isSpace)
  match r.2 with
  | '0' :: 'x' :: cs | '0' :: 'X' :: cs =>
    if (hexPrefix cs 0 0).2 = 0 then .nan else .fin r.1 (hexPrefix cs 0 0).1 0
  | cs =>
    if cs.takeWhile Char.isDigit = [] then .nan
    else .fin r.1 (natOfDigits (cs.takeWhile Char.isDigit)) 0

/-- The exponent part `e[+-]digits` at the start of a text, or 0. -/
def takeExp : List Char → Int
  | c :: cs =>
    if c = 'e' ∨ c = 'E' then
      let r := takeSign cs
      if r.2.takeWhile Char.isDigit = [] then 0
      else if r.1 then -(natOfDigits (r.2.takeWhile Char.isDigit) : Int)
      else (natOfDigits (r.2.takeWhile Char.isDigit) : Int)
    else 0
  | [] => 0

/-- The global `parseFloat` on decimal text. -/
def parseFloatDec (s : String) : Num :=
  let r := takeSign (s.data.dropWhile isSpace)
  if "Infinity".data.isPrefixOf r.2 then .inf r.1
  else
    let ip := r.2.takeWhile Char.isDigit
    let rest := r.2.dropWhile Char.isDigit
    match rest with
    | '.' :: cs =>
      let fp := cs.takeWhile Char.isDigit
      if ip = [] ∧ fp = [] then .nan
      else mkNum r.1 (natOfDigits (ip ++ fp)) (takeExp (cs.dropWhile Char.isDigit) - fp.length)
    | _ => if ip = [] then .nan else mkNum r.1 (natOfDigits ip) (takeExp rest)

/-- A host whose function values all return `undefined`. -/
def plainHost : Host where
  call := fun _ _ _ => .ret .undefined
  source := fun _ => "function () \x7b\x7d"
  parseFloat := parseFloatDec
  parseInt := parseIntDec

/-- A host whose function values all throw `x`. -/
def throwHost (x : Val) : Host where
  call := fun _ _ _ => .throw x
  source := fun _ => "function () \x7b throw x \x7d"
  parseFloat := parseFloatDec
  parseInt := parseIntDec

/-! ## Reference definitions

Definitions written from the words of the specification, to compare the code with. -/

/-- The verdict of a check: the value passes unchanged, or fails with a code. -/
inductive Verdict
  | pass
  | fail (code : String)
deriving DecidableEq, Repr

/-- The members of a pipe-delimited enumeration given as a value. -/
def enumMembers : Val → List String
  | .str e => members e
  | _ => []

/-- Reference for `checkScalar`, from the specification: null and undefined pass;
otherwise the tag of `spec.value` decides. -/
def checkScalarRef (value spec : Val) : Verdict :=
  if isNull value || isUndefined value then .pass
  else if tipe (spec.get "value") = "undefined" ∨ tipe (spec.get "value") = "function" then .pass
  else if tipe (spec.get "value") = "string" then
    if (enumMembers (spec.get "value")).any (fun member => strictEq (.str member) value)
    then .pass else .fail "badValue"
  else if tipe (spec.get "value") = "number" ∨ tipe (spec.get "value") = "boolean" then
    if strictEq (spec.get "value") value then .pass else .fail "badValue"
  else .fail "badSpec"

/-- A result realises a verdict on `value`: the value itself for `pass`, an error with
the given code for `fail`. -/
def Verdict.realisedBy (value result : Val) : Verdict → Prop
  | .pass => result = value
  | .fail code => isError result = true ∧ result.get "code" = .str code

/-- Reference for the numeric coercion of a text `s`, from the specification: the
float parse when its magnitude exceeds that of the integer parse, else the integer
parse when it is a non-zero number, else 0 for the text `0`, else `s` itself. -/
def coerceNumberRef (h : Host) (s : String) : Val :=
  if Num.gt (h.parseFloat s).abs (h.parseInt s).abs then .num (h.parseFloat s)
  else if (h.parseInt s).truthy then .num (h.parseInt s)
  else if s = "0" then .num (Num.ofNat 0)
  else .str s

/-- The call of `scrub` returns `v` to its caller. -/
def Returns (r : Res Out) (v : Val) : Prop := ∃ post, r = .ret ⟨v, post⟩

/-- A field map: every entry declares a field, that is, it is a spec node. -/
def isFieldMap (fields : Props) : Bool := fields.all fun p => isObject p.2

/-- The options in effect when the caller asks for strict mode only. -/
def strictOptions : Val :=
  .obj [("returnValue", .bool false), ("ignoreDefaults", .bool false),
    ("ignoreRequired", .bool false), ("doNotCoerce", .bool false),
    ("strict", .bool true), ("log", .bool false)]

mutual
/-- A value that JSON writes and reads back unchanged: built from null, booleans,
strings, finite numbers (zero written as `0`), arrays and plain objects only. -/
def isJson : Val → Bool
  | .null => true
  | .bool _ => true
  | .str _ => true
  | .num (.fin neg m e) => m != 0 || (!neg && e == 0)
  | .obj ps => isJsonProps ps
  | .arr es => isJsonElems es
  | _ => false
/-- Every property is such a value. -/
def isJsonProps : Props → Bool
  | [] => true
  | (_, v) :: rest => isJson v && isJsonProps rest
/-- Every element is such a value. -/
def isJsonElems : List Val → Bool
  | [] => true
  | v :: rest => isJson v && isJsonElems rest
end

/-- The run of `_scrub h rootSpec fuel value spec options` reaches a call of a spec
function that throws an Error object whose message reads `m`: the init hook, the default
generator, the value setter, the validate function or the finish hook of this node (the
stages before it having passed), the default generator of a field (the fields before it
having been filled), or one such call in the node of a field or of an array element that
the loop reaches (the fields or elements before it having been scrubbed). -/
inductive Throws (h : Host) (rootSpec : Val) : Nat → Val → Val → Val → String → Prop
  | atInit {fuel : Nat} {value spec options : Val} {id : Nat} {x : Val} :
      isObject spec = true →
      spec.get "init" = .func id →
      h.call id value (override options spec false) = .throw x →
      isError x = true →
      Throws h rootSpec (fuel + 1) value spec options (toStr h (x.get "message"))
  | atDefault {fuel : Nat} {value spec options v1 : Val} {id : Nat} {x : Val} :
      isObject spec = true →
      initStage h rootSpec value spec (override options spec false) = .ret (.ok v1) →
      isUndefined v1 = true →
      ((override options spec false).get "IgnoreDefaults").truthy = false →
      spec.get "default" = .func id →
      h.call id .undefined (override options spec false) = .throw x →
      isError x = true →
      Throws h rootSpec (fuel + 1) value spec options (toStr h (x.get "message"))
  | atSetter {fuel : Nat} {value spec options v1 v2 v3 v4 : Val} {id : Nat} {x : Val} :
      isObject spec = true →
      initStage h rootSpec value spec (override options spec false) = .ret (.ok v1) →
      defaultStage h rootSpec v1 spec (override options spec false) = .ret (.ok v2) →
      requiredStage h rootSpec v2 spec (override options spec false) = .ret (.ok v3) →
      typeStage h rootSpec v3 spec (override options spec false) = .ret (.ok v4) →
      spec.get "value" = .func id →
      h.call id v4 (override options spec false) = .throw x →
      isError x = true →
      Throws h rootSpec (fuel + 1) value spec options (toStr h (x.get "message"))
  | atFieldDefault {fuel : Nat} {value spec options v filled : Val} {pre rest : List String}
      {key : String} {id : Nat} {x : Val} :
      isObject spec = true →
      scrubHead h rootSpec value spec (override options spec false) = .ret (.ok v) →
      tipe v = "object" →
      (if ((override options spec false).get "strict").truthy
        then unknownKey (specFields spec) v.keys else none) = none →
      (specFields spec).keys = pre ++ key :: rest →
      fillDefaults h rootSpec spec (specFields spec) (override options spec false) pre v
        = .ret (.ok filled) →
      isUndefined (filled.get key) = true →
      ((override options spec false).get "ignoreDefaults").truthy = false →
      ((specFields spec).get key).get "default" = .func id →
      h.call id .undefined (override options spec false) = .throw x →
      isError x = true →
      Throws h rootSpec (fuel + 1) value spec options (toStr h (x.get "message"))
  | inField {fuel : Nat} {value spec options v filled : Val} {pre rest : List String}
      {key : String} {c : Checked} {m : String} :
      isObject spec = true →
      scrubHead h rootSpec value spec (override options spec false) = .ret (.ok v) →
      tipe v = "object" →
      (if ((override options spec false).get "strict").truthy
        then unknownKey (specFields spec) v.keys else none) = none →
      fillDefaults h rootSpec spec (specFields spec) (override options spec false)
        (specFields spec).keys v = .ret (.ok filled) →
      (if !((override options spec false).get "ignoreRequired").truthy
        then missingRequired (specFields spec) filled (specFields spec).keys
        else .ret none) = .ret none →
      filled.keys = pre ++ key :: rest →
      scrubProps (_scrub h rootSpec fuel) rootSpec spec (specFields spec) pre filled
        (override options spec false) = .ret c →
      isError c.result = false →
      isObject ((specFields spec).get key) = true →
      Throws h rootSpec fuel (c.post.get key) ((specFields spec).get key)
        (c.options.put "key" (.str key)) m →
      Throws h rootSpec (fuel + 1) value spec options m
  | inItem {fuel : Nat} {value spec options v : Val} {i : Nat} {c : Checked} {m : String} :
      isObject spec = true →
      scrubHead h rootSpec value spec (override options spec false) = .ret (.ok v) →
      tipe v = "array" →
      isObject (spec.get "value") = true →
      i < v.length →
      scrubItems (_scrub h rootSpec fuel) rootSpec spec (List.range i) v
        (override options spec false) = .ret c →
      isError c.result = false →
      Throws h rootSpec fuel (c.post.item i) (spec.get "value")
        (c.options.put "key" (.num (Num.ofNat i))) m →
      Throws h rootSpec (fuel + 1) value spec options m
  | atValidate {fuel : Nat} {value spec options v : Val} {c : Checked} {id : Nat} {x : Val} :
      isObject spec = true →
      scrubHead h rootSpec value spec (override options spec false) = .ret (.ok v) →
      dispatch h (_scrub h rootSpec fuel) rootSpec v spec (override options spec false)
        = .ret c →
      isError c.result = false →
      spec.get "validate" = .func id →
      h.call id c.result c.options = .throw x →
      isError x = true →
      Throws h rootSpec (fuel + 1) value spec options (toStr h (x.get "message"))
  | atFinish {fuel : Nat} {value spec options v v' : Val} {c : Checked} {id : Nat} {x : Val} :
      isObject spec = true →
      scrubHead h rootSpec value spec (override options spec false) = .ret (.ok v) →
      dispatch h (_scrub h rootSpec fuel) rootSpec v spec (override options spec false)
        = .ret c →
      isError c.result = false →
      validateStage h rootSpec c.result spec c.options = .ret (.ok v') →
      spec.get "finish" = .func id →
      h.call id v' c.options = .throw x →
      isError x = true →
      Throws h rootSpec (fuel + 1) value spec options (toStr h (x.get "message"))

/-- The error that a thrown spec function leaves: code `badSpec` and the message of the
exception behind a fixed text. -/
def IsThrown (m : String) (e : Val) : Prop :=
  isError e = true ∧ e.get "code" = .str "badSpec" ∧
    e.get "message" = .str ("Spec function threw exception: " ++ m)

/-! ## Reached nodes, an example host, and further reference definitions -/

/-- Reference for the boolean coercion of a text `s`, from the specification: true when
`s`, compared without regard to case, is `true` or `yes`, or when `s` parses to an integer
greater than zero; false for every other text. -/
def coerceBooleanRef (h : Host) (s : String) : Bool :=
  decide (toLowerCase s = "true") || decide (toLowerCase s = "yes") ||
    Num.gt (h.parseInt s) (Num.ofNat 0)

/-- The run of `_scrub h rootSpec fuel value spec options` (the last four indices) makes
the call `_scrub h rootSpec n v s o`: that call itself, or, in the node of a field or of an
array element that the loops of `checkObject` and `checkArray` reach (the stages before
the loop having passed and the fields or elements before it having been scrubbed without
error), a call that its run makes. -/
inductive Reaches (h : Host) (rootSpec : Val) (n : Nat) (v s o : Val) :
    Nat → Val → Val → Val → Prop
  | here : Reaches h rootSpec n v s o n v s o
  | inField {fuel : Nat} {value spec options w filled : Val} {pre rest : List String}
      {key : String} {c : Checked} :
      isObject spec = true →
      scrubHead h rootSpec value spec (override options spec false) = .ret (.ok w) →
      tipe w = "object" →
      (if ((override options spec false).get "strict").truthy
        then unknownKey (specFields spec) w.keys else none) = none →
      fillDefaults h rootSpec spec (specFields spec) (override options spec false)
        (specFields spec).keys w = .ret (.ok filled) →
      (if !((override options spec false).get "ignoreRequired").truthy
        then missingRequired (specFields spec) filled (specFields spec).keys
        else .ret none) = .ret none →
      filled.keys = pre ++ key :: rest →
      scrubProps (_scrub h rootSpec fuel) rootSpec spec (specFields spec) pre filled
        (override options spec false) = .ret c →
      isError c.result = false →
      isObject ((specFields spec).get key) = true →
      Reaches h rootSpec n v s o fuel (c.post.get key) ((specFields spec).get key)
        (c.options.put "key" (.str key)) →
      Reaches h rootSpec n v s o (fuel + 1) value spec options
  | inItem {fuel : Nat} {value spec options w : Val} {i : Nat} {c : Checked} :
      isObject spec = true →
      scrubHead h rootSpec value spec (override options spec false) = .ret (.ok w) →
      tipe w = "array" →
      isObject (spec.get "value") = true →
      i < w.length →
      scrubItems (_scrub h rootSpec fuel) rootSpec spec (List.range i) w
        (override options spec false) = .ret c →
      isError c.result = false →
      Reaches h rootSpec n v s o fuel (c.post.item i) (spec.get "value")
        (c.options.put "key" (.num (Num.ofNat i))) →
      Reaches h rootSpec n v s o (fuel + 1) value spec options

/-- The error `e'` is the error `e` with its `details` written anew: an Error object that
agrees with `e` on every other property, `code` and `message` among them. -/
def SameError (e e' : Val) : Prop :=
  isError e' = true ∧ ∀ k, k ≠ "details" → e'.get k = e.get k

/-- Whether a text starts with a character that its upper-case form differs from. -/
def startsLower (s : String) : Bool :=
  match s.data with
  | c :: _ => c.toUpper != c
  | [] => false

/-- A host with the spec functions of the examples.  Function 0 doubles a string; 1 wraps
an object in an array; 2 answers with the error `I always error`; 3 answers a string that
starts in lower case with an error of code `mustBeUppercase`; 4 answers such a string
with the message `Must be uppercase`; 5 answers with an error of code `failedValidator`
unless `n1` and `n2` of its argument are numbers with `n1` above `n2`; 6 answers with a
message unless its argument is strictly equal to the option `n3`; 7 answers with a message
unless the option `strict` is on; 8 answers with the text of its argument.  What is not
described returns `undefined`. -/
def demoHost : Host where
  call := fun id v o =>
    match id with
    | 0 =>
      match v with
      | .str s => .ret (.str (s ++ s))
      | w => .ret w
    | 1 =>
      match v with
      | .obj ps => .ret (.arr [.obj ps])
      | w => .ret w
    | 2 => .ret (.error [("message", .str "I always error")])
    | 3 =>
      match v with
      | .str s =>
        if startsLower s then
          .ret (.error [("message", .str "Must be uppercase"), ("code", .str "mustBeUppercase")])
        else .ret .undefined
      | _ => .ret .undefined
    | 4 =>
      match v with
      | .str s => if startsLower s then .ret (.str "Must be uppercase") else .ret .undefined
      | _ => .ret .undefined
    | 5 =>
      match v.get "n1", v.get "n2" with
      | .num a, .num b =>
        if Num.gt a b then .ret .null
        else .ret (.error [("message", .str "n1 must be greater than n2"),
          ("code", .str "failedValidator")])
      | _, _ => .ret (.error [("message", .str "n1 must be greater than n2"),
          ("code", .str "failedValidator")])
    | 6 => if strictEq v (o.get "n3") then .ret .undefined
      else .ret (.str "n2 must equal options.n3")
    | 7 => if (o.get "strict").truthy then .ret .undefined else .ret (.str "strict mode only")
    | 8 => .ret (.str (toStr plainHost v))
    | _ => .ret .undefined
  source := fun _ => "function () \x7b\x7d"
  parseFloat := parseFloatDec
  parseInt := parseIntDec

/-- The names of the built-in options, the keys of `_options`. -/
def builtinOptions : List String :=
  ["returnValue", "ignoreDefaults", "ignoreRequired", "doNotCoerce", "strict", "log"]

/-- Each of the built-in options is a boolean in the record `o`. -/
def booleanOptions (o : Val) : Prop :=
  ∀ k, k ∈ builtinOptions → ∃ b, o.get k = .bool b

/-- The option records `o` and `o'` agree on every key other than `strict`. -/
def AgreeButStrict (o o' : Val) : Prop :=
  ∀ k, k ≠ "strict" → o'.get k = o.get k

/-- The record `oF` is `oT` with strict mode possibly switched off: both are objects
that agree on every other key, `strict` is a boolean in both, and it is on in `oF` only
if it is on in `oT`. -/
def Relaxes (oT oF : Val) : Prop :=
  isObject oT = true ∧ isObject oF = true ∧ AgreeButStrict oT oF ∧
    ∃ bT bF, oT.get "strict" = .bool bT ∧ oF.get "strict" = .bool bF ∧ (bF = true → bT = true)

mutual
/-- The function values that occur in a value, at any depth. -/
def funcs : Val → List Nat
  | .func id => [id]
  | .obj ps => funcsProps ps
  | .arr es => funcsElems es
  | .error ps => funcsProps ps
  | _ => []
/-- The function values that occur in the properties. -/
def funcsProps : Props → List Nat
  | [] => []
  | (_, v) :: rest => funcs v ++ funcsProps rest
/-- The function values that occur in the elements. -/
def funcsElems : List Val → List Nat
  | [] => []
  | v :: rest => funcs v ++ funcsElems rest
end

/-- The functions of the spec do not consult the option `strict`: a call of a function
that occurs in `spec` answers the same on two option records that agree on every other
key. -/
def IgnoresStrict (h : Host) (spec : Val) : Prop :=
  ∀ id, id ∈ funcs spec →
    ∀ (v o o' : Val), AgreeButStrict o o' → h.call id v o' = h.call id v o

/-! ## Array specs, specs with an extra key, and runs that agree up to error details -/

/-- The spec `{type: 'array', value: elem}`. -/
def arraySpec (elem : Val) : Val := .obj [("type", .str "array"), ("value", elem)]

/-- The keys that `_scrub` and the checkers read from a spec node. -/
def keywords : List String :=
  ["type", "required", "default", "value", "validate", "init", "finish"]

/-- The spec `s'` is the spec `s` with the entry `k: x` added to one of its nodes: to `s`
itself, or to the node under `value` or under a field name of `s`, and so on.  (`same`
adds nothing.) -/
inductive Pads (k : String) (x : Val) : Val → Val → Prop
  | same (s : Val) : Pads k x s s
  | here (ps : Props) : k ∉ ps.map Prod.fst → Pads k x (.obj ps) (.obj (ps ++ [(k, x)]))
  | field (ps : Props) (key : String) (t' : Val) :
      (key = "value" ∨ key ∉ keywords) →
      isObject ((Val.obj ps).get key) = true →
      Pads k x ((Val.obj ps).get key) t' →
      Pads k x (.obj ps) ((Val.obj ps).put key t')

mutual
/-- Whether an object of the spec tree has a key `k`. -/
def mentions (k : String) : Val → Bool
  | .obj ps => mentionsProps k ps
  | _ => false
/-- Whether one of the properties is named `k` or holds an object that has a key `k`. -/
def mentionsProps (k : String) : Props → Bool
  | [] => false
  | (k', v) :: rest => k' == k || mentions k v || mentionsProps k rest
end

/-- Two results of `_scrub` that differ at most in the details of the error: the same
value, or two Error objects that agree on every property but `details`. -/
def SameResult (r r' : Val) : Prop :=
  (isError r = false ∧ r' = r) ∨ (isError r = true ∧ SameError r r')

/-- Two completions that agree, the results that they return being related by `R`. -/
def Res.Rel {α : Type} (R : α → α → Prop) : Res α → Res α → Prop
  | .ret a, .ret b => R a b
  | .raise m, .raise m' => m = m'
  | .diverge, .diverge => True
  | _, _ => False

/-- Two outcomes of a stage that differ at most in the details of the error. -/
def SameStage : Except Val Val → Except Val Val → Prop
  | .ok a, .ok b => b = a
  | .error e, .error e' => isError e = true ∧ SameError e e'
  | _, _ => False

/-- Two outcomes of `_scrub` that differ at most in the details of the error. -/
def SameOut (a b : Out) : Prop := b.post = a.post ∧ SameResult a.result b.result

/-- Two outcomes of a checker that differ at most in the details of the error. -/
def SameChecked (a b : Checked) : Prop :=
  b.post = a.post ∧ b.options = a.options ∧ SameResult a.result b.result

/-- Two outcomes of the defaults loop that differ at most in the details of the error. -/
def SameFill : Except Out Val → Except Out Val → Prop
  | .ok a, .ok b => b = a
  | .error a, .error b => b.post = a.post ∧ isError a.result = true ∧ SameError a.result b.result
  | _, _ => False

/-- The option record of a run in which the added key `k` names no option and strict mode
is off: an object without object-valued entries and without an entry `k`. -/
def Unaffected (k : String) (o : Val) : Prop :=
  isObject o = true ∧ (∀ j, isObject (o.get j) = false) ∧ o.get k = .undefined ∧
    (o.get "strict").truthy = false

/-! ## Spec functions that write to the options

A second rendering of the node evaluator, in which a spec function is called as the source
calls it, `fn.call(rootValue, value, options)`: it sees the root value as `this`, in the
state in which the run has left it so far, and the options object of its node, to which it
may write.  The stages of one node share that object, so that a later function reads what
an earlier one wrote; the node of a field or of an element works on the copy that
`override` makes.  Not rendered: a function that changes its argument or the root value in
place, and an object that the options of a node share with those of another node. -/

/-- How a call of a spec function ends, and the options object as the call leaves it. -/
structure Effect where
  result : CallResult
  options : Val

/-- A host whose function values are called with `this`, the value and the options object,
in this order, and answer with the way the call ends and the options object as the call
leaves it. -/
structure HostW where
  call : Nat → Val → Val → Val → Effect
  source : Nat → String
  parseFloat : String → Num
  parseInt : String → Num

/-- The host as the functions of scrub.js that call no spec function use it, for the text
of a value and for the parsers, `this` being `self`. -/
def HostW.toHost (hw : HostW) (self : Val) : Host where
  call := fun id v o => (hw.call id self v o).result
  source := hw.source
  parseFloat := hw.parseFloat
  parseInt := hw.parseInt

/-- A host whose functions neither look at `this` nor write to the options. -/
def Host.lift (h : Host) : HostW where
  call := fun id _ v o => ⟨h.call id v o, o⟩
  source := h.source
  parseFloat := h.parseFloat
  parseInt := h.parseInt

/-- Function `callClientFunction`, `this` being `self`: the result, or what the function
threw with the code `badSpec`, and the options as the call leaves them. -/
def callClientFunctionW (hw : HostW) (self fn value options : Val) : Res (Val × Val) :=
  match fn with
  | .func id =>
    match (hw.call id self value options).result with
    | .ret result => .ret (result, (hw.call id self value options).options)
    | .throw specErr =>
      (specErr.getProp "message").bind fun m =>
        .ret ((specErr.put "message"
          (.str ("Spec function threw exception: " ++ toStr (hw.toHost self) m))).put "code"
            (.str "badSpec"), (hw.call id self value options).options)
  | _ => .raise "TypeError: fn.call is not a function"

/-- Function `callSetter`. -/
def callSetterW (hw : HostW) (self fn value options : Val) : Res (Val × Val) :=
  callClientFunctionW hw self fn value options

/-- Function `callValidator`: `null`, or the error the validator answered with. -/
def callValidatorW (hw : HostW) (self fn value options : Val) : Res (Val × Val) :=
  (callClientFunctionW hw self fn value options).bind fun r =>
    if r.1.truthy then
      let err := if !isError r.1 then newError (hw.toHost self) r.1 else r.1
      .ret (err.put "code" (if (err.get "code").truthy then err.get "code" else .str "badValue"),
        r.2)
    else .ret (.null, r.2)

/-- Function `setDefault`. -/
def setDefaultW (hw : HostW) (self spec options : Val) : Res (Val × Val) :=
  if isFunction (spec.get "default") then
    callSetterW hw self (spec.get "default") .undefined options
  else .ret (clone (spec.get "default"), options)

/-- The statement `if (isError(result)) return fail(result, arguments) else value = result`,
the options being those that the call left. -/
def orFailW (rootSpec : Val) (r : Res (Val × Val)) (value spec : Val) :
    Res (Except Val Val × Val) :=
  r.bind fun x =>
    if isError x.1 then .ret (.error (failWith rootSpec x.1 ⟨value, spec, x.2⟩), x.2)
    else .ret (.ok x.1, x.2)

/-- A stage that calls no spec function leaves the options as they are. -/
def keep (options : Val) (r : Res (Except Val Val)) : Res (Except Val Val × Val) :=
  r.bind fun x => .ret (x, options)

/-- Sequencing of two stages: the second is handed the value and the options that the
first left; `Except.error e` stands for `return e`, which skips the stages that follow. -/
def andThenW (r : Res (Except Val Val × Val))
    (k : Val → Val → Res (Except Val Val × Val)) : Res (Except Val Val × Val) :=
  r.bind fun x =>
    match x.1 with
    | .ok a => k a x.2
    | .error e => .ret (.error e, x.2)

/-- Stage `Call init` of `_scrub`. -/
def initStageW (hw : HostW) (rootSpec self value spec options : Val) :
    Res (Except Val Val × Val) :=
  if isFunction (spec.get "init") then
    orFailW rootSpec (callSetterW hw self (spec.get "init") value options) value spec
  else .ret (.ok value, options)

/-- Stage `Set default` of `_scrub`. -/
def defaultStageW (hw : HostW) (rootSpec self value spec options : Val) :
    Res (Except Val Val × Val) :=
  if isUndefined value && isDefined (spec.get "default") &&
      !(options.get "IgnoreDefaults").truthy then
    orFailW rootSpec (setDefaultW hw self spec options) value spec
  else .ret (.ok value, options)

/-- Stage `If spec.value is a setter call it` of `_scrub`. -/
def setterStageW (hw : HostW) (rootSpec self value spec options : Val) :
    Res (Except Val Val × Val) :=
  if isFunction (spec.get "value") then
    orFailW rootSpec (callSetterW hw self (spec.get "value") value options) value spec
  else .ret (.ok value, options)

/-- Stage `Check final validator function` of `_scrub`. -/
def validateStageW (hw : HostW) (rootSpec self value spec options : Val) :
    Res (Except Val Val × Val) :=
  if isFunction (spec.get "validate") then
    (callValidatorW hw self (spec.get "validate") value options).bind fun r =>
      if r.1.truthy then .ret (.error (failWith rootSpec r.1 ⟨value, spec, r.2⟩), r.2)
      else .ret (.ok value, r.2)
  else .ret (.ok value, options)

/-- Stage `Call finish` of `_scrub`. -/
def finishStageW (hw : HostW) (rootSpec self value spec options : Val) :
    Res (Except Val Val × Val) :=
  if isFunction (spec.get "finish") then
    orFailW rootSpec (callSetterW hw self (spec.get "finish") value options) value spec
  else .ret (.ok value, options)

/-- The stages of `_scrub` before the dispatch on the type of the value, in order. -/
def scrubHeadW (hw : HostW) (rootSpec self value spec options : Val) :
    Res (Except Val Val × Val) :=
  andThenW (initStageW hw rootSpec self value spec options) fun v1 o1 =>
  andThenW (defaultStageW hw rootSpec self v1 spec o1) fun v2 o2 =>
  andThenW (keep o2 (requiredStage (hw.toHost self) rootSpec v2 spec o2)) fun v3 o3 =>
  andThenW (keep o3 (typeStage (hw.toHost self) rootSpec v3 spec o3)) fun v4 o4 =>
  setterStageW hw rootSpec self v4 spec o4

/-- The stages of `_scrub` after the dispatch: validate and finish. -/
def scrubTailW (hw : HostW) (rootSpec self value spec options : Val) :
    Res (Except Val Val × Val) :=
  andThenW (validateStageW hw rootSpec self value spec options) fun v o =>
  finishStageW hw rootSpec self v spec o

/-- Loop `Set defaults for undefined keys` of `checkObject`.  The function `root` gives the
state of the root value from the state of the object that the loop fills. -/
def fillDefaultsW (hw : HostW) (rootSpec : Val) (root : Val → Val) (spec specFields : Val) :
    List String → Val → Val → Res (Except Out Val × Val)
  | [], value, options => .ret (.ok value, options)
  | key :: keys, value, options =>
    if isUndefined (value.get key) then
      ((specFields.get key).getProp "default").bind fun d =>
        if isDefined d && !(options.get "ignoreDefaults").truthy then
          (setDefaultW hw (root value) (specFields.get key) options).bind fun r =>
            if isError r.1 then
              .ret (.error ⟨failWith rootSpec r.1 ⟨value, spec, r.2⟩, value⟩, r.2)
            else fillDefaultsW hw rootSpec root spec specFields keys (value.put key r.1) r.2
        else fillDefaultsW hw rootSpec root spec specFields keys value options
    else fillDefaultsW hw rootSpec root spec specFields keys value options

/-- Loop `Recursively check the value's properties` of `checkObject`; `child` is the
recursive call of `_scrub`, which is told how the state of the root value follows from the
state of the property it works on. -/
def scrubPropsW (child : (Val → Val) → Val → Val → Val → Res Out) (rootSpec : Val)
    (root : Val → Val) (spec specFields : Val) : List String → Val → Val → Res Checked
  | [], value, options => .ret ⟨value, value, options⟩
  | key :: keys, value, options =>
    if isObject (specFields.get key) then
      (child (fun p => root (value.put key p)) (value.get key) (specFields.get key)
          (options.put "key" (.str key))).bind fun out =>
        if isError out.result then
          .ret ⟨failWith rootSpec out.result
              ⟨value.put key out.post, spec, options.put "key" (.str key)⟩,
            value.put key out.post, options.put "key" (.str key)⟩
        else
          scrubPropsW child rootSpec root spec specFields keys (value.put key out.result)
            (options.put "key" (.str key))
    else scrubPropsW child rootSpec root spec specFields keys value options

/-- Function `checkObject`. -/
def checkObjectW (hw : HostW) (child : (Val → Val) → Val → Val → Val → Res Out)
    (rootSpec : Val) (root : Val → Val) (value spec options : Val) : Res Checked :=
  match (if (options.get "strict").truthy
      then unknownKey (specFields spec) value.keys else none) with
  | some key =>
    .ret ⟨fail (hw.toHost (root value)) rootSpec "badParam" (.str key) ⟨value, spec, options⟩,
      value, options⟩
  | none =>
    (fillDefaultsW hw rootSpec root spec (specFields spec)
        (specFields spec).keys value options).bind fun filled =>
      match filled.1 with
      | .error out => .ret ⟨out.result, out.post, filled.2⟩
      | .ok value =>
        (if !(filled.2.get "ignoreRequired").truthy
          then missingRequired (specFields spec) value (specFields spec).keys
          else .ret none).bind fun missing =>
          match missing with
          | some key =>
            .ret ⟨fail (hw.toHost (root value)) rootSpec "missingParam" (.str key)
                ⟨value, spec, filled.2⟩, value, filled.2⟩
          | none =>
            scrubPropsW child rootSpec root spec (specFields spec) value.keys value filled.2

/-- The loop of `checkArray`, over the indices of the value. -/
def scrubItemsW (child : (Val → Val) → Val → Val → Val → Res Out) (rootSpec : Val)
    (root : Val → Val) (spec : Val) : List Nat → Val → Val → Res Checked
  | [], value, options => .ret ⟨value, value, options⟩
  | i :: rest, value, options =>
    (child (fun p => root (value.setAt i p)) (value.item i) (spec.get "value")
        (options.put "key" (.num (Num.ofNat i)))).bind fun out =>
      if isError out.result then
        .ret ⟨failWith rootSpec out.result
            ⟨value.setAt i out.post, spec, options.put "key" (.num (Num.ofNat i))⟩,
          value.setAt i out.post, options.put "key" (.num (Num.ofNat i))⟩
      else
        scrubItemsW child rootSpec root spec rest (value.setAt i out.result)
          (options.put "key" (.num (Num.ofNat i)))

/-- Function `checkArray`. -/
def checkArrayW (child : (Val → Val) → Val → Val → Val → Res Out)
    (rootSpec : Val) (root : Val → Val) (value spec options : Val) : Res Checked :=
  if isObject (spec.get "value") then
    scrubItemsW child rootSpec root spec (List.range value.length) value options
  else .ret ⟨value, value, options⟩

/-- Stage `Check value based on type` of `_scrub`: the switch on the tipe of the value. -/
def dispatchW (hw : HostW) (child : (Val → Val) → Val → Val → Val → Res Out)
    (rootSpec : Val) (root : Val → Val) (value spec options : Val) : Res Checked :=
  if tipe value = "object" then checkObjectW hw child rootSpec root value spec options
  else if tipe value = "array" then checkArrayW child rootSpec root value spec options
  else .ret ⟨checkScalar (hw.toHost (root value)) rootSpec value spec options, value, options⟩

/-- Function `_scrub`, the main worker.  The first argument bounds the depth of the
recursion; `root` gives the state of the root value from the state of the value that the
node was called on, which changes when the node works on that very object. -/
def _scrubW (hw : HostW) (rootSpec : Val) :
    Nat → (Val → Val) → Val → Val → Val → Res Out
  | 0, _, _, _, _ => .diverge
  | fuel + 1, root, value, spec, options =>
    if !isObject spec then .ret ⟨value, value⟩
    else
      (scrubHeadW hw rootSpec (root value) value spec (override options spec false)).bind
        fun head =>
        match head.1 with
        | .error err => .ret ⟨err, value⟩
        | .ok v =>
          (dispatchW hw (_scrubW hw rootSpec fuel) rootSpec
              (fun p => root (if inPlace value spec then p else value)) v spec head.2).bind
            fun c =>
            if isError c.result then
              .ret ⟨c.result, if inPlace value spec then c.post else value⟩
            else
              (scrubTailW hw rootSpec (root (if inPlace value spec then c.post else value))
                  c.result spec c.options).bind fun tail =>
                match tail.1 with
                | .error err => .ret ⟨err, if inPlace value spec then c.post else value⟩
                | .ok result => .ret ⟨result, if inPlace value spec then c.post else value⟩

/-- Function `scrub`: what it returns, and the state in which it leaves `rootValue`. -/
def scrubW (hw : HostW) (rootValue rootSpec rootOptions : Val) : Res Out :=
  (_scrubW hw rootSpec (rootSpec.depth + 1) (fun p => p) rootValue rootSpec
      (override _options rootOptions true)).bind fun out =>
    if isError out.result then .ret out
    else if ((override _options rootOptions true).get "returnValue").truthy then .ret out
    else .ret ⟨.null, out.post⟩

/-- The text that a logging function finds in the option `trace`: the empty text when the
option holds no text. -/
def traceOf (options : Val) : String :=
  match options.get "trace" with
  | .str s => s
  | _ => ""

/-- The statement `options.trace = trace + name` of a logging function, `trace` being the
text that the option held. -/
def logged (options : Val) (name : String) : Val :=
  options.put "trace" (.str (traceOf options ++ name))

/-- A host with spec functions that use `this` and the options.  Function 0 is the init
hook of the test `initAndFinishWork`: handed an object it sets the option `initRan` and
answers with an array that holds the object; function 1 is the finish hook of that test:
when the option `initRan` is set it pushes an object whose `s1` is `bar` onto its argument;
function 2 answers with the error `I always error`; function 3 is the validator of the test
`validatorsCanAccessThisObjectAndUserDefinedOptions`: it answers with a message unless its
argument is strictly equal to `this.n1` and to the option `n3`.  Functions 4 to 8 log their
name to the option `trace`: 4 (init) and 6 (value) answer with their argument, 5 (default)
with the text `a`, 7 (validate) with `undefined`, and 8 (finish) with the trace. -/
def demoHostW : HostW where
  call := fun id self v o =>
    match id with
    | 0 =>
      if tipe v = "object" then ⟨.ret (.arr [v]), o.put "initRan" (.bool true)⟩
      else ⟨.ret v, o⟩
    | 1 =>
      if (o.get "initRan").truthy then
        match v with
        | .arr es => ⟨.ret (.arr (es ++ [.obj [("s1", .str "bar")]])), o⟩
        | _ => ⟨.throw (.error [("message", .str "v.push is not a function")]), o⟩
      else ⟨.ret v, o⟩
    | 2 => ⟨.ret (.error [("message", .str "I always error")]), o⟩
    | 3 =>
      if !strictEq v (self.get "n1") then ⟨.ret (.str "n2 must equal n1"), o⟩
      else if !strictEq v (o.get "n3") then ⟨.ret (.str "n2 must equal options.n3"), o⟩
      else ⟨.ret .undefined, o⟩
    | 4 => ⟨.ret v, logged o "init "⟩
    | 5 => ⟨.ret (.str "a"), logged o "default "⟩
    | 6 => ⟨.ret v, logged o "value "⟩
    | 7 => ⟨.ret .undefined, logged o "validate "⟩
    | 8 => ⟨.ret (.str (traceOf (logged o "finish "))), logged o "finish "⟩
    | _ => ⟨.ret .undefined, o⟩
  source := fun _ => "function () \x7b\x7d"
  parseFloat := parseFloatDec
  parseInt := parseIntDec

/-! ## Basic facts -/

theorem Props.find_set_self (k : String) (v : Val) (ps : Props) :
    Props.find k (Props.set k v ps) = some v := by
  induction ps with
  | nil => simp [Props.set, Props.find]
  | cons p rest ih =>
    obtain ⟨k', v'⟩ := p
    by_cases hk : k' = k <;> simp [Props.set, Props.find, hk, ih]

theorem Props.find_set_ne {k k' : String} (hne : k' ≠ k) (v : Val) (ps : Props) :
    Props.find k' (Props.set k v ps) = Props.find k' ps := by
  induction ps with
  | nil => simp [Props.set, Props.find, Ne.symm hne]
  | cons p rest ih =>
    obtain ⟨k2, v2⟩ := p
    by_cases hk : k2 = k
    · subst hk
      simp [Props.set, Props.find, Ne.symm hne]
    · by_cases hk2 : k2 = k'
      · subst hk2
        simp [Props.set, Props.find, hk]
      · simp [Props.set, Props.find, hk, hk2, ih]

theorem isError_put (e : Val) (k : String) (x : Val) : isError (e.put k x) = isError e := by
  cases e <;> rfl

theorem get_put_self_error (ps : Props) (k : String) (x : Val) :
    (Val.put (.error ps) k x).get k = x := by
  simp [Val.put, Val.get, Props.find_set_self]

theorem get_put_ne_error (ps : Props) {k k' : String} (hne : k' ≠ k) (x : Val) :
    (Val.put (.error ps) k x).get k' = (Val.error ps).get k' := by
  simp [Val.put, Val.get, Props.find_set_ne hne]

theorem get_put_self_obj (ps : Props) (k : String) (x : Val) :
    (Val.put (.obj ps) k x).get k = x := by
  simp [Val.put, Val.get, Props.find_set_self]

theorem get_put_ne_obj (ps : Props) {k k' : String} (hne : k' ≠ k) (x : Val) :
    (Val.put (.obj ps) k x).get k' = (Val.obj ps).get k' := by
  simp [Val.put, Val.get, Props.find_set_ne hne]

theorem get_put_ne (v : Val) {k k' : String} (hne : k' ≠ k) (x : Val) :
    (v.put k x).get k' = v.get k' := by
  cases v <;> first | rfl | exact get_put_ne_obj _ hne x | exact get_put_ne_error _ hne x

theorem isError_failWith (rootSpec e : Val) (args : Args) :
    isError (failWith rootSpec e args) = isError e := by
  simp [failWith, isError_put]

theorem failWith_code (rootSpec e : Val) (args : Args) :
    (failWith rootSpec e args).get "code" = e.get "code" := by
  unfold failWith
  exact get_put_ne e (by decide) _

theorem failWith_message (rootSpec e : Val) (args : Args) :
    (failWith rootSpec e args).get "message" = e.get "message" := by
  unfold failWith
  exact get_put_ne e (by decide) _

theorem toStr_str (h : Host) (s : String) : toStr h (.str s) = s := by
  simp [toStr]

theorem newError_str (h : Host) (s : String) :
    newError h (.str s) = .error [("message", .str s)] := by
  simp [newError, toStr_str]

theorem isError_fail (h : Host) (rootSpec : Val) (code : String) (msg : Val) (args : Args) :
    isError (fail h rootSpec code msg args) = true := by
  rw [fail, isError_failWith, isError_put, newError_str]
  rfl

theorem fail_code (h : Host) (rootSpec : Val) (code : String) (msg : Val) (args : Args) :
    (fail h rootSpec code msg args).get "code" = .str code := by
  rw [fail, failWith_code, newError_str, get_put_self_error]

theorem fail_message (h : Host) (rootSpec : Val) (code : String) (msg : Val) (args : Args) :
    (fail h rootSpec code msg args).get "message"
      = .str (codeMap code ++ ": " ++ toStr h msg) := by
  rw [fail, failWith_message, newError_str, get_put_ne_error _ (by decide)]
  simp [Val.get, Props.find]

theorem scrubProps_skip (child : Val → Val → Val → Res Out) (rootSpec spec specFields : Val)
    (keys : List String) (value options : Val)
    (hk : ∀ k ∈ keys, isObject (specFields.get k) = false) :
    scrubProps child rootSpec spec specFields keys value options = .ret ⟨value, value, options⟩ := by
  induction keys with
  | nil => rfl
  | cons k rest ih =>
    have h1 := hk k (List.mem_cons_self _ _)
    simp only [scrubProps, h1]
    exact ih (fun k' hk' => hk k' (List.mem_cons_of_mem _ hk'))

theorem override_root_undefined : override _options .undefined true = _options := rfl

theorem coerceType_not_string (h : Host) (v spec options : Val) (hv : isString v = false) :
    coerceType h v spec options = v := by
  unfold coerceType
  simp [hv]

theorem coerceNumber_cases (h : Host) (s : String) :
    (∃ n, coerceNumber h (.str s) = .num n) ∨ coerceNumber h (.str s) = .str s := by
  unfold coerceNumber
  simp only [toStr_str]
  by_cases h1 : Num.gt (h.parseFloat s).abs (h.parseInt s).abs = true
  · simp [h1, strictEq]
  · by_cases h2 : (h.parseInt s).truthy = true
    · simp [h1, h2, strictEq]
    · by_cases h3 : s = "0"
      · subst h3
        simp [h1, h2, strictEq]
      · simp [h1, h2, strictEq, h3]

theorem isTruthy_str (h : Host) (s : String) : ∃ b, isTruthy h (.str s) = .bool b := by
  simp only [isTruthy]
  by_cases h1 : toLowerCase s = "true" ∨ toLowerCase s = "yes"
  · simp [h1]
  · by_cases h2 : Num.gt (h.parseInt (toLowerCase s)) (Num.ofNat 0) = true <;> simp [h1, h2]

theorem coerceType_str_cases (h : Host) (s : String) (spec options : Val) :
    (∃ n, coerceType h (.str s) spec options = .num n) ∨
    (∃ b, coerceType h (.str s) spec options = .bool b) ∨
    coerceType h (.str s) spec options = .str s := by
  unfold coerceType
  split
  · simp
  · split
    · simp
    · split
      · rcases coerceNumber_cases h s with ⟨n, hn⟩ | hs
        · exact Or.inl ⟨n, hn⟩
        · exact Or.inr (Or.inr hs)
      · split
        · exact Or.inr (Or.inl (isTruthy_str h s))
        · simp



theorem override_typeOnly (t : String) :
    override _options (.obj [("type", .str t)]) false = _options := by
  rfl

theorem checkObject_typeOnly (h : Host) (child : Val → Val → Val → Res Out) (rootSpec : Val)
    (ps : Props) (t : String) :
    checkObject h child rootSpec (.obj ps) (.obj [("type", .str t)]) _options
      = .ret ⟨.obj ps, .obj ps, _options⟩ := by
  unfold checkObject
  have hsv : specFields (Val.obj [("type", Val.str t)]) = Val.obj [("type", Val.str t)] := by
    simp [specFields, Val.get, Props.find, isObject]
  simp only [hsv]
  have hstrict : (_options.get "strict").truthy = false := rfl
  have hreq : (_options.get "ignoreRequired").truthy = false := rfl
  simp only [hstrict, hreq]
  simp [Val.keys, fillDefaults, missingRequired, Val.getProp, Res.bind, Val.get, Props.find, isDefined, isUndefined, Val.truthy]
  apply scrubProps_skip
  intro k _
  simp only [Val.get, Props.find]
  split <;> rfl



@[simp] theorem Res.bind_ret {α β : Type} (a : α) (k : α → Res β) : (Res.ret a).bind k = k a := rfl
@[simp] theorem Res.bind_raise {α β : Type} (m : String) (k : α → Res β) :
    (Res.raise m : Res α).bind k = .raise m := rfl
@[simp] theorem Res.bind_diverge {α β : Type} (k : α → Res β) :
    (Res.diverge : Res α).bind k = .diverge := rfl
@[simp] theorem Res.andThen_ok {α β : Type} (a : α) (k : α → Res (Except Val β)) :
    Res.andThen (.ret (.ok a)) k = k a := rfl
@[simp] theorem Res.andThen_error {α β : Type} (e : Val) (k : α → Res (Except Val β)) :
    Res.andThen (.ret (.error e)) k = .ret (.error e) := rfl
@[simp] theorem Res.andThen_raise {α β : Type} (m : String) (k : α → Res (Except Val β)) :
    Res.andThen (.raise m) k = .raise m := rfl
@[simp] theorem Res.andThen_diverge {α β : Type} (k : α → Res (Except Val β)) :
    Res.andThen .diverge k = .diverge := rfl

theorem scrubHead_typeOnly (h : Host) (rootSpec v : Val) (t : String) :
    scrubHead h rootSpec v (.obj [("type", .str t)]) _options =
      if isUndefined v then .ret (.ok v)
      else if matchEnum (.str (tipe (coerceType h v (.obj [("type", .str t)]) _options))) (.str t)
      then .ret (.ok (coerceType h v (.obj [("type", .str t)]) _options))
      else .ret (.error (fail h rootSpec "badType"
          (.str (tipe (coerceType h v (.obj [("type", .str t)]) _options)))
          ⟨coerceType h v (.obj [("type", .str t)]) _options, .obj [("type", .str t)], _options⟩)) := by
  simp only [scrubHead, initStage, defaultStage, requiredStage, typeStage, setterStage]
  have e1 : (Val.obj [("type", Val.str t)]).get "init" = .undefined := rfl
  have e2 : (Val.obj [("type", Val.str t)]).get "default" = .undefined := rfl
  have e3 : (Val.obj [("type", Val.str t)]).get "required" = .undefined := rfl
  have e4 : (Val.obj [("type", Val.str t)]).get "type" = .str t := rfl
  have e5 : (Val.obj [("type", Val.str t)]).get "value" = .undefined := rfl
  simp only [e1, e2, e3, e4, e5]
  have f1 : isFunction Val.undefined = false := rfl
  have f2 : isDefined Val.undefined = false := rfl
  have f3 : Val.truthy Val.undefined = false := rfl
  have f4 : isDefined (Val.str t) = true := rfl
  have f5 : isObject (Val.str t) = false := rfl
  have f6 : isString (Val.str t) = true := rfl
  simp only [f1, f2, f3, f4, f5, f6, Bool.false_eq_true, if_false, Bool.and_false, Bool.false_and,
    Res.andThen_ok, Bool.not_true, Bool.not_false, Bool.and_true]
  by_cases hu : isUndefined v = true
  · simp [hu, isDefined]
  · by_cases hm : matchEnum (.str (tipe (coerceType h v (.obj [("type", .str t)]) _options))) (.str t) = true
    · simp [hu, hm, isDefined]
    · simp [hu, hm, isDefined]



theorem dispatch_typeOnly (h : Host) (child : Val → Val → Val → Res Out) (rootSpec c : Val)
    (t : String) :
    dispatch h child rootSpec c (.obj [("type", .str t)]) _options
      = .ret ⟨c, c, _options⟩ := by
  unfold dispatch
  have e5 : (Val.obj [("type", Val.str t)]).get "value" = .undefined := rfl
  cases c <;> simp [tipe, checkObject_typeOnly, checkArray, checkScalar, e5, isObject, isNull, isUndefined]

theorem scrubTail_typeOnly (h : Host) (rootSpec c : Val) (t : String) (o : Val) :
    scrubTail h rootSpec c (.obj [("type", .str t)]) o = .ret (.ok c) := by
  have e1 : (Val.obj [("type", Val.str t)]).get "validate" = .undefined := rfl
  have e2 : (Val.obj [("type", Val.str t)]).get "finish" = .undefined := rfl
  simp [scrubTail, validateStage, finishStage, e1, e2, isFunction]

theorem inPlace_coerce (h : Host) (v : Val) (t : String) :
    (if inPlace v (.obj [("type", .str t)]) then
      coerceType h v (.obj [("type", .str t)]) _options else v) = v := by
  by_cases hs : isString v = true
  · cases v <;> simp_all [isString, inPlace, isObject, isArray]
  · rw [coerceType_not_string h v _ _ (by simpa using hs)]
    simp

theorem _scrub_typeOnly (h : Host) (rootSpec v : Val) (t : String) (n : Nat) :
    _scrub h rootSpec (n + 1) v (.obj [("type", .str t)]) _options =
      if isUndefined v then .ret ⟨v, v⟩
      else if matchEnum (.str (tipe (coerceType h v (.obj [("type", .str t)]) _options))) (.str t)
      then .ret ⟨coerceType h v (.obj [("type", .str t)]) _options, v⟩
      else .ret ⟨fail h rootSpec "badType"
          (.str (tipe (coerceType h v (.obj [("type", .str t)]) _options)))
          ⟨coerceType h v (.obj [("type", .str t)]) _options, .obj [("type", .str t)], _options⟩, v⟩ := by
  rw [_scrub]
  have ho : isObject (Val.obj [("type", Val.str t)]) = true := rfl
  simp only [ho, override_typeOnly, scrubHead_typeOnly, Bool.not_true, Bool.false_eq_true, if_false]
  by_cases hu : isUndefined v = true
  · have hv : v = .undefined := by cases v <;> simp_all [isUndefined]
    subst hv
    simp [dispatch_typeOnly, isUndefined, scrubTail_typeOnly, isError, inPlace, isObject, isArray]
  · by_cases hm : matchEnum (.str (tipe (coerceType h v (.obj [("type", .str t)]) _options))) (.str t) = true
    · simp [hu, hm, dispatch_typeOnly, scrubTail_typeOnly, inPlace_coerce]
    · simp [hu, hm]




theorem matchEnum_str_iff (a e : String) : matchEnum (.str a) (.str e) = true ↔ a ∈ members e := by
  simp [matchEnum, strictEq]

theorem isError_coerceType (h : Host) (v spec options : Val) :
    isError (coerceType h v spec options) = isError v := by
  cases v with
  | str s =>
    rcases coerceType_str_cases h s spec options with ⟨n, hn⟩ | ⟨b, hb⟩ | hs
    · rw [hn]; rfl
    · rw [hb]; rfl
    · rw [hs]
  | _ => simp [coerceType, isString]

theorem scrub_typeOnly (h : Host) (v : Val) (t : String) :
    scrub h v (.obj [("type", .str t)]) .undefined =
      if isUndefined v then .ret ⟨.null, v⟩
      else if matchEnum (.str (tipe (coerceType h v (.obj [("type", .str t)]) _options))) (.str t)
      then (if isError v then .ret ⟨v, v⟩ else .ret ⟨.null, v⟩)
      else .ret ⟨fail h (.obj [("type", .str t)]) "badType"
          (.str (tipe (coerceType h v (.obj [("type", .str t)]) _options)))
          ⟨coerceType h v (.obj [("type", .str t)]) _options, .obj [("type", .str t)], _options⟩, v⟩ := by
  unfold scrub
  rw [override_root_undefined]
  have hd : (Val.obj [("type", Val.str t)]).depth + 1 = 1 + 1 := rfl
  rw [hd, _scrub_typeOnly]
  have hr : (_options.get "returnValue").truthy = false := rfl
  by_cases hu : isUndefined v = true
  · have hv : v = .undefined := by cases v <;> simp_all [isUndefined]
    subst hv
    simp [isUndefined, isError, hr]
  · by_cases hm : matchEnum (.str (tipe (coerceType h v (.obj [("type", .str t)]) _options))) (.str t) = true
    · by_cases he : isError v = true
      · have hs : isString v = false := by cases v <;> simp_all [isError, isString]
        rw [coerceType_not_string h v _ _ hs] at hm ⊢
        simp [hu, hm, he]
      · simp [hu, hm, he, isError_coerceType, hr]
    · simp [hu, hm, isError_fail]

theorem strictEq_str_iff (m : String) (v : Val) : strictEq (.str m) v = true ↔ v = .str m := by
  cases v <;> simp [strictEq, eq_comm]

theorem matchEnum_foobarbaz (v : Val) :
    matchEnum v (.str "foo|bar|baz") = true ↔
      (v = .str "foo" ∨ v = .str "bar" ∨ v = .str "baz") := by
  have hm : members "foo|bar|baz" = ["foo", "bar", "baz"] := by decide
  simp [matchEnum, hm, strictEq_str_iff]

theorem _scrub_enum (h : Host) (rootSpec v : Val) (n : Nat) :
    _scrub h rootSpec (n + 1) v (.obj [("value", .str "foo|bar|baz")]) _options =
      if isUndefined v || isNull v || isObject v || isArray v then .ret ⟨v, v⟩
      else if matchEnum v (.str "foo|bar|baz") then .ret ⟨v, v⟩
      else .ret ⟨fail h rootSpec "badValue"
          (.str (toStr h (_options.get "key") ++ ": " ++ toStr h (.str "foo|bar|baz")))
          ⟨v, .obj [("value", .str "foo|bar|baz")], _options⟩, v⟩ := by
  rw [_scrub]
  have ho : override _options (.obj [("value", .str "foo|bar|baz")]) false = _options := rfl
  have hh : scrubHead h rootSpec v (.obj [("value", .str "foo|bar|baz")]) _options = .ret (.ok v) := by
    simp [scrubHead, initStage, defaultStage, requiredStage, typeStage, setterStage, Val.get,
      Props.find, isFunction, isDefined, isUndefined, Val.truthy]
  have hos : isObject (Val.obj [("value", .str "foo|bar|baz")]) = true := rfl
  simp only [ho, hh, hos, Bool.not_true, Bool.false_eq_true, if_false, Res.bind_ret, dispatch]
  have ht : ∀ c o, scrubTail h rootSpec c (.obj [("value", .str "foo|bar|baz")]) o = .ret (.ok c) := by
    intro c o
    simp [scrubTail, validateStage, finishStage, Val.get, Props.find, isFunction]
  by_cases hobj : isObject v = true
  · obtain ⟨ps, rfl⟩ : ∃ ps, v = .obj ps := by cases v <;> simp_all [isObject]
    have hc : checkObject h (_scrub h rootSpec n) rootSpec (.obj ps)
        (.obj [("value", .str "foo|bar|baz")]) _options = .ret ⟨.obj ps, .obj ps, _options⟩ := by
      unfold checkObject
      have hsv : specFields (Val.obj [("value", .str "foo|bar|baz")])
          = Val.obj [("value", .str "foo|bar|baz")] := rfl
      have hstrict : (_options.get "strict").truthy = false := rfl
      have hreq : (_options.get "ignoreRequired").truthy = false := rfl
      simp only [hsv, hstrict, hreq]
      simp [Val.keys, fillDefaults, missingRequired, Val.getProp, Val.get, Props.find, isDefined,
        isUndefined, Val.truthy]
      apply scrubProps_skip
      intro k _
      simp only [Val.get, Props.find]
      split <;> rfl
    simp [tipe, hc, ht, isError, inPlace, isObject, isArray, isFunction, Val.get, Props.find, isUndefined, isNull]
  · by_cases harr : isArray v = true
    · obtain ⟨es, rfl⟩ : ∃ es, v = .arr es := by cases v <;> simp_all [isArray]
      simp [tipe, checkArray, ht, isError, inPlace, isObject, isArray, isFunction, Val.get, Props.find, isUndefined, isNull]
    · have hto : tipe v ≠ "object" := by cases v <;> simp_all [tipe, isObject]
      have hta : tipe v ≠ "array" := by cases v <;> simp_all [tipe, isArray]
      have hip : inPlace v (.obj [("value", .str "foo|bar|baz")]) = false := by
        simp [inPlace, hobj, harr]
      by_cases hun : (isUndefined v || isNull v) = true
      · have hcs : checkScalar h rootSpec v (.obj [("value", .str "foo|bar|baz")]) _options = v := by
          unfold checkScalar
          simp only [Bool.or_eq_true] at hun
          rcases hun with hun | hun <;> simp [hun]
        have he : isError v = false := by cases v <;> simp_all [isError, isUndefined, isNull]
        simp only [Bool.or_eq_true] at hun
        rcases hun with hun | hun <;> simp [hto, hta, hcs, ht, he, hip, hun]
      · simp only [Bool.or_eq_true, not_or, Bool.not_eq_true] at hun
        have hcs : checkScalar h rootSpec v (.obj [("value", .str "foo|bar|baz")]) _options =
            if matchEnum v (.str "foo|bar|baz") then v
            else fail h rootSpec "badValue"
              (.str (toStr h (_options.get "key") ++ ": " ++ toStr h (.str "foo|bar|baz")))
              ⟨v, .obj [("value", .str "foo|bar|baz")], _options⟩ := by
          unfold checkScalar
          simp [hun.1, hun.2, isObject, Val.get, Props.find, tipe]
        by_cases hm : matchEnum v (.str "foo|bar|baz") = true
        · have he : isError v = false := by
            rcases (matchEnum_foobarbaz v).1 hm with hv | hv | hv <;> subst hv <;> rfl
          simp [hto, hta, hcs, ht, he, hip, hun.1, hun.2, hm, hobj, harr]
        · simp [hto, hta, hcs, ht, isError_fail, hip, hun.1, hun.2, hm, hobj, harr]

theorem scrub_enum (h : Host) (v : Val) :
    scrub h v (.obj [("value", .str "foo|bar|baz")]) .undefined =
      if isUndefined v || isNull v || isObject v || isArray v then .ret ⟨.null, v⟩
      else if matchEnum v (.str "foo|bar|baz") then .ret ⟨.null, v⟩
      else .ret ⟨fail h (.obj [("value", .str "foo|bar|baz")]) "badValue"
          (.str (toStr h (_options.get "key") ++ ": " ++ toStr h (.str "foo|bar|baz")))
          ⟨v, .obj [("value", .str "foo|bar|baz")], _options⟩, v⟩ := by
  unfold scrub
  rw [override_root_undefined]
  have hd : (Val.obj [("value", .str "foo|bar|baz")]).depth + 1 = 1 + 1 := rfl
  rw [hd, _scrub_enum]
  have hr : (_options.get "returnValue").truthy = false := rfl
  by_cases hun : (isUndefined v || isNull v || isObject v || isArray v) = true
  · have he : isError v = false := by
      cases v <;> simp_all [isError, isUndefined, isNull, isObject, isArray]
    simp [hun, he, hr]
  · by_cases hm : matchEnum v (.str "foo|bar|baz") = true
    · have he : isError v = false := by
        rcases (matchEnum_foobarbaz v).1 hm with hv | hv | hv <;> subst hv <;> rfl
      simp [hun, hm, he, hr]
    · simp [hun, hm, isError_fail]

theorem coerceNumber_eq_ref (h : Host) (s : String) :
    coerceNumber h (.str s) = coerceNumberRef h s := by
  unfold coerceNumber coerceNumberRef
  simp only [toStr_str]
  by_cases h1 : Num.gt (h.parseFloat s).abs (h.parseInt s).abs = true
  · simp [h1, strictEq]
  · by_cases h2 : (h.parseInt s).truthy = true
    · simp [h1, h2, strictEq]
    · by_cases h3 : s = "0"
      · subst h3
        simp [h1, h2, strictEq]
      · simp [h1, h2, strictEq, h3]

theorem foldl_fixed {α β : Type} (f : β → α → β) (l : List α) (b : β)
    (hf : ∀ x ∈ l, f b x = b) : l.foldl f b = b := by
  induction l with
  | nil => rfl
  | cons x rest ih =>
    simp only [List.foldl_cons]
    rw [hf x (List.mem_cons_self _ _)]
    exact ih (fun y hy => hf y (List.mem_cons_of_mem _ hy))

theorem find_mem {k : String} {ps : Props} {v : Val} (hf : Props.find k ps = some v) :
    (k, v) ∈ ps := by
  induction ps with
  | nil => simp [Props.find] at hf
  | cons p rest ih =>
    obtain ⟨k', v'⟩ := p
    by_cases hk : k' = k
    · subst hk
      simp [Props.find] at hf
      subst hf
      exact List.mem_cons_self _ _
    · simp [Props.find, hk] at hf
      exact List.mem_cons_of_mem _ (ih hf)

theorem get_fieldMap {fm : Props} (hfm : isFieldMap fm = true) (k : String) :
    isObject ((Val.obj fm).get k) = true ∨ (Val.obj fm).get k = .undefined := by
  simp only [Val.get]
  cases hf : Props.find k fm with
  | none => right; rfl
  | some v =>
    left
    have hm := find_mem hf
    simp only [isFieldMap, List.all_eq_true] at hfm
    exact hfm _ hm

theorem tipe_object_iff (v : Val) : tipe v = "object" ↔ isObject v = true := by
  cases v <;> simp [tipe, isObject]

theorem tipe_undefined_iff (v : Val) : tipe v = "undefined" ↔ v = .undefined := by
  cases v <;> simp [tipe]

theorem isObject_obj (ps : Props) : isObject (.obj ps) = true := rfl

theorem find_of_mem_keys {k : String} {ps : Props} (hk : k ∈ ps.map Prod.fst) :
    ∃ v, Props.find k ps = some v := by
  induction ps with
  | nil => simp at hk
  | cons p rest ih =>
    obtain ⟨k', v'⟩ := p
    by_cases hk2 : k' = k
    · exact ⟨v', by simp [Props.find, hk2]⟩
    · simp only [List.map_cons, List.mem_cons] at hk
      rcases hk with hk | hk
      · exact absurd hk.symm hk2
      · obtain ⟨v, hv⟩ := ih hk
        exact ⟨v, by simp [Props.find, hk2, hv]⟩

theorem isObject_get_fieldMap {fm : Props} (hfm : isFieldMap fm = true) {k : String}
    (hk : k ∈ (Val.obj fm).keys) : isObject ((Val.obj fm).get k) = true := by
  obtain ⟨v, hv⟩ : ∃ v, Props.find k fm = some v := find_of_mem_keys hk
  have hm := find_mem hv
  simp only [isFieldMap, List.all_eq_true] at hfm
  simp only [Val.get, hv, Option.getD_some]
  exact hfm _ hm

theorem override_fieldMap {fm : Props} (hfm : isFieldMap fm = true) {o : Val}
    (ho : isObject o = true) (hflat : ∀ k, isObject (o.get k) = false) :
    override o (.obj fm) false = o := by
  unfold override
  simp only [ho, isObject_obj, Bool.and_self, Bool.not_true, Bool.false_eq_true, if_false,
    Bool.false_and]
  apply foldl_fixed
  intro key hkey
  have hk := isObject_get_fieldMap hfm hkey
  have hne : tipe (o.get key) ≠ tipe ((Val.obj fm).get key) := by
    rw [(tipe_object_iff _).2 hk]
    intro h1
    have := (tipe_object_iff _).1 h1
    rw [hflat key] at this
    exact absurd this (by decide)
  simp [hne]

theorem not_function_fieldMap {fm : Props} (hfm : isFieldMap fm = true) (k : String) :
    isFunction ((Val.obj fm).get k) = false := by
  rcases get_fieldMap hfm k with h1 | h1
  · cases hg : (Val.obj fm).get k <;> simp_all [isObject, isFunction]
  · rw [h1]; rfl

theorem specFields_fieldMap {fm : Props} (hfm : isFieldMap fm = true) :
    specFields (.obj fm) = .obj fm := by
  unfold specFields
  rcases get_fieldMap hfm "type" with h1 | h1
  · cases hg : (Val.obj fm).get "type" <;> simp_all [isObject, matchEnum]
  · rw [h1]; rfl

theorem scrubHead_fieldMap (h : Host) (rootSpec : Val) {fm : Props}
    (hfm : isFieldMap fm = true) (ps : Props) (o : Val) :
    scrubHead h rootSpec (.obj ps) (.obj fm) o = .ret (.ok (.obj ps)) := by
  have hty : isObject ((Val.obj fm).get "type") = true ∨ isDefined ((Val.obj fm).get "type") = false := by
    rcases get_fieldMap hfm "type" with h1 | h1
    · exact Or.inl h1
    · right; rw [h1]; rfl
  simp only [scrubHead, initStage, defaultStage, requiredStage, typeStage, setterStage,
    not_function_fieldMap hfm]
  rcases hty with hty | hty <;>
    simp [isUndefined, isNull, hty]

theorem scrubTail_fieldMap (h : Host) (rootSpec : Val) {fm : Props}
    (hfm : isFieldMap fm = true) (c o : Val) :
    scrubTail h rootSpec c (.obj fm) o = .ret (.ok c) := by
  simp [scrubTail, validateStage, finishStage, not_function_fieldMap hfm]

theorem inPlace_fieldMap {fm : Props} (hfm : isFieldMap fm = true) (ps : Props) :
    inPlace (.obj ps) (.obj fm) = true := by
  simp [inPlace, not_function_fieldMap hfm, isObject]

theorem _scrub_fieldMap (h : Host) (rootSpec : Val) {fm : Props}
    (hfm : isFieldMap fm = true) (ps : Props) {o : Val}
    (ho : isObject o = true) (hflat : ∀ k, isObject (o.get k) = false) (n : Nat) :
    _scrub h rootSpec (n + 1) (.obj ps) (.obj fm) o =
      (checkObject h (_scrub h rootSpec n) rootSpec (.obj ps) (.obj fm) o).bind fun c =>
        .ret ⟨c.result, c.post⟩ := by
  rw [_scrub]
  simp only [isObject_obj, Bool.not_true, Bool.false_eq_true, if_false,
    override_fieldMap hfm ho hflat, scrubHead_fieldMap h rootSpec hfm, Res.bind_ret, dispatch,
    tipe, if_true,
    inPlace_fieldMap hfm, scrubTail_fieldMap h rootSpec hfm]
  congr 1
  funext c
  split <;> rfl

theorem unknownKey_first (sf : Val) (pre rest : List String) (key : String)
    (hpre : ∀ k ∈ pre, isUndefined (sf.get k) = false ∨ (inherits k = true ∧ k ∉ sf.keys))
    (hkey : isUndefined (sf.get key) = true)
    (hown : inherits key = false ∨ key ∈ sf.keys) :
    unknownKey sf (pre ++ key :: rest) = some key := by
  induction pre with
  | nil =>
    rcases hown with hown | hown
    · simp [unknownKey, hkey, hown]
    · simp [unknownKey, hkey, hown]
  | cons k ks ih =>
    have h1 : (isUndefined (sf.get k) && (decide (k ∈ sf.keys) || !inherits k)) = false := by
      rcases hpre k (List.mem_cons_self _ _) with h1 | ⟨h1, h2⟩
      · simp [h1]
      · simp [h1, h2]
    simp only [List.cons_append, unknownKey, h1, Bool.false_eq_true, if_false]
    exact ih (fun k' hk' => hpre k' (List.mem_cons_of_mem _ hk'))

theorem strictOptions_flat : ∀ k, isObject (strictOptions.get k) = false := by
  intro k
  simp only [strictOptions, Val.get, Props.find]
  repeat (first | rfl | split)

theorem foldl_invariant {α β : Type} (P : β → Prop) (f : β → α → β) (l : List α) (b : β)
    (hb : P b) (hf : ∀ a x, P a → P (f a x)) : P (l.foldl f b) := by
  induction l generalizing b with
  | nil => exact hb
  | cons x rest ih => exact ih _ (hf b x hb)

theorem isObject_put (v : Val) (k : String) (x : Val) : isObject (v.put k x) = isObject v := by
  cases v <;> rfl

theorem get_put_self (v : Val) (hv : isObject v = true) (k : String) (x : Val) :
    (v.put k x).get k = x := by
  cases v <;> simp_all [isObject]
  exact get_put_self_obj _ _ _

theorem override_get_absent (o spec : Val) (k : String) (ho : isObject o = true)
    (hk : o.get k = .undefined) : (override o spec false).get k = .undefined := by
  unfold override
  split
  · exact hk
  · refine (foldl_invariant (fun acc => isObject acc = true ∧ acc.get k = .undefined)
      _ _ _ ⟨ho, hk⟩ ?_).2
    intro acc key ⟨h1, h2⟩
    simp only [Bool.false_and, Bool.false_eq_true, if_false]
    split
    · rename_i ht
      refine ⟨by rw [isObject_put]; exact h1, ?_⟩
      by_cases hkk : k = key
      · subst hkk
        rw [get_put_self _ h1]
        rw [hk] at ht
        exact (tipe_undefined_iff _).1 ht.symm
      · rw [get_put_ne _ hkk]
        exact h2
    · exact ⟨h1, h2⟩

theorem required_at_root (h : Host) (value : Val) (sp : Props)
    (hreq : ((Val.obj sp).get "required").truthy = true)
    (hinit : isFunction ((Val.obj sp).get "init") = false)
    (hval : value = .null ∨ (value = .undefined ∧ (Val.obj sp).get "default" = .undefined)) :
    ∃ e, scrub h value (.obj sp) .undefined = .ret ⟨e, value⟩ ∧
      isError e = true ∧ e.get "code" = .str "missingParam" := by
  have hir : ((override _options (.obj sp) false).get "ignoreRequire").truthy = false := by
    have ho : isObject _options = true := rfl
    have hk : _options.get "ignoreRequire" = .undefined := rfl
    rw [override_get_absent _ _ _ ho hk]; rfl
  have hhead : ∀ r, ∃ e, scrubHead h r value (.obj sp) (override _options (.obj sp) false)
      = .ret (.error e) ∧ isError e = true ∧ e.get "code" = .str "missingParam" := by
    intro r
    refine ⟨fail h r "missingParam" ((override _options (.obj sp) false).get "key")
      ⟨value, .obj sp, override _options (.obj sp) false⟩, ?_, isError_fail _ _ _ _ _,
      fail_code _ _ _ _ _⟩
    simp only [scrubHead, initStage, hinit, Bool.false_eq_true, if_false, Res.andThen_ok,
      defaultStage, requiredStage, hreq, hir]
    rcases hval with hv | ⟨hv, hd⟩
    · subst hv
      simp [isUndefined, isNull]
    · subst hv
      simp [isUndefined, isNull, hd, isDefined]
  obtain ⟨e, he, he1, he2⟩ := hhead (.obj sp)
  refine ⟨e, ?_, he1, he2⟩
  unfold scrub
  rw [override_root_undefined, _scrub]
  simp [isObject_obj, he, he1]

theorem getProp_object (v : Val) (hv : isObject v = true) (k : String) :
    v.getProp k = .ret (v.get k) := by
  cases v <;> simp_all [isObject, Val.getProp]

theorem missingRequired_some {fm : Props} (hfm : isFieldMap fm = true) (value : Val)
    (keys : List String) (hsub : ∀ k ∈ keys, k ∈ (Val.obj fm).keys) (key : String)
    (hkey : key ∈ keys)
    (hreq : (((Val.obj fm).get key).get "required").truthy = true)
    (hmiss : (isUndefined (value.get key) || isNull (value.get key)) = true) :
    ∃ key', missingRequired (.obj fm) value keys = .ret (some key') := by
  induction keys with
  | nil => simp at hkey
  | cons k ks ih =>
    have hk := isObject_get_fieldMap hfm (hsub k (List.mem_cons_self _ _))
    simp only [missingRequired, getProp_object _ hk, Res.bind_ret]
    by_cases hc : ((((Val.obj fm).get k).get "required").truthy &&
        (isUndefined (value.get k) || isNull (value.get k))) = true
    · exact ⟨k, by simp only [hc, if_true]⟩
    · simp only [hc, Bool.false_eq_true, if_false]
      rcases List.mem_cons.1 hkey with hkk | hkk
      · subst hkk
        simp [hreq, hmiss] at hc
      · exact ih (fun k' hk' => hsub k' (List.mem_cons_of_mem _ hk')) hkk

theorem _options_flat : ∀ k, isObject (_options.get k) = false := by
  intro k
  simp only [_options, Val.get, Props.find]
  repeat (first | rfl | split)

theorem required_in_checkObject (h : Host) (child : Val → Val → Val → Res Out)
    (rootSpec spec options : Val) (ps fm : Props) (filled : Val) (key : String)
    (hsf : specFields spec = .obj fm) (hfm : isFieldMap fm = true)
    (hstrict : (options.get "strict").truthy = false)
    (hign : (options.get "ignoreRequired").truthy = false)
    (hfill : fillDefaults h rootSpec spec (.obj fm) options (Val.obj fm).keys (.obj ps)
      = .ret (.ok filled))
    (hkey : key ∈ (Val.obj fm).keys)
    (hreq : (((Val.obj fm).get key).get "required").truthy = true)
    (hmiss : (isUndefined (filled.get key) || isNull (filled.get key)) = true) :
    ∃ e, checkObject h child rootSpec (.obj ps) spec options = .ret ⟨e, filled, options⟩ ∧
      isError e = true ∧ e.get "code" = .str "missingParam" := by
  obtain ⟨key', hk'⟩ := missingRequired_some hfm filled _ (fun _ hk => hk) key hkey hreq hmiss
  refine ⟨fail h rootSpec "missingParam" (.str key') ⟨filled, spec, options⟩, ?_,
    isError_fail _ _ _ _ _, fail_code _ _ _ _ _⟩
  unfold checkObject
  simp [hsf, hstrict, hign, hfill, hk']

theorem Res.bind_ne_diverge {α β : Type} {r : Res α} {k : α → Res β}
    (hr : r ≠ .diverge) (hk : ∀ a, k a ≠ .diverge) : r.bind k ≠ .diverge := by
  cases r with
  | ret a => exact hk a
  | raise m => simp [Res.bind]
  | diverge => exact absurd rfl hr

theorem Res.andThen_ne_diverge {α β : Type} {r : Res (Except Val α)}
    {k : α → Res (Except Val β)}
    (hr : r ≠ .diverge) (hk : ∀ a, k a ≠ .diverge) : Res.andThen r k ≠ .diverge := by
  unfold Res.andThen
  apply Res.bind_ne_diverge hr
  intro x
  cases x with
  | ok a => exact hk a
  | error e => simp

theorem getProp_ne_diverge (v : Val) (k : String) : v.getProp k ≠ .diverge := by
  cases v <;> simp [Val.getProp]

theorem callClientFunction_ne_diverge (h : Host) (fn value options : Val) :
    callClientFunction h fn value options ≠ .diverge := by
  unfold callClientFunction
  split
  · split
    · simp
    · exact Res.bind_ne_diverge (getProp_ne_diverge _ _) (fun _ => by simp)
  · simp

theorem callSetter_ne_diverge (h : Host) (fn value options : Val) :
    callSetter h fn value options ≠ .diverge := callClientFunction_ne_diverge h fn value options

theorem callValidator_ne_diverge (h : Host) (fn value options : Val) :
    callValidator h fn value options ≠ .diverge := by
  unfold callValidator
  apply Res.bind_ne_diverge (callClientFunction_ne_diverge h fn value options)
  intro a
  split <;> simp

theorem setDefault_ne_diverge (h : Host) (spec options : Val) :
    setDefault h spec options ≠ .diverge := by
  unfold setDefault
  split
  · exact callSetter_ne_diverge _ _ _ _
  · simp

theorem orFail_ne_diverge (rootSpec : Val) {r : Res Val} (args : Args) (hr : r ≠ .diverge) :
    orFail rootSpec r args ≠ .diverge := by
  unfold orFail
  apply Res.bind_ne_diverge hr
  intro a
  split <;> simp

theorem scrubHead_ne_diverge (h : Host) (rootSpec value spec options : Val) :
    scrubHead h rootSpec value spec options ≠ .diverge := by
  unfold scrubHead
  refine Res.andThen_ne_diverge ?_ fun v1 => Res.andThen_ne_diverge ?_ fun v2 =>
    Res.andThen_ne_diverge ?_ fun v3 => Res.andThen_ne_diverge ?_ fun v4 => ?_
  · unfold initStage
    split
    · exact orFail_ne_diverge _ _ (callSetter_ne_diverge _ _ _ _)
    · simp
  · unfold defaultStage
    split
    · exact orFail_ne_diverge _ _ (setDefault_ne_diverge _ _ _)
    · simp
  · unfold requiredStage
    split <;> simp
  · unfold typeStage
    split
    · split
      · simp
      · split <;> simp
    · simp
  · unfold setterStage
    split
    · exact orFail_ne_diverge _ _ (callSetter_ne_diverge _ _ _ _)
    · simp

theorem scrubTail_ne_diverge (h : Host) (rootSpec value spec options : Val) :
    scrubTail h rootSpec value spec options ≠ .diverge := by
  unfold scrubTail
  refine Res.andThen_ne_diverge ?_ fun v1 => ?_
  · unfold validateStage
    split
    · apply Res.bind_ne_diverge (callValidator_ne_diverge _ _ _ _)
      intro a
      split <;> simp
    · simp
  · unfold finishStage
    split
    · exact orFail_ne_diverge _ _ (callSetter_ne_diverge _ _ _ _)
    · simp

theorem fillDefaults_ne_diverge (h : Host) (rootSpec spec sf options : Val) (keys : List String)
    (value : Val) : fillDefaults h rootSpec spec sf options keys value ≠ .diverge := by
  induction keys generalizing value with
  | nil => simp [fillDefaults]
  | cons key rest ih =>
    unfold fillDefaults
    split
    · apply Res.bind_ne_diverge (getProp_ne_diverge _ _)
      intro d
      split
      · apply Res.bind_ne_diverge (setDefault_ne_diverge _ _ _)
        intro r
        split
        · simp
        · exact ih _
      · exact ih _
    · exact ih _

theorem missingRequired_ne_diverge (sf value : Val) (keys : List String) :
    missingRequired sf value keys ≠ .diverge := by
  induction keys with
  | nil => simp [missingRequired]
  | cons key rest ih =>
    unfold missingRequired
    apply Res.bind_ne_diverge (getProp_ne_diverge _ _)
    intro r
    split
    · simp
    · exact ih

theorem scrubProps_ne_diverge (child : Val → Val → Val → Res Out) (rootSpec spec sf : Val)
    (keys : List String) (value options : Val)
    (hc : ∀ k, isObject (sf.get k) = true → ∀ v o, child v (sf.get k) o ≠ .diverge) :
    scrubProps child rootSpec spec sf keys value options ≠ .diverge := by
  induction keys generalizing value options with
  | nil => simp [scrubProps]
  | cons key rest ih =>
    unfold scrubProps
    split
    · rename_i hk
      apply Res.bind_ne_diverge (hc key hk _ _)
      intro out
      split
      · simp
      · exact ih _ _
    · exact ih _ _

theorem scrubItems_ne_diverge (child : Val → Val → Val → Res Out) (rootSpec spec : Val)
    (idx : List Nat) (value options : Val)
    (hc : ∀ v o, child v (spec.get "value") o ≠ .diverge) :
    scrubItems child rootSpec spec idx value options ≠ .diverge := by
  induction idx generalizing value options with
  | nil => simp [scrubItems]
  | cons i rest ih =>
    unfold scrubItems
    apply Res.bind_ne_diverge (hc _ _)
    intro out
    split
    · simp
    · exact ih _ _

theorem depth_find_le (k : String) (ps : Props) (v : Val) (hf : Props.find k ps = some v) :
    v.depth ≤ depthProps ps := by
  induction ps with
  | nil => simp [Props.find] at hf
  | cons p rest ih =>
    obtain ⟨k', v'⟩ := p
    by_cases hk : k' = k
    · simp [Props.find, hk] at hf
      subst hf
      simp [depthProps]
    · simp [Props.find, hk] at hf
      have := ih hf
      simp [depthProps]
      omega

theorem depth_get_lt (spec : Val) (k : String) (hs : isObject spec = true) :
    (spec.get k).depth < spec.depth := by
  cases spec <;> simp_all [isObject]
  rename_i ps
  simp only [Val.get, Val.depth]
  cases hf : Props.find k ps with
  | none => simp [Val.depth]
  | some v =>
    have := depth_find_le k ps v hf
    simp
    omega

theorem depth_specFields_le (spec : Val) (hs : isObject spec = true) :
    (specFields spec).depth ≤ spec.depth := by
  unfold specFields
  split
  · exact Nat.le_of_lt (depth_get_lt spec "value" hs)
  · exact Nat.le_refl _

theorem isObject_specFields (spec : Val) (hs : isObject spec = true) :
    isObject (specFields spec) = true := by
  unfold specFields
  split
  · rename_i hc
    simp only [Bool.and_eq_true] at hc
    exact hc.2
  · exact hs

theorem checkObject_ne_diverge (h : Host) (child : Val → Val → Val → Res Out)
    (rootSpec value spec options : Val)
    (hc : ∀ k, isObject ((specFields spec).get k) = true →
      ∀ v o, child v ((specFields spec).get k) o ≠ .diverge) :
    checkObject h child rootSpec value spec options ≠ .diverge := by
  unfold checkObject
  split
  · simp
  · apply Res.bind_ne_diverge (fillDefaults_ne_diverge _ _ _ _ _ _ _)
    intro filled
    split
    · simp
    · apply Res.bind_ne_diverge
      · split
        · exact missingRequired_ne_diverge _ _ _
        · simp
      · intro missing
        split
        · simp
        · exact scrubProps_ne_diverge _ _ _ _ _ _ _ hc

theorem checkArray_ne_diverge (child : Val → Val → Val → Res Out)
    (rootSpec value spec options : Val)
    (hc : isObject (spec.get "value") = true → ∀ v o, child v (spec.get "value") o ≠ .diverge) :
    checkArray child rootSpec value spec options ≠ .diverge := by
  unfold checkArray
  split
  · rename_i hv
    exact scrubItems_ne_diverge _ _ _ _ _ _ (hc hv)
  · simp

theorem _scrub_ne_diverge (h : Host) (rootSpec : Val) (n : Nat) :
    ∀ spec : Val, spec.depth < n → ∀ value options,
      _scrub h rootSpec n value spec options ≠ .diverge := by
  induction n with
  | zero => intro spec hd; omega
  | succ n ih =>
    intro spec hd value options
    rw [_scrub]
    split
    · simp
    · rename_i hs
      have hs : isObject spec = true := by simpa using hs
      apply Res.bind_ne_diverge (scrubHead_ne_diverge _ _ _ _ _)
      intro head
      split
      · simp
      · apply Res.bind_ne_diverge
        · unfold dispatch
          split
          · apply checkObject_ne_diverge
            intro k _ v o
            apply ih
            have h1 := depth_get_lt (specFields spec) k (isObject_specFields spec hs)
            have h2 := depth_specFields_le spec hs
            omega
          · split
            · apply checkArray_ne_diverge
              intro _ v o
              apply ih
              have h1 := depth_get_lt spec "value" hs
              omega
            · simp
        · intro c
          split
          · simp
          · apply Res.bind_ne_diverge (scrubTail_ne_diverge _ _ _ _ _)
            intro t
            split <;> simp

theorem scrub_ne_diverge (h : Host) (rootValue rootSpec rootOptions : Val) :
    scrub h rootValue rootSpec rootOptions ≠ .diverge := by
  unfold scrub
  apply Res.bind_ne_diverge (_scrub_ne_diverge h rootSpec _ rootSpec (Nat.lt_succ_self _) _ _)
  intro out
  split
  · simp
  · split <;> simp

theorem returnValue_off (options : Val) (hrv : options.get "returnValue" ≠ .bool true) :
    ((override _options options true).get "returnValue").truthy = false := by
  unfold override
  split
  · rfl
  · have ho : isObject _options = true := rfl
    have hr : (_options.get "returnValue").truthy = false := rfl
    refine (foldl_invariant (fun acc => isObject acc = true ∧ (acc.get "returnValue").truthy = false)
      _ _ _ ⟨ho, hr⟩ ?_).2
    intro acc key ⟨h1, h2⟩
    by_cases hk : key = "returnValue"
    · subst hk
      have hu : isUndefined (_options.get "returnValue") = false := rfl
      simp only [hu, Bool.and_false, Bool.false_eq_true, if_false]
      split
      · rename_i ht
        refine ⟨by rw [isObject_put]; exact h1, ?_⟩
        rw [get_put_self _ h1]
        have ht' : tipe (options.get "returnValue") = "boolean" := ht.symm
        cases hg : options.get "returnValue" <;> rw [hg] at ht' hrv <;> simp [tipe] at ht'
        rename_i b
        cases b
        · rfl
        · exact absurd rfl hrv
      · exact ⟨h1, h2⟩
    · have hne : "returnValue" ≠ key := fun e => hk e.symm
      split
      · exact ⟨by rw [isObject_put]; exact h1, by rw [get_put_ne _ hne]; exact h2⟩
      · split
        · exact ⟨by rw [isObject_put]; exact h1, by rw [get_put_ne _ hne]; exact h2⟩
        · exact ⟨h1, h2⟩

theorem foldl_returnValue (ops : Props) (keys : List String) (acc : Val)
    (hrv : (Val.obj ops).get "returnValue" = .bool true) (ha : isObject acc = true)
    (hk : acc.get "returnValue" = .bool true ∨ "returnValue" ∈ keys) :
    (keys.foldl
      (fun newObj key =>
        if true && isUndefined (_options.get key) then newObj.put key ((Val.obj ops).get key)
        else if tipe (_options.get key) = tipe ((Val.obj ops).get key)
          then newObj.put key ((Val.obj ops).get key)
        else newObj) acc).get "returnValue" = .bool true := by
  induction keys generalizing acc with
  | nil =>
    rcases hk with hk | hk
    · exact hk
    · simp at hk
  | cons key rest ih =>
    simp only [List.foldl_cons]
    by_cases hkey : key = "returnValue"
    · subst hkey
      have hu : isUndefined (_options.get "returnValue") = false := rfl
      have ht : tipe (_options.get "returnValue") = tipe ((Val.obj ops).get "returnValue") := by
        rw [hrv]; rfl
      simp only [hu, Bool.and_false, Bool.false_eq_true, if_false, ht, if_true]
      apply ih
      · rw [isObject_put]; exact ha
      · left
        rw [get_put_self _ ha]
        exact hrv
    · have hne : "returnValue" ≠ key := fun e => hkey e.symm
      have hk' : acc.get "returnValue" = .bool true ∨ "returnValue" ∈ rest := by
        rcases hk with hk | hk
        · exact Or.inl hk
        · rcases List.mem_cons.1 hk with hk | hk
          · exact absurd hk hne
          · exact Or.inr hk
      split
      · apply ih
        · rw [isObject_put]; exact ha
        · rcases hk' with hk' | hk'
          · left; rw [get_put_ne _ hne]; exact hk'
          · exact Or.inr hk'
      · split
        · apply ih
          · rw [isObject_put]; exact ha
          · rcases hk' with hk' | hk'
            · left; rw [get_put_ne _ hne]; exact hk'
            · exact Or.inr hk'
        · exact ih _ ha hk'

theorem mem_keys_of_get (ops : Props) (k : String) (hg : (Val.obj ops).get k ≠ .undefined) :
    k ∈ (Val.obj ops).keys := by
  simp only [Val.get] at hg
  simp only [Val.keys]
  induction ops with
  | nil => simp [Props.find] at hg
  | cons p rest ih =>
    obtain ⟨k', v'⟩ := p
    by_cases hk : k' = k
    · simp [hk]
    · simp only [Props.find, hk, if_false] at hg
      simp only [List.map_cons, List.mem_cons]
      exact Or.inr (ih hg)

theorem returnValue_on (ops : Props) (hrv : (Val.obj ops).get "returnValue" = .bool true) :
    (override _options (.obj ops) true).get "returnValue" = .bool true := by
  unfold override
  have h1 : isObject _options = true := rfl
  simp only [h1, isObject_obj, Bool.and_self, Bool.not_true, Bool.false_eq_true, if_false]
  apply foldl_returnValue ops _ _ hrv h1
  right
  apply mem_keys_of_get
  rw [hrv]
  simp

theorem isThrown_failWith {m : String} {e : Val} (rootSpec : Val) (args : Args)
    (he : IsThrown m e) : IsThrown m (failWith rootSpec e args) := by
  obtain ⟨h1, h2, h3⟩ := he
  exact ⟨by rw [isError_failWith]; exact h1, by rw [failWith_code]; exact h2,
    by rw [failWith_message]; exact h3⟩

theorem callClientFunction_thrown (h : Host) (id : Nat) (v o x : Val)
    (hc : h.call id v o = .throw x) (hx : isError x = true) :
    ∃ e, callClientFunction h (.func id) v o = .ret e ∧ IsThrown (toStr h (x.get "message")) e := by
  obtain ⟨ps, rfl⟩ : ∃ ps, x = .error ps := by cases x <;> simp_all [isError]
  refine ⟨((Val.error ps).put "message"
    (.str ("Spec function threw exception: " ++ toStr h ((Val.error ps).get "message")))).put
      "code" (.str "badSpec"), ?_, ?_, ?_, ?_⟩
  · simp [callClientFunction, hc, Val.getProp]
  · rfl
  · exact get_put_self_error _ _ _
  · show (Val.put (Val.error _) "code" _).get "message" = _
    rw [get_put_ne_error _ (by decide)]
    exact get_put_self_error _ _ _

theorem orFail_thrown (h : Host) (rootSpec : Val) (id : Nat) (v o x : Val) (args : Args)
    (hc : h.call id v o = .throw x) (hx : isError x = true) :
    ∃ e, orFail rootSpec (callSetter h (.func id) v o) args = .ret (.error e) ∧
      IsThrown (toStr h (x.get "message")) e := by
  obtain ⟨e, he, ht⟩ := callClientFunction_thrown h id v o x hc hx
  refine ⟨failWith rootSpec e args, ?_, isThrown_failWith _ _ ht⟩
  simp [orFail, callSetter, he, ht.1]

theorem fillDefaults_append (h : Host) (rootSpec spec sf options : Val) (pre rest : List String)
    (value : Val) :
    fillDefaults h rootSpec spec sf options (pre ++ rest) value =
      (fillDefaults h rootSpec spec sf options pre value).bind fun r =>
        match r with
        | .ok v => fillDefaults h rootSpec spec sf options rest v
        | .error out => .ret (.error out) := by
  induction pre generalizing value with
  | nil => simp [fillDefaults]
  | cons k ks ih =>
    simp only [List.cons_append, fillDefaults]
    split
    · cases hg : (sf.get k).getProp "default" with
      | raise m => simp
      | diverge => simp
      | ret d =>
        simp only [Res.bind_ret]
        split
        · cases hs : setDefault h (sf.get k) options with
          | raise m => simp
          | diverge => simp
          | ret r =>
            simp only [Res.bind_ret]
            split
            · simp
            · exact ih _
        · exact ih _
    · exact ih _

theorem scrubProps_append (child : Val → Val → Val → Res Out) (rootSpec spec sf : Val)
    (pre rest : List String) (value options : Val) (hv : isError value = false) :
    scrubProps child rootSpec spec sf (pre ++ rest) value options =
      (scrubProps child rootSpec spec sf pre value options).bind fun c =>
        if isError c.result then .ret c
        else scrubProps child rootSpec spec sf rest c.post c.options := by
  induction pre generalizing value options with
  | nil => simp [scrubProps, hv]
  | cons k ks ih =>
    simp only [List.cons_append, scrubProps]
    split
    · cases hc : child (value.get k) (sf.get k) (options.put "key" (.str k)) with
      | raise m => simp
      | diverge => simp
      | ret out =>
        simp only [Res.bind_ret]
        split
        · rename_i he
          simp [isError_failWith, he]
        · exact ih _ _ (by rw [isError_put]; exact hv)
    · exact ih _ _ hv

theorem isError_setAt (v : Val) (i : Nat) (x : Val) : isError (v.setAt i x) = isError v := by
  cases v <;> rfl

theorem scrubItems_append (child : Val → Val → Val → Res Out) (rootSpec spec : Val)
    (pre rest : List Nat) (value options : Val) (hv : isError value = false) :
    scrubItems child rootSpec spec (pre ++ rest) value options =
      (scrubItems child rootSpec spec pre value options).bind fun c =>
        if isError c.result then .ret c
        else scrubItems child rootSpec spec rest c.post c.options := by
  induction pre generalizing value options with
  | nil => simp [scrubItems, hv]
  | cons k ks ih =>
    simp only [List.cons_append, scrubItems]
    cases hc : child (value.item k) (spec.get "value") (options.put "key" (.num (Num.ofNat k))) with
    | raise m => simp
    | diverge => simp
    | ret out =>
      simp only [Res.bind_ret]
      split
      · rename_i he
        simp [isError_failWith, he]
      · exact ih _ _ (by rw [isError_setAt]; exact hv)

theorem range_split {i n : Nat} (hi : i < n) : ∃ rest, List.range n = List.range i ++ i :: rest := by
  obtain ⟨k, rfl⟩ : ∃ k, n = i + (k + 1) := ⟨n - i - 1, by omega⟩
  refine ⟨(List.range k).map (fun j => i + (j + 1)), ?_⟩
  rw [List.range_add, List.range_succ_eq_map]
  simp [Function.comp_def]

theorem scrubProps_post (child : Val → Val → Val → Res Out) (rootSpec spec sf : Val)
    (keys : List String) (value options : Val) (c : Checked)
    (hs : scrubProps child rootSpec spec sf keys value options = .ret c)
    (he : isError c.result = false) : c.post = c.result := by
  induction keys generalizing value options with
  | nil =>
    simp only [scrubProps] at hs
    injection hs with hs
    subst hs
    rfl
  | cons k ks ih =>
    simp only [scrubProps] at hs
    split at hs
    · cases hc : child (value.get k) (sf.get k) (options.put "key" (.str k)) with
      | raise m => simp [hc] at hs
      | diverge => simp [hc] at hs
      | ret out =>
        simp only [hc, Res.bind_ret] at hs
        split at hs
        · rename_i hee
          injection hs with hs
          subst hs
          simp [isError_failWith, hee] at he
        · exact ih _ _ hs
    · exact ih _ _ hs

theorem scrubItems_post (child : Val → Val → Val → Res Out) (rootSpec spec : Val)
    (idx : List Nat) (value options : Val) (c : Checked)
    (hs : scrubItems child rootSpec spec idx value options = .ret c)
    (he : isError c.result = false) : c.post = c.result := by
  induction idx generalizing value options with
  | nil =>
    simp only [scrubItems] at hs
    injection hs with hs
    subst hs
    rfl
  | cons k ks ih =>
    simp only [scrubItems] at hs
    cases hc : child (value.item k) (spec.get "value") (options.put "key" (.num (Num.ofNat k))) with
    | raise m => simp [hc] at hs
    | diverge => simp [hc] at hs
    | ret out =>
      simp only [hc, Res.bind_ret] at hs
      split at hs
      · rename_i hee
        injection hs with hs
        subst hs
        simp [isError_failWith, hee] at he
      · exact ih _ _ hs

theorem _scrub_head_error (h : Host) (rootSpec : Val) (fuel : Nat) (value spec options e : Val)
    (hs : isObject spec = true)
    (hh : scrubHead h rootSpec value spec (override options spec false) = .ret (.error e)) :
    _scrub h rootSpec (fuel + 1) value spec options = .ret ⟨e, value⟩ := by
  rw [_scrub]
  simp [hs, hh]

theorem _scrub_dispatch_error (h : Host) (rootSpec : Val) (fuel : Nat)
    (value spec options v : Val) (c : Checked)
    (hs : isObject spec = true)
    (hh : scrubHead h rootSpec value spec (override options spec false) = .ret (.ok v))
    (hd : dispatch h (_scrub h rootSpec fuel) rootSpec v spec (override options spec false)
      = .ret c)
    (he : isError c.result = true) :
    _scrub h rootSpec (fuel + 1) value spec options
      = .ret ⟨c.result, if inPlace value spec then c.post else value⟩ := by
  rw [_scrub]
  simp [hs, hh, hd, he]

theorem _scrub_tail_error (h : Host) (rootSpec : Val) (fuel : Nat)
    (value spec options v e : Val) (c : Checked)
    (hs : isObject spec = true)
    (hh : scrubHead h rootSpec value spec (override options spec false) = .ret (.ok v))
    (hd : dispatch h (_scrub h rootSpec fuel) rootSpec v spec (override options spec false)
      = .ret c)
    (he : isError c.result = false)
    (ht : scrubTail h rootSpec c.result spec c.options = .ret (.error e)) :
    _scrub h rootSpec (fuel + 1) value spec options
      = .ret ⟨e, if inPlace value spec then c.post else value⟩ := by
  rw [_scrub]
  simp [hs, hh, hd, he, ht]

theorem isError_of_tipe_object {v : Val} (hv : tipe v = "object") : isError v = false := by
  cases v <;> simp_all [tipe, isError]

theorem isError_of_tipe_array {v : Val} (hv : tipe v = "array") : isError v = false := by
  cases v <;> simp_all [tipe, isError]

theorem fillDefaults_isError (h : Host) (rootSpec spec sf options : Val) (keys : List String)
    (value filled : Val)
    (hf : fillDefaults h rootSpec spec sf options keys value = .ret (.ok filled)) :
    isError filled = isError value := by
  induction keys generalizing value with
  | nil =>
    simp only [fillDefaults] at hf
    injection hf with hf
    injection hf with hf
    rw [hf]
  | cons k ks ih =>
    simp only [fillDefaults] at hf
    split at hf
    · cases hg : (sf.get k).getProp "default" with
      | raise m => simp [hg] at hf
      | diverge => simp [hg] at hf
      | ret d =>
        simp only [hg, Res.bind_ret] at hf
        split at hf
        · cases hs : setDefault h (sf.get k) options with
          | raise m => simp [hs] at hf
          | diverge => simp [hs] at hf
          | ret r =>
            simp only [hs, Res.bind_ret] at hf
            split at hf
            · simp at hf
            · rw [ih _ hf, isError_put]
        · exact ih _ hf
    · exact ih _ hf

theorem getProp_of_get_ne (v : Val) (k : String) (hg : v.get k ≠ .undefined) :
    v.getProp k = .ret (v.get k) := by
  cases v <;> simp_all [Val.getProp, Val.get]

theorem callValidator_thrown (h : Host) (id : Nat) (v o x : Val)
    (hc : h.call id v o = .throw x) (hx : isError x = true) :
    ∃ e, callValidator h (.func id) v o = .ret e ∧ IsThrown (toStr h (x.get "message")) e := by
  obtain ⟨e, he, h1, h2, h3⟩ := callClientFunction_thrown h id v o x hc hx
  obtain ⟨ps, rfl⟩ : ∃ ps, e = .error ps := by cases e <;> simp_all [isError]
  refine ⟨(Val.error ps).put "code" (.str "badSpec"), ?_, ?_, ?_, ?_⟩
  · simp [callValidator, he, Val.truthy, h1, h2]
  · rfl
  · exact get_put_self_error _ _ _
  · rw [get_put_ne_error _ (by decide)]
    exact h3

theorem isThrown_truthy {m : String} {e : Val} (he : IsThrown m e) : e.truthy = true := by
  obtain ⟨h1, _, _⟩ := he
  cases e <;> simp_all [isError, Val.truthy]

theorem throws_gives_badSpec (h : Host) (rootSpec : Val) (fuel : Nat)
    (value spec options : Val) (m : String)
    (ht : Throws h rootSpec fuel value spec options m) :
    ∃ e post, _scrub h rootSpec fuel value spec options = .ret ⟨e, post⟩ ∧ IsThrown m e := by
  induction ht with
  | @atInit fuel value spec options id x hs hinit hcall hx =>
    obtain ⟨e, he, hthrown⟩ := orFail_thrown h rootSpec id value (override options spec false) x
      ⟨value, spec, override options spec false⟩ hcall hx
    refine ⟨e, value, ?_, hthrown⟩
    apply _scrub_head_error _ _ _ _ _ _ _ hs
    simp [scrubHead, initStage, hinit, isFunction, he]
  | @atDefault fuel value spec options v1 id x hs h1 hu hig hdef hcall hx =>
    obtain ⟨e, he, hthrown⟩ := orFail_thrown h rootSpec id .undefined
      (override options spec false) x ⟨v1, spec, override options spec false⟩ hcall hx
    refine ⟨e, value, ?_, hthrown⟩
    apply _scrub_head_error _ _ _ _ _ _ _ hs
    have hd2 : isDefined (Val.func id) = true := rfl
    have hf : isFunction (Val.func id) = true := rfl
    simp [scrubHead, h1, defaultStage, hu, hdef, hd2, hig, setDefault, hf, he]
  | @atSetter fuel value spec options v1 v2 v3 v4 id x hs h1 h2 h3 h4 hset hcall hx =>
    obtain ⟨e, he, hthrown⟩ := orFail_thrown h rootSpec id v4
      (override options spec false) x ⟨v4, spec, override options spec false⟩ hcall hx
    refine ⟨e, value, ?_, hthrown⟩
    apply _scrub_head_error _ _ _ _ _ _ _ hs
    simp [scrubHead, h1, h2, h3, h4, setterStage, hset, isFunction, he]
  | @atFieldDefault fuel value spec options v filled pre rest key id x hs hh hty hstrict hkeys
      hfill hu hig hdef hcall hx =>
    obtain ⟨e, he, hthrown⟩ := callClientFunction_thrown h id .undefined
      (override options spec false) x hcall hx
    have hgp : ((specFields spec).get key).getProp "default" = .ret (.func id) := by
      rw [getProp_of_get_ne _ _ (by rw [hdef]; simp), hdef]
    have hd2 : isDefined (Val.func id) = true := rfl
    have hf : isFunction (Val.func id) = true := rfl
    have hfd : fillDefaults h rootSpec spec (specFields spec) (override options spec false)
        (specFields spec).keys v
        = .ret (.error ⟨failWith rootSpec e ⟨filled, spec, override options spec false⟩,
            filled⟩) := by
      rw [hkeys, fillDefaults_append, hfill]
      simp [fillDefaults, hu, hgp, hd2, hig, setDefault, hdef, hf, callSetter, he, hthrown.1]
    have hd : dispatch h (_scrub h rootSpec fuel) rootSpec v spec (override options spec false)
        = .ret ⟨failWith rootSpec e ⟨filled, spec, override options spec false⟩, filled,
            override options spec false⟩ := by
      simp [dispatch, hty, checkObject, hstrict, hfd]
    have hthrown' := isThrown_failWith rootSpec
      ⟨filled, spec, override options spec false⟩ hthrown
    exact ⟨_, _, _scrub_dispatch_error h rootSpec fuel value spec options v _ hs hh hd
      hthrown'.1, hthrown'⟩
  | @inField fuel value spec options v filled pre rest key c m hs hh hty hstrict hfill hreq
      hkeys hloop hok hobj hsub ih =>
    obtain ⟨e, post, he, hthrown⟩ := ih
    have hfe : isError filled = false := by
      rw [fillDefaults_isError _ _ _ _ _ _ _ _ hfill]
      exact isError_of_tipe_object hty
    have hthrown' := isThrown_failWith rootSpec
      ⟨c.post.put key post, spec, c.options.put "key" (.str key)⟩ hthrown
    have hsp : scrubProps (_scrub h rootSpec fuel) rootSpec spec (specFields spec) filled.keys
        filled (override options spec false)
        = .ret ⟨failWith rootSpec e ⟨c.post.put key post, spec, c.options.put "key" (.str key)⟩,
            c.post.put key post, c.options.put "key" (.str key)⟩ := by
      rw [hkeys, scrubProps_append _ _ _ _ _ _ _ _ hfe, hloop]
      simp [hok, scrubProps, hobj, he, hthrown.1]
    have hd : dispatch h (_scrub h rootSpec fuel) rootSpec v spec (override options spec false)
        = .ret ⟨failWith rootSpec e ⟨c.post.put key post, spec, c.options.put "key" (.str key)⟩,
            c.post.put key post, c.options.put "key" (.str key)⟩ := by
      simp only [dispatch, hty, if_true, checkObject, hstrict, hfill, Res.bind_ret, hreq, hsp]
    exact ⟨_, _, _scrub_dispatch_error h rootSpec fuel value spec options v _ hs hh hd
      hthrown'.1, hthrown'⟩
  | @inItem fuel value spec options v i c m hs hh hty hobj hi hloop hok hsub ih =>
    obtain ⟨e, post, he, hthrown⟩ := ih
    obtain ⟨rest, hrange⟩ := range_split hi
    have hthrown' := isThrown_failWith rootSpec
      ⟨c.post.setAt i post, spec, c.options.put "key" (.num (Num.ofNat i))⟩ hthrown
    have hto : tipe v ≠ "object" := by rw [hty]; decide
    have hd : dispatch h (_scrub h rootSpec fuel) rootSpec v spec (override options spec false)
        = .ret ⟨failWith rootSpec e
              ⟨c.post.setAt i post, spec, c.options.put "key" (.num (Num.ofNat i))⟩,
            c.post.setAt i post, c.options.put "key" (.num (Num.ofNat i))⟩ := by
      simp only [dispatch, hto, if_false, hty, if_true, checkArray, hobj, hrange]
      rw [scrubItems_append _ _ _ _ _ _ _ (isError_of_tipe_array hty), hloop]
      simp [hok, scrubItems, he, hthrown.1]
    exact ⟨_, _, _scrub_dispatch_error h rootSpec fuel value spec options v _ hs hh hd
      hthrown'.1, hthrown'⟩
  | @atValidate fuel value spec options v c id x hs hh hd hok hval hcall hx =>
    obtain ⟨e, he, hthrown⟩ := callValidator_thrown h id c.result c.options x hcall hx
    have hthrown' := isThrown_failWith rootSpec ⟨c.result, spec, c.options⟩ hthrown
    have hf : isFunction (Val.func id) = true := rfl
    refine ⟨_, _, _scrub_tail_error h rootSpec fuel value spec options v _ c hs hh hd hok ?_,
      hthrown'⟩
    simp [scrubTail, validateStage, hval, hf, he, isThrown_truthy hthrown]
  | @atFinish fuel value spec options v v' c id x hs hh hd hok hv hfin hcall hx =>
    obtain ⟨e, he, hthrown⟩ := orFail_thrown h rootSpec id v' c.options x
      ⟨v', spec, c.options⟩ hcall hx
    have hf : isFunction (Val.func id) = true := rfl
    refine ⟨_, _, _scrub_tail_error h rootSpec fuel value spec options v _ c hs hh hd hok ?_,
      hthrown⟩
    simp [scrubTail, hv, finishStage, hfin, hf, he]

theorem clone_literal (d : Val) (hd : isDefined d = true) (hf : isFunction d = false) :
    isDefined (clone d) = true ∧ isError (clone d) = false := by
  cases d <;> simp_all [clone, isScalar, isDefined, isUndefined, isFunction, jsonVal, isError]

theorem put_put (v : Val) (k : String) (a b : Val) : (v.put k a).put k b = v.put k b := by
  have hset : ∀ ps : Props, Props.set k b (Props.set k a ps) = Props.set k b ps := by
    intro ps
    induction ps with
    | nil => simp [Props.set]
    | cons p rest ih =>
      obtain ⟨k', v'⟩ := p
      by_cases hk : k' = k <;> simp [Props.set, hk, ih]
  cases v <;> simp [Val.put, hset]

theorem fill_get (h : Host) (rootSpec spec sf options : Val) (k : String) (keys : List String)
    (value filled : Val) (hv : isObject value = true)
    (hf : fillDefaults h rootSpec spec sf options keys value = .ret (.ok filled)) :
    isObject filled = true ∧
    (isUndefined (value.get k) = false → filled.get k = value.get k) ∧
    (isUndefined (value.get k) = true → k ∈ keys →
      isDefined ((sf.get k).get "default") = true →
      isFunction ((sf.get k).get "default") = false →
      (options.get "ignoreDefaults").truthy = false →
      filled.get k = clone ((sf.get k).get "default")) := by
  induction keys generalizing value with
  | nil =>
    simp only [fillDefaults] at hf
    injection hf with hf
    injection hf with hf
    subst hf
    exact ⟨hv, fun _ => rfl, fun _ hk => by simp at hk⟩
  | cons key rest ih =>
    simp only [fillDefaults] at hf
    by_cases hu : isUndefined (value.get key) = true
    · simp only [hu, if_true] at hf
      cases hg : (sf.get key).getProp "default" with
      | raise m => simp [hg] at hf
      | diverge => simp [hg] at hf
      | ret d =>
        have hd : d = (sf.get key).get "default" := by
          cases hsk : sf.get key <;> rw [hsk] at hg <;> simp [Val.getProp] at hg <;> exact hg.symm
        simp only [hg, Res.bind_ret] at hf
        by_cases hc : (isDefined d && !(options.get "ignoreDefaults").truthy) = true
        · simp only [hc, if_true] at hf
          cases hs : setDefault h (sf.get key) options with
          | raise m => simp [hs] at hf
          | diverge => simp [hs] at hf
          | ret r =>
            simp only [hs, Res.bind_ret] at hf
            by_cases hre : isError r = true
            · simp [hre] at hf
            · simp only [hre, Bool.false_eq_true, if_false] at hf
              have hv' : isObject (value.put key r) = true := by rw [isObject_put]; exact hv
              obtain ⟨i1, i2, i3⟩ := ih _ hv' hf
              refine ⟨i1, ?_, ?_⟩
              · intro hk
                have hne : k ≠ key := by
                  intro e; subst e; rw [hu] at hk; exact absurd hk (by decide)
                rw [get_put_ne _ hne] at i2
                exact i2 hk
              · intro hk hmem hdef hfun hign
                by_cases hkk : k = key
                · subst hkk
                  have hr : r = clone ((sf.get k).get "default") := by
                    simp only [setDefault, hfun, Bool.false_eq_true, if_false] at hs
                    injection hs with hs
                    exact hs.symm
                  have hdefd := (clone_literal _ hdef hfun).1
                  rw [get_put_self _ hv] at i2
                  rw [i2 (by rw [hr]; simpa [isDefined] using hdefd), hr]
                · rw [get_put_ne _ hkk] at i3
                  rcases List.mem_cons.1 hmem with hm | hm
                  · exact absurd hm hkk
                  · exact i3 hk hm hdef hfun hign
        · simp only [hc, Bool.false_eq_true, if_false] at hf
          obtain ⟨i1, i2, i3⟩ := ih _ hv hf
          refine ⟨i1, i2, ?_⟩
          intro hk hmem hdef hfun hign
          rcases List.mem_cons.1 hmem with hm | hm
          · subst hm
            rw [hd, hdef, hign] at hc
            simp at hc
          · exact i3 hk hm hdef hfun hign
    · simp only [hu, Bool.false_eq_true, if_false] at hf
      obtain ⟨i1, i2, i3⟩ := ih _ hv hf
      refine ⟨i1, i2, ?_⟩
      intro hk hmem hdef hfun hign
      rcases List.mem_cons.1 hmem with hm | hm
      · subst hm
        exact absurd hk hu
      · exact i3 hk hm hdef hfun hign

theorem keys_set (k : String) (x : Val) (ps : Props) :
    (Props.set k x ps).map Prod.fst =
      if k ∈ ps.map Prod.fst then ps.map Prod.fst else ps.map Prod.fst ++ [k] := by
  induction ps with
  | nil => simp [Props.set]
  | cons p rest ih =>
    obtain ⟨k', v'⟩ := p
    by_cases hk : k' = k
    · subst hk
      simp [Props.set]
    · have hk' : ¬ k = k' := fun e => hk e.symm
      simp only [Props.set, hk, if_false, List.map_cons, ih, List.mem_cons, hk', false_or]
      split <;> simp

theorem nodup_keys_put (v : Val) (k : String) (x : Val) (hn : v.keys.Nodup) :
    (v.put k x).keys.Nodup := by
  cases v <;> try exact hn
  rename_i ps
  simp only [Val.put, Val.keys, keys_set]
  split
  · exact hn
  · rename_i hk
    simp only [Val.keys] at hn
    exact List.Nodup.append hn (List.nodup_singleton k) (by simpa using hk)

theorem fill_nodup (h : Host) (rootSpec spec sf options : Val) (keys : List String)
    (value filled : Val) (hn : value.keys.Nodup)
    (hf : fillDefaults h rootSpec spec sf options keys value = .ret (.ok filled)) :
    filled.keys.Nodup := by
  induction keys generalizing value with
  | nil =>
    simp only [fillDefaults] at hf
    injection hf with hf
    injection hf with hf
    subst hf
    exact hn
  | cons key rest ih =>
    simp only [fillDefaults] at hf
    split at hf
    · cases hg : (sf.get key).getProp "default" with
      | raise m => simp [hg] at hf
      | diverge => simp [hg] at hf
      | ret d =>
        simp only [hg, Res.bind_ret] at hf
        split at hf
        · cases hs : setDefault h (sf.get key) options with
          | raise m => simp [hs] at hf
          | diverge => simp [hs] at hf
          | ret r =>
            simp only [hs, Res.bind_ret] at hf
            split at hf
            · simp at hf
            · exact ih _ (nodup_keys_put _ _ _ hn) hf
        · exact ih _ hn hf
    · exact ih _ hn hf

theorem props_get (child : Val → Val → Val → Res Out) (rootSpec spec sf : Val) (k : String)
    (keys : List String) (value options : Val) (c : Checked)
    (hn : keys.Nodup) (hv : isObject value = true)
    (hs : scrubProps child rootSpec spec sf keys value options = .ret c)
    (he : isError c.result = false) :
    (k ∈ keys → isObject (sf.get k) = true →
      ∃ out, child (value.get k) (sf.get k) (options.put "key" (.str k)) = .ret out ∧
        isError out.result = false ∧ c.result.get k = out.result) ∧
    ((k ∉ keys ∨ isObject (sf.get k) = false) → c.result.get k = value.get k) := by
  induction keys generalizing value options with
  | nil =>
    simp only [scrubProps] at hs
    injection hs with hs
    subst hs
    exact ⟨fun hk => by simp at hk, fun _ => rfl⟩
  | cons key rest ih =>
    have hn' := (List.nodup_cons.1 hn).2
    have hkey := (List.nodup_cons.1 hn).1
    simp only [scrubProps] at hs
    by_cases ho : isObject (sf.get key) = true
    · simp only [ho, if_true] at hs
      cases hc : child (value.get key) (sf.get key) (options.put "key" (.str key)) with
      | raise m => simp [hc] at hs
      | diverge => simp [hc] at hs
      | ret out =>
        simp only [hc, Res.bind_ret] at hs
        by_cases hoe : isError out.result = true
        · simp only [hoe, if_true] at hs
          injection hs with hs
          subst hs
          simp [isError_failWith, hoe] at he
        · simp only [hoe, Bool.false_eq_true, if_false] at hs
          have hv' : isObject (value.put key out.result) = true := by
            rw [isObject_put]; exact hv
          obtain ⟨i1, i2⟩ := ih _ _ hn' hv' hs
          refine ⟨?_, ?_⟩
          · intro hk hok
            by_cases hkk : k = key
            · subst hkk
              refine ⟨out, hc, by simpa using hoe, ?_⟩
              rw [i2 (Or.inl hkey), get_put_self _ hv]
            · rcases List.mem_cons.1 hk with hm | hm
              · exact absurd hm hkk
              · have := i1 hm hok
                rw [get_put_ne _ hkk, put_put] at this
                exact this
          · intro hk
            have hkk : k ≠ key := by
              rintro rfl
              rcases hk with hk | hk
              · exact hk (List.mem_cons_self _ _)
              · rw [ho] at hk; exact absurd hk (by decide)
            have hk' : k ∉ rest ∨ isObject (sf.get k) = false := by
              rcases hk with hk | hk
              · exact Or.inl (fun hm => hk (List.mem_cons_of_mem _ hm))
              · exact Or.inr hk
            rw [i2 hk', get_put_ne _ hkk]
    · simp only [ho, Bool.false_eq_true, if_false] at hs
      obtain ⟨i1, i2⟩ := ih _ _ hn' hv hs
      refine ⟨?_, ?_⟩
      · intro hk hok
        rcases List.mem_cons.1 hk with hm | hm
        · subst hm
          exact absurd hok ho
        · exact i1 hm hok
      · intro hk
        by_cases hkk : k = key
        · subst hkk
          exact i2 (Or.inl hkey)
        · have hk' : k ∉ rest ∨ isObject (sf.get k) = false := by
            rcases hk with hk | hk
            · exact Or.inl (fun hm => hk (List.mem_cons_of_mem _ hm))
            · exact Or.inr hk
          exact i2 hk'

mutual
theorem jsonVal_json : ∀ v : Val, isJson v = true → jsonVal v = some v
  | .null, _ => rfl
  | .bool _, _ => rfl
  | .str _, _ => rfl
  | .num n, hj => by
    cases n with
    | nan => simp [isJson] at hj
    | inf neg => simp [isJson] at hj
    | fin neg m e =>
      simp only [isJson, Bool.or_eq_true, bne_iff_ne, ne_eq, Bool.and_eq_true,
        Bool.not_eq_true', beq_iff_eq] at hj
      simp only [jsonVal]
      by_cases hm : m = 0
      · rcases hj with hj | ⟨h1, h2⟩
        · exact absurd hm hj
        · subst hm; subst h1; subst h2; rfl
      · simp [hm]
  | .obj ps, hj => by
    simp only [isJson] at hj
    simp only [jsonVal, jsonProps_json ps hj]
  | .arr es, hj => by
    simp only [isJson] at hj
    simp only [jsonVal, jsonElems_json es hj]
  | .undefined, hj => by simp [isJson] at hj
  | .func _, hj => by simp [isJson] at hj
  | .regexp _, hj => by simp [isJson] at hj
  | .date _ _, hj => by simp [isJson] at hj
  | .error _, hj => by simp [isJson] at hj
theorem jsonProps_json : ∀ ps : Props, isJsonProps ps = true → jsonProps ps = ps
  | [], _ => rfl
  | (k, v) :: rest, hj => by
    simp only [isJsonProps, Bool.and_eq_true] at hj
    simp only [jsonProps, jsonVal_json v hj.1, jsonProps_json rest hj.2]
theorem jsonElems_json : ∀ es : List Val, isJsonElems es = true → jsonElems es = es
  | [], _ => rfl
  | v :: rest, hj => by
    simp only [isJsonElems, Bool.and_eq_true] at hj
    simp only [jsonElems, jsonVal_json v hj.1, jsonElems_json rest hj.2, Option.getD_some]
end

theorem clone_json (d : Val) (hj : isJson d = true) : clone d = d := by
  unfold clone
  split
  · rfl
  · rw [jsonVal_json d hj]

theorem fillDefaults_error_isError (h : Host) (rootSpec spec sf options : Val)
    (keys : List String) (value : Val) (out : Out)
    (hf : fillDefaults h rootSpec spec sf options keys value = .ret (.error out)) :
    isError out.result = true := by
  induction keys generalizing value with
  | nil => simp [fillDefaults] at hf
  | cons key rest ih =>
    simp only [fillDefaults] at hf
    split at hf
    · cases hg : (sf.get key).getProp "default" with
      | raise m => simp [hg] at hf
      | diverge => simp [hg] at hf
      | ret d =>
        simp only [hg, Res.bind_ret] at hf
        split at hf
        · cases hs : setDefault h (sf.get key) options with
          | raise m => simp [hs] at hf
          | diverge => simp [hs] at hf
          | ret r =>
            simp only [hs, Res.bind_ret] at hf
            split at hf
            · rename_i hre
              injection hf with hf
              injection hf with hf
              subst hf
              simp [isError_failWith, hre]
            · exact ih _ hf
        · exact ih _ hf
    · exact ih _ hf

theorem scrub_fieldMap_success (h : Host) (ps fm : Props) (post : Val)
    (hfm : isFieldMap fm = true)
    (hs : scrub h (.obj ps) (.obj fm) .undefined = .ret ⟨.null, post⟩) :
    ∃ filled c,
      fillDefaults h (.obj fm) (.obj fm) (.obj fm) _options (Val.obj fm).keys (.obj ps)
        = .ret (.ok filled) ∧
      scrubProps (_scrub h (.obj fm) (Val.obj fm).depth) (.obj fm) (.obj fm) (.obj fm)
        filled.keys filled _options = .ret c ∧
      isError c.result = false ∧ post = c.result := by
  unfold scrub at hs
  have ho : isObject _options = true := rfl
  rw [override_root_undefined, _scrub_fieldMap h _ hfm ps ho _options_flat] at hs
  unfold checkObject at hs
  have hstrict : (_options.get "strict").truthy = false := rfl
  have hreq : (_options.get "ignoreRequired").truthy = false := rfl
  have hrv : (_options.get "returnValue").truthy = false := rfl
  simp only [specFields_fieldMap hfm, hstrict, hreq, Bool.false_eq_true, if_false,
    Bool.not_false, if_true] at hs
  cases hfill : fillDefaults h (.obj fm) (.obj fm) (.obj fm) _options (Val.obj fm).keys
      (.obj ps) with
  | raise m => simp [hfill] at hs
  | diverge => simp [hfill] at hs
  | ret r =>
    cases r with
    | error out =>
      have := fillDefaults_error_isError _ _ _ _ _ _ _ _ hfill
      simp [hfill, this] at hs
      rw [hs.1] at this
      exact absurd this (by decide)
    | ok filled =>
      simp only [hfill, Res.bind_ret] at hs
      cases hmr : missingRequired (.obj fm) filled (Val.obj fm).keys with
      | raise m => simp [hmr] at hs
      | diverge => simp [hmr] at hs
      | ret miss =>
        cases miss with
        | some key =>
          simp [hmr, isError_fail] at hs
          have := isError_fail h (.obj fm) "missingParam" (.str key) ⟨filled, .obj fm, _options⟩
          rw [hs.1] at this
          exact absurd this (by decide)
        | none =>
          simp only [hmr, Res.bind_ret] at hs
          cases hsp : scrubProps (_scrub h (.obj fm) (Val.obj fm).depth) (.obj fm) (.obj fm)
              (.obj fm) filled.keys filled _options with
          | raise m => simp [hsp] at hs
          | diverge => simp [hsp] at hs
          | ret c =>
            simp only [hsp, Res.bind_ret] at hs
            by_cases hce : isError c.result = true
            · simp only [hce, if_true] at hs
              injection hs with hs
              injection hs with h1 h2
              rw [h1] at hce
              exact absurd hce (by decide)
            · simp only [hce, Bool.false_eq_true, if_false, hrv] at hs
              injection hs with hs
              injection hs with h1 h2
              refine ⟨filled, c, rfl, hsp, by simpa using hce, ?_⟩
              rw [← h2]
              exact scrubProps_post _ _ _ _ _ _ _ _ hsp (by simpa using hce)

/-! ## Facts on coercion, reached nodes and the option merge -/

theorem toLower_cases (c : Char) :
    c.toLower = c ∨ c ∈ "ABCDEFGHIJKLMNOPQRSTUVWXYZ".data := by
  by_cases hc : c.toNat ≥ 65 ∧ c.toNat ≤ 90
  · right
    have hcc : c = Char.ofNat c.toNat := (Char.ofNat_toNat c).symm
    obtain ⟨h1, h2⟩ := hc
    generalize c.toNat = n at hcc h1 h2
    subst hcc
    interval_cases n <;> decide
  · left
    simp only [Char.toLower, hc, if_false]

theorem lower_pres (P : Char → Char → Prop) (hrefl : ∀ c, P c c)
    (hup : ∀ c ∈ "ABCDEFGHIJKLMNOPQRSTUVWXYZ".data, P c.toLower c) (c : Char) : P c.toLower c := by
  rcases toLower_cases c with h | h
  · rw [h]; exact hrefl c
  · exact hup c h

theorem isSpace_lower (c : Char) : isSpace c.toLower = isSpace c :=
  lower_pres (fun a b => isSpace a = isSpace b) (fun _ => rfl) (by decide) c

theorem hexVal_lower (c : Char) : hexVal c.toLower = hexVal c :=
  lower_pres (fun a b => hexVal a = hexVal b) (fun _ => rfl) (by decide) c

theorem isDigit_lower (c : Char) : c.toLower.isDigit = c.isDigit :=
  lower_pres (fun a b => a.isDigit = b.isDigit) (fun _ => rfl) (by decide) c

theorem digit_lower (c : Char) (hd : c.isDigit = true) : c.toLower = c := by
  rcases toLower_cases c with h | h
  · exact h
  · exfalso
    revert hd
    revert c
    decide



theorem dropSpace_lower (l : List Char) :
    (l.map Char.toLower).dropWhile isSpace = (l.dropWhile isSpace).map Char.toLower := by
  rw [List.dropWhile_map]
  have : isSpace ∘ Char.toLower = isSpace := funext isSpace_lower
  rw [this]

theorem takeDigits_lower (l : List Char) :
    (l.map Char.toLower).takeWhile Char.isDigit = l.takeWhile Char.isDigit := by
  induction l with
  | nil => rfl
  | cons c cs ih =>
    simp only [List.map_cons, List.takeWhile_cons, isDigit_lower]
    by_cases hd : c.isDigit = true
    · simp [hd, ih, digit_lower c hd]
    · simp [hd]

theorem hexPrefix_lower (l : List Char) (acc len : Nat) :
    hexPrefix (l.map Char.toLower) acc len = hexPrefix l acc len := by
  induction l generalizing acc len with
  | nil => rfl
  | cons c cs ih =>
    simp only [List.map_cons, hexPrefix, hexVal_lower]
    cases hexVal c with
    | none => rfl
    | some d => exact ih _ _

theorem takeSign_lower (l : List Char) :
    takeSign (l.map Char.toLower) = ((takeSign l).1, (takeSign l).2.map Char.toLower) := by
  cases l with
  | nil => rfl
  | cons c cs =>
    rcases toLower_cases c with h | h
    · simp only [List.map_cons, h]
      unfold takeSign
      split <;> simp_all
    · have hs : ∀ (d : Char) (ds : List Char), d ≠ '-' → d ≠ '+' →
          takeSign (d :: ds) = (false, d :: ds) := by
        intro d ds h1 h2
        unfold takeSign
        split <;> simp_all
      have hc : ∀ c ∈ "ABCDEFGHIJKLMNOPQRSTUVWXYZ".data,
          c ≠ '-' ∧ c ≠ '+' ∧ c.toLower ≠ '-' ∧ c.toLower ≠ '+' := by decide
      obtain ⟨h1, h2, h3, h4⟩ := hc c h
      rw [List.map_cons, hs _ _ h3 h4, hs _ _ h1 h2]
      rfl

theorem lower_eq_zero (c : Char) (hc : c.toLower = '0') : c = '0' := by
  rcases toLower_cases c with h | h
  · rw [← h]; exact hc
  · exfalso
    have : ∀ c ∈ "ABCDEFGHIJKLMNOPQRSTUVWXYZ".data, c.toLower ≠ '0' := by decide
    exact this c h hc

theorem lower_eq_x (c : Char) (hc : c.toLower = 'x') : c = 'x' ∨ c = 'X' := by
  rcases toLower_cases c with h | h
  · left; rw [← h]; exact hc
  · have : ∀ c ∈ "ABCDEFGHIJKLMNOPQRSTUVWXYZ".data, c.toLower = 'x' → c = 'X' := by decide
    exact Or.inr (this c h hc)

theorem lower_ne_X (c : Char) : c.toLower ≠ 'X' := by
  intro hc
  rcases toLower_cases c with h | h
  · rw [h] at hc
    subst hc
    revert h
    decide
  · have : ∀ c ∈ "ABCDEFGHIJKLMNOPQRSTUVWXYZ".data, c.toLower ≠ 'X' := by decide
    exact this c h hc

theorem parseIntDec_lower (s : String) : parseIntDec (toLowerCase s) = parseIntDec s := by
  unfold parseIntDec toLowerCase
  simp only [dropSpace_lower, takeSign_lower]
  generalize (takeSign (s.data.dropWhile isSpace)).2 = l
  generalize (takeSign (s.data.dropWhile isSpace)).1 = neg
  have h0 : Char.toLower '0' = '0' := rfl
  have hx : Char.toLower 'x' = 'x' := rfl
  have hX : Char.toLower 'X' = 'x' := rfl
  split
  · rename_i cs hl
    cases l with
    | nil => simp at hl
    | cons c l =>
      cases l with
      | nil => simp at hl
      | cons d l =>
        simp only [List.map_cons, List.cons.injEq] at hl
        obtain ⟨hc, hd, hcs⟩ := hl
        have hc' := lower_eq_zero c hc
        subst hc' hcs
        rcases lower_eq_x d hd with hd' | hd' <;> subst hd' <;> simp only [hexPrefix_lower]
  · rename_i cs hl
    cases l with
    | nil => simp at hl
    | cons c l =>
      cases l with
      | nil => simp at hl
      | cons d l =>
        simp only [List.map_cons, List.cons.injEq] at hl
        exact absurd hl.2.1 (lower_ne_X d)
  · rename_i cs h1 h2
    have hr : ∀ cs, l = '0' :: 'x' :: cs → False := fun cs hl =>
      h1 (cs.map Char.toLower) (by rw [hl]; rfl)
    have hr2 : ∀ cs, l = '0' :: 'X' :: cs → False := fun cs hl =>
      h1 (cs.map Char.toLower) (by rw [hl]; rfl)
    rw [takeDigits_lower]
    generalize hxe : (if List.takeWhile Char.isDigit l = [] then Num.nan
      else Num.fin neg (natOfDigits (List.takeWhile Char.isDigit l)) 0) = x
    split
    · rename_i cs'
      exact absurd rfl (hr cs')
    · rename_i cs'
      exact absurd rfl (hr2 cs')
    · exact hxe.symm

theorem coerceType_noop (h : Host) (value spec options : Val)
    (hno : (options.get "doNotCoerce").truthy = true ∨ isString value = false ∨
      (spec.get "type" ≠ .str "number" ∧ spec.get "type" ≠ .str "boolean")) :
    coerceType h value spec options = value := by
  unfold coerceType
  rcases hno with h1 | h1 | ⟨h1, h2⟩
  · simp [h1]
  · simp [h1]
  · have e1 : strictEq (spec.get "type") (.str "number") = false := by
      cases ht : spec.get "type" <;> simp_all [strictEq]
    have e2 : strictEq (spec.get "type") (.str "boolean") = false := by
      cases ht : spec.get "type" <;> simp_all [strictEq]
    simp [e1, e2]

theorem scrub_doNotCoerce (h : Host) (s t : String) (ht : t = "number" ∨ t = "boolean") :
    ∃ e, scrub h (.str s) (.obj [("type", .str t)]) (.obj [("doNotCoerce", .bool true)])
        = .ret ⟨e, .str s⟩ ∧ isError e = true ∧ e.get "code" = .str "badType" := by
  have ho : override _options (.obj [("doNotCoerce", .bool true)]) true
      = .obj [("returnValue", .bool false), ("ignoreDefaults", .bool false),
          ("ignoreRequired", .bool false), ("doNotCoerce", .bool true),
          ("strict", .bool false), ("log", .bool false)] := rfl
  have hsp : isObject (Val.obj [("type", Val.str t)]) = true := rfl
  have hov : override (override _options (.obj [("doNotCoerce", .bool true)]) true)
      (.obj [("type", .str t)]) false
      = override _options (.obj [("doNotCoerce", .bool true)]) true := rfl
  have hct : coerceType h (.str s) (.obj [("type", .str t)])
      (override _options (.obj [("doNotCoerce", .bool true)]) true) = .str s :=
    coerceType_noop h _ _ _ (Or.inl rfl)
  have hm : matchEnum (.str "string") (.str t) = false := by
    rcases ht with rfl | rfl <;> decide
  have e1 : (Val.obj [("type", Val.str t)]).get "init" = .undefined := rfl
  have e2 : (Val.obj [("type", Val.str t)]).get "default" = .undefined := rfl
  have e3 : (Val.obj [("type", Val.str t)]).get "required" = .undefined := rfl
  have e4 : (Val.obj [("type", Val.str t)]).get "type" = .str t := rfl
  have hh : scrubHead h (.obj [("type", .str t)]) (.str s) (.obj [("type", .str t)])
      (override (override _options (.obj [("doNotCoerce", .bool true)]) true)
        (.obj [("type", .str t)]) false)
      = .ret (.error (fail h (.obj [("type", .str t)]) "badType" (.str "string")
          ⟨.str s, .obj [("type", .str t)],
            override _options (.obj [("doNotCoerce", .bool true)]) true⟩)) := by
    rw [hov]
    simp only [scrubHead, initStage, defaultStage, requiredStage, typeStage, e1, e2, e3, e4, hct]
    have ht2 : tipe (Val.str s) = "string" := rfl
    simp [isFunction, isUndefined, isDefined, Val.truthy, isObject, isString, hct, ht2, hm]
  have hd : (Val.obj [("type", Val.str t)]).depth + 1 = 0 + 1 + 1 := rfl
  unfold scrub
  rw [hd, _scrub_head_error h _ _ _ _ _ _ hsp hh]
  simp only [Res.bind_ret, isError_fail, if_true]
  exact ⟨_, rfl, isError_fail _ _ _ _ _, fail_code _ _ _ _ _⟩

theorem sameError_refl (e : Val) (he : isError e = true) : SameError e e :=
  ⟨he, fun _ _ => rfl⟩

theorem sameError_failWith {e e' : Val} (rootSpec : Val) (args : Args) (hs : SameError e e') :
    SameError e (failWith rootSpec e' args) := by
  obtain ⟨h1, h2⟩ := hs
  refine ⟨by rw [isError_failWith]; exact h1, fun k hk => ?_⟩
  unfold failWith
  rw [get_put_ne _ hk]
  exact h2 k hk

theorem reaches_error (h : Host) (rootSpec : Val) (n : Nat) (v s o : Val) (fuel : Nat)
    (value spec options : Val) (e p : Val)
    (hr : Reaches h rootSpec n v s o fuel value spec options)
    (hc : _scrub h rootSpec n v s o = .ret ⟨e, p⟩) (he : isError e = true) :
    ∃ e' post, _scrub h rootSpec fuel value spec options = .ret ⟨e', post⟩ ∧ SameError e e' := by
  induction hr with
  | here => exact ⟨e, p, hc, sameError_refl e he⟩
  | @inField fuel value spec options w filled pre rest key c hs hh hty hstrict hfill hreq
      hkeys hloop hok hobj hsub ih =>
    obtain ⟨e1, post, he1, hsame⟩ := ih
    have hfe : isError filled = false := by
      rw [fillDefaults_isError _ _ _ _ _ _ _ _ hfill]
      exact isError_of_tipe_object hty
    have hsame' := sameError_failWith rootSpec
      ⟨c.post.put key post, spec, c.options.put "key" (.str key)⟩ hsame
    have hsp : scrubProps (_scrub h rootSpec fuel) rootSpec spec (specFields spec) filled.keys
        filled (override options spec false)
        = .ret ⟨failWith rootSpec e1 ⟨c.post.put key post, spec, c.options.put "key" (.str key)⟩,
            c.post.put key post, c.options.put "key" (.str key)⟩ := by
      rw [hkeys, scrubProps_append _ _ _ _ _ _ _ _ hfe, hloop]
      simp [hok, scrubProps, hobj, he1, hsame.1]
    have hd : dispatch h (_scrub h rootSpec fuel) rootSpec w spec (override options spec false)
        = .ret ⟨failWith rootSpec e1 ⟨c.post.put key post, spec, c.options.put "key" (.str key)⟩,
            c.post.put key post, c.options.put "key" (.str key)⟩ := by
      simp only [dispatch, hty, if_true, checkObject, hstrict, hfill, Res.bind_ret, hreq, hsp]
    exact ⟨_, _, _scrub_dispatch_error h rootSpec fuel value spec options w _ hs hh hd
      hsame'.1, hsame'⟩
  | @inItem fuel value spec options w i c hs hh hty hobj hi hloop hok hsub ih =>
    obtain ⟨e1, post, he1, hsame⟩ := ih
    obtain ⟨rest, hrange⟩ := range_split hi
    have hsame' := sameError_failWith rootSpec
      ⟨c.post.setAt i post, spec, c.options.put "key" (.num (Num.ofNat i))⟩ hsame
    have hto : tipe w ≠ "object" := by rw [hty]; decide
    have hd : dispatch h (_scrub h rootSpec fuel) rootSpec w spec (override options spec false)
        = .ret ⟨failWith rootSpec e1
              ⟨c.post.setAt i post, spec, c.options.put "key" (.num (Num.ofNat i))⟩,
            c.post.setAt i post, c.options.put "key" (.num (Num.ofNat i))⟩ := by
      simp only [dispatch, hto, if_false, hty, if_true, checkArray, hobj, hrange]
      rw [scrubItems_append _ _ _ _ _ _ _ (isError_of_tipe_array hty), hloop]
      simp [hok, scrubItems, he1, hsame.1]
    exact ⟨_, _, _scrub_dispatch_error h rootSpec fuel value spec options w _ hs hh hd
      hsame'.1, hsame'⟩

theorem scrub_reaches_error (h : Host) (rootValue rootSpec rootOptions : Val) (n : Nat)
    (v s o : Val) (e p : Val)
    (hr : Reaches h rootSpec n v s o (rootSpec.depth + 1) rootValue rootSpec
      (override _options rootOptions true))
    (hc : _scrub h rootSpec n v s o = .ret ⟨e, p⟩) (he : isError e = true) :
    ∃ e' post, scrub h rootValue rootSpec rootOptions = .ret ⟨e', post⟩ ∧ SameError e e' := by
  obtain ⟨e', post, h1, h2⟩ := reaches_error h rootSpec n v s o _ _ _ _ e p hr hc he
  refine ⟨e', post, ?_, h2⟩
  unfold scrub
  rw [h1]
  simp [h2.1]

theorem override_not_objects (o s : Val) (a : Bool) (hn : (isObject o && isObject s) = false) :
    override o s a = o := by
  simp [override, hn]

theorem override_foldl_get (o s : Val) (a : Bool) (k : String) (ks : List String) (acc : Val)
    (hacc : isObject acc = true) :
    (ks.foldl
      (fun newObj key =>
        if a && isUndefined (o.get key) then newObj.put key (s.get key)
        else if tipe (o.get key) = tipe (s.get key) then newObj.put key (s.get key)
        else newObj) acc).get k
      = if k ∈ ks ∧ ((a = true ∧ isUndefined (o.get k) = true) ∨ tipe (o.get k) = tipe (s.get k))
        then s.get k else acc.get k := by
  induction ks generalizing acc with
  | nil => simp
  | cons key ks ih =>
    simp only [List.foldl_cons]
    by_cases hc : (a = true ∧ isUndefined (o.get key) = true) ∨ tipe (o.get key) = tipe (s.get key)
    · have hstep : (if (a && isUndefined (o.get key)) = true then acc.put key (s.get key)
          else if tipe (o.get key) = tipe (s.get key) then acc.put key (s.get key) else acc)
          = acc.put key (s.get key) := by
        rcases hc with ⟨h1, h2⟩ | h1
        · simp [h1, h2]
        · simp [h1]
      rw [hstep, ih _ (by rw [isObject_put]; exact hacc)]
      by_cases hk : k = key
      · subst hk
        simp [hc, get_put_self _ hacc]
      · simp [hk, get_put_ne _ hk]
    · have hstep : (if (a && isUndefined (o.get key)) = true then acc.put key (s.get key)
          else if tipe (o.get key) = tipe (s.get key) then acc.put key (s.get key) else acc)
          = acc := by
        simp only [not_or, not_and] at hc
        obtain ⟨h1, h2⟩ := hc
        by_cases ha : a = true
        · simp [ha, h1 ha, h2]
        · simp [ha, h2]
      rw [hstep, ih _ hacc]
      by_cases hk : k = key
      · subst hk
        simp [hc]
      · simp [hk]

theorem override_get (o s : Val) (a : Bool) (ho : isObject o = true) (hs : isObject s = true)
    (k : String) :
    (override o s a).get k
      = if k ∈ s.keys ∧ ((a = true ∧ isUndefined (o.get k) = true) ∨ tipe (o.get k) = tipe (s.get k))
        then s.get k else o.get k := by
  unfold override
  simp only [ho, hs, Bool.and_self, Bool.not_true, Bool.false_eq_true, if_false]
  exact override_foldl_get o s a k s.keys o ho

theorem isObject_override (o s : Val) (a : Bool) (ho : isObject o = true) :
    isObject (override o s a) = true := by
  unfold override
  split
  · exact ho
  · exact foldl_invariant (fun acc => isObject acc = true) _ _ _ ho (by
      intro acc key hacc
      split
      · rw [isObject_put]; exact hacc
      · split
        · rw [isObject_put]; exact hacc
        · exact hacc)

theorem keys_put_extends (v : Val) (k : String) (x : Val) : v.keys <+: (v.put k x).keys := by
  cases v with
  | obj ps =>
    simp only [Val.put, Val.keys]
    induction ps with
    | nil => simp [Props.set]
    | cons p rest ih =>
      obtain ⟨k', v'⟩ := p
      by_cases hk : k' = k
      · simp [Props.set, hk]
      · simp only [Props.set, hk, if_false, List.map_cons]
        exact (List.prefix_cons_inj _).2 ih
  | _ => simp [Val.put, Val.keys]

theorem override_keys_extends (o s : Val) (a : Bool) : o.keys <+: (override o s a).keys := by
  unfold override
  split
  · exact List.prefix_refl _
  · exact foldl_invariant (fun acc : Val => o.keys <+: acc.keys) _ _ _ (List.prefix_refl _) (by
      intro acc key hacc
      split
      · exact hacc.trans (keys_put_extends _ _ _)
      · split
        · exact hacc.trans (keys_put_extends _ _ _)
        · exact hacc)

theorem scrubProps_options (child : Val → Val → Val → Res Out) (rootSpec spec sf : Val)
    (keys : List String) (value options : Val) (c : Checked)
    (hs : scrubProps child rootSpec spec sf keys value options = .ret c)
    (k : String) (hk : k ≠ "key") : c.options.get k = options.get k := by
  induction keys generalizing value options with
  | nil =>
    simp only [scrubProps] at hs
    injection hs with hs
    subst hs
    rfl
  | cons key ks ih =>
    simp only [scrubProps] at hs
    split at hs
    · cases hc : child (value.get key) (sf.get key) (options.put "key" (.str key)) with
      | raise m => simp [hc] at hs
      | diverge => simp [hc] at hs
      | ret out =>
        simp only [hc, Res.bind_ret] at hs
        split at hs
        · injection hs with hs
          subst hs
          exact get_put_ne _ hk _
        · rw [ih _ _ hs]
          exact get_put_ne _ hk _
    · exact ih _ _ hs

theorem scrubItems_options (child : Val → Val → Val → Res Out) (rootSpec spec : Val)
    (idx : List Nat) (value options : Val) (c : Checked)
    (hs : scrubItems child rootSpec spec idx value options = .ret c)
    (k : String) (hk : k ≠ "key") : c.options.get k = options.get k := by
  induction idx generalizing value options with
  | nil =>
    simp only [scrubItems] at hs
    injection hs with hs
    subst hs
    rfl
  | cons i rest ih =>
    simp only [scrubItems] at hs
    cases hc : child (value.item i) (spec.get "value") (options.put "key" (.num (Num.ofNat i))) with
    | raise m => simp [hc] at hs
    | diverge => simp [hc] at hs
    | ret out =>
      simp only [hc, Res.bind_ret] at hs
      split at hs
      · injection hs with hs
        subst hs
        exact get_put_ne _ hk _
      · rw [ih _ _ hs]
        exact get_put_ne _ hk _

theorem builtin_ne_key {k : String} (hk : k ∈ builtinOptions) : k ≠ "key" := by
  intro h
  subst h
  revert hk
  decide

theorem booleanOptions_root (rootOptions : Val) :
    booleanOptions (override _options rootOptions true) := by
  intro k hk
  by_cases hro : isObject rootOptions = true
  · have ho : isObject _options = true := rfl
    rw [override_get _ _ _ ho hro]
    have hb : ∃ b, _options.get k = .bool b := by
      simp only [builtinOptions, List.mem_cons, List.mem_singleton, List.not_mem_nil, or_false] at hk
      rcases hk with rfl | rfl | rfl | rfl | rfl | rfl <;> exact ⟨false, rfl⟩
    obtain ⟨b, hb⟩ := hb
    split
    · rename_i hc
      rcases hc.2 with ⟨_, hu⟩ | ht
      · rw [hb] at hu
        simp [isUndefined] at hu
      · rw [hb] at ht
        cases hg : rootOptions.get k <;> simp_all [tipe]
    · exact ⟨b, hb⟩
  · rw [override_not_objects _ _ _ (by simp [hro])]
    simp only [builtinOptions, List.mem_cons, List.mem_singleton, List.not_mem_nil, or_false] at hk
    rcases hk with rfl | rfl | rfl | rfl | rfl | rfl <;> exact ⟨false, rfl⟩

theorem booleanOptions_override (o s : Val) (hb : booleanOptions o) :
    booleanOptions (override o s false) := by
  intro k hk
  obtain ⟨b, hb⟩ := hb k hk
  by_cases hos : (isObject o && isObject s) = true
  · simp only [Bool.and_eq_true] at hos
    rw [override_get _ _ _ hos.1 hos.2]
    split
    · rename_i hc
      rcases hc.2 with ⟨hf, _⟩ | ht
      · exact absurd hf (by decide)
      · rw [hb] at ht
        cases hg : s.get k <;> simp_all [tipe]
    · exact ⟨b, hb⟩
  · rw [override_not_objects _ _ _ (by simpa using hos)]
    exact ⟨b, hb⟩

theorem booleanOptions_of_get (o o' : Val) (hb : booleanOptions o)
    (hg : ∀ k, k ≠ "key" → o'.get k = o.get k) : booleanOptions o' := by
  intro k hk
  obtain ⟨b, hb⟩ := hb k hk
  exact ⟨b, by rw [hg k (builtin_ne_key hk), hb]⟩

theorem reaches_booleanOptions (h : Host) (rootSpec : Val) (n : Nat) (v s o : Val) (fuel : Nat)
    (value spec options : Val)
    (hr : Reaches h rootSpec n v s o fuel value spec options)
    (hb : booleanOptions options) : booleanOptions o := by
  induction hr with
  | here => exact hb
  | @inField fuel value spec options w filled pre rest key c hs hh hty hstrict hfill hreq
      hkeys hloop hok hobj hsub ih =>
    apply ih
    apply booleanOptions_of_get _ _ (booleanOptions_override options spec hb)
    intro k hk
    rw [get_put_ne _ hk, scrubProps_options _ _ _ _ _ _ _ _ hloop k hk]
  | @inItem fuel value spec options w i c hs hh hty hobj hi hloop hok hsub ih =>
    apply ih
    apply booleanOptions_of_get _ _ (booleanOptions_override options spec hb)
    intro k hk
    rw [get_put_ne _ hk, scrubItems_options _ _ _ _ _ _ _ hloop k hk]

theorem relaxes_override {oT oF : Val} (s : Val) (hs : isObject s = true) (hr : Relaxes oT oF) :
    Relaxes (override oT s false) (override oF s false) := by
  obtain ⟨h1, h2, h3, bT, bF, h4, h5, h6⟩ := hr
  refine ⟨isObject_override _ _ _ h1, isObject_override _ _ _ h2, ?_, ?_⟩
  · intro k hk
    rw [override_get _ _ _ h2 hs, override_get _ _ _ h1 hs, h3 k hk]
  · rw [override_get _ _ _ h2 hs, override_get _ _ _ h1 hs, h4, h5]
    by_cases hc : "strict" ∈ s.keys ∧ tipe (s.get "strict") = "boolean"
    · obtain ⟨b, hb⟩ : ∃ b, s.get "strict" = .bool b := by
        cases hg : s.get "strict" with
        | bool b => exact ⟨b, rfl⟩
        | _ => rw [hg] at hc; simp [tipe] at hc
      have hcT : "strict" ∈ s.keys ∧ ((false = true ∧ isUndefined (Val.bool bT) = true) ∨
          tipe (Val.bool bT) = tipe (s.get "strict")) := ⟨hc.1, Or.inr (by rw [hb]; rfl)⟩
      have hcF : "strict" ∈ s.keys ∧ ((false = true ∧ isUndefined (Val.bool bF) = true) ∨
          tipe (Val.bool bF) = tipe (s.get "strict")) := ⟨hc.1, Or.inr (by rw [hb]; rfl)⟩
      rw [if_pos hcT, if_pos hcF]
      exact ⟨b, b, hb, hb, id⟩
    · have hn : ∀ b : Bool, ¬("strict" ∈ s.keys ∧ ((false = true ∧ isUndefined (Val.bool b) = true) ∨
          tipe (Val.bool b) = tipe (s.get "strict"))) := by
        rintro b ⟨g1, ⟨g2, _⟩ | g2⟩
        · exact absurd g2 (by decide)
        · exact hc ⟨g1, g2.symm⟩
      rw [if_neg (hn bT), if_neg (hn bF)]
      exact ⟨bT, bF, rfl, rfl, h6⟩

theorem relaxes_put {oT oF : Val} (x : Val) (hr : Relaxes oT oF) :
    Relaxes (oT.put "key" x) (oF.put "key" x) := by
  obtain ⟨h1, h2, h3, bT, bF, h4, h5, h6⟩ := hr
  refine ⟨by rw [isObject_put]; exact h1, by rw [isObject_put]; exact h2, ?_, bT, bF, ?_, ?_, h6⟩
  · intro k hk
    by_cases hkk : k = "key"
    · subst hkk
      rw [get_put_self _ h2, get_put_self _ h1]
    · rw [get_put_ne _ hkk, get_put_ne _ hkk]
      exact h3 k hk
  · rw [get_put_ne _ (by decide)]; exact h4
  · rw [get_put_ne _ (by decide)]; exact h5

theorem funcs_find {k : String} {ps : Props} {x : Val} (hf : Props.find k ps = some x)
    {id : Nat} (hid : id ∈ funcs x) : id ∈ funcsProps ps := by
  induction ps with
  | nil => simp [Props.find] at hf
  | cons p rest ih =>
    obtain ⟨k', v'⟩ := p
    simp only [funcsProps, List.mem_append]
    by_cases hk : k' = k
    · simp only [Props.find, hk, if_true, Option.some.injEq] at hf
      subst hf
      exact Or.inl hid
    · simp only [Props.find, hk, if_false] at hf
      exact Or.inr (ih hf)

theorem funcs_get (v : Val) (k : String) {id : Nat} (hid : id ∈ funcs (v.get k)) :
    id ∈ funcs v := by
  cases v with
  | obj ps =>
    simp only [Val.get] at hid
    cases hf : Props.find k ps with
    | none => simp [hf, funcs] at hid
    | some x =>
      simp only [hf, Option.getD_some] at hid
      simp only [funcs]
      exact funcs_find hf hid
  | error ps =>
    simp only [Val.get] at hid
    cases hf : Props.find k ps with
    | none =>
      simp only [hf] at hid
      split at hid <;> simp [funcs] at hid
    | some x =>
      simp only [hf] at hid
      simp only [funcs]
      exact funcs_find hf hid
  | _ => simp [Val.get, funcs] at hid

theorem ignoresStrict_get {h : Host} {spec : Val} (hig : IgnoresStrict h spec) (k : String) :
    IgnoresStrict h (spec.get k) :=
  fun id hid => hig id (funcs_get spec k hid)

theorem ignoresStrict_specFields {h : Host} {spec : Val} (hig : IgnoresStrict h spec) :
    IgnoresStrict h (specFields spec) := by
  unfold specFields
  split
  · exact ignoresStrict_get hig "value"
  · exact hig

theorem callClientFunction_agree (h : Host) (fn : Val) (hig : IgnoresStrict h fn) (v : Val)
    {o o' : Val} (ha : AgreeButStrict o o') :
    callClientFunction h fn v o' = callClientFunction h fn v o := by
  cases fn with
  | func id => simp only [callClientFunction, hig id (by simp [funcs]) v o o' ha]
  | _ => rfl

theorem setDefault_agree (h : Host) (spec : Val) (hig : IgnoresStrict h spec) {o o' : Val}
    (ha : AgreeButStrict o o') : setDefault h spec o' = setDefault h spec o := by
  simp only [setDefault, callSetter,
    callClientFunction_agree h _ (ignoresStrict_get hig "default") _ ha]

theorem orFail_ok {rootSpec : Val} {r : Res Val} {args : Args} {v : Val}
    (ho : orFail rootSpec r args = .ret (.ok v)) : r = .ret v ∧ isError v = false := by
  cases r with
  | raise m => simp [orFail] at ho
  | diverge => simp [orFail] at ho
  | ret x =>
    simp only [orFail, Res.bind_ret] at ho
    split at ho
    · simp at ho
    · rename_i hx
      injection ho with ho
      injection ho with ho
      subst ho
      exact ⟨rfl, by simpa using hx⟩

theorem orFail_of_ok (rootSpec : Val) (args : Args) {v : Val} (he : isError v = false) :
    orFail rootSpec (.ret v) args = .ret (.ok v) := by
  simp [orFail, he]

theorem orFail_relax {rootSpec : Val} {r : Res Val} {args args' : Args} {v : Val}
    (ho : orFail rootSpec r args = .ret (.ok v)) : orFail rootSpec r args' = .ret (.ok v) := by
  obtain ⟨h1, h2⟩ := orFail_ok ho
  rw [h1]
  exact orFail_of_ok _ _ h2

theorem initStage_relax (h : Host) (rootSpec value spec : Val) (hig : IgnoresStrict h spec)
    {o o' : Val} (ha : AgreeButStrict o o') {v : Val}
    (hk : initStage h rootSpec value spec o = .ret (.ok v)) :
    initStage h rootSpec value spec o' = .ret (.ok v) := by
  unfold initStage at hk ⊢
  split
  · rename_i hf
    simp only [hf, if_true] at hk
    simp only [callSetter, callClientFunction_agree h _ (ignoresStrict_get hig _) _ ha]
    exact orFail_relax hk
  · rename_i hf
    simp only [hf, if_false] at hk
    exact hk

theorem setterStage_relax (h : Host) (rootSpec value spec : Val) (hig : IgnoresStrict h spec)
    {o o' : Val} (ha : AgreeButStrict o o') {v : Val}
    (hk : setterStage h rootSpec value spec o = .ret (.ok v)) :
    setterStage h rootSpec value spec o' = .ret (.ok v) := by
  unfold setterStage at hk ⊢
  split
  · rename_i hf
    simp only [hf, if_true] at hk
    simp only [callSetter, callClientFunction_agree h _ (ignoresStrict_get hig _) _ ha]
    exact orFail_relax hk
  · rename_i hf
    simp only [hf, if_false] at hk
    exact hk

theorem finishStage_relax (h : Host) (rootSpec value spec : Val) (hig : IgnoresStrict h spec)
    {o o' : Val} (ha : AgreeButStrict o o') {v : Val}
    (hk : finishStage h rootSpec value spec o = .ret (.ok v)) :
    finishStage h rootSpec value spec o' = .ret (.ok v) := by
  unfold finishStage at hk ⊢
  split
  · rename_i hf
    simp only [hf, if_true] at hk
    simp only [callSetter, callClientFunction_agree h _ (ignoresStrict_get hig _) _ ha]
    exact orFail_relax hk
  · rename_i hf
    simp only [hf, if_false] at hk
    exact hk

theorem defaultStage_relax (h : Host) (rootSpec value spec : Val) (hig : IgnoresStrict h spec)
    {o o' : Val} (ha : AgreeButStrict o o') {v : Val}
    (hk : defaultStage h rootSpec value spec o = .ret (.ok v)) :
    defaultStage h rootSpec value spec o' = .ret (.ok v) := by
  unfold defaultStage at hk ⊢
  rw [ha "IgnoreDefaults" (by decide), setDefault_agree h _ hig ha]
  split
  · rename_i hf
    simp only [hf, if_true] at hk
    exact orFail_relax hk
  · rename_i hf
    simp only [hf, if_false] at hk
    exact hk

theorem requiredStage_relax (h : Host) (rootSpec value spec : Val)
    {o o' : Val} (ha : AgreeButStrict o o') {v : Val}
    (hk : requiredStage h rootSpec value spec o = .ret (.ok v)) :
    requiredStage h rootSpec value spec o' = .ret (.ok v) := by
  unfold requiredStage at hk ⊢
  rw [ha "ignoreRequire" (by decide)]
  split
  · rename_i hf
    simp [hf] at hk
  · rename_i hf
    simp only [hf, if_false] at hk
    exact hk

theorem coerceType_agree (h : Host) (value spec : Val) {o o' : Val} (ha : AgreeButStrict o o') :
    coerceType h value spec o' = coerceType h value spec o := by
  unfold coerceType
  rw [ha "doNotCoerce" (by decide)]

theorem typeStage_relax (h : Host) (rootSpec value spec : Val)
    {o o' : Val} (ha : AgreeButStrict o o') {v : Val}
    (hk : typeStage h rootSpec value spec o = .ret (.ok v)) :
    typeStage h rootSpec value spec o' = .ret (.ok v) := by
  unfold typeStage at hk ⊢
  rw [coerceType_agree h _ _ ha]
  split
  · rename_i hf
    simp only [hf, if_true] at hk
    split
    · rename_i hf2
      simp [hf2] at hk
    · rename_i hf2
      simp only [hf2, if_false] at hk
      split
      · rename_i hf3
        simp [hf3] at hk
      · rename_i hf3
        simp only [hf3, if_false] at hk
        exact hk
  · rename_i hf
    simp only [hf, if_false] at hk
    exact hk

theorem callValidator_agree (h : Host) (fn : Val) (hig : IgnoresStrict h fn) (v : Val)
    {o o' : Val} (ha : AgreeButStrict o o') :
    callValidator h fn v o' = callValidator h fn v o := by
  simp only [callValidator, callClientFunction_agree h _ hig _ ha]

theorem validateStage_relax (h : Host) (rootSpec value spec : Val) (hig : IgnoresStrict h spec)
    {o o' : Val} (ha : AgreeButStrict o o') {v : Val}
    (hk : validateStage h rootSpec value spec o = .ret (.ok v)) :
    validateStage h rootSpec value spec o' = .ret (.ok v) := by
  unfold validateStage at hk ⊢
  rw [callValidator_agree h _ (ignoresStrict_get hig _) _ ha]
  by_cases hf : isFunction (spec.get "validate") = true
  · simp only [hf, if_true] at hk ⊢
    cases hc : callValidator h (spec.get "validate") value o with
    | raise m => simp [hc] at hk
    | diverge => simp [hc] at hk
    | ret err =>
      simp only [hc, Res.bind_ret] at hk ⊢
      by_cases ht : err.truthy = true
      · simp [ht] at hk
      · simp only [ht, if_false] at hk ⊢
        exact hk
  · simp only [hf, if_false] at hk ⊢
    exact hk

theorem andThen_ok_inv {α β : Type} {r : Res (Except Val α)} {k : α → Res (Except Val β)}
    {b : β} (hk : Res.andThen r k = .ret (.ok b)) :
    ∃ a, r = .ret (.ok a) ∧ k a = .ret (.ok b) := by
  cases r with
  | raise m => simp at hk
  | diverge => simp at hk
  | ret x =>
    cases x with
    | error e => simp at hk
    | ok a => exact ⟨a, rfl, by simpa using hk⟩

theorem scrubHead_relax (h : Host) (rootSpec value spec : Val) (hig : IgnoresStrict h spec)
    {o o' : Val} (ha : AgreeButStrict o o') {v : Val}
    (hk : scrubHead h rootSpec value spec o = .ret (.ok v)) :
    scrubHead h rootSpec value spec o' = .ret (.ok v) := by
  unfold scrubHead at hk ⊢
  obtain ⟨v1, h1, hk⟩ := andThen_ok_inv hk
  obtain ⟨v2, h2, hk⟩ := andThen_ok_inv hk
  obtain ⟨v3, h3, hk⟩ := andThen_ok_inv hk
  obtain ⟨v4, h4, hk⟩ := andThen_ok_inv hk
  rw [initStage_relax h _ _ _ hig ha h1, Res.andThen_ok,
    defaultStage_relax h _ _ _ hig ha h2, Res.andThen_ok,
    requiredStage_relax h _ _ _ ha h3, Res.andThen_ok,
    typeStage_relax h _ _ _ ha h4, Res.andThen_ok]
  exact setterStage_relax h _ _ _ hig ha hk

theorem scrubTail_relax (h : Host) (rootSpec value spec : Val) (hig : IgnoresStrict h spec)
    {o o' : Val} (ha : AgreeButStrict o o') {v : Val}
    (hk : scrubTail h rootSpec value spec o = .ret (.ok v)) :
    scrubTail h rootSpec value spec o' = .ret (.ok v) := by
  unfold scrubTail at hk ⊢
  obtain ⟨v1, h1, hk⟩ := andThen_ok_inv hk
  rw [validateStage_relax h _ _ _ hig ha h1, Res.andThen_ok]
  exact finishStage_relax h _ _ _ hig ha hk

theorem checkScalar_relax (h : Host) (rootSpec value spec o o' : Val)
    (he : isError (checkScalar h rootSpec value spec o) = false) :
    checkScalar h rootSpec value spec o' = checkScalar h rootSpec value spec o := by
  unfold checkScalar at he ⊢
  by_cases h1 : (!isObject spec || isNull value || isUndefined value) = true
  · simp only [h1, if_true]
  · simp only [h1, if_false] at he ⊢
    by_cases h2 : tipe (spec.get "value") = "undefined" ∨ tipe (spec.get "value") = "function"
    · simp only [h2, if_true]
    · simp only [h2, if_false] at he ⊢
      by_cases h3 : tipe (spec.get "value") = "string"
      · simp only [h3, if_true] at he ⊢
        by_cases h4 : matchEnum value (spec.get "value") = true
        · simp only [h4, if_true]
        · simp [h4, isError_fail] at he
      · simp only [h3, if_false] at he ⊢
        by_cases h4 : tipe (spec.get "value") = "number" ∨ tipe (spec.get "value") = "boolean"
        · simp only [h4, if_true] at he ⊢
          by_cases h5 : strictEq (spec.get "value") value = true
          · simp only [h5, if_true]
          · simp [h5, isError_fail] at he
        · simp [h4, isError_fail] at he

theorem fillDefaults_relax (h : Host) (rootSpec spec sf : Val) (hig : IgnoresStrict h sf)
    {o o' : Val} (ha : AgreeButStrict o o') (keys : List String) (value filled : Val)
    (hf : fillDefaults h rootSpec spec sf o keys value = .ret (.ok filled)) :
    fillDefaults h rootSpec spec sf o' keys value = .ret (.ok filled) := by
  induction keys generalizing value with
  | nil => simpa [fillDefaults] using hf
  | cons key rest ih =>
    simp only [fillDefaults] at hf ⊢
    rw [ha "ignoreDefaults" (by decide), setDefault_agree h _ (ignoresStrict_get hig key) ha]
    split
    · rename_i hu
      simp only [hu, if_true] at hf
      cases hg : (sf.get key).getProp "default" with
      | raise m => simp [hg] at hf
      | diverge => simp [hg] at hf
      | ret d =>
        simp only [hg, Res.bind_ret] at hf ⊢
        split
        · rename_i hd
          simp only [hd, if_true] at hf
          cases hs : setDefault h (sf.get key) o with
          | raise m => simp [hs] at hf
          | diverge => simp [hs] at hf
          | ret r =>
            simp only [hs, Res.bind_ret] at hf ⊢
            split
            · rename_i hre
              simp [hre] at hf
            · rename_i hre
              simp only [hre, if_false] at hf
              exact ih _ hf
        · rename_i hd
          simp only [hd, if_false] at hf
          exact ih _ hf
    · rename_i hu
      simp only [hu, if_false] at hf
      exact ih _ hf

theorem scrubProps_relax (h : Host) (child : Val → Val → Val → Res Out)
    (hchild : ∀ (v s oT oF r p : Val), IgnoresStrict h s → Relaxes oT oF →
      child v s oT = .ret ⟨r, p⟩ → isError r = false → child v s oF = .ret ⟨r, p⟩)
    (rootSpec spec sf : Val) (hig : IgnoresStrict h sf) (keys : List String) (value oT oF : Val) (cT : Checked)
    (hr : Relaxes oT oF)
    (hs : scrubProps child rootSpec spec sf keys value oT = .ret cT)
    (he : isError cT.result = false) :
    ∃ oF', scrubProps child rootSpec spec sf keys value oF = .ret ⟨cT.result, cT.post, oF'⟩ ∧
      Relaxes cT.options oF' := by
  induction keys generalizing value oT oF with
  | nil =>
    simp only [scrubProps] at hs ⊢
    injection hs with hs
    subst hs
    exact ⟨oF, rfl, hr⟩
  | cons key rest ih =>
    simp only [scrubProps] at hs ⊢
    split
    · rename_i hobj
      simp only [hobj, if_true] at hs
      cases hc : child (value.get key) (sf.get key) (oT.put "key" (.str key)) with
      | raise m => simp [hc] at hs
      | diverge => simp [hc] at hs
      | ret out =>
        simp only [hc, Res.bind_ret] at hs
        by_cases hoe : isError out.result = true
        · simp only [hoe, if_true] at hs
          injection hs with hs
          subst hs
          simp [isError_failWith, hoe] at he
        · simp only [hoe, if_false] at hs
          have hcF := hchild _ _ _ _ out.result out.post (ignoresStrict_get hig key)
            (relaxes_put (.str key) hr) hc (by simpa using hoe)
          simp only [hcF, Res.bind_ret, hoe, if_false]
          exact ih _ _ _ (relaxes_put (.str key) hr) hs
    · rename_i hobj
      simp only [hobj, if_false] at hs
      exact ih _ _ _ hr hs

theorem scrubItems_relax (h : Host) (child : Val → Val → Val → Res Out)
    (hchild : ∀ (v s oT oF r p : Val), IgnoresStrict h s → Relaxes oT oF →
      child v s oT = .ret ⟨r, p⟩ → isError r = false → child v s oF = .ret ⟨r, p⟩)
    (rootSpec spec : Val) (hig : IgnoresStrict h spec) (idx : List Nat) (value oT oF : Val) (cT : Checked)
    (hr : Relaxes oT oF)
    (hs : scrubItems child rootSpec spec idx value oT = .ret cT)
    (he : isError cT.result = false) :
    ∃ oF', scrubItems child rootSpec spec idx value oF = .ret ⟨cT.result, cT.post, oF'⟩ ∧
      Relaxes cT.options oF' := by
  induction idx generalizing value oT oF with
  | nil =>
    simp only [scrubItems] at hs ⊢
    injection hs with hs
    subst hs
    exact ⟨oF, rfl, hr⟩
  | cons i rest ih =>
    simp only [scrubItems] at hs ⊢
    cases hc : child (value.item i) (spec.get "value") (oT.put "key" (.num (Num.ofNat i))) with
    | raise m => simp [hc] at hs
    | diverge => simp [hc] at hs
    | ret out =>
      simp only [hc, Res.bind_ret] at hs
      by_cases hoe : isError out.result = true
      · simp only [hoe, if_true] at hs
        injection hs with hs
        subst hs
        simp [isError_failWith, hoe] at he
      · simp only [hoe, if_false] at hs
        have hcF := hchild _ _ _ _ out.result out.post (ignoresStrict_get hig "value")
          (relaxes_put (.num (Num.ofNat i)) hr) hc (by simpa using hoe)
        simp only [hcF, Res.bind_ret, hoe, if_false]
        exact ih _ _ _ (relaxes_put (.num (Num.ofNat i)) hr) hs

theorem orFail_error {rootSpec : Val} {r : Res Val} {args : Args} {e : Val}
    (ho : orFail rootSpec r args = .ret (.error e)) : isError e = true := by
  cases r with
  | raise m => simp [orFail] at ho
  | diverge => simp [orFail] at ho
  | ret x =>
    simp only [orFail, Res.bind_ret] at ho
    by_cases hx : isError x = true
    · simp only [hx, if_true, Res.ret.injEq, Except.error.injEq] at ho
      subst ho
      rw [isError_failWith]
      exact hx
    · simp [hx] at ho

theorem andThen_error_inv {α β : Type} {r : Res (Except Val α)} {k : α → Res (Except Val β)}
    {e : Val} (hk : Res.andThen r k = .ret (.error e)) :
    r = .ret (.error e) ∨ ∃ a, r = .ret (.ok a) ∧ k a = .ret (.error e) := by
  cases r with
  | raise m => simp at hk
  | diverge => simp at hk
  | ret x =>
    cases x with
    | error e' =>
      simp only [Res.andThen_error, Res.ret.injEq, Except.error.injEq] at hk
      subst hk
      exact Or.inl rfl
    | ok a => exact Or.inr ⟨a, rfl, by simpa using hk⟩

theorem initStage_error {h : Host} {rootSpec value spec o e : Val}
    (hk : initStage h rootSpec value spec o = .ret (.error e)) : isError e = true := by
  unfold initStage at hk
  by_cases hf : isFunction (spec.get "init") = true
  · simp only [hf, if_true] at hk
    exact orFail_error hk
  · simp [hf] at hk

theorem setterStage_error {h : Host} {rootSpec value spec o e : Val}
    (hk : setterStage h rootSpec value spec o = .ret (.error e)) : isError e = true := by
  unfold setterStage at hk
  by_cases hf : isFunction (spec.get "value") = true
  · simp only [hf, if_true] at hk
    exact orFail_error hk
  · simp [hf] at hk

theorem finishStage_error {h : Host} {rootSpec value spec o e : Val}
    (hk : finishStage h rootSpec value spec o = .ret (.error e)) : isError e = true := by
  unfold finishStage at hk
  by_cases hf : isFunction (spec.get "finish") = true
  · simp only [hf, if_true] at hk
    exact orFail_error hk
  · simp [hf] at hk

theorem defaultStage_error {h : Host} {rootSpec value spec o e : Val}
    (hk : defaultStage h rootSpec value spec o = .ret (.error e)) : isError e = true := by
  unfold defaultStage at hk
  split at hk
  · exact orFail_error hk
  · simp at hk

theorem requiredStage_error {h : Host} {rootSpec value spec o e : Val}
    (hk : requiredStage h rootSpec value spec o = .ret (.error e)) : isError e = true := by
  unfold requiredStage at hk
  split at hk
  · simp only [Res.ret.injEq, Except.error.injEq] at hk
    subst hk
    exact isError_fail _ _ _ _ _
  · simp at hk

theorem typeStage_error {h : Host} {rootSpec value spec o e : Val}
    (hk : typeStage h rootSpec value spec o = .ret (.error e)) : isError e = true := by
  unfold typeStage at hk
  split at hk
  · split at hk
    · simp only [Res.ret.injEq, Except.error.injEq] at hk
      subst hk
      exact isError_fail _ _ _ _ _
    · split at hk
      · simp only [Res.ret.injEq, Except.error.injEq] at hk
        subst hk
        exact isError_fail _ _ _ _ _
      · simp at hk
  · simp at hk

theorem callValidator_ret {h : Host} {fn v o e : Val}
    (hk : callValidator h fn v o = .ret e) : e = .null ∨ isError e = true := by
  unfold callValidator at hk
  cases hc : callClientFunction h fn v o with
  | raise m => simp [hc] at hk
  | diverge => simp [hc] at hk
  | ret err =>
    simp only [hc, Res.bind_ret] at hk
    by_cases ht : err.truthy = true
    · simp only [ht, if_true, Res.ret.injEq] at hk
      right
      subst hk
      rw [isError_put]
      by_cases he : isError err = true
      · simp [he]
      · have hne : ∃ ps, newError h err = .error ps := by
          cases err <;> simp [newError]
        obtain ⟨ps, hps⟩ := hne
        have he' : isError err = false := by simpa using he
        simp only [he', Bool.not_false, if_true, hps]
        rfl
    · simp only [ht, Bool.false_eq_true, if_false, Res.ret.injEq] at hk
      exact Or.inl hk.symm

theorem validateStage_error {h : Host} {rootSpec value spec o e : Val}
    (hk : validateStage h rootSpec value spec o = .ret (.error e)) : isError e = true := by
  unfold validateStage at hk
  by_cases hf : isFunction (spec.get "validate") = true
  · simp only [hf, if_true] at hk
    cases hc : callValidator h (spec.get "validate") value o with
    | raise m => simp [hc] at hk
    | diverge => simp [hc] at hk
    | ret err =>
      simp only [hc, Res.bind_ret] at hk
      by_cases ht : err.truthy = true
      · simp only [ht, if_true, Res.ret.injEq, Except.error.injEq] at hk
        subst hk
        rw [isError_failWith]
        rcases callValidator_ret hc with hn | hn
        · subst hn
          exact absurd ht (by decide)
        · exact hn
      · simp [ht] at hk
  · simp [hf] at hk

theorem scrubHead_error {h : Host} {rootSpec value spec o e : Val}
    (hk : scrubHead h rootSpec value spec o = .ret (.error e)) : isError e = true := by
  unfold scrubHead at hk
  rcases andThen_error_inv hk with h1 | ⟨v1, _, hk⟩
  · exact initStage_error h1
  rcases andThen_error_inv hk with h1 | ⟨v2, _, hk⟩
  · exact defaultStage_error h1
  rcases andThen_error_inv hk with h1 | ⟨v3, _, hk⟩
  · exact requiredStage_error h1
  rcases andThen_error_inv hk with h1 | ⟨v4, _, hk⟩
  · exact typeStage_error h1
  exact setterStage_error hk

theorem scrubTail_error {h : Host} {rootSpec value spec o e : Val}
    (hk : scrubTail h rootSpec value spec o = .ret (.error e)) : isError e = true := by
  unfold scrubTail at hk
  rcases andThen_error_inv hk with h1 | ⟨v1, _, hk⟩
  · exact validateStage_error h1
  exact finishStage_error hk

theorem checkObject_relax (h : Host) (child : Val → Val → Val → Res Out)
    (hchild : ∀ (v s oT oF r p : Val), IgnoresStrict h s → Relaxes oT oF →
      child v s oT = .ret ⟨r, p⟩ → isError r = false → child v s oF = .ret ⟨r, p⟩)
    (rootSpec value spec : Val) (hig : IgnoresStrict h spec) (oT oF : Val) (cT : Checked) (hr : Relaxes oT oF)
    (hs : checkObject h child rootSpec value spec oT = .ret cT)
    (he : isError cT.result = false) :
    ∃ oF', checkObject h child rootSpec value spec oF = .ret ⟨cT.result, cT.post, oF'⟩ ∧
      Relaxes cT.options oF' := by
  obtain ⟨h1, h2, ha, bT, bF, h4, h5, h6⟩ := hr
  have hr : Relaxes oT oF := ⟨h1, h2, ha, bT, bF, h4, h5, h6⟩
  unfold checkObject at hs ⊢
  -- the strict check found nothing
  have hstT : (if (oT.get "strict").truthy then unknownKey (specFields spec) value.keys
      else none) = none := by
    cases hu : (if (oT.get "strict").truthy then unknownKey (specFields spec) value.keys
      else none) with
    | none => rfl
    | some key =>
      rw [hu] at hs
      simp only [Res.ret.injEq] at hs
      subst hs
      simp [isError_fail] at he
  have hstF : (if (oF.get "strict").truthy then unknownKey (specFields spec) value.keys
      else none) = none := by
    rw [h5]
    rw [h4] at hstT
    cases bF with
    | false => rfl
    | true =>
      rw [h6 rfl] at hstT
      exact hstT
  rw [hstT] at hs
  rw [hstF]
  dsimp only at hs ⊢
  cases hfill : fillDefaults h rootSpec spec (specFields spec) oT (specFields spec).keys value with
  | raise m => simp [hfill] at hs
  | diverge => simp [hfill] at hs
  | ret filled =>
    cases filled with
    | error out =>
      have hoe := fillDefaults_error_isError _ _ _ _ _ _ _ _ hfill
      simp only [hfill, Res.bind_ret, Res.ret.injEq] at hs
      subst hs
      rw [hoe] at he
      exact absurd he (by decide)
    | ok filled =>
      rw [fillDefaults_relax h _ _ _ (ignoresStrict_specFields hig) ha _ _ _ hfill]
      rw [hfill] at hs
      dsimp only [Res.bind_ret] at hs ⊢
      rw [ha "ignoreRequired" (by decide)]
      cases hm : (if !(oT.get "ignoreRequired").truthy
          then missingRequired (specFields spec) filled (specFields spec).keys
          else .ret none) with
      | raise m => rw [hm] at hs; simp at hs
      | diverge => rw [hm] at hs; simp at hs
      | ret missing =>
        rw [hm] at hs
        dsimp only [Res.bind_ret] at hs ⊢
        cases missing with
        | some key =>
          simp only [Res.ret.injEq] at hs
          subst hs
          simp [isError_fail] at he
        | none =>
          simp only at hs ⊢
          exact scrubProps_relax h child hchild _ _ _ (ignoresStrict_specFields hig) _ _ _ _ _ hr hs he

theorem dispatch_relax (h : Host) (child : Val → Val → Val → Res Out)
    (hchild : ∀ (v s oT oF r p : Val), IgnoresStrict h s → Relaxes oT oF →
      child v s oT = .ret ⟨r, p⟩ → isError r = false → child v s oF = .ret ⟨r, p⟩)
    (rootSpec value spec : Val) (hig : IgnoresStrict h spec) (oT oF : Val) (cT : Checked) (hr : Relaxes oT oF)
    (hs : dispatch h child rootSpec value spec oT = .ret cT)
    (he : isError cT.result = false) :
    ∃ oF', dispatch h child rootSpec value spec oF = .ret ⟨cT.result, cT.post, oF'⟩ ∧
      Relaxes cT.options oF' := by
  unfold dispatch at hs ⊢
  by_cases h1 : tipe value = "object"
  · simp only [h1, if_true] at hs ⊢
    exact checkObject_relax h child hchild _ _ _ hig _ _ _ hr hs he
  · simp only [h1, if_false] at hs ⊢
    by_cases h2 : tipe value = "array"
    · simp only [h2, if_true] at hs ⊢
      unfold checkArray at hs ⊢
      by_cases h3 : isObject (spec.get "value") = true
      · simp only [h3, if_true] at hs ⊢
        exact scrubItems_relax h child hchild _ _ hig _ _ _ _ _ hr hs he
      · simp only [h3, Bool.false_eq_true, if_false, Res.ret.injEq] at hs ⊢
        subst hs
        exact ⟨oF, rfl, hr⟩
    · simp only [h2, if_false, Res.ret.injEq] at hs ⊢
      subst hs
      exact ⟨oF, by rw [checkScalar_relax h _ _ _ _ _ he], hr⟩

theorem _scrub_relax (h : Host) (rootSpec : Val) (fuel : Nat) :
    ∀ (value spec oT oF r p : Val), IgnoresStrict h spec → Relaxes oT oF →
      _scrub h rootSpec fuel value spec oT = .ret ⟨r, p⟩ → isError r = false →
      _scrub h rootSpec fuel value spec oF = .ret ⟨r, p⟩ := by
  induction fuel with
  | zero =>
    intro value spec oT oF r p _ _ hs
    simp [_scrub] at hs
  | succ fuel ih =>
    intro value spec oT oF r p hig hr hs he
    rw [_scrub] at hs ⊢
    by_cases hsp : isObject spec = true
    · simp only [hsp, Bool.not_true, Bool.false_eq_true, if_false] at hs ⊢
      have hr' := relaxes_override spec hsp hr
      cases hh : scrubHead h rootSpec value spec (override oT spec false) with
      | raise m => simp [hh] at hs
      | diverge => simp [hh] at hs
      | ret head =>
        cases head with
        | error e =>
          -- a failing stage: the result is the error
          have he' : isError e = true := scrubHead_error hh
          simp only [hh, Res.bind_ret, Res.ret.injEq, Out.mk.injEq] at hs
          rw [← hs.1, he'] at he
          exact absurd he (by decide)
        | ok v =>
          rw [scrubHead_relax h _ _ _ hig hr'.2.2.1 hh]
          simp only [hh, Res.bind_ret] at hs ⊢
          cases hd : dispatch h (_scrub h rootSpec fuel) rootSpec v spec (override oT spec false) with
          | raise m => simp [hd] at hs
          | diverge => simp [hd] at hs
          | ret c =>
            simp only [hd, Res.bind_ret] at hs
            by_cases hce : isError c.result = true
            · simp only [hce, if_true, Res.ret.injEq, Out.mk.injEq] at hs
              rw [← hs.1, hce] at he
              exact absurd he (by decide)
            · simp only [hce, Bool.false_eq_true, if_false] at hs
              obtain ⟨oF', hdF, hrel⟩ := dispatch_relax h _ ih _ _ _ hig _ _ c hr' hd
                (by simpa using hce)
              simp only [hdF, Res.bind_ret, hce, Bool.false_eq_true, if_false]
              cases ht : scrubTail h rootSpec c.result spec c.options with
              | raise m => simp [ht] at hs
              | diverge => simp [ht] at hs
              | ret tail =>
                cases tail with
                | error e =>
                  have he' : isError e = true := scrubTail_error ht
                  simp only [ht, Res.bind_ret, Res.ret.injEq, Out.mk.injEq] at hs
                  rw [← hs.1, he'] at he
                  exact absurd he (by decide)
                | ok res =>
                  rw [scrubTail_relax h _ _ _ hig hrel.2.2.1 ht]
                  simp only [ht, Res.bind_ret] at hs ⊢
                  exact hs
    · simp only [hsp, Bool.not_false, if_true] at hs ⊢
      exact hs

/-! ## The details of an error and the frames that write them -/

theorem details_spec (rs : Val) (args : Args) : (details rs args).get "spec" = args.spec := by
  simp only [details]
  by_cases hk : ((prune args.options).get "key").truthy = true
  · simp only [hk, if_true]; rfl
  · simp only [hk, if_false, Bool.false_eq_true]; rfl

theorem details_value (rs : Val) (args : Args) : (details rs args).get "value" = args.value := by
  simp only [details]
  by_cases hk : ((prune args.options).get "key").truthy = true
  · simp only [hk, if_true]; rfl
  · simp only [hk, if_false, Bool.false_eq_true]; rfl

theorem details_rootSpec (rs : Val) (args : Args) : (details rs args).get "rootSpec" = rs := by
  simp only [details]
  by_cases hk : ((prune args.options).get "key").truthy = true
  · simp only [hk, if_true]; rfl
  · simp only [hk, if_false, Bool.false_eq_true]; rfl

theorem details_key (rs : Val) (args : Args) :
    (details rs args).get "key" =
      if ((prune args.options).get "key").truthy then (prune args.options).get "key"
      else .undefined := by
  simp only [details]
  by_cases hk : ((prune args.options).get "key").truthy = true
  · simp only [hk, if_true]; rfl
  · simp only [hk, if_false, Bool.false_eq_true]; rfl

theorem details_options (rs : Val) (args : Args) :
    (details rs args).get "options" =
      if ((prune args.options).get "key").truthy then (prune args.options).delete "key"
      else prune args.options := by
  simp only [details]
  by_cases hk : ((prune args.options).get "key").truthy = true
  · simp only [hk, if_true]; rfl
  · simp only [hk, if_false, Bool.false_eq_true]; rfl

theorem find_filter_truthy (k : String) (ps : Props) (hn : (ps.map Prod.fst).Nodup) :
    Props.find k (ps.filter fun p => p.2.truthy) =
      match Props.find k ps with
      | some v => if v.truthy then some v else none
      | none => none := by
  induction ps with
  | nil => rfl
  | cons p rest ih =>
    obtain ⟨k', v'⟩ := p
    simp only [List.map_cons, List.nodup_cons] at hn
    by_cases hk : k' = k
    · subst hk
      have hnone : Props.find k' (rest.filter fun p => p.2.truthy) = none := by
        rw [ih hn.2]
        cases hf : Props.find k' rest with
        | none => rfl
        | some v => exact absurd (List.mem_map_of_mem Prod.fst (find_mem hf)) hn.1
      by_cases hv : v'.truthy = true
      · simp [List.filter, hv, Props.find]
      · simp [List.filter, hv, Props.find, hnone]
    · by_cases hv : v'.truthy = true
      · simp [List.filter, hv, Props.find, hk, ih hn.2]
      · simp [List.filter, hv, Props.find, hk, ih hn.2]

theorem prune_get (ps : Props) (k : String) (hn : (Val.obj ps).keys.Nodup) :
    (prune (.obj ps)).get k
      = if ((Val.obj ps).get k).truthy then (Val.obj ps).get k else .undefined := by
  simp only [Val.keys] at hn
  simp only [prune, Val.get, find_filter_truthy k ps hn]
  cases hf : Props.find k ps with
  | none => simp [Val.truthy]
  | some v =>
    by_cases hv : v.truthy = true
    · simp [hv]
    · simp [hv]

theorem mem_erase_fst (k : String) (ps : Props) (hn : (ps.map Prod.fst).Nodup) :
    k ∉ (Props.erase k ps).map Prod.fst := by
  induction ps with
  | nil => simp [Props.erase]
  | cons p rest ih =>
    obtain ⟨k', v'⟩ := p
    simp only [List.map_cons, List.nodup_cons] at hn
    by_cases hk : k' = k
    · subst hk
      simp only [Props.erase, if_true]
      exact hn.1
    · simp only [Props.erase, hk, if_false, List.map_cons, List.mem_cons, not_or]
      exact ⟨fun e => hk e.symm, ih hn.2⟩

theorem mem_erase_of_mem (k : String) (ps : Props) (p : String × Val)
    (hp : p ∈ Props.erase k ps) : p ∈ ps := by
  induction ps with
  | nil => simp [Props.erase] at hp
  | cons q rest ih =>
    obtain ⟨k', v'⟩ := q
    by_cases hk : k' = k
    · simp only [Props.erase, hk, if_true] at hp
      exact List.mem_cons_of_mem _ hp
    · simp only [Props.erase, hk, if_false, List.mem_cons] at hp
      rcases hp with hp | hp
      · exact hp ▸ List.mem_cons_self _ _
      · exact List.mem_cons_of_mem _ (ih hp)

/-- The options recorded in the details of an error: truthy entries only, none named `key`. -/
theorem details_options_pruned (rs : Val) (args : Args) (hn : args.options.keys.Nodup) :
    ∃ ps, (details rs args).get "options" = .obj ps ∧
      (∀ p ∈ ps, p.2.truthy = true) ∧ "key" ∉ ps.map Prod.fst := by
  rw [details_options]
  cases ho : args.options with
  | obj os =>
    rw [ho] at hn
    simp only [Val.keys] at hn
    have hsub : ((os.filter fun p => p.2.truthy).map Prod.fst).Nodup :=
      (List.Nodup.sublist ((List.filter_sublist os).map Prod.fst) hn)
    by_cases hk : ((prune (.obj os)).get "key").truthy = true
    · rw [if_pos hk]
      simp only [prune, Val.delete]
      refine ⟨_, rfl, ?_, mem_erase_fst "key" _ hsub⟩
      intro p hp
      have := mem_erase_of_mem _ _ _ hp
      simp only [List.mem_filter] at this
      exact this.2
    · rw [if_neg hk]
      simp only [prune]
      refine ⟨_, rfl, ?_, ?_⟩
      · intro p hp
        simp only [List.mem_filter] at hp
        exact hp.2
      · intro hmem
        apply hk
        obtain ⟨v, hv⟩ : ∃ v, Props.find "key" (os.filter fun p => p.2.truthy) = some v :=
          find_of_mem_keys hmem
        have hm := find_mem hv
        simp only [List.mem_filter] at hm
        simp only [prune, Val.get, hv, Option.getD_some]
        exact hm.2
  | _ =>
    refine ⟨[], ?_, by simp, by simp⟩
    simp [prune, Val.get, Props.find, Val.truthy]

theorem nodup_keys_override (o s : Val) (a : Bool) (hn : o.keys.Nodup) :
    (override o s a).keys.Nodup := by
  unfold override
  split
  · exact hn
  · exact foldl_invariant (fun acc : Val => acc.keys.Nodup) _ _ _ hn (by
      intro acc key hacc
      split
      · exact nodup_keys_put _ _ _ hacc
      · split
        · exact nodup_keys_put _ _ _ hacc
        · exact hacc)

theorem nodup_keys_options : _options.keys.Nodup := by decide

theorem scrubProps_options_shape (child : Val → Val → Val → Res Out) (rootSpec spec sf : Val)
    (keys : List String) (value options : Val) (c : Checked)
    (hs : scrubProps child rootSpec spec sf keys value options = .ret c) :
    c.options = options ∨ ∃ x, c.options = options.put "key" x := by
  induction keys generalizing value options with
  | nil =>
    simp only [scrubProps] at hs
    injection hs with hs
    subst hs
    exact Or.inl rfl
  | cons key ks ih =>
    simp only [scrubProps] at hs
    split at hs
    · cases hc : child (value.get key) (sf.get key) (options.put "key" (.str key)) with
      | raise m => simp [hc] at hs
      | diverge => simp [hc] at hs
      | ret out =>
        simp only [hc, Res.bind_ret] at hs
        split at hs
        · injection hs with hs
          subst hs
          exact Or.inr ⟨_, rfl⟩
        · rcases ih _ _ hs with h1 | ⟨x, h1⟩
          · exact Or.inr ⟨_, h1⟩
          · exact Or.inr ⟨x, by rw [h1, put_put]⟩
    · exact ih _ _ hs

theorem scrubItems_options_shape (child : Val → Val → Val → Res Out) (rootSpec spec : Val)
    (idx : List Nat) (value options : Val) (c : Checked)
    (hs : scrubItems child rootSpec spec idx value options = .ret c) :
    c.options = options ∨ ∃ x, c.options = options.put "key" x := by
  induction idx generalizing value options with
  | nil =>
    simp only [scrubItems] at hs
    injection hs with hs
    subst hs
    exact Or.inl rfl
  | cons i rest ih =>
    simp only [scrubItems] at hs
    cases hc : child (value.item i) (spec.get "value") (options.put "key" (.num (Num.ofNat i))) with
    | raise m => simp [hc] at hs
    | diverge => simp [hc] at hs
    | ret out =>
      simp only [hc, Res.bind_ret] at hs
      split at hs
      · injection hs with hs
        subst hs
        exact Or.inr ⟨_, rfl⟩
      · rcases ih _ _ hs with h1 | ⟨x, h1⟩
        · exact Or.inr ⟨_, h1⟩
        · exact Or.inr ⟨x, by rw [h1, put_put]⟩

theorem put_key_of_shape {c o : Val} (x : Val)
    (hsh : c = o ∨ ∃ y, c = o.put "key" y) : c.put "key" x = o.put "key" x := by
  rcases hsh with h1 | ⟨y, h1⟩
  · rw [h1]
  · rw [h1, put_put]

theorem _scrub_field_error (h : Host) (rootSpec : Val) (fuel : Nat)
    (value spec options w filled : Val) (pre rest : List String) (key : String)
    (c : Checked) (e p : Val)
    (hs : isObject spec = true)
    (hh : scrubHead h rootSpec value spec (override options spec false) = .ret (.ok w))
    (hty : tipe w = "object")
    (hstrict : (if ((override options spec false).get "strict").truthy
        then unknownKey (specFields spec) w.keys else none) = none)
    (hfill : fillDefaults h rootSpec spec (specFields spec) (override options spec false)
        (specFields spec).keys w = .ret (.ok filled))
    (hreq : (if !((override options spec false).get "ignoreRequired").truthy
        then missingRequired (specFields spec) filled (specFields spec).keys
        else .ret none) = .ret none)
    (hkeys : filled.keys = pre ++ key :: rest)
    (hloop : scrubProps (_scrub h rootSpec fuel) rootSpec spec (specFields spec) pre filled
        (override options spec false) = .ret c)
    (hok : isError c.result = false)
    (hobj : isObject ((specFields spec).get key) = true)
    (hchild : _scrub h rootSpec fuel (c.post.get key) ((specFields spec).get key)
        (c.options.put "key" (.str key)) = .ret ⟨e, p⟩)
    (he : isError e = true) :
    _scrub h rootSpec (fuel + 1) value spec options
      = .ret ⟨failWith rootSpec e
            ⟨c.post.put key p, spec, (override options spec false).put "key" (.str key)⟩,
          if inPlace value spec then c.post.put key p else value⟩ := by
  have hfe : isError filled = false := by
    rw [fillDefaults_isError _ _ _ _ _ _ _ _ hfill]
    exact isError_of_tipe_object hty
  have hopt := put_key_of_shape (.str key) (scrubProps_options_shape _ _ _ _ _ _ _ _ hloop)
  have hsp : scrubProps (_scrub h rootSpec fuel) rootSpec spec (specFields spec) filled.keys
      filled (override options spec false)
      = .ret ⟨failWith rootSpec e ⟨c.post.put key p, spec, c.options.put "key" (.str key)⟩,
          c.post.put key p, c.options.put "key" (.str key)⟩ := by
    rw [hkeys, scrubProps_append _ _ _ _ _ _ _ _ hfe, hloop]
    simp [hok, scrubProps, hobj, hchild, he]
  have hd : dispatch h (_scrub h rootSpec fuel) rootSpec w spec (override options spec false)
      = .ret ⟨failWith rootSpec e ⟨c.post.put key p, spec, c.options.put "key" (.str key)⟩,
          c.post.put key p, c.options.put "key" (.str key)⟩ := by
    simp only [dispatch, hty, if_true, checkObject, hstrict, hfill, Res.bind_ret, hreq, hsp]
  rw [_scrub_dispatch_error h rootSpec fuel value spec options w _ hs hh hd
    (by rw [isError_failWith]; exact he), hopt]

theorem _scrub_item_error (h : Host) (rootSpec : Val) (fuel : Nat)
    (value spec options w : Val) (i : Nat) (c : Checked) (e p : Val)
    (hs : isObject spec = true)
    (hh : scrubHead h rootSpec value spec (override options spec false) = .ret (.ok w))
    (hty : tipe w = "array")
    (hobj : isObject (spec.get "value") = true)
    (hi : i < w.length)
    (hloop : scrubItems (_scrub h rootSpec fuel) rootSpec spec (List.range i) w
        (override options spec false) = .ret c)
    (hok : isError c.result = false)
    (hchild : _scrub h rootSpec fuel (c.post.item i) (spec.get "value")
        (c.options.put "key" (.num (Num.ofNat i))) = .ret ⟨e, p⟩)
    (he : isError e = true) :
    _scrub h rootSpec (fuel + 1) value spec options
      = .ret ⟨failWith rootSpec e
            ⟨c.post.setAt i p, spec,
              (override options spec false).put "key" (.num (Num.ofNat i))⟩,
          if inPlace value spec then c.post.setAt i p else value⟩ := by
  obtain ⟨rest, hrange⟩ := range_split hi
  have hopt := put_key_of_shape (.num (Num.ofNat i))
    (scrubItems_options_shape _ _ _ _ _ _ _ hloop)
  have hto : tipe w ≠ "object" := by rw [hty]; decide
  have hd : dispatch h (_scrub h rootSpec fuel) rootSpec w spec (override options spec false)
      = .ret ⟨failWith rootSpec e
            ⟨c.post.setAt i p, spec, c.options.put "key" (.num (Num.ofNat i))⟩,
          c.post.setAt i p, c.options.put "key" (.num (Num.ofNat i))⟩ := by
    simp only [dispatch, hto, if_false, hty, if_true, checkArray, hobj, hrange]
    rw [scrubItems_append _ _ _ _ _ _ _ (isError_of_tipe_array hty), hloop]
    simp [hok, scrubItems, hchild, he]
  rw [_scrub_dispatch_error h rootSpec fuel value spec options w _ hs hh hd
    (by rw [isError_failWith]; exact he), hopt]

theorem failWith_details (rs e : Val) (args : Args) (he : isError e = true) :
    (failWith rs e args).get "details" = details rs args := by
  obtain ⟨ps, rfl⟩ : ∃ ps, e = .error ps := by cases e <;> simp_all [isError]
  exact get_put_self_error _ _ _

theorem scrubHead_arraySpec (h : Host) (rootSpec : Val) (es : List Val) (elem options : Val)
    (helem : isObject elem = true) :
    scrubHead h rootSpec (.arr es) (arraySpec elem) options = .ret (.ok (.arr es)) := by
  obtain ⟨eps, rfl⟩ : ∃ eps, elem = .obj eps := by cases elem <;> simp_all [isObject]
  have s1 : initStage h rootSpec (.arr es) (arraySpec (.obj eps)) options
      = .ret (.ok (.arr es)) := rfl
  have s2 : defaultStage h rootSpec (.arr es) (arraySpec (.obj eps)) options
      = .ret (.ok (.arr es)) := rfl
  have s3 : requiredStage h rootSpec (.arr es) (arraySpec (.obj eps)) options
      = .ret (.ok (.arr es)) := rfl
  have hco : coerceType h (.arr es) (arraySpec (.obj eps)) options = .arr es :=
    coerceType_not_string _ _ _ _ rfl
  have s4 : typeStage h rootSpec (.arr es) (arraySpec (.obj eps)) options
      = .ret (.ok (.arr es)) := by
    have hm : matchEnum (.str (tipe (Val.arr es))) ((arraySpec (.obj eps)).get "type") = true := rfl
    have h1 : isDefined (Val.arr es) = true := rfl
    have h2 : isDefined ((arraySpec (.obj eps)).get "type") = true := rfl
    have h3 : isObject ((arraySpec (.obj eps)).get "type") = false := rfl
    have h4 : isString ((arraySpec (.obj eps)).get "type") = true := rfl
    simp only [typeStage, hco, hm, h1, h2, h3, h4, Bool.not_false, Bool.not_true, Bool.and_self,
      if_true, Bool.false_eq_true, if_false]
  have s5 : setterStage h rootSpec (.arr es) (arraySpec (.obj eps)) options
      = .ret (.ok (.arr es)) := rfl
  simp only [scrubHead, s1, s2, s3, s4, s5, Res.andThen_ok]

theorem prune_put_key (o x : Val) (ho : isObject o = true) (hn : o.keys.Nodup) :
    (prune (o.put "key" x)).get "key" = if x.truthy then x else .undefined := by
  obtain ⟨ops, rfl⟩ : ∃ ops, o = .obj ops := by cases o <;> simp_all [isObject]
  have hn2 := nodup_keys_put (.obj ops) "key" x hn
  simp only [Val.put] at hn2 ⊢
  rw [prune_get _ _ hn2]
  have hg : (Val.obj (Props.set "key" x ops)).get "key" = x := get_put_self_obj ops "key" _
  rw [hg]

theorem details_frame (rs e value spec o x : Val) (he : isError e = true)
    (ho : isObject o = true) (hn : o.keys.Nodup) :
    ((failWith rs e ⟨value, spec, o.put "key" x⟩).get "details").get "spec" = spec ∧
    ((failWith rs e ⟨value, spec, o.put "key" x⟩).get "details").get "value" = value ∧
    ((failWith rs e ⟨value, spec, o.put "key" x⟩).get "details").get "rootSpec" = rs ∧
    ((failWith rs e ⟨value, spec, o.put "key" x⟩).get "details").get "key"
      = (if x.truthy then x else .undefined) ∧
    ∃ ps, ((failWith rs e ⟨value, spec, o.put "key" x⟩).get "details").get "options" = .obj ps ∧
      (∀ q ∈ ps, q.2.truthy = true) ∧ "key" ∉ ps.map Prod.fst := by
  rw [failWith_details _ _ _ he]
  refine ⟨details_spec _ _, details_value _ _, details_rootSpec _ _, ?_,
    details_options_pruned _ _ (nodup_keys_put _ _ _ hn)⟩
  rw [details_key]
  simp only [prune_put_key o x ho hn]
  by_cases hx : x.truthy = true
  · simp only [hx, if_true]
  · simp only [hx, if_false, Bool.false_eq_true]
    simp [Val.truthy]

/-! ## The loops of the checkers, step by step -/

theorem item_setAt_ne (v : Val) {i j : Nat} (hne : j ≠ i) (x : Val) :
    (v.setAt i x).item j = v.item j := by
  cases v <;> try rfl
  simp only [Val.setAt, Val.item, List.getD_eq_getElem?_getD]
  rw [List.getElem?_set_ne (Ne.symm hne)]

theorem item_setAt_self (v : Val) {i : Nat} (hi : i < v.length) (x : Val) :
    (v.setAt i x).item i = x := by
  cases v with
  | arr es =>
    simp only [Val.length] at hi
    simp only [Val.setAt, Val.item, List.getD_eq_getElem?_getD]
    rw [List.getElem?_set_self hi]
    rfl
  | _ => simp [Val.length] at hi

theorem length_setAt (v : Val) (i : Nat) (x : Val) : (v.setAt i x).length = v.length := by
  cases v <;> try rfl
  simp [Val.setAt, Val.length]

/-- The loop of `checkArray` over the first `n` indices, when each of these elements is
scrubbed without error. -/
theorem scrubItems_run (child : Val → Val → Val → Res Out) (rootSpec spec : Val)
    (value o : Val) (n : Nat) (hn : n ≤ value.length) (hv : isError value = false)
    (hall : ∀ j, j < n → ∃ out, child (value.item j) (spec.get "value")
        (o.put "key" (.num (Num.ofNat j))) = .ret out ∧ isError out.result = false) :
    ∃ post o', scrubItems child rootSpec spec (List.range n) value o = .ret ⟨post, post, o'⟩ ∧
      (o' = o ∨ ∃ x, o' = o.put "key" x) ∧
      isError post = false ∧
      post.length = value.length ∧
      (∀ j, j < n → ∃ out, child (value.item j) (spec.get "value")
        (o.put "key" (.num (Num.ofNat j))) = .ret out ∧ post.item j = out.result) ∧
      (∀ j, n ≤ j → post.item j = value.item j) := by
  induction n with
  | zero =>
    exact ⟨value, o, rfl, Or.inl rfl, hv, rfl, fun j hj => absurd hj (Nat.not_lt_zero j),
      fun _ _ => rfl⟩
  | succ n ih =>
    obtain ⟨post, o', hrun, hsh, hpe, hlen, hbefore, hafter⟩ :=
      ih (Nat.le_of_succ_le hn) (fun j hj => hall j (Nat.lt_succ_of_lt hj))
    obtain ⟨out, hout, hok⟩ := hall n (Nat.lt_succ_self n)
    have hopt : o'.put "key" (.num (Num.ofNat n)) = o.put "key" (.num (Num.ofNat n)) :=
      put_key_of_shape _ hsh
    refine ⟨post.setAt n out.result, o.put "key" (.num (Num.ofNat n)), ?_, Or.inr ⟨_, rfl⟩, ?_,
      ?_, ?_, ?_⟩
    · rw [List.range_succ, scrubItems_append _ _ _ _ _ _ _ hv, hrun]
      simp only [Res.bind_ret, hpe, Bool.false_eq_true, if_false, scrubItems, hopt,
        hafter n (Nat.le_refl n), hout, hok]
    · rw [isError_setAt]
      exact hpe
    · rw [length_setAt, hlen]
    · intro j hj
      rcases Nat.lt_succ_iff_lt_or_eq.mp hj with hlt | heq
      · obtain ⟨out', h1, h2⟩ := hbefore j hlt
        exact ⟨out', h1, by rw [item_setAt_ne _ (Nat.ne_of_lt hlt), h2]⟩
      · subst heq
        exact ⟨out, hout, item_setAt_self _ (by rw [hlen]; exact hn) _⟩
    · intro j hj
      rw [item_setAt_ne _ (Nat.ne_of_gt hj), hafter j (Nat.le_of_succ_le hj)]

/-- The loop of `checkObject` over distinct keys, when each of the fields that the spec
declares is scrubbed without error. -/
theorem scrubProps_run (child : Val → Val → Val → Res Out) (rootSpec spec sf o : Val)
    (keys : List String) (hnd : keys.Nodup) (value o0 : Val) (hv : isObject value = true)
    (hsh0 : o0 = o ∨ ∃ x, o0 = o.put "key" x)
    (hall : ∀ k, k ∈ keys → isObject (sf.get k) = true →
      ∃ out, child (value.get k) (sf.get k) (o.put "key" (.str k)) = .ret out ∧
        isError out.result = false) :
    ∃ post o', scrubProps child rootSpec spec sf keys value o0 = .ret ⟨post, post, o'⟩ ∧
      (o' = o ∨ ∃ x, o' = o.put "key" x) ∧
      isObject post = true ∧
      (∀ k, k ∈ keys → isObject (sf.get k) = true →
        ∃ out, child (value.get k) (sf.get k) (o.put "key" (.str k)) = .ret out ∧
          post.get k = out.result) ∧
      (∀ k, (k ∉ keys ∨ isObject (sf.get k) = false) → post.get k = value.get k) := by
  induction keys generalizing value o0 with
  | nil =>
    exact ⟨value, o0, rfl, hsh0, hv, fun k hk => absurd hk (List.not_mem_nil k), fun _ _ => rfl⟩
  | cons key ks ih =>
    simp only [List.nodup_cons] at hnd
    by_cases hobj : isObject (sf.get key) = true
    · obtain ⟨out, hout, hok⟩ := hall key (List.mem_cons_self _ _) hobj
      have hopt : o0.put "key" (.str key) = o.put "key" (.str key) := put_key_of_shape _ hsh0
      have hother : ∀ k, k ∈ ks → (value.put key out.result).get k = value.get k := by
        intro k hk
        exact get_put_ne _ (fun (hh : k = key) => hnd.1 (by rw [← hh]; exact hk)) _
      obtain ⟨post, o', hrun, hsh, hpo, hin, hout2⟩ := ih hnd.2 (value.put key out.result)
        (o.put "key" (.str key)) (by rw [isObject_put]; exact hv) (Or.inr ⟨_, rfl⟩)
        (fun k hk hko => by rw [hother k hk]; exact hall k (List.mem_cons_of_mem _ hk) hko)
      refine ⟨post, o', ?_, hsh, hpo, ?_, ?_⟩
      · simp only [scrubProps, hobj, if_true, hopt, hout, Res.bind_ret, hok, Bool.false_eq_true,
          if_false, hrun]
      · intro k hk hko
        rcases List.mem_cons.mp hk with heq | hmem
        · subst heq
          refine ⟨out, hout, ?_⟩
          rw [hout2 k (Or.inl hnd.1), get_put_self _ hv]
        · obtain ⟨out', h1, h2⟩ := hin k hmem hko
          rw [hother k hmem] at h1
          exact ⟨out', h1, h2⟩
      · intro k hk
        have hne : k ≠ key := by
          rcases hk with hk | hk
          · exact fun (hh : k = key) => hk (by rw [hh]; exact List.mem_cons_self _ _)
          · exact fun hh => by rw [hh, hobj] at hk; exact absurd hk (by decide)
        have hk2 : k ∉ ks ∨ isObject (sf.get k) = false := by
          rcases hk with hk | hk
          · exact Or.inl fun hh => hk (List.mem_cons_of_mem _ hh)
          · exact Or.inr hk
        rw [hout2 k hk2, get_put_ne _ hne]
    · have hobj2 : isObject (sf.get key) = false := by simpa using hobj
      obtain ⟨post, o', hrun, hsh, hpo, hin, hout2⟩ := ih hnd.2 value o0 hv hsh0
        (fun k hk hko => hall k (List.mem_cons_of_mem _ hk) hko)
      refine ⟨post, o', ?_, hsh, hpo, ?_, ?_⟩
      · simp only [scrubProps, hobj2, Bool.false_eq_true, if_false, hrun]
      · intro k hk hko
        rcases List.mem_cons.mp hk with heq | hmem
        · subst heq
          rw [hobj2] at hko
          exact absurd hko (by decide)
        · exact hin k hmem hko
      · intro k hk
        by_cases hks : k ∈ ks
        · rcases hk with hk | hk
          · exact absurd (List.mem_cons_of_mem _ hks) hk
          · exact hout2 k (Or.inr hk)
        · exact hout2 k (Or.inl hks)

/-! ## Specs without functions -/

theorem funcs_free_get {v : Val} (hf : funcs v = []) (k : String) : funcs (v.get k) = [] := by
  cases hx : funcs (v.get k) with
  | nil => rfl
  | cons id rest =>
    have hid : id ∈ funcs (v.get k) := by rw [hx]; exact List.mem_cons_self _ _
    have := funcs_get v k hid
    rw [hf] at this
    exact absurd this (List.not_mem_nil id)

theorem funcs_free_not_function {v : Val} (hf : funcs v = []) : isFunction v = false := by
  cases v <;> simp_all [funcs, isFunction]

theorem funcs_free_field {v : Val} (hf : funcs v = []) (k : String) :
    isFunction (v.get k) = false :=
  funcs_free_not_function (funcs_free_get hf k)

theorem funcs_free_specFields {spec : Val} (hf : funcs spec = []) :
    funcs (specFields spec) = [] := by
  unfold specFields
  split
  · exact funcs_free_get hf "value"
  · exact hf

theorem scrubTail_free (h : Host) (rootSpec value spec options : Val) (hf : funcs spec = []) :
    scrubTail h rootSpec value spec options = .ret (.ok value) := by
  simp only [scrubTail, validateStage, finishStage, funcs_free_field hf, Bool.false_eq_true,
    if_false, Res.andThen_ok]

theorem initStage_free (h : Host) (rootSpec value spec options : Val) (hf : funcs spec = []) :
    initStage h rootSpec value spec options = .ret (.ok value) := by
  simp only [initStage, funcs_free_field hf, Bool.false_eq_true, if_false]

theorem setterStage_free (h : Host) (rootSpec value spec options : Val) (hf : funcs spec = []) :
    setterStage h rootSpec value spec options = .ret (.ok value) := by
  simp only [setterStage, funcs_free_field hf, Bool.false_eq_true, if_false]

theorem setDefault_free (h : Host) (spec options : Val) (hf : funcs spec = []) :
    setDefault h spec options = .ret (clone (spec.get "default")) := by
  simp only [setDefault, funcs_free_field hf, Bool.false_eq_true, if_false]

theorem inPlace_free (value spec : Val) (hf : funcs spec = []) :
    inPlace value spec = (isObject value || isArray value) := by
  simp only [inPlace, funcs_free_field hf, Bool.not_false, Bool.true_and]

/-- What `checkScalar` returns when it does not fail is the value. -/
theorem checkScalar_value (h : Host) (rootSpec value spec o : Val)
    (he : isError (checkScalar h rootSpec value spec o) = false) :
    checkScalar h rootSpec value spec o = value := by
  unfold checkScalar at he ⊢
  by_cases h1 : (!isObject spec || isNull value || isUndefined value) = true
  · simp only [h1, if_true]
  · simp only [h1, if_false, Bool.false_eq_true] at he ⊢
    by_cases h2 : tipe (spec.get "value") = "undefined" ∨ tipe (spec.get "value") = "function"
    · simp only [h2, if_true]
    · simp only [h2, if_false] at he ⊢
      by_cases h3 : tipe (spec.get "value") = "string"
      · simp only [h3, if_true] at he ⊢
        by_cases h4 : matchEnum value (spec.get "value") = true
        · simp only [h4, if_true]
        · simp [h4, isError_fail] at he
      · simp only [h3, if_false] at he ⊢
        by_cases h4 : tipe (spec.get "value") = "number" ∨ tipe (spec.get "value") = "boolean"
        · simp only [h4, if_true] at he ⊢
          by_cases h5 : strictEq (spec.get "value") value = true
          · simp only [h5, if_true]
          · simp [h5, isError_fail] at he
        · simp [h4, isError_fail] at he

theorem container_facts {R : Val} (hR : tipe R = "object" ∨ tipe R = "array") :
    isString R = false ∧ isDefined R = true ∧ isNull R = false ∧ isUndefined R = false ∧
      isError R = false := by
  cases R <;> first
    | exact ⟨rfl, rfl, rfl, rfl, rfl⟩
    | (rcases hR with hR | hR <;> simp [tipe] at hR)

/-- The value that passes the type stage is left alone by a second coercion. -/
theorem coerceType_again (h : Host) (value spec options : Val)
    (hm : matchEnum (.str (tipe (coerceType h value spec options))) (spec.get "type") = true) :
    coerceType h (coerceType h value spec options) spec options
      = coerceType h value spec options := by
  by_cases hd : (options.get "doNotCoerce").truthy = true
  · rw [coerceType_noop h value spec options (Or.inl hd)]
    exact coerceType_noop h value spec options (Or.inl hd)
  · by_cases hs : isString value = true
    · obtain ⟨s, rfl⟩ : ∃ s, value = .str s := by cases value <;> simp_all [isString]
      rcases coerceType_str_cases h s spec options with ⟨n, hn⟩ | ⟨b, hb⟩ | hsame
      · rw [hn]
        exact coerceType_not_string _ _ _ _ rfl
      · rw [hb]
        exact coerceType_not_string _ _ _ _ rfl
      · rw [hsame]
        exact hsame
    · have hs2 : isString value = false := by simpa using hs
      rw [coerceType_not_string h value spec options hs2]
      exact coerceType_not_string h value spec options hs2

theorem coerceType_void (h : Host) (value spec options : Val)
    (hv : (isUndefined (coerceType h value spec options) ||
      isNull (coerceType h value spec options)) = true) :
    coerceType h value spec options = value := by
  by_cases hs : isString value = true
  · obtain ⟨s, rfl⟩ : ∃ s, value = .str s := by cases value <;> simp_all [isString]
    rcases coerceType_str_cases h s spec options with ⟨n, hn⟩ | ⟨b, hb⟩ | hsame
    · rw [hn] at hv
      simp [isUndefined, isNull] at hv
    · rw [hb] at hv
      simp [isUndefined, isNull] at hv
    · exact hsame
  · exact coerceType_not_string h value spec options (by simpa using hs)

/-- What the type stage lets through passes it again unchanged, and is void (undefined
or null) only if the value it was given is the same void value. -/
theorem typeStage_again (h : Host) (rootSpec value spec options w : Val)
    (ht : typeStage h rootSpec value spec options = .ret (.ok w)) :
    typeStage h rootSpec w spec options = .ret (.ok w) ∧
    ((isUndefined w || isNull w) = true → w = value) ∧
    (∀ R, tipe R = tipe w → (tipe w = "object" ∨ tipe w = "array") →
      typeStage h rootSpec R spec options = .ret (.ok R)) := by
  unfold typeStage at ht
  by_cases hc : (isDefined value && isDefined (spec.get "type") &&
      !isObject (spec.get "type")) = true
  · simp only [hc, if_true] at ht
    by_cases hstr : (!isString (spec.get "type")) = true
    · simp [hstr] at ht
    · simp only [hstr, if_false, Bool.false_eq_true] at ht
      by_cases hm : (!matchEnum (.str (tipe (coerceType h value spec options)))
          (spec.get "type")) = true
      · simp [hm] at ht
      · simp only [hm, if_false, Bool.false_eq_true] at ht
        have hw : coerceType h value spec options = w := by
          injection ht with ht
          injection ht
        have hm2 : matchEnum (.str (tipe (coerceType h value spec options)))
            (spec.get "type") = true := by simpa using hm
        have hagain := coerceType_again h value spec options hm2
        rw [hw] at hagain hm2
        simp only [Bool.and_eq_true] at hc
        refine ⟨?_, ?_, ?_⟩
        · unfold typeStage
          by_cases hdw : isDefined w = true
          · have hm3 : (!matchEnum (.str (tipe w)) (spec.get "type")) = false := by simp [hm2]
            simp only [hdw, hc.1.2, hc.2, Bool.and_self, if_true, hstr, Bool.false_eq_true,
              if_false, hagain, hm3]
          · simp [hdw]
        · intro hvoid
          rw [← hw] at hvoid ⊢
          exact coerceType_void h value spec options hvoid
        · intro R hR hoa
          have hRs : isString R = false := (container_facts (hR ▸ hoa)).1
          have hRd : isDefined R = true := (container_facts (hR ▸ hoa)).2.1
          have hco : coerceType h R spec options = R := coerceType_not_string _ _ _ _ hRs
          have hm3 : (!matchEnum (.str (tipe R)) (spec.get "type")) = false := by
            rw [hR]; simp [hm2]
          unfold typeStage
          simp only [hRd, hc.1.2, hc.2, Bool.and_self, if_true, hstr, Bool.false_eq_true,
            if_false, hco, hm3]
  · simp only [hc, if_false, Bool.false_eq_true] at ht
    have hw : value = w := by
      injection ht with ht
      injection ht
    subst hw
    refine ⟨?_, fun _ => rfl, ?_⟩
    · unfold typeStage
      simp only [hc, if_false, Bool.false_eq_true]
    · intro R hR hoa
      have hRd : isDefined R = true := (container_facts (hR ▸ hoa)).2.1
      have hvd : isDefined value = true := (container_facts hoa).2.1
      have hc2 : (isDefined R && isDefined (spec.get "type") &&
          !isObject (spec.get "type")) = false := by
        rw [hRd, ← hvd]
        simpa using hc
      unfold typeStage
      simp only [hc2, if_false, Bool.false_eq_true]

theorem requiredStage_ok {h : Host} {rootSpec value spec o v : Val}
    (hr : requiredStage h rootSpec value spec o = .ret (.ok v)) :
    v = value ∧ ((spec.get "required").truthy && !(o.get "ignoreRequire").truthy &&
      (isUndefined value || isNull value)) = false := by
  unfold requiredStage at hr
  by_cases hc : ((spec.get "required").truthy && !(o.get "ignoreRequire").truthy &&
      (isUndefined value || isNull value)) = true
  · simp [hc] at hr
  · simp only [hc, if_false, Bool.false_eq_true] at hr
    injection hr with hr
    injection hr with hr
    exact ⟨hr.symm, by simpa using hc⟩

theorem defaultStage_free {h : Host} {rootSpec value spec o v : Val} (hf : funcs spec = [])
    (hd : defaultStage h rootSpec value spec o = .ret (.ok v)) :
    (v = value ∧ (isUndefined value && isDefined (spec.get "default") &&
        !(o.get "IgnoreDefaults").truthy) = false) ∨
    (isUndefined value = true ∧ isDefined v = true) := by
  unfold defaultStage at hd
  by_cases hc : (isUndefined value && isDefined (spec.get "default") &&
      !(o.get "IgnoreDefaults").truthy) = true
  · simp only [hc, if_true] at hd
    obtain ⟨h1, _⟩ := orFail_ok hd
    rw [setDefault_free h spec o hf] at h1
    injection h1 with h1
    simp only [Bool.and_eq_true] at hc
    right
    refine ⟨hc.1.1, ?_⟩
    rw [← h1]
    exact (clone_literal _ hc.1.2 (funcs_free_field hf "default")).1
  · simp only [hc, if_false, Bool.false_eq_true] at hd
    injection hd with hd
    injection hd with hd
    exact Or.inl ⟨hd.symm, by simpa using hc⟩

/-- The stages before the dispatch, for a spec without functions: what they let through
passes them again unchanged, and so does a container of the same tipe in its place. -/
theorem scrubHead_again (h : Host) (rootSpec value spec o w : Val) (hf : funcs spec = [])
    (hh : scrubHead h rootSpec value spec o = .ret (.ok w)) :
    (∀ R, (R = w ∨ (tipe R = tipe w ∧ (tipe w = "object" ∨ tipe w = "array"))) →
      scrubHead h rootSpec R spec o = .ret (.ok R)) ∧
    ((isUndefined w || isNull w) = true → (isUndefined value || isNull value) = true) ∧
    (isUndefined w = true → isUndefined value = true) := by
  unfold scrubHead at hh
  rw [initStage_free h rootSpec value spec o hf] at hh
  simp only [Res.andThen_ok] at hh
  obtain ⟨v2, hd, hh⟩ := andThen_ok_inv hh
  obtain ⟨v3, hr, hh⟩ := andThen_ok_inv hh
  obtain ⟨v4, ht, hh⟩ := andThen_ok_inv hh
  rw [setterStage_free h rootSpec v4 spec o hf] at hh
  have hv4 : v4 = w := by
    injection hh with hh
    injection hh
  subst hv4
  obtain ⟨hv3, hreq⟩ := requiredStage_ok hr
  subst hv3
  obtain ⟨hta, htvoid, htcont⟩ := typeStage_again h rootSpec v3 spec o v4 ht
  have hdef := defaultStage_free hf hd
  have hundef : isUndefined v4 = true → v4 = value ∧
      (isUndefined value && isDefined (spec.get "default") &&
        !(o.get "IgnoreDefaults").truthy) = false := by
    intro hu
    have h43 : v4 = v3 := htvoid (by simp [hu])
    rcases hdef with ⟨h1, h2⟩ | ⟨_, h2⟩
    · exact ⟨h43.trans h1, h2⟩
    · rw [← h43] at h2
      simp [isDefined, hu] at h2
  refine ⟨?_, ?_, ?_⟩
  · intro R hR
    have hdR : defaultStage h rootSpec R spec o = .ret (.ok R) := by
      unfold defaultStage
      by_cases hu : isUndefined R = true
      · rcases hR with hR | ⟨hR, hoa⟩
        · subst hR
          obtain ⟨h1, h2⟩ := hundef hu
          rw [h1, h2]
          simp
        · rw [(container_facts (hR ▸ hoa)).2.2.2.1] at hu
          exact absurd hu (by decide)
      · simp [hu]
    have hrR : requiredStage h rootSpec R spec o = .ret (.ok R) := by
      unfold requiredStage
      by_cases hvoid : (isUndefined R || isNull R) = true
      · rcases hR with hR | ⟨hR, hoa⟩
        · subst hR
          rw [htvoid hvoid, hreq]
          simp
        · have hc := container_facts (hR ▸ hoa)
          rw [hc.2.2.1, hc.2.2.2.1] at hvoid
          exact absurd hvoid (by decide)
      · simp [hvoid]
    have htR : typeStage h rootSpec R spec o = .ret (.ok R) := by
      rcases hR with hR | ⟨hR, hoa⟩
      · subst hR
        exact hta
      · exact htcont R hR hoa
    unfold scrubHead
    simp only [initStage_free h rootSpec R spec o hf, hdR, hrR, htR,
      setterStage_free h rootSpec R spec o hf, Res.andThen_ok]
  · intro hvoid
    have h43 := htvoid hvoid
    rcases hdef with ⟨h1, _⟩ | ⟨h1, _⟩
    · rw [← h1, ← h43]
      exact hvoid
    · simp [h1]
  · intro hu
    rw [← (hundef hu).1]
    exact hu

theorem set_getElem_same (es : List Val) (j : Nat) (hj : j < es.length) :
    es.set j es[j] = es := by
  apply List.ext_getElem (by simp)
  intro i h1 h2
  by_cases hij : j = i
  · subst hij
    simp
  · simp [List.getElem_set_ne hij]

theorem setAt_item (v : Val) (j : Nat) : v.setAt j (v.item j) = v := by
  cases v with
  | arr es =>
    simp only [Val.setAt, Val.item, Val.arr.injEq]
    by_cases hj : j < es.length
    · rw [List.getD_eq_getElem _ _ hj]
      exact set_getElem_same es j hj
    · exact List.set_eq_of_length_le (Nat.le_of_not_lt hj)
  | _ => rfl

theorem tipe_setAt (v : Val) (j : Nat) (x : Val) : tipe (v.setAt j x) = tipe v := by
  cases v <;> rfl

/-- What a run of the loop of `checkArray` that ends without error has done. -/
theorem scrubItems_inv (child : Val → Val → Val → Res Out) (rootSpec spec : Val)
    (value o : Val) (n : Nat) (hn : n ≤ value.length) (hv : isError value = false)
    (c : Checked)
    (hs : scrubItems child rootSpec spec (List.range n) value o = .ret c)
    (hok : isError c.result = false) :
    c.post = c.result ∧
    (c.options = o ∨ ∃ x, c.options = o.put "key" x) ∧
    c.result.length = value.length ∧
    tipe c.result = tipe value ∧
    (∀ j, j < n → ∃ out, child (value.item j) (spec.get "value")
        (o.put "key" (.num (Num.ofNat j))) = .ret out ∧ isError out.result = false ∧
        c.result.item j = out.result) ∧
    (∀ j, n ≤ j → c.result.item j = value.item j) := by
  induction n generalizing c with
  | zero =>
    simp only [List.range_zero, scrubItems] at hs
    injection hs with hs
    subst hs
    exact ⟨rfl, Or.inl rfl, rfl, rfl, fun j hj => absurd hj (Nat.not_lt_zero j), fun _ _ => rfl⟩
  | succ n ih =>
    rw [List.range_succ, scrubItems_append _ _ _ _ _ _ _ hv] at hs
    cases h0 : scrubItems child rootSpec spec (List.range n) value o with
    | raise m => simp [h0] at hs
    | diverge => simp [h0] at hs
    | ret c0 =>
      simp only [h0, Res.bind_ret] at hs
      by_cases he0 : isError c0.result = true
      · simp only [he0, if_true] at hs
        injection hs with hs
        subst hs
        rw [he0] at hok
        exact absurd hok (by decide)
      · have he0f : isError c0.result = false := by simpa using he0
        simp only [he0, if_false, Bool.false_eq_true, scrubItems] at hs
        obtain ⟨hpost, hsh, hlen, htipe, hbefore, hafter⟩ :=
          ih (Nat.le_of_succ_le hn) c0 h0 he0f
        have hopt : c0.options.put "key" (.num (Num.ofNat n)) = o.put "key" (.num (Num.ofNat n)) :=
          put_key_of_shape _ hsh
        rw [hopt, hpost, hafter n (Nat.le_refl n)] at hs
        cases hc : child (value.item n) (spec.get "value") (o.put "key" (.num (Num.ofNat n))) with
        | raise m => simp [hc] at hs
        | diverge => simp [hc] at hs
        | ret out =>
          simp only [hc, Res.bind_ret] at hs
          by_cases heo : isError out.result = true
          · simp only [heo, if_true] at hs
            injection hs with hs
            subst hs
            simp only [isError_failWith, heo] at hok
            exact absurd hok (by decide)
          · have heof : isError out.result = false := by simpa using heo
            simp only [heo, if_false, Bool.false_eq_true] at hs
            injection hs with hs
            subst hs
            refine ⟨rfl, Or.inr ⟨_, rfl⟩, ?_, ?_, ?_, ?_⟩
            · show (c0.result.setAt n out.result).length = value.length
              rw [length_setAt, hlen]
            · show tipe (c0.result.setAt n out.result) = tipe value
              rw [tipe_setAt, htipe]
            · intro j hj
              show ∃ out', _ ∧ _ ∧ (c0.result.setAt n out.result).item j = out'.result
              rcases Nat.lt_succ_iff_lt_or_eq.mp hj with hlt | heq
              · obtain ⟨out', h1, h2, h3⟩ := hbefore j hlt
                exact ⟨out', h1, h2, by rw [item_setAt_ne _ (Nat.ne_of_lt hlt), h3]⟩
              · subst heq
                exact ⟨out, hc, heof, item_setAt_self _ (by rw [hlen]; exact hn) _⟩
            · intro j hj
              show (c0.result.setAt n out.result).item j = value.item j
              rw [item_setAt_ne _ (Nat.ne_of_gt hj), hafter j (Nat.le_of_succ_le hj)]

/-- The loop of `checkArray` leaves alone a value whose elements are scrubbed to themselves. -/
theorem scrubItems_fixed (child : Val → Val → Val → Res Out) (rootSpec spec : Val)
    (value o : Val) (idx : List Nat) (o0 : Val)
    (hsh0 : o0 = o ∨ ∃ x, o0 = o.put "key" x)
    (hall : ∀ j, j ∈ idx → isError (value.item j) = false ∧
      child (value.item j) (spec.get "value") (o.put "key" (.num (Num.ofNat j)))
        = .ret ⟨value.item j, value.item j⟩) :
    ∃ o', scrubItems child rootSpec spec idx value o0 = .ret ⟨value, value, o'⟩ ∧
      (o' = o ∨ ∃ x, o' = o.put "key" x) := by
  induction idx generalizing o0 with
  | nil => exact ⟨o0, rfl, hsh0⟩
  | cons j rest ih =>
    obtain ⟨he, hc⟩ := hall j (List.mem_cons_self _ _)
    have hopt : o0.put "key" (.num (Num.ofNat j)) = o.put "key" (.num (Num.ofNat j)) :=
      put_key_of_shape _ hsh0
    obtain ⟨o', hrun, hsh⟩ := ih (o.put "key" (.num (Num.ofNat j))) (Or.inr ⟨_, rfl⟩)
      (fun i hi => hall i (List.mem_cons_of_mem _ hi))
    refine ⟨o', ?_, hsh⟩
    simp only [scrubItems, hopt, hc, Res.bind_ret, he, Bool.false_eq_true, if_false, setAt_item,
      hrun]

/-- A second run of `checkArray` on what a first run without error returns leaves it as
it is, when the same holds of the recursive call. -/
theorem checkArray_again (child : Val → Val → Val → Res Out) (rootSpec spec w o : Val)
    (c : Checked) (hw : tipe w = "array")
    (hchild : ∀ x o1 y q, child x (spec.get "value") o1 = .ret ⟨y, q⟩ → isError y = false →
      child y (spec.get "value") o1 = .ret ⟨y, y⟩)
    (hs : checkArray child rootSpec w spec o = .ret c) (hok : isError c.result = false) :
    tipe c.result = tipe w ∧ c.post = c.result ∧
    ∃ o', checkArray child rootSpec c.result spec o = .ret ⟨c.result, c.result, o'⟩ := by
  unfold checkArray at hs ⊢
  by_cases hobj : isObject (spec.get "value") = true
  · simp only [hobj, if_true] at hs ⊢
    obtain ⟨hpost, _, hlen, htipe, hbefore, _⟩ := scrubItems_inv child rootSpec spec w o
      w.length (Nat.le_refl _) (isError_of_tipe_array hw) c hs hok
    refine ⟨htipe, hpost, ?_⟩
    obtain ⟨o', hrun, _⟩ := scrubItems_fixed child rootSpec spec c.result o
      (List.range c.result.length) o (Or.inl rfl) (by
        intro j hj
        rw [hlen] at hj
        obtain ⟨out, h1, h2, h3⟩ := hbefore j (List.mem_range.mp hj)
        rw [h3]
        exact ⟨h2, hchild _ _ _ _ h1 h2⟩)
    exact ⟨o', hrun⟩
  · simp only [hobj, if_false, Bool.false_eq_true] at hs ⊢
    injection hs with hs
    subst hs
    exact ⟨rfl, rfl, o, rfl⟩

theorem keys_put_mem (v : Val) (k : String) (x : Val) (hk : k ∈ v.keys) :
    (v.put k x).keys = v.keys := by
  cases v with
  | obj ps =>
    simp only [Val.keys] at hk
    simp only [Val.put, Val.keys, keys_set, hk, if_true]
  | _ => simp [Val.keys] at hk

theorem set_find_same (k : String) (ps : Props) (hk : k ∈ ps.map Prod.fst) :
    Props.set k ((Props.find k ps).getD .undefined) ps = ps := by
  induction ps with
  | nil => simp at hk
  | cons p rest ih =>
    obtain ⟨k', v'⟩ := p
    by_cases hkk : k' = k
    · subst hkk
      simp [Props.set, Props.find]
    · have hk2 : k ∈ rest.map Prod.fst := by
        simp only [List.map_cons, List.mem_cons] at hk
        rcases hk with hk | hk
        · exact absurd hk.symm hkk
        · exact hk
      simp only [Props.set, Props.find, hkk, if_false, ih hk2]

theorem put_get_same (v : Val) (k : String) (hk : k ∈ v.keys) : v.put k (v.get k) = v := by
  cases v with
  | obj ps =>
    simp only [Val.keys] at hk
    simp only [Val.put, Val.get, set_find_same k ps hk]
  | _ => simp [Val.keys] at hk

/-- What a run of the recursion loop of `checkObject` that ends without error has done,
when what the recursive call returns is scrubbed to itself. -/
theorem scrubProps_inv (child : Val → Val → Val → Res Out) (rootSpec spec sf o : Val)
    (hchild : ∀ k x y q, isObject (sf.get k) = true →
      child x (sf.get k) (o.put "key" (.str k)) = .ret ⟨y, q⟩ → isError y = false →
      child y (sf.get k) (o.put "key" (.str k)) = .ret ⟨y, y⟩)
    (ks : List String) (value o0 : Val) (c : Checked)
    (hv : isObject value = true) (hsub : ∀ k, k ∈ ks → k ∈ value.keys)
    (hsh0 : o0 = o ∨ ∃ x, o0 = o.put "key" x)
    (hs : scrubProps child rootSpec spec sf ks value o0 = .ret c)
    (hok : isError c.result = false) :
    isObject c.result = true ∧
    c.result.keys = value.keys ∧
    (∀ k, k ∈ ks → isObject (sf.get k) = true →
      isError (c.result.get k) = false ∧
      child (c.result.get k) (sf.get k) (o.put "key" (.str k))
        = .ret ⟨c.result.get k, c.result.get k⟩) ∧
    (∀ k, k ∉ ks → c.result.get k = value.get k) := by
  induction ks generalizing value o0 with
  | nil =>
    simp only [scrubProps] at hs
    injection hs with hs
    subst hs
    exact ⟨hv, rfl, fun k hk => absurd hk (List.not_mem_nil k), fun _ _ => rfl⟩
  | cons key ks ih =>
    simp only [scrubProps] at hs
    by_cases hobj : isObject (sf.get key) = true
    · have hopt : o0.put "key" (.str key) = o.put "key" (.str key) := put_key_of_shape _ hsh0
      simp only [hobj, if_true, hopt] at hs
      cases hc : child (value.get key) (sf.get key) (o.put "key" (.str key)) with
      | raise m => simp [hc] at hs
      | diverge => simp [hc] at hs
      | ret out =>
        simp only [hc, Res.bind_ret] at hs
        by_cases heo : isError out.result = true
        · simp only [heo, if_true] at hs
          injection hs with hs
          subst hs
          simp only [isError_failWith, heo] at hok
          exact absurd hok (by decide)
        · have heof : isError out.result = false := by simpa using heo
          simp only [heo, if_false, Bool.false_eq_true] at hs
          have hkey : key ∈ value.keys := hsub key (List.mem_cons_self _ _)
          have hkeys : (value.put key out.result).keys = value.keys := keys_put_mem _ _ _ hkey
          obtain ⟨h1, h2, h3, h4⟩ := ih (value.put key out.result) (o.put "key" (.str key))
            (by rw [isObject_put]; exact hv)
            (fun k hk => by rw [hkeys]; exact hsub k (List.mem_cons_of_mem _ hk))
            (Or.inr ⟨_, rfl⟩) hs
          refine ⟨h1, h2.trans hkeys, ?_, ?_⟩
          · intro k hk hko
            by_cases hmem : k ∈ ks
            · exact h3 k hmem hko
            · have hkk : k = key := by
                rcases List.mem_cons.mp hk with hk | hk
                · exact hk
                · exact absurd hk hmem
              subst hkk
              rw [h4 k hmem, get_put_self _ hv]
              exact ⟨heof, hchild k _ _ out.post hko hc heof⟩
          · intro k hk
            have hne : k ≠ key := fun hh => hk (by rw [hh]; exact List.mem_cons_self _ _)
            rw [h4 k (fun hh => hk (List.mem_cons_of_mem _ hh)), get_put_ne _ hne]
    · have hobj2 : isObject (sf.get key) = false := by simpa using hobj
      simp only [hobj2, Bool.false_eq_true, if_false] at hs
      obtain ⟨h1, h2, h3, h4⟩ := ih value o0 hv
        (fun k hk => hsub k (List.mem_cons_of_mem _ hk)) hsh0 hs
      refine ⟨h1, h2, ?_, ?_⟩
      · intro k hk hko
        rcases List.mem_cons.mp hk with hk | hk
        · subst hk
          rw [hobj2] at hko
          exact absurd hko (by decide)
        · exact h3 k hk hko
      · intro k hk
        exact h4 k (fun hh => hk (List.mem_cons_of_mem _ hh))

/-- A property of the fields that the recursive call preserves holds after the loop of
`checkObject` wherever it held before. -/
theorem scrubProps_preserves (child : Val → Val → Val → Res Out) (rootSpec spec sf o : Val)
    (Q : Val → Prop)
    (hQ : ∀ k x out, isObject (sf.get k) = true →
      child x (sf.get k) (o.put "key" (.str k)) = .ret out → isError out.result = false →
      Q x → Q out.result)
    (ks : List String) (value o0 : Val) (c : Checked)
    (hv : isObject value = true)
    (hsh0 : o0 = o ∨ ∃ x, o0 = o.put "key" x)
    (hs : scrubProps child rootSpec spec sf ks value o0 = .ret c)
    (hok : isError c.result = false) (k : String) (hq : Q (value.get k)) :
    Q (c.result.get k) := by
  induction ks generalizing value o0 with
  | nil =>
    simp only [scrubProps] at hs
    injection hs with hs
    subst hs
    exact hq
  | cons key ks ih =>
    simp only [scrubProps] at hs
    by_cases hobj : isObject (sf.get key) = true
    · have hopt : o0.put "key" (.str key) = o.put "key" (.str key) := put_key_of_shape _ hsh0
      simp only [hobj, if_true, hopt] at hs
      cases hc : child (value.get key) (sf.get key) (o.put "key" (.str key)) with
      | raise m => simp [hc] at hs
      | diverge => simp [hc] at hs
      | ret out =>
        simp only [hc, Res.bind_ret] at hs
        by_cases heo : isError out.result = true
        · simp only [heo, if_true] at hs
          injection hs with hs
          subst hs
          simp only [isError_failWith, heo] at hok
          exact absurd hok (by decide)
        · have heof : isError out.result = false := by simpa using heo
          simp only [heo, if_false, Bool.false_eq_true] at hs
          refine ih (value.put key out.result) (o.put "key" (.str key))
            (by rw [isObject_put]; exact hv) (Or.inr ⟨_, rfl⟩) hs ?_
          by_cases hkk : k = key
          · subst hkk
            rw [get_put_self _ hv]
            exact hQ k _ out hobj hc heof hq
          · rw [get_put_ne _ hkk]
            exact hq
    · have hobj2 : isObject (sf.get key) = false := by simpa using hobj
      simp only [hobj2, Bool.false_eq_true, if_false] at hs
      exact ih value o0 hv hsh0 hs hq

/-- The recursion loop of `checkObject` leaves alone a value whose fields are scrubbed
to themselves. -/
theorem scrubProps_fixed (child : Val → Val → Val → Res Out) (rootSpec spec sf o : Val)
    (value : Val) (ks : List String) (o0 : Val)
    (hsh0 : o0 = o ∨ ∃ x, o0 = o.put "key" x)
    (hall : ∀ k, k ∈ ks → k ∈ value.keys ∧ (isObject (sf.get k) = true →
      isError (value.get k) = false ∧
      child (value.get k) (sf.get k) (o.put "key" (.str k))
        = .ret ⟨value.get k, value.get k⟩)) :
    ∃ o', scrubProps child rootSpec spec sf ks value o0 = .ret ⟨value, value, o'⟩ ∧
      (o' = o ∨ ∃ x, o' = o.put "key" x) := by
  induction ks generalizing o0 with
  | nil => exact ⟨o0, rfl, hsh0⟩
  | cons key rest ih =>
    obtain ⟨hmem, hc⟩ := hall key (List.mem_cons_self _ _)
    by_cases hobj : isObject (sf.get key) = true
    · obtain ⟨he, hc⟩ := hc hobj
      have hopt : o0.put "key" (.str key) = o.put "key" (.str key) := put_key_of_shape _ hsh0
      obtain ⟨o', hrun, hsh⟩ := ih (o.put "key" (.str key)) (Or.inr ⟨_, rfl⟩)
        (fun i hi => hall i (List.mem_cons_of_mem _ hi))
      refine ⟨o', ?_, hsh⟩
      simp only [scrubProps, hobj, if_true, hopt, hc, Res.bind_ret, he, Bool.false_eq_true,
        if_false, put_get_same _ _ hmem, hrun]
    · have hobj2 : isObject (sf.get key) = false := by simpa using hobj
      obtain ⟨o', hrun, hsh⟩ := ih o0 hsh0 (fun i hi => hall i (List.mem_cons_of_mem _ hi))
      refine ⟨o', ?_, hsh⟩
      simp only [scrubProps, hobj2, Bool.false_eq_true, if_false, hrun]

theorem unknownKey_none (sf : Val) (ks : List String) :
    unknownKey sf ks = none ↔
      ∀ k, k ∈ ks →
        isUndefined (sf.get k) = false ∨ (inherits k = true ∧ k ∉ sf.keys) := by
  induction ks with
  | nil => simp [unknownKey]
  | cons key rest ih =>
    by_cases hu : (isUndefined (sf.get key) &&
        (decide (key ∈ sf.keys) || !inherits key)) = true
    · simp only [unknownKey, hu, if_true, List.mem_cons]
      constructor
      · intro hh
        exact absurd hh (by simp)
      · intro hall
        rcases hall key (Or.inl rfl) with h1 | ⟨h1, h2⟩
        · rw [h1] at hu
          simp at hu
        · simp [h1, h2] at hu
    · have hu2 : isUndefined (sf.get key) = false ∨
          (inherits key = true ∧ key ∉ sf.keys) := by
        cases h1 : isUndefined (sf.get key) with
        | false => exact Or.inl rfl
        | true =>
          refine Or.inr ?_
          simp only [h1, Bool.true_and, Bool.or_eq_true, decide_eq_true_eq,
            Bool.not_eq_true', not_or, Bool.not_eq_false] at hu
          exact ⟨hu.2, hu.1⟩
      simp only [unknownKey, hu, Bool.false_eq_true, if_false, ih, List.mem_cons]
      constructor
      · intro hall k hk
        rcases hk with hk | hk
        · rw [hk]; exact hu2
        · exact hall k hk
      · intro hall k hk
        exact hall k (Or.inr hk)

theorem getProp_ret {v d : Val} {k : String} (hg : v.getProp k = .ret d) :
    d = v.get k ∧ isUndefined v = false := by
  cases v <;> simp [Val.getProp] at hg <;> exact ⟨hg.symm, rfl⟩

/-- What the defaults loop of `checkObject` has done when it ends without error, for
fields without functions: the keys it added are declared, and a field it left undefined
has no default to apply. -/
theorem fill_facts (h : Host) (rootSpec spec sf o : Val) (hsf : funcs sf = [])
    (keys : List String) (value filled : Val) (hv : isObject value = true)
    (hf : fillDefaults h rootSpec spec sf o keys value = .ret (.ok filled)) :
    (∀ k, k ∈ filled.keys → k ∈ value.keys ∨ (k ∈ keys ∧ isUndefined (sf.get k) = false)) ∧
    (∀ k, k ∈ keys → isUndefined (filled.get k) = true →
      ∃ d, (sf.get k).getProp "default" = .ret d ∧
        (isDefined d && !(o.get "ignoreDefaults").truthy) = false) := by
  induction keys generalizing value with
  | nil =>
    simp only [fillDefaults] at hf
    injection hf with hf
    injection hf with hf
    subst hf
    exact ⟨fun k hk => Or.inl hk, fun k hk => absurd hk (List.not_mem_nil k)⟩
  | cons key rest ih =>
    have hfull := hf
    simp only [fillDefaults] at hf
    by_cases hu : isUndefined (value.get key) = true
    · simp only [hu, if_true] at hf
      cases hg : (sf.get key).getProp "default" with
      | raise m => simp [hg] at hf
      | diverge => simp [hg] at hf
      | ret d =>
        obtain ⟨hd, hsfk⟩ := getProp_ret hg
        simp only [hg, Res.bind_ret] at hf
        by_cases hc : (isDefined d && !(o.get "ignoreDefaults").truthy) = true
        · simp only [hc, if_true] at hf
          rw [setDefault_free h (sf.get key) o (funcs_free_get hsf key)] at hf
          simp only [Res.bind_ret] at hf
          by_cases hre : isError (clone ((sf.get key).get "default")) = true
          · simp [hre] at hf
          · simp only [hre, Bool.false_eq_true, if_false] at hf
            have hv' : isObject (value.put key (clone ((sf.get key).get "default"))) = true := by
              rw [isObject_put]; exact hv
            obtain ⟨i1, i2⟩ := ih _ hv' hf
            have hdd : isDefined (clone ((sf.get key).get "default")) = true := by
              simp only [Bool.and_eq_true] at hc
              rw [hd] at hc
              exact (clone_literal _ hc.1 (funcs_free_field (funcs_free_get hsf key) "default")).1
            refine ⟨?_, ?_⟩
            · intro k hk
              rcases i1 k hk with hk1 | ⟨hk1, hk2⟩
              · by_cases hkk : k = key
                · subst hkk
                  exact Or.inr ⟨List.mem_cons_self _ _, hsfk⟩
                · left
                  obtain ⟨ps, rfl⟩ : ∃ ps, value = .obj ps := by
                    cases value <;> simp_all [isObject]
                  simp only [Val.put, Val.keys, keys_set] at hk1 ⊢
                  split at hk1
                  · exact hk1
                  · rcases List.mem_append.mp hk1 with hk1 | hk1
                    · exact hk1
                    · simp only [List.mem_singleton] at hk1
                      exact absurd hk1 hkk
              · exact Or.inr ⟨List.mem_cons_of_mem _ hk1, hk2⟩
            · intro k hk hku
              by_cases hmem : k ∈ rest
              · exact i2 k hmem hku
              · have hkk : k = key := by
                  rcases List.mem_cons.mp hk with hk | hk
                  · exact hk
                  · exact absurd hk hmem
                subst hkk
                have hkeep := (fill_get h rootSpec spec sf o k rest _ filled hv' hf).2.1
                rw [get_put_self _ hv] at hkeep
                rw [hkeep (by simpa [isDefined] using hdd)] at hku
                simp [isDefined, hku] at hdd
        · simp only [hc, Bool.false_eq_true, if_false] at hf
          obtain ⟨i1, i2⟩ := ih _ hv hf
          refine ⟨?_, ?_⟩
          · intro k hk
            rcases i1 k hk with hk1 | ⟨hk1, hk2⟩
            · exact Or.inl hk1
            · exact Or.inr ⟨List.mem_cons_of_mem _ hk1, hk2⟩
          · intro k hk hku
            rcases List.mem_cons.mp hk with hk | hk
            · subst hk
              exact ⟨d, hg, by simpa using hc⟩
            · exact i2 k hk hku
    · simp only [hu, Bool.false_eq_true, if_false] at hf
      obtain ⟨i1, i2⟩ := ih _ hv hf
      refine ⟨?_, ?_⟩
      · intro k hk
        rcases i1 k hk with hk1 | ⟨hk1, hk2⟩
        · exact Or.inl hk1
        · exact Or.inr ⟨List.mem_cons_of_mem _ hk1, hk2⟩
      · intro k hk hku
        by_cases hmem : k ∈ rest
        · exact i2 k hmem hku
        · have hkk : k = key := by
            rcases List.mem_cons.mp hk with hk | hk
            · exact hk
            · exact absurd hk hmem
          subst hkk
          have hkeep := (fill_get h rootSpec spec sf o k rest value filled hv hf).2.1
          rw [hkeep (by simpa using hu)] at hku
          exact absurd hku hu

/-- The defaults loop of `checkObject` leaves alone a value whose undefined fields have
no default to apply. -/
theorem fill_fixed (h : Host) (rootSpec spec sf o : Val) (keys : List String) (value : Val)
    (hall : ∀ k, k ∈ keys → isUndefined (value.get k) = true →
      ∃ d, (sf.get k).getProp "default" = .ret d ∧
        (isDefined d && !(o.get "ignoreDefaults").truthy) = false) :
    fillDefaults h rootSpec spec sf o keys value = .ret (.ok value) := by
  induction keys with
  | nil => rfl
  | cons key rest ih =>
    have hrest := ih (fun k hk => hall k (List.mem_cons_of_mem _ hk))
    by_cases hu : isUndefined (value.get key) = true
    · obtain ⟨d, hg, hc⟩ := hall key (List.mem_cons_self _ _) hu
      simp only [fillDefaults, hu, if_true, hg, Res.bind_ret, hc, Bool.false_eq_true, if_false,
        hrest]
    · simp only [fillDefaults, hu, Bool.false_eq_true, if_false, hrest]

/-- The required loop of `checkObject` passes again on a value that is void (undefined or
null) only where the value it passed on was. -/
theorem required_again (sf filled value : Val) (keys : List String)
    (hm : missingRequired sf filled keys = .ret none)
    (hvoid : ∀ k, (isUndefined (value.get k) || isNull (value.get k)) = true →
      (isUndefined (filled.get k) || isNull (filled.get k)) = true) :
    missingRequired sf value keys = .ret none := by
  induction keys with
  | nil => rfl
  | cons key rest ih =>
    simp only [missingRequired] at hm ⊢
    cases hg : (sf.get key).getProp "required" with
    | raise m => simp [hg] at hm
    | diverge => simp [hg] at hm
    | ret r =>
      simp only [hg, Res.bind_ret] at hm ⊢
      by_cases hc : (r.truthy && (isUndefined (filled.get key) || isNull (filled.get key))) = true
      · simp [hc] at hm
      · simp only [hc, Bool.false_eq_true, if_false] at hm
        have hc2 : (r.truthy && (isUndefined (value.get key) || isNull (value.get key)))
            = false := by
          by_cases hv : (isUndefined (value.get key) || isNull (value.get key)) = true
          · rw [hvoid key hv] at hc
            rw [hv]
            simpa using hc
          · simp only [hv, Bool.and_false]
        simp only [hc2, Bool.false_eq_true, if_false]
        exact ih hm

/-- A second run of `checkObject` on what a first run without error returns leaves it as
it is, for a spec without functions, when the same holds of the recursive call. -/
theorem checkObject_again (h : Host) (child : Val → Val → Val → Res Out)
    (rootSpec spec w o : Val) (c : Checked) (hf : funcs spec = []) (hw : tipe w = "object")
    (hchild : ∀ t x o1 y q, funcs t = [] → child x t o1 = .ret ⟨y, q⟩ → isError y = false →
      child y t o1 = .ret ⟨y, y⟩ ∧
      ((isUndefined y || isNull y) = true → (isUndefined x || isNull x) = true) ∧
      (isUndefined y = true → isUndefined x = true))
    (hs : checkObject h child rootSpec w spec o = .ret c) (hok : isError c.result = false) :
    tipe c.result = tipe w ∧ c.post = c.result ∧
    ∃ o', checkObject h child rootSpec c.result spec o = .ret ⟨c.result, c.result, o'⟩ := by
  have hwo : isObject w = true := (tipe_object_iff w).mp hw
  have hsf : funcs (specFields spec) = [] := funcs_free_specFields hf
  unfold checkObject at hs
  cases hst : (if (o.get "strict").truthy = true
      then unknownKey (specFields spec) w.keys else none) with
  | some key =>
    simp only [hst] at hs
    injection hs with hs
    subst hs
    simp only [isError_fail] at hok
    exact absurd hok (by decide)
  | none =>
    simp only [hst] at hs
    cases hfill : fillDefaults h rootSpec spec (specFields spec) o (specFields spec).keys w with
    | raise m => simp [hfill] at hs
    | diverge => simp [hfill] at hs
    | ret fr =>
      cases fr with
      | error out =>
        simp only [hfill, Res.bind_ret] at hs
        injection hs with hs
        subst hs
        rw [fillDefaults_error_isError _ _ _ _ _ _ _ _ hfill] at hok
        exact absurd hok (by decide)
      | ok filled =>
        simp only [hfill, Res.bind_ret, Bool.not_eq_true'] at hs
        cases hreq : (if (o.get "ignoreRequired").truthy = false
            then missingRequired (specFields spec) filled (specFields spec).keys
            else .ret none) with
        | raise m => simp [hreq] at hs
        | diverge => simp [hreq] at hs
        | ret missing =>
          cases missing with
          | some key =>
            rw [hreq] at hs
            simp only [Res.bind_ret] at hs
            injection hs with hs
            subst hs
            simp only [isError_fail] at hok
            exact absurd hok (by decide)
          | none =>
            rw [hreq] at hs
            simp only [Res.bind_ret] at hs
            have hfo : isObject filled = true :=
              (fill_get h rootSpec spec (specFields spec) o "" _ w filled hwo hfill).1
            obtain ⟨f1, f2⟩ := fill_facts h rootSpec spec (specFields spec) o hsf _ w filled
              hwo hfill
            obtain ⟨s1, s2, s3, _⟩ := scrubProps_inv child rootSpec spec (specFields spec) o
              (fun k x y q _ hc hy =>
                (hchild _ x _ y q (funcs_free_get hsf k) hc hy).1)
              filled.keys filled o c hfo (fun _ hk => hk) (Or.inl rfl) hs hok
            have hdefd : ∀ k, isUndefined (c.result.get k) = true →
                isUndefined (filled.get k) = true := by
              intro k hu
              by_cases hfu : isUndefined (filled.get k) = true
              · exact hfu
              · have := scrubProps_preserves child rootSpec spec (specFields spec) o
                  (fun x => isUndefined x = false)
                  (fun k x out _ hc hy hx => by
                    cases out with
                    | mk y q =>
                      by_cases hyu : isUndefined y = true
                      · have := (hchild _ x _ y q (funcs_free_get hsf k) hc hy).2.2 hyu
                        rw [hx] at this
                        exact absurd this (by decide)
                      · simpa using hyu)
                  filled.keys filled o c hfo (Or.inl rfl) hs hok k (by simpa using hfu)
                rw [this] at hu
                exact absurd hu (by decide)
            have hvoid : ∀ k, (isUndefined (c.result.get k) || isNull (c.result.get k)) = true →
                (isUndefined (filled.get k) || isNull (filled.get k)) = true := by
              intro k hu
              by_cases hfu : (isUndefined (filled.get k) || isNull (filled.get k)) = true
              · exact hfu
              · have := scrubProps_preserves child rootSpec spec (specFields spec) o
                  (fun x => (isUndefined x || isNull x) = false)
                  (fun k x out _ hc hy hx => by
                    cases out with
                    | mk y q =>
                      by_cases hyu : (isUndefined y || isNull y) = true
                      · have := (hchild _ x _ y q (funcs_free_get hsf k) hc hy).2.1 hyu
                        rw [hx] at this
                        exact absurd this (by decide)
                      · simpa using hyu)
                  filled.keys filled o c hfo (Or.inl rfl) hs hok k (by simpa using hfu)
                rw [this] at hu
                exact absurd hu (by decide)
            refine ⟨by rw [(tipe_object_iff c.result).mpr s1, hw],
              scrubProps_post _ _ _ _ _ _ _ _ hs hok, ?_⟩
            have hst2 : (if (o.get "strict").truthy = true
                then unknownKey (specFields spec) c.result.keys else none) = none := by
              by_cases hstrict : (o.get "strict").truthy = true
              · simp only [hstrict, if_true] at hst ⊢
                rw [unknownKey_none] at hst ⊢
                intro k hk
                rw [s2] at hk
                rcases f1 k hk with hk1 | ⟨_, hk2⟩
                · exact hst k hk1
                · exact Or.inl hk2
              · simp only [hstrict, if_false, Bool.false_eq_true]
            have hfill2 : fillDefaults h rootSpec spec (specFields spec) o
                (specFields spec).keys c.result = .ret (.ok c.result) :=
              fill_fixed h rootSpec spec (specFields spec) o _ c.result
                (fun k hk hu => f2 k hk (hdefd k hu))
            have hreq2 : (if (o.get "ignoreRequired").truthy = false
                then missingRequired (specFields spec) c.result (specFields spec).keys
                else .ret none) = .ret none := by
              by_cases hig : (o.get "ignoreRequired").truthy = false
              · simp only [hig, if_true] at hreq ⊢
                exact required_again _ filled _ _ hreq hvoid
              · rw [if_neg hig]
            obtain ⟨o', hrun, _⟩ := scrubProps_fixed child rootSpec spec (specFields spec) o
              c.result c.result.keys o (Or.inl rfl)
              (fun k hk => ⟨hk, fun hko => s3 k (by rw [← s2]; exact hk) hko⟩)
            refine ⟨o', ?_⟩
            unfold checkObject
            simp only [hst2, hfill2, Res.bind_ret, Bool.not_eq_true', hreq2, hrun]

/-- A second run of the dispatch on what a first run without error returns leaves it as it
is, for a spec without functions, when the same holds of the recursive call. -/
theorem dispatch_again (h : Host) (child : Val → Val → Val → Res Out)
    (rootSpec spec w o : Val) (c : Checked) (hf : funcs spec = [])
    (hchild : ∀ t x o1 y q, funcs t = [] → child x t o1 = .ret ⟨y, q⟩ → isError y = false →
      child y t o1 = .ret ⟨y, y⟩ ∧
      ((isUndefined y || isNull y) = true → (isUndefined x || isNull x) = true) ∧
      (isUndefined y = true → isUndefined x = true))
    (hs : dispatch h child rootSpec w spec o = .ret c) (hok : isError c.result = false) :
    (c.result = w ∨ (tipe c.result = tipe w ∧ (tipe w = "object" ∨ tipe w = "array"))) ∧
    c.post = c.result ∧
    ∃ o', dispatch h child rootSpec c.result spec o = .ret ⟨c.result, c.result, o'⟩ := by
  unfold dispatch at hs
  by_cases hobj : tipe w = "object"
  · simp only [hobj, if_true] at hs
    obtain ⟨h1, hp, o', h2⟩ := checkObject_again h child rootSpec spec w o c hf hobj hchild hs
      hok
    refine ⟨Or.inr ⟨h1, Or.inl hobj⟩, hp, o', ?_⟩
    unfold dispatch
    rw [h1, hobj]
    simp only [if_true, h2]
  · simp only [hobj, if_false] at hs
    by_cases harr : tipe w = "array"
    · simp only [harr, if_true] at hs
      obtain ⟨h1, hp, o', h2⟩ := checkArray_again child rootSpec spec w o c harr
        (fun x o1 y q hc hy => (hchild _ x o1 y q (funcs_free_get hf "value") hc hy).1) hs hok
      refine ⟨Or.inr ⟨h1, Or.inr harr⟩, hp, o', ?_⟩
      have hno : ¬ tipe c.result = "object" := by rw [h1, harr]; decide
      unfold dispatch
      rw [if_neg hno, h1, if_pos harr, h2]
    · simp only [harr, if_false] at hs
      injection hs with hs
      subst hs
      have hcs := checkScalar_value h rootSpec w spec o hok
      refine ⟨Or.inl hcs, hcs.symm, o, ?_⟩
      show dispatch h child rootSpec (checkScalar h rootSpec w spec o) spec o = _
      rw [hcs]
      unfold dispatch
      simp only [hobj, if_false, harr, hcs]

/-- A spec without functions: a run of `_scrub` on what a run without error returns gives
it back unchanged; and the result is void (undefined or null) only if the value was. -/
theorem _scrub_again (h : Host) (rootSpec : Val) (fuel : Nat) :
    ∀ (s v o r p : Val), funcs s = [] →
      _scrub h rootSpec fuel v s o = .ret ⟨r, p⟩ → isError r = false →
      _scrub h rootSpec fuel r s o = .ret ⟨r, r⟩ ∧
      ((isUndefined r || isNull r) = true → (isUndefined v || isNull v) = true) ∧
      (isUndefined r = true → isUndefined v = true) ∧
      ((isObject v || isArray v) = true → p = r) := by
  induction fuel with
  | zero =>
    intro s v o r p _ hs _
    simp [_scrub] at hs
  | succ fuel ih =>
    intro s v o r p hf hs hok
    by_cases hobj : isObject s = true
    · rw [_scrub] at hs ⊢
      simp only [hobj, Bool.not_true, Bool.false_eq_true, if_false] at hs ⊢
      cases hh : scrubHead h rootSpec v s (override o s false) with
      | raise m => simp [hh] at hs
      | diverge => simp [hh] at hs
      | ret head =>
        cases head with
        | error e =>
          simp only [hh, Res.bind_ret] at hs
          injection hs with hs
          injection hs with h1 h2
          subst h1
          rw [scrubHead_error hh] at hok
          exact absurd hok (by decide)
        | ok w =>
          simp only [hh, Res.bind_ret] at hs
          cases hd : dispatch h (_scrub h rootSpec fuel) rootSpec w s (override o s false) with
          | raise m => simp [hd] at hs
          | diverge => simp [hd] at hs
          | ret c =>
            simp only [hd, Res.bind_ret] at hs
            by_cases hce : isError c.result = true
            · simp only [hce, if_true] at hs
              injection hs with hs
              injection hs with h1 h2
              subst h1
              rw [hce] at hok
              exact absurd hok (by decide)
            · have hcef : isError c.result = false := by simpa using hce
              simp only [hce, Bool.false_eq_true, if_false,
                scrubTail_free h rootSpec c.result s c.options hf, Res.bind_ret] at hs
              injection hs with hs
              injection hs with h1 h2
              subst h1
              obtain ⟨hshape, hpost, o', hd2⟩ := dispatch_again h (_scrub h rootSpec fuel) rootSpec s w
                (override o s false) c hf
                (fun t x o1 y q ht hc hy =>
                  ⟨(ih t x o1 y q ht hc hy).1, (ih t x o1 y q ht hc hy).2.1,
                    (ih t x o1 y q ht hc hy).2.2.1⟩) hd hcef
              obtain ⟨ha, hvoid, hund⟩ := scrubHead_again h rootSpec v s (override o s false) w
                hf hh
              refine ⟨?_, ?_, ?_, ?_⟩
              · simp only [ha c.result hshape, Res.bind_ret, hd2, hcef, Bool.false_eq_true,
                  if_false, scrubTail_free h rootSpec c.result s o' hf, ite_self]
              · intro hv
                rcases hshape with hsh | ⟨hsh, hoa⟩
                · rw [hsh] at hv
                  exact hvoid hv
                · have hcf := container_facts (hsh ▸ hoa)
                  rw [hcf.2.2.1, hcf.2.2.2.1] at hv
                  exact absurd hv (by decide)
              · intro hv
                rcases hshape with hsh | ⟨hsh, hoa⟩
                · rw [hsh] at hv
                  exact hund hv
                · have hcf := container_facts (hsh ▸ hoa)
                  rw [hcf.2.2.2.1] at hv
                  exact absurd hv (by decide)
              · intro hv
                rw [← h2, inPlace_free v s hf, hv]
                exact hpost
    · have hobj2 : isObject s = false := by simpa using hobj
      rw [_scrub] at hs ⊢
      simp only [hobj2, Bool.not_false, if_true] at hs ⊢
      injection hs with hs
      injection hs with h1 h2
      subst h1
      exact ⟨trivial, fun hv => hv, fun hv => hv, fun _ => h2.symm⟩

/-! ## A spec with an extra key -/

theorem find_append_entry (key k : String) (x : Val) (ps : Props) :
    Props.find key (ps ++ [(k, x)]) =
      match Props.find key ps with
      | some v => some v
      | none => if k = key then some x else none := by
  induction ps with
  | nil => simp [Props.find]
  | cons p rest ih =>
    obtain ⟨k', v'⟩ := p
    by_cases hk : k' = key
    · simp [Props.find, hk]
    · simp only [List.cons_append, Props.find, hk, if_false]
      exact ih

theorem find_none_of_not_mem {k : String} {ps : Props} (hk : k ∉ ps.map Prod.fst) :
    Props.find k ps = none := by
  cases hf : Props.find k ps with
  | none => rfl
  | some v => exact absurd (List.mem_map_of_mem Prod.fst (find_mem hf)) hk

theorem get_append_ne (ps : Props) (k : String) (x : Val) {key : String} (hne : key ≠ k) :
    (Val.obj (ps ++ [(k, x)])).get key = (Val.obj ps).get key := by
  simp only [Val.get, find_append_entry]
  cases Props.find key ps with
  | none =>
    have hne2 : ¬ k = key := fun hh => hne hh.symm
    simp [hne2]
  | some v => rfl

theorem get_append_self (ps : Props) (k : String) (x : Val) (hk : k ∉ ps.map Prod.fst) :
    (Val.obj (ps ++ [(k, x)])).get k = x ∧ (Val.obj ps).get k = .undefined := by
  simp only [Val.get, find_append_entry, find_none_of_not_mem hk, if_true]
  exact ⟨rfl, rfl⟩

theorem mem_keys_of_isObject_get {ps : Props} {key : String}
    (ho : isObject ((Val.obj ps).get key) = true) : key ∈ ps.map Prod.fst := by
  apply mem_keys_of_get ps key
  intro hh
  rw [hh] at ho
  exact absurd ho (by decide)

theorem pads_isObject {k : String} {x s s' : Val} (hp : Pads k x s s') :
    isObject s' = isObject s := by
  cases hp with
  | same => rfl
  | here ps _ => rfl
  | field ps key t' _ _ _ => rfl

theorem not_keyword {k : String} (hk : k ∉ keywords) :
    k ≠ "type" ∧ k ≠ "required" ∧ k ≠ "default" ∧ k ≠ "value" ∧ k ≠ "validate" ∧
      k ≠ "init" ∧ k ≠ "finish" := by
  simp only [keywords, List.mem_cons, List.mem_singleton, not_or, List.mem_nil_iff,
    or_false] at hk
  exact hk

/-- The keywords other than `value` read the same from the two specs. -/
theorem pads_keyword {k : String} {x s s' : Val} (hk : k ∉ keywords) (hp : Pads k x s s')
    {kw : String} (hkw : kw ∈ keywords) (hv : kw ≠ "value") : s'.get kw = s.get kw := by
  cases hp with
  | same => rfl
  | here ps _ =>
    exact get_append_ne ps k x (fun hh => hk (hh ▸ hkw))
  | field ps key t' hkey _ _ =>
    have hne : kw ≠ key := by
      intro hh
      rcases hkey with hkey | hkey
      · exact hv (hh.trans hkey)
      · exact hkey (hh ▸ hkw)
    exact get_put_ne_obj ps hne t'

/-- What the two specs hold under a key: two specs of which the second is the first with
the entry added, or nothing and the added value. -/
theorem pads_get {k : String} {x s s' : Val} (hp : Pads k x s s') (key : String) :
    Pads k x (s.get key) (s'.get key) ∨
      (key = k ∧ s.get key = .undefined ∧ s'.get key = x) := by
  cases hp with
  | same => exact Or.inl (Pads.same _)
  | here ps hnew =>
    by_cases hkk : key = k
    · subst hkk
      exact Or.inr ⟨rfl, (get_append_self ps key x hnew).2, (get_append_self ps key x hnew).1⟩
    · rw [get_append_ne ps k x hkk]
      exact Or.inl (Pads.same _)
  | field ps key0 t' _ hobj hsub =>
    by_cases hkk : key = key0
    · subst hkk
      rw [get_put_self_obj]
      exact Or.inl hsub
    · rw [get_put_ne_obj ps hkk]
      exact Or.inl (Pads.same _)

theorem pads_value {k : String} {x s s' : Val} (hk : k ∉ keywords) (hp : Pads k x s s') :
    Pads k x (s.get "value") (s'.get "value") := by
  rcases pads_get hp "value" with h1 | ⟨h1, _, _⟩
  · exact h1
  · exact absurd h1.symm (not_keyword hk).2.2.2.1

theorem pads_specFields {k : String} {x s s' : Val} (hk : k ∉ keywords) (hp : Pads k x s s') :
    Pads k x (specFields s) (specFields s') := by
  unfold specFields
  rw [pads_keyword hk hp (by decide : "type" ∈ keywords) (by decide),
    pads_isObject (pads_value hk hp)]
  split
  · exact pads_value hk hp
  · exact hp

/-- The keys of the spec with the entry: the same keys, or the new key after them. -/
theorem pads_keys {k : String} {x s s' : Val} (hp : Pads k x s s') :
    s'.keys = s.keys ∨ (s'.keys = s.keys ++ [k] ∧ k ∉ s.keys) := by
  cases hp with
  | same => exact Or.inl rfl
  | here ps hnew =>
    right
    simp only [Val.keys, List.map_append, List.map_cons, List.map_nil]
    exact ⟨trivial, hnew⟩
  | field ps key0 t' _ hobj hsub =>
    left
    exact keys_put_mem _ _ _ (mem_keys_of_isObject_get hobj)

theorem tipe_ne_undefined {x : Val} (hx : isUndefined x = false) : ¬ "undefined" = tipe x := by
  intro hh
  have := (tipe_undefined_iff x).mp hh.symm
  rw [this] at hx
  exact absurd hx (by decide)

theorem tipe_ne_object {x : Val} (hx : isObject x = false) : ¬ tipe x = "object" := by
  intro hh
  rw [(tipe_object_iff x).mp hh] at hx
  exact absurd hx (by decide)

/-- The options in effect at a node are the same for the spec with the entry, when the
options hold no object and no entry under the added key. -/
theorem pads_override {k : String} {x s s' : Val} (hx : isUndefined x = false)
    (hp : Pads k x s s') (o : Val) (hflat : ∀ j, isObject (o.get j) = false)
    (hok : o.get k = .undefined) : override o s' false = override o s false := by
  cases hp with
  | same => rfl
  | here ps hnew =>
    unfold override
    by_cases ho : isObject o = true
    · have h1 : isObject (Val.obj ps) = true := rfl
      have h2 : isObject (Val.obj (ps ++ [(k, x)])) = true := rfl
      simp only [ho, h1, h2, Bool.and_self, Bool.not_true, Bool.false_eq_true, if_false,
        Bool.false_and, Val.keys, List.map_append, List.map_cons, List.map_nil,
        List.foldl_append, List.foldl_cons, List.foldl_nil]
      rw [hok, (get_append_self ps k x hnew).1]
      simp only [(show tipe Val.undefined = "undefined" from rfl), tipe_ne_undefined hx,
        if_false]
      apply List.foldl_ext
      intro a key hkey
      have hne : key ≠ k := fun hh => hnew (hh ▸ hkey)
      rw [get_append_ne ps k x hne]
    · simp [ho]
  | field ps key0 t' _ hobj hsub =>
    unfold override
    by_cases ho : isObject o = true
    · have h1 : isObject (Val.obj ps) = true := rfl
      have h2 : isObject ((Val.obj ps).put key0 t') = true := rfl
      have hkeys : ((Val.obj ps).put key0 t').keys = (Val.obj ps).keys :=
        keys_put_mem _ _ _ (mem_keys_of_isObject_get hobj)
      simp only [ho, h1, h2, Bool.and_self, Bool.not_true, Bool.false_eq_true, if_false,
        Bool.false_and, hkeys]
      apply List.foldl_ext
      intro a key hkey
      by_cases hkk : key = key0
      · subst hkk
        have ht' : isObject t' = true := by rw [pads_isObject hsub]; exact hobj
        have d1 : ¬ tipe (o.get key) = tipe ((Val.obj ps).get key) := by
          rw [(tipe_object_iff _).mpr hobj]
          exact tipe_ne_object (hflat key)
        have d2 : ¬ tipe (o.get key) = tipe (((Val.obj ps).put key t').get key) := by
          rw [get_put_self_obj, (tipe_object_iff _).mpr ht']
          exact tipe_ne_object (hflat key)
        simp only [d1, d2, if_false]
      · rw [get_put_ne_obj ps hkk]
    · simp [ho]

theorem mentions_find {k key : String} {ps : Props} {v : Val}
    (hm : mentionsProps k ps = false) (hf : Props.find key ps = some v) :
    mentions k v = false := by
  induction ps with
  | nil => simp [Props.find] at hf
  | cons p rest ih =>
    obtain ⟨k', v'⟩ := p
    simp only [mentionsProps, Bool.or_eq_false_iff] at hm
    by_cases hk : k' = key
    · simp only [Props.find, hk, if_true, Option.some.injEq] at hf
      rw [← hf]
      exact hm.1.2
    · simp only [Props.find, hk, if_false] at hf
      exact ih hm.2 hf

theorem mentions_get {k : String} {s : Val} (hs : isObject s = true)
    (hm : mentions k s = false) (key : String) : mentions k (s.get key) = false := by
  obtain ⟨ps, rfl⟩ : ∃ ps, s = .obj ps := by cases s <;> simp_all [isObject]
  simp only [mentions] at hm
  simp only [Val.get]
  cases hf : Props.find key ps with
  | none => rfl
  | some v => exact mentions_find hm hf

theorem mentions_keys {k : String} {s : Val} (hm : mentions k s = false) : k ∉ s.keys := by
  cases s with
  | obj ps =>
    simp only [mentions] at hm
    simp only [Val.keys]
    induction ps with
    | nil => simp
    | cons p rest ih =>
      obtain ⟨k', v'⟩ := p
      simp only [mentionsProps, Bool.or_eq_false_iff, beq_eq_false_iff_ne, ne_eq] at hm
      simp only [List.map_cons, List.mem_cons, not_or]
      exact ⟨fun hh => hm.1.1 hh.symm, ih hm.2⟩
  | _ => simp [Val.keys]

theorem mentions_specFields {k : String} {s : Val} (hs : isObject s = true)
    (hm : mentions k s = false) : mentions k (specFields s) = false := by
  unfold specFields
  split
  · exact mentions_get hs hm "value"
  · exact hm

theorem unaffected_override {k : String} {o s : Val} (hu : Unaffected k o)
    (hs : isObject s = true) (hm : mentions "strict" s = false) :
    Unaffected k (override o s false) := by
  obtain ⟨h1, h2, h3, h4⟩ := hu
  refine ⟨isObject_override _ _ _ h1, ?_, override_get_absent _ _ _ h1 h3, ?_⟩
  · intro j
    rw [override_get o s false h1 hs j]
    split
    · rename_i hc
      rcases hc.2 with hc2 | hc2
      · exact absurd hc2.1 (by decide)
      · cases hso : isObject (s.get j) with
        | false => rfl
        | true =>
          rw [(tipe_object_iff _).mpr hso] at hc2
          exact absurd hc2 (tipe_ne_object (h2 j))
    · exact h2 j
  · rw [override_get o s false h1 hs "strict"]
    have hno : ¬ ("strict" ∈ s.keys ∧ ((false = true ∧ isUndefined (o.get "strict") = true) ∨
        tipe (o.get "strict") = tipe (s.get "strict"))) := fun hc => mentions_keys hm hc.1
    rw [if_neg hno]
    exact h4

theorem unaffected_put_key {k : String} {o : Val} (hu : Unaffected k o) (hk : k ≠ "key")
    (y : Val) (hy : isObject y = false) : Unaffected k (o.put "key" y) := by
  obtain ⟨h1, h2, h3, h4⟩ := hu
  refine ⟨by rw [isObject_put]; exact h1, ?_, ?_, ?_⟩
  · intro j
    by_cases hj : j = "key"
    · subst hj
      rw [get_put_self _ h1]
      exact hy
    · rw [get_put_ne _ hj]
      exact h2 j
  · rw [get_put_ne _ hk]
    exact h3
  · rw [get_put_ne _ (by decide)]
    exact h4

/-! ## Runs that differ in the details of the error only -/

theorem Res.rel_bind {α β : Type} {R : α → α → Prop} {S : β → β → Prop} {r r' : Res α}
    {f g : α → Res β} (hr : Res.Rel R r r')
    (hf : ∀ a b, R a b → Res.Rel S (f a) (g b)) : Res.Rel S (r.bind f) (r'.bind g) := by
  cases r <;> cases r' <;> simp only [Res.Rel] at hr
  · exact hf _ _ hr
  · subst hr
    rfl
  · trivial

theorem Res.rel_self {α : Type} {R : α → α → Prop} (hR : ∀ a, R a a) (r : Res α) :
    Res.Rel R r r := by
  cases r
  · exact hR _
  · rfl
  · trivial

theorem sameStage_self (x : Except Val Val)
    (hx : ∀ e, x = .error e → isError e = true) : SameStage x x := by
  cases x with
  | ok a => rfl
  | error e => exact ⟨hx e rfl, sameError_refl e (hx e rfl)⟩

theorem sameError_both {e e' : Val} (rs rs' : Val) (a a' : Args) (hs : SameError e e') :
    SameError (failWith rs e a) (failWith rs' e' a') := by
  refine ⟨by rw [isError_failWith]; exact hs.1, ?_⟩
  intro k hk
  unfold failWith
  rw [get_put_ne _ hk, get_put_ne _ hk]
  exact hs.2 k hk

theorem fail_same (h : Host) (rs rs' : Val) (code : String) (msg : Val) (a a' : Args) :
    isError (fail h rs code msg a) = true ∧
      SameError (fail h rs code msg a) (fail h rs' code msg a') := by
  refine ⟨isError_fail _ _ _ _ _, ?_⟩
  unfold fail
  exact sameError_both rs rs' a a' (sameError_refl _ (by
    cases hm : (Val.str (codeMap code ++ ": " ++ toStr h msg)) <;> simp [newError, Val.put, isError]))

theorem sameResult_self (r : Val) : SameResult r r := by
  cases he : isError r with
  | false => exact Or.inl ⟨he, rfl⟩
  | true => exact Or.inr ⟨he, sameError_refl r he⟩

theorem sameResult_error {e e' : Val} (he : isError e = true) (hs : SameError e e') :
    SameResult e e' := Or.inr ⟨he, hs⟩

theorem sameResult_isError {r r' : Val} (hs : SameResult r r') : isError r' = isError r := by
  rcases hs with ⟨_, h2⟩ | ⟨h1, h2⟩
  · rw [h2]
  · rw [h1, h2.1]

theorem orFail_same (rs rs' : Val) (r : Res Val) (a a' : Args) :
    Res.Rel SameStage (orFail rs r a) (orFail rs' r a') := by
  unfold orFail
  cases r with
  | raise m => rfl
  | diverge => trivial
  | ret result =>
    simp only [Res.bind_ret]
    by_cases he : isError result = true
    · simp only [he, if_true]
      exact ⟨by rw [isError_failWith]; exact he,
        sameError_both rs rs' a a' (sameError_refl _ he)⟩
    · simp only [he, if_false, Bool.false_eq_true]
      rfl

theorem rel_andThen {r r' : Res (Except Val Val)} {f g : Val → Res (Except Val Val)}
    (hr : Res.Rel SameStage r r') (hf : ∀ a, Res.Rel SameStage (f a) (g a)) :
    Res.Rel SameStage (Res.andThen r f) (Res.andThen r' g) := by
  unfold Res.andThen
  apply Res.rel_bind hr
  intro x y hxy
  cases x <;> cases y <;> simp only [SameStage] at hxy
  · exact hxy
  · subst hxy
    exact hf _

theorem pads_cases {k : String} {x a a' : Val} (hp : Pads k x a a') :
    a' = a ∨ (isObject a = true ∧ isObject a' = true) := by
  cases hp with
  | same => exact Or.inl rfl
  | here ps _ => exact Or.inr ⟨rfl, rfl⟩
  | field ps key t' _ _ _ => exact Or.inr ⟨rfl, rfl⟩

theorem not_function_of_object {a : Val} (ha : isObject a = true) : isFunction a = false := by
  cases a <;> simp_all [isObject, isFunction]

theorem initStage_same (h : Host) (rs rs' v s s' o : Val) (hg : s'.get "init" = s.get "init") :
    Res.Rel SameStage (initStage h rs v s o) (initStage h rs' v s' o) := by
  unfold initStage
  rw [hg]
  split
  · exact orFail_same _ _ _ _ _
  · rfl

theorem finishStage_same (h : Host) (rs rs' v s s' o : Val)
    (hg : s'.get "finish" = s.get "finish") :
    Res.Rel SameStage (finishStage h rs v s o) (finishStage h rs' v s' o) := by
  unfold finishStage
  rw [hg]
  split
  · exact orFail_same _ _ _ _ _
  · rfl

theorem setterStage_same {k : String} {x : Val} (h : Host) (rs rs' v s s' o : Val)
    (hp : Pads k x (s.get "value") (s'.get "value")) :
    Res.Rel SameStage (setterStage h rs v s o) (setterStage h rs' v s' o) := by
  unfold setterStage
  rcases pads_cases hp with hg | ⟨h1, h2⟩
  · rw [hg]
    split
    · exact orFail_same _ _ _ _ _
    · rfl
  · simp only [not_function_of_object h1, not_function_of_object h2, Bool.false_eq_true,
      if_false]
    rfl

theorem defaultStage_same (h : Host) (rs rs' v s s' o : Val)
    (hg : s'.get "default" = s.get "default") :
    Res.Rel SameStage (defaultStage h rs v s o) (defaultStage h rs' v s' o) := by
  unfold defaultStage
  have hsd : setDefault h s' o = setDefault h s o := by
    unfold setDefault
    rw [hg]
  rw [hg, hsd]
  split
  · exact orFail_same _ _ _ _ _
  · rfl

theorem requiredStage_same (h : Host) (rs rs' v s s' o : Val)
    (hg : s'.get "required" = s.get "required") :
    Res.Rel SameStage (requiredStage h rs v s o) (requiredStage h rs' v s' o) := by
  unfold requiredStage
  rw [hg]
  split
  · exact fail_same h rs rs' _ _ _ _
  · rfl

theorem typeStage_same (h : Host) (rs rs' v s s' o : Val)
    (hg : s'.get "type" = s.get "type") :
    Res.Rel SameStage (typeStage h rs v s o) (typeStage h rs' v s' o) := by
  have hco : coerceType h v s' o = coerceType h v s o := by
    unfold coerceType
    rw [hg]
  unfold typeStage
  rw [hg, hco]
  split
  · split
    · exact fail_same h rs rs' _ _ _ _
    · split
      · exact fail_same h rs rs' _ _ _ _
      · rfl
  · rfl

theorem validateStage_same (h : Host) (rs rs' v s s' o : Val)
    (hg : s'.get "validate" = s.get "validate") :
    Res.Rel SameStage (validateStage h rs v s o) (validateStage h rs' v s' o) := by
  unfold validateStage
  rw [hg]
  split
  · cases hc : callValidator h (s.get "validate") v o with
    | raise m => rfl
    | diverge => trivial
    | ret err =>
      simp only [Res.bind_ret]
      by_cases ht : err.truthy = true
      · simp only [ht, if_true]
        have he : isError err = true := by
          rcases callValidator_ret hc with h1 | h1
          · rw [h1] at ht
            exact absurd ht (by decide)
          · exact h1
        exact ⟨by rw [isError_failWith]; exact he,
          sameError_both rs rs' _ _ (sameError_refl _ he)⟩
      · simp only [ht, if_false, Bool.false_eq_true]
        rfl
  · rfl

theorem scrubHead_same {k : String} {x : Val} (h : Host) (rs rs' v s s' o : Val)
    (hk : k ∉ keywords) (hp : Pads k x s s') :
    Res.Rel SameStage (scrubHead h rs v s o) (scrubHead h rs' v s' o) := by
  unfold scrubHead
  exact rel_andThen (initStage_same h rs rs' v s s' o (pads_keyword hk hp (by decide) (by decide)))
    fun v1 => rel_andThen
      (defaultStage_same h rs rs' v1 s s' o (pads_keyword hk hp (by decide) (by decide)))
    fun v2 => rel_andThen
      (requiredStage_same h rs rs' v2 s s' o (pads_keyword hk hp (by decide) (by decide)))
    fun v3 => rel_andThen
      (typeStage_same h rs rs' v3 s s' o (pads_keyword hk hp (by decide) (by decide)))
    fun v4 => setterStage_same h rs rs' v4 s s' o (pads_value hk hp)

theorem scrubTail_same {k : String} {x : Val} (h : Host) (rs rs' v s s' o : Val)
    (hk : k ∉ keywords) (hp : Pads k x s s') :
    Res.Rel SameStage (scrubTail h rs v s o) (scrubTail h rs' v s' o) := by
  unfold scrubTail
  exact rel_andThen
    (validateStage_same h rs rs' v s s' o (pads_keyword hk hp (by decide) (by decide)))
    fun v1 => finishStage_same h rs rs' v1 s s' o (pads_keyword hk hp (by decide) (by decide))

theorem sameResult_fail (h : Host) (rs rs' : Val) (code : String) (msg : Val) (a a' : Args) :
    SameResult (fail h rs code msg a) (fail h rs' code msg a') :=
  sameResult_error (fail_same h rs rs' code msg a a').1 (fail_same h rs rs' code msg a a').2

theorem checkScalar_same {k : String} {x : Val} (h : Host) (rs rs' v s s' o : Val)
    (hk : k ∉ keywords) (hp : Pads k x s s') :
    SameResult (checkScalar h rs v s o) (checkScalar h rs' v s' o) := by
  unfold checkScalar
  rw [pads_isObject hp]
  by_cases h1 : (!isObject s || isNull v || isUndefined v) = true
  · simp only [h1, if_true]
    exact sameResult_self v
  · simp only [h1, if_false, Bool.false_eq_true]
    rcases pads_cases (pads_value hk hp) with hg | ⟨ho1, ho2⟩
    · rw [hg]
      split
      · exact sameResult_self v
      · split
        · split
          · exact sameResult_self v
          · exact sameResult_fail h rs rs' _ _ _ _
        · split
          · split
            · exact sameResult_self v
            · exact sameResult_fail h rs rs' _ _ _ _
          · exact sameResult_fail h rs rs' _ _ _ _
    · have t1 := (tipe_object_iff _).mpr ho1
      have t2 := (tipe_object_iff _).mpr ho2
      simp only [t1, t2]
      obtain ⟨p1, hp1⟩ : ∃ p1, s.get "value" = .obj p1 := by
        cases hs : s.get "value" <;> simp_all [isObject]
      obtain ⟨p2, hp2⟩ : ∃ p2, s'.get "value" = .obj p2 := by
        cases hs : s'.get "value" <;> simp_all [isObject]
      have hfe : fail h rs' "badSpec" (s'.get "value") ⟨v, s', o⟩
          = failWith rs' ((newError h (.str (codeMap "badSpec" ++ ": " ++
              toStr h (s.get "value")))).put "code" (.str "badSpec")) ⟨v, s', o⟩ := by
        unfold fail
        rw [hp1, hp2]
        rfl
      have hsame := fail_same h rs rs' "badSpec" (s.get "value") ⟨v, s, o⟩ ⟨v, s', o⟩
      simp only [show ¬ (("object" : String) = "undefined" ∨ ("object" : String) = "function")
          from by decide, if_false, show ¬ (("object" : String) = "string") from by decide,
        show ¬ (("object" : String) = "number" ∨ ("object" : String) = "boolean") from by decide]
      rw [hfe]
      exact sameResult_error hsame.1 hsame.2

theorem sameChecked_isError {c c' : Checked} (hs : SameChecked c c') :
    isError c'.result = isError c.result := sameResult_isError hs.2.2

/-- The reads of `default` and `required` from a field spec, and its default, are the same
for the field spec with the entry. -/
theorem pads_field_reads {k : String} {x a a' : Val} (h : Host) (o : Val) (hk : k ∉ keywords)
    (hp : Pads k x a a') :
    a'.getProp "default" = a.getProp "default" ∧ setDefault h a' o = setDefault h a o ∧
      a'.getProp "required" = a.getProp "required" := by
  rcases pads_cases hp with hg | ⟨h1, h2⟩
  · rw [hg]
    exact ⟨rfl, rfl, rfl⟩
  · have hd : a'.get "default" = a.get "default" :=
      pads_keyword hk hp (by decide) (by decide)
    have hr : a'.get "required" = a.get "required" :=
      pads_keyword hk hp (by decide) (by decide)
    refine ⟨?_, ?_, ?_⟩
    · rw [getProp_object _ h1, getProp_object _ h2, hd]
    · unfold setDefault
      rw [hd]
    · rw [getProp_object _ h1, getProp_object _ h2, hr]

/-- The reads of `default` and `required` from a string, a number or a boolean. -/
theorem scalar_reads {x : Val}
    (hx : isScalar x = true ∧ isUndefined x = false ∧ isNull x = false) :
    x.getProp "default" = .ret .undefined ∧ x.getProp "required" = .ret .undefined ∧
      isObject x = false := by
  obtain ⟨h1, h2, h3⟩ := hx
  cases x <;> simp_all [isScalar, isUndefined, isNull, Val.getProp, Val.get, isObject]

theorem fillDefaults_same (h : Host) (rs rs' spec spec' sf sf' o : Val) (keys : List String)
    (value : Val)
    (hkeys : ∀ key, key ∈ keys →
      (sf'.get key).getProp "default" = (sf.get key).getProp "default" ∧
      setDefault h (sf'.get key) o = setDefault h (sf.get key) o) :
    Res.Rel SameFill (fillDefaults h rs spec sf o keys value)
      (fillDefaults h rs' spec' sf' o keys value) := by
  induction keys generalizing value with
  | nil => exact (rfl : SameFill (.ok value) (.ok value))
  | cons key rest ih =>
    obtain ⟨h1, h2⟩ := hkeys key (List.mem_cons_self _ _)
    have hrest := fun v => ih v (fun key' hk' => hkeys key' (List.mem_cons_of_mem _ hk'))
    simp only [fillDefaults, h1, h2]
    split
    · apply Res.rel_bind (Res.rel_self (fun _ => rfl) _)
      intro d d' hd
      subst hd
      split
      · apply Res.rel_bind (Res.rel_self (fun _ => rfl) _)
        intro r r' hr
        subst hr
        by_cases he : isError r = true
        · simp only [he, if_true]
          exact ⟨rfl, by rw [isError_failWith]; exact he,
            sameError_both rs rs' _ _ (sameError_refl _ he)⟩
        · simp only [he, if_false, Bool.false_eq_true]
          exact hrest _
      · exact hrest _
    · exact hrest _

theorem fillDefaults_extra (h : Host) (rs spec sf o : Val) (k : String) (value : Val)
    (hg : (sf.get k).getProp "default" = .ret .undefined) :
    fillDefaults h rs spec sf o [k] value = .ret (.ok value) := by
  simp only [fillDefaults, hg, Res.bind_ret]
  split <;> rfl

theorem missingRequired_append (sf value : Val) (pre rest : List String) :
    missingRequired sf value (pre ++ rest) =
      (missingRequired sf value pre).bind fun m =>
        match m with
        | some key => .ret (some key)
        | none => missingRequired sf value rest := by
  induction pre with
  | nil => rfl
  | cons key ks ih =>
    simp only [List.cons_append, missingRequired]
    cases (sf.get key).getProp "required" with
    | raise m => rfl
    | diverge => rfl
    | ret r =>
      simp only [Res.bind_ret]
      split
      · rfl
      · exact ih

theorem missingRequired_same (sf sf' value : Val) (keys : List String)
    (hkeys : ∀ key, key ∈ keys →
      (sf'.get key).getProp "required" = (sf.get key).getProp "required") :
    missingRequired sf' value keys = missingRequired sf value keys := by
  induction keys with
  | nil => rfl
  | cons key rest ih =>
    simp only [missingRequired, hkeys key (List.mem_cons_self _ _),
      ih (fun key' hk' => hkeys key' (List.mem_cons_of_mem _ hk'))]

theorem missingRequired_extra (sf value : Val) (k : String)
    (hg : (sf.get k).getProp "required" = .ret .undefined) :
    missingRequired sf value [k] = .ret none := by
  simp only [missingRequired, hg, Res.bind_ret]
  rfl

/-- The recursion loop of `checkObject` on two field maps whose fields are scrubbed alike. -/
theorem scrubProps_same (k : String) (child child' : Val → Val → Val → Res Out)
    (rs rs' spec spec' sf sf' : Val) (hk : k ≠ "key") (keys : List String)
    (value options : Val) (hu : Unaffected k options)
    (hkeys : ∀ key, key ∈ keys → isObject (sf'.get key) = isObject (sf.get key) ∧
      (isObject (sf.get key) = true → ∀ v o1, Unaffected k o1 →
        Res.Rel SameOut (child v (sf.get key) o1) (child' v (sf'.get key) o1))) :
    Res.Rel SameChecked (scrubProps child rs spec sf keys value options)
      (scrubProps child' rs' spec' sf' keys value options) := by
  induction keys generalizing value options with
  | nil => exact ⟨rfl, rfl, sameResult_self value⟩
  | cons key rest ih =>
    obtain ⟨h1, h2⟩ := hkeys key (List.mem_cons_self _ _)
    have hrest := fun v o1 hu1 => ih v o1 hu1
      (fun key' hk' => hkeys key' (List.mem_cons_of_mem _ hk'))
    simp only [scrubProps, h1]
    by_cases hobj : isObject (sf.get key) = true
    · have hu2 : Unaffected k (options.put "key" (.str key)) :=
        unaffected_put_key hu hk _ rfl
      simp only [hobj, if_true]
      apply Res.rel_bind (h2 hobj (value.get key) _ hu2)
      intro out out' hout
      obtain ⟨hpost, hres⟩ := hout
      rcases hres with ⟨he, heq⟩ | ⟨he, hse⟩
      · rw [heq]
        simp only [he, Bool.false_eq_true, if_false]
        exact hrest _ _ hu2
      · simp only [he, hse.1, if_true, hpost]
        exact ⟨rfl, rfl, sameResult_error (by rw [isError_failWith]; exact he)
          (sameError_both rs rs' _ _ hse)⟩
    · simp only [hobj, Bool.false_eq_true, if_false]
      exact hrest _ _ hu

/-- The loop of `checkArray` on two element specs that scrub alike. -/
theorem scrubItems_same (k : String) (child child' : Val → Val → Val → Res Out)
    (rs rs' spec spec' : Val) (hk : k ≠ "key") (idx : List Nat)
    (value options : Val) (hu : Unaffected k options)
    (hchild : ∀ v o1, Unaffected k o1 →
      Res.Rel SameOut (child v (spec.get "value") o1) (child' v (spec'.get "value") o1)) :
    Res.Rel SameChecked (scrubItems child rs spec idx value options)
      (scrubItems child' rs' spec' idx value options) := by
  induction idx generalizing value options with
  | nil => exact ⟨rfl, rfl, sameResult_self value⟩
  | cons i rest ih =>
    have hu2 : Unaffected k (options.put "key" (.num (Num.ofNat i))) :=
      unaffected_put_key hu hk _ rfl
    simp only [scrubItems]
    apply Res.rel_bind (hchild (value.item i) _ hu2)
    intro out out' hout
    obtain ⟨hpost, hres⟩ := hout
    rcases hres with ⟨he, heq⟩ | ⟨he, hse⟩
    · rw [heq]
      simp only [he, Bool.false_eq_true, if_false]
      exact ih _ _ hu2
    · simp only [he, hse.1, if_true, hpost]
      exact ⟨rfl, rfl, sameResult_error (by rw [isError_failWith]; exact he)
        (sameError_both rs rs' _ _ hse)⟩

/-- How the spec with the entry differs: in the spec under one key, or by the entry itself
at the end. -/
theorem pads_shape {k : String} {x s s' : Val} (hp : Pads k x s s') :
    (s'.keys = s.keys ∧ ∀ key, Pads k x (s.get key) (s'.get key)) ∨
    (s'.keys = s.keys ++ [k] ∧ k ∉ s.keys ∧ s'.get k = x ∧ s.get k = .undefined ∧
      ∀ key, key ≠ k → s'.get key = s.get key) := by
  cases hp with
  | same => exact Or.inl ⟨rfl, fun _ => Pads.same _⟩
  | here ps hnew =>
    right
    refine ⟨?_, hnew, (get_append_self ps k x hnew).1, (get_append_self ps k x hnew).2,
      fun key hne => get_append_ne ps k x hne⟩
    simp only [Val.keys, List.map_append, List.map_cons, List.map_nil]
  | field ps key0 t' _ hobj hsub =>
    left
    refine ⟨keys_put_mem _ _ _ (mem_keys_of_isObject_get hobj), ?_⟩
    intro key
    by_cases hkk : key = key0
    · subst hkk
      rw [get_put_self_obj]
      exact hsub
    · rw [get_put_ne_obj ps hkk]
      exact Pads.same _

/-- Function `checkObject` on a spec and on the same spec with the entry, for recursive
calls that agree up to the details of the error. -/
theorem checkObject_pads (k : String) (x : Val) (h : Host)
    (child child' : Val → Val → Val → Res Out) (rs rs' s s' w o : Val)
    (hk : k ∉ keywords) (hkey : k ≠ "key")
    (hx : isScalar x = true ∧ isUndefined x = false ∧ isNull x = false)
    (hp : Pads k x s s') (hs : isObject s = true) (hm : mentions "strict" s = false)
    (hu : Unaffected k o)
    (hchild : ∀ t t' v o1, Pads k x t t' → isObject t = true → mentions "strict" t = false →
      Unaffected k o1 → Res.Rel SameOut (child v t o1) (child' v t' o1)) :
    Res.Rel SameChecked (checkObject h child rs w s o) (checkObject h child' rs' w s' o) := by
  have hpf := pads_specFields hk hp
  have hsf : isObject (specFields s) = true := isObject_specFields s hs
  have hmf : mentions "strict" (specFields s) = false := mentions_specFields hs hm
  have hstrict : (o.get "strict").truthy = false := hu.2.2.2
  have hprops : ∀ (filled : Val),
      Res.Rel SameChecked
        (scrubProps child rs s (specFields s) filled.keys filled o)
        (scrubProps child' rs' s' (specFields s') filled.keys filled o) := by
    intro filled
    apply scrubProps_same k child child' rs rs' s s' _ _ hkey filled.keys filled o hu
    intro key _
    rcases pads_shape hpf with ⟨_, hall⟩ | ⟨_, _, hxk, huk, hother⟩
    · exact ⟨pads_isObject (hall key), fun hobj v o1 hu1 =>
        hchild _ _ v o1 (hall key) hobj (mentions_get hsf hmf key) hu1⟩
    · by_cases hkk : key = k
      · subst hkk
        rw [hxk, huk, (scalar_reads hx).2.2]
        exact ⟨rfl, fun hobj => absurd hobj (by decide)⟩
      · rw [hother key hkk]
        exact ⟨rfl, fun hobj v o1 hu1 =>
          hchild _ _ v o1 (Pads.same _) hobj (mentions_get hsf hmf key) hu1⟩
  have hreads : ∀ key, key ∈ (specFields s).keys →
      ((specFields s').get key).getProp "default" = ((specFields s).get key).getProp "default" ∧
      setDefault h ((specFields s').get key) o = setDefault h ((specFields s).get key) o ∧
      ((specFields s').get key).getProp "required"
        = ((specFields s).get key).getProp "required" := by
    intro key hmem
    rcases pads_shape hpf with ⟨_, hall⟩ | ⟨_, hnew, _, _, hother⟩
    · exact pads_field_reads h o hk (hall key)
    · rw [hother key (fun hh => hnew (hh ▸ hmem))]
      exact ⟨rfl, rfl, rfl⟩
  have hfill : ∀ v, Res.Rel SameFill
      (fillDefaults h rs s (specFields s) o (specFields s).keys v)
      (fillDefaults h rs' s' (specFields s') o (specFields s').keys v) := by
    intro v
    have hcommon := fillDefaults_same h rs rs' s s' (specFields s) (specFields s') o
      (specFields s).keys v (fun key hmem => ⟨(hreads key hmem).1, (hreads key hmem).2.1⟩)
    rcases pads_shape hpf with ⟨hkeys, _⟩ | ⟨hkeys, _, hxk, _, _⟩
    · rw [hkeys]
      exact hcommon
    · rw [hkeys, fillDefaults_append]
      have hid : fillDefaults h rs s (specFields s) o (specFields s).keys v
          = (fillDefaults h rs s (specFields s) o (specFields s).keys v).bind fun r =>
              .ret r := by
        cases fillDefaults h rs s (specFields s) o (specFields s).keys v <;> rfl
      rw [hid]
      apply Res.rel_bind hcommon
      intro f f' hf
      cases f <;> cases f' <;> simp only [SameFill] at hf
      · exact hf
      · subst hf
        rename_i v1
        show Res.Rel SameFill (.ret (.ok v1))
          (fillDefaults h rs' s' (specFields s') o [k] v1)
        rw [fillDefaults_extra h rs' s' (specFields s') o k _
          (by rw [hxk]; exact (scalar_reads hx).1)]
        exact (rfl : SameFill (.ok _) (.ok _))
  have hreq : ∀ filled, missingRequired (specFields s') filled (specFields s').keys
      = missingRequired (specFields s) filled (specFields s).keys := by
    intro filled
    have hcommon := missingRequired_same (specFields s) (specFields s') filled
      (specFields s).keys (fun key hmem => (hreads key hmem).2.2)
    rcases pads_shape hpf with ⟨hkeys, _⟩ | ⟨hkeys, _, hxk, _, _⟩
    · rw [hkeys]
      exact hcommon
    · rw [hkeys, missingRequired_append, hcommon,
        missingRequired_extra (specFields s') filled k (by rw [hxk]; exact (scalar_reads hx).2.1)]
      cases missingRequired (specFields s) filled (specFields s).keys with
      | raise m => rfl
      | diverge => rfl
      | ret m => cases m <;> rfl
  unfold checkObject
  simp only [hstrict, Bool.false_eq_true, if_false]
  apply Res.rel_bind (hfill w)
  intro f f' hf
  cases f <;> cases f' <;> simp only [SameFill] at hf
  · exact ⟨hf.1, rfl, sameResult_error hf.2.1 hf.2.2⟩
  · subst hf
    rename_i filled
    simp only [hreq filled]
    apply Res.rel_bind (Res.rel_self (fun _ => rfl) _)
    intro m m' hmm
    subst hmm
    cases m with
    | some key => exact ⟨rfl, rfl, sameResult_fail h rs rs' _ _ _ _⟩
    | none => exact hprops filled

/-- Function `checkArray` on a spec and on the same spec with the entry. -/
theorem checkArray_pads (k : String) (x : Val)
    (child child' : Val → Val → Val → Res Out) (rs rs' s s' w o : Val)
    (hk : k ∉ keywords) (hkey : k ≠ "key")
    (hp : Pads k x s s') (hs : isObject s = true) (hm : mentions "strict" s = false)
    (hu : Unaffected k o)
    (hchild : ∀ t t' v o1, Pads k x t t' → isObject t = true → mentions "strict" t = false →
      Unaffected k o1 → Res.Rel SameOut (child v t o1) (child' v t' o1)) :
    Res.Rel SameChecked (checkArray child rs w s o) (checkArray child' rs' w s' o) := by
  unfold checkArray
  rw [pads_isObject (pads_value hk hp)]
  by_cases hobj : isObject (s.get "value") = true
  · simp only [hobj, if_true]
    exact scrubItems_same k child child' rs rs' s s' hkey _ w o hu
      (fun v o1 hu1 => hchild _ _ v o1 (pads_value hk hp) hobj (mentions_get hs hm "value") hu1)
  · simp only [hobj, if_false, Bool.false_eq_true]
    exact ⟨rfl, rfl, sameResult_self w⟩

/-- The dispatch on the tipe of the value, on a spec and on the same spec with the entry. -/
theorem dispatch_pads (k : String) (x : Val) (h : Host)
    (child child' : Val → Val → Val → Res Out) (rs rs' s s' w o : Val)
    (hk : k ∉ keywords) (hkey : k ≠ "key")
    (hx : isScalar x = true ∧ isUndefined x = false ∧ isNull x = false)
    (hp : Pads k x s s') (hs : isObject s = true) (hm : mentions "strict" s = false)
    (hu : Unaffected k o)
    (hchild : ∀ t t' v o1, Pads k x t t' → isObject t = true → mentions "strict" t = false →
      Unaffected k o1 → Res.Rel SameOut (child v t o1) (child' v t' o1)) :
    Res.Rel SameChecked (dispatch h child rs w s o) (dispatch h child' rs' w s' o) := by
  unfold dispatch
  split
  · exact checkObject_pads k x h child child' rs rs' s s' w o hk hkey hx hp hs hm hu hchild
  · split
    · exact checkArray_pads k x child child' rs rs' s s' w o hk hkey hp hs hm hu hchild
    · exact ⟨rfl, rfl, checkScalar_same h rs rs' w s s' o hk hp⟩

theorem depthProps_append_entry (ps : Props) (k : String) (x : Val) (hx : x.depth = 0) :
    depthProps (ps ++ [(k, x)]) = depthProps ps := by
  induction ps with
  | nil => simp [depthProps, hx]
  | cons p rest ih =>
    obtain ⟨k', v'⟩ := p
    simp only [List.cons_append, depthProps]
    exact congrArg (max v'.depth) ih

theorem depthProps_set (ps : Props) (key : String) (t t' : Val)
    (hf : Props.find key ps = some t) (hd : t'.depth = t.depth) :
    depthProps (Props.set key t' ps) = depthProps ps := by
  induction ps with
  | nil => simp [Props.find] at hf
  | cons p rest ih =>
    obtain ⟨k', v'⟩ := p
    by_cases hk : k' = key
    · simp only [Props.find, hk, if_true, Option.some.injEq] at hf
      subst hf
      simp only [Props.set, hk, if_true, depthProps, hd]
    · simp only [Props.find, hk, if_false] at hf
      simp only [Props.set, hk, if_false, depthProps, ih hf]

theorem scalar_depth {x : Val} (hx : isScalar x = true) : x.depth = 0 := by
  cases x <;> simp_all [isScalar, Val.depth]

/-- The spec with the entry is as deep as the spec. -/
theorem pads_depth {k : String} {x s s' : Val} (hx : isScalar x = true) (hp : Pads k x s s') :
    s'.depth = s.depth := by
  induction hp with
  | same => rfl
  | here ps _ =>
    simp only [Val.depth, depthProps_append_entry ps k x (scalar_depth hx)]
  | field ps key t' _ hobj _ ih =>
    simp only [Val.put, Val.depth]
    cases hf : Props.find key ps with
    | none =>
      simp only [Val.get, hf] at hobj
      exact absurd hobj (by decide)
    | some t =>
      have ht : (Val.obj ps).get key = t := by simp only [Val.get, hf, Option.getD_some]
      rw [ht] at ih
      rw [depthProps_set ps key t t' hf ih]

theorem pads_inPlace {k : String} {x s s' : Val} (hk : k ∉ keywords) (hp : Pads k x s s')
    (v : Val) : inPlace v s' = inPlace v s := by
  unfold inPlace
  rw [pads_keyword hk hp (by decide : "init" ∈ keywords) (by decide)]
  rcases pads_cases (pads_value hk hp) with hg | ⟨h1, h2⟩
  · rw [hg]
  · rw [not_function_of_object h1, not_function_of_object h2]

/-- Function `_scrub` on a spec and on the same spec with the entry `k: x` added to one of
its nodes, whatever the root spec of either run: the two runs end alike, and return the
same value or two errors that differ in their details only. -/
theorem _scrub_pads (k : String) (x : Val) (h : Host) (rs rs' : Val)
    (hk : k ∉ keywords) (hkey : k ≠ "key")
    (hx : isScalar x = true ∧ isUndefined x = false ∧ isNull x = false) (fuel : Nat) :
    ∀ (s s' v o : Val), Pads k x s s' → mentions "strict" s = false → Unaffected k o →
      Res.Rel SameOut (_scrub h rs fuel v s o) (_scrub h rs' fuel v s' o) := by
  induction fuel with
  | zero =>
    intro s s' v o _ _ _
    trivial
  | succ fuel ih =>
    intro s s' v o hp hm hu
    rw [_scrub, _scrub, pads_isObject hp]
    by_cases hs : isObject s = true
    · simp only [hs, Bool.not_true, Bool.false_eq_true, if_false]
      rw [pads_override hx.2.1 hp o hu.2.1 hu.2.2.1]
      have hu2 : Unaffected k (override o s false) := unaffected_override hu hs hm
      apply Res.rel_bind (scrubHead_same h rs rs' v s s' _ hk hp)
      intro head head' hh
      cases head <;> cases head' <;> simp only [SameStage] at hh
      · exact ⟨rfl, sameResult_error hh.1 hh.2⟩
      · subst hh
        rename_i w
        apply Res.rel_bind (dispatch_pads k x h _ _ rs rs' s s' w _ hk hkey hx hp hs hm hu2
          (fun t t' v1 o1 hp1 _ hm1 hu1 => ih t t' v1 o1 hp1 hm1 hu1))
        intro c c' hc
        obtain ⟨hpost, hopt, hres⟩ := hc
        rw [pads_inPlace hk hp, hpost, hopt]
        rcases hres with ⟨he, heq⟩ | ⟨he, hse⟩
        · rw [heq]
          simp only [he, Bool.false_eq_true, if_false]
          apply Res.rel_bind (scrubTail_same h rs rs' c.result s s' c.options hk hp)
          intro tail tail' ht
          cases tail <;> cases tail' <;> simp only [SameStage] at ht
          · exact ⟨rfl, sameResult_error ht.1 ht.2⟩
          · subst ht
            exact ⟨rfl, sameResult_self _⟩
        · simp only [he, hse.1, if_true]
          exact ⟨rfl, sameResult_error he hse⟩
    · simp only [hs, Bool.not_false, if_true]
      exact ⟨rfl, sameResult_self v⟩

theorem options_flat (j : String) : isObject (_options.get j) = false := by
  simp only [_options, Val.get, Props.find]
  split_ifs <;> rfl

/-! ## Spec functions that write to the options -/

theorem lift_toHost (h : Host) (self : Val) : h.lift.toHost self = h := rfl

theorem keep_ret (o : Val) (x : Except Val Val) : keep o (.ret x) = .ret (x, o) := rfl

theorem andThenW_ok (v o : Val) (k : Val → Val → Res (Except Val Val × Val)) :
    andThenW (.ret (.ok v, o)) k = k v o := rfl

theorem andThenW_error (e o : Val) (k : Val → Val → Res (Except Val Val × Val)) :
    andThenW (.ret (.error e, o)) k = .ret (.error e, o) := rfl

theorem andThenW_keep (o : Val) (r : Res (Except Val Val))
    (k : Val → Res (Except Val Val)) :
    andThenW (keep o r) (fun v o' => keep o' (k v)) = keep o (Res.andThen r k) := by
  cases r with
  | ret x => cases x <;> rfl
  | raise m => rfl
  | diverge => rfl

theorem callClientFunctionW_lift (h : Host) (self fn v o : Val) :
    callClientFunctionW h.lift self fn v o
      = (callClientFunction h fn v o).bind fun r => .ret (r, o) := by
  cases fn <;> try rfl
  rename_i id
  simp only [callClientFunctionW, callClientFunction, Host.lift, HostW.toHost]
  cases h.call id v o with
  | ret r => rfl
  | throw x =>
    simp only
    cases x.getProp "message" <;> rfl

theorem callValidatorW_lift (h : Host) (self fn v o : Val) :
    callValidatorW h.lift self fn v o
      = (callValidator h fn v o).bind fun r => .ret (r, o) := by
  simp only [callValidatorW, callValidator, callClientFunctionW_lift, lift_toHost]
  cases callClientFunction h fn v o with
  | ret r =>
    simp only [Res.bind_ret]
    split <;> rfl
  | raise m => rfl
  | diverge => rfl

theorem setDefaultW_lift (h : Host) (self spec o : Val) :
    setDefaultW h.lift self spec o = (setDefault h spec o).bind fun r => .ret (r, o) := by
  simp only [setDefaultW, setDefault, callSetterW, callSetter, callClientFunctionW_lift]
  split <;> rfl

theorem orFailW_lift (rootSpec : Val) (r : Res Val) (value spec o : Val) :
    orFailW rootSpec (r.bind fun x => .ret (x, o)) value spec
      = keep o (orFail rootSpec r ⟨value, spec, o⟩) := by
  cases r with
  | ret x =>
    simp only [orFailW, orFail, Res.bind_ret, keep]
    split <;> rfl
  | raise m => rfl
  | diverge => rfl

theorem initStageW_lift (h : Host) (rootSpec self value spec o : Val) :
    initStageW h.lift rootSpec self value spec o = keep o (initStage h rootSpec value spec o) := by
  simp only [initStageW, initStage, callSetterW, callSetter, callClientFunctionW_lift,
    orFailW_lift]
  split <;> rfl

theorem defaultStageW_lift (h : Host) (rootSpec self value spec o : Val) :
    defaultStageW h.lift rootSpec self value spec o
      = keep o (defaultStage h rootSpec value spec o) := by
  simp only [defaultStageW, defaultStage, setDefaultW_lift, orFailW_lift]
  split <;> rfl

theorem setterStageW_lift (h : Host) (rootSpec self value spec o : Val) :
    setterStageW h.lift rootSpec self value spec o
      = keep o (setterStage h rootSpec value spec o) := by
  simp only [setterStageW, setterStage, callSetterW, callSetter, callClientFunctionW_lift,
    orFailW_lift]
  split <;> rfl

theorem finishStageW_lift (h : Host) (rootSpec self value spec o : Val) :
    finishStageW h.lift rootSpec self value spec o
      = keep o (finishStage h rootSpec value spec o) := by
  simp only [finishStageW, finishStage, callSetterW, callSetter, callClientFunctionW_lift,
    orFailW_lift]
  split <;> rfl

theorem validateStageW_lift (h : Host) (rootSpec self value spec o : Val) :
    validateStageW h.lift rootSpec self value spec o
      = keep o (validateStage h rootSpec value spec o) := by
  simp only [validateStageW, validateStage, callValidatorW_lift]
  split
  · cases callValidator h (spec.get "validate") value o with
    | ret r =>
      simp only [Res.bind_ret, keep]
      split <;> rfl
    | raise m => rfl
    | diverge => rfl
  · rfl

theorem scrubHeadW_lift (h : Host) (rootSpec self value spec o : Val) :
    scrubHeadW h.lift rootSpec self value spec o = keep o (scrubHead h rootSpec value spec o) := by
  simp only [scrubHeadW, scrubHead, initStageW_lift, defaultStageW_lift, setterStageW_lift,
    lift_toHost]
  cases initStage h rootSpec value spec o with
  | raise m => rfl
  | diverge => rfl
  | ret x1 =>
    cases x1 with
    | error e => rfl
    | ok v1 =>
      simp only [keep_ret, andThenW_ok, Res.andThen_ok]
      cases defaultStage h rootSpec v1 spec o with
      | raise m => rfl
      | diverge => rfl
      | ret x2 =>
        cases x2 with
        | error e => rfl
        | ok v2 =>
          simp only [keep_ret, andThenW_ok, Res.andThen_ok]
          cases requiredStage h rootSpec v2 spec o with
          | raise m => rfl
          | diverge => rfl
          | ret x3 =>
            cases x3 with
            | error e => rfl
            | ok v3 =>
              simp only [keep_ret, andThenW_ok, Res.andThen_ok]
              cases typeStage h rootSpec v3 spec o with
              | raise m => rfl
              | diverge => rfl
              | ret x4 =>
                cases x4 with
                | error e => rfl
                | ok v4 => simp only [keep_ret, andThenW_ok, Res.andThen_ok]

theorem scrubTailW_lift (h : Host) (rootSpec self value spec o : Val) :
    scrubTailW h.lift rootSpec self value spec o = keep o (scrubTail h rootSpec value spec o) := by
  simp only [scrubTailW, scrubTail, validateStageW_lift, finishStageW_lift]
  cases validateStage h rootSpec value spec o with
  | raise m => rfl
  | diverge => rfl
  | ret x1 =>
    cases x1 with
    | error e => rfl
    | ok v1 => simp only [keep_ret, andThenW_ok, Res.andThen_ok]

theorem fillDefaultsW_lift (h : Host) (rootSpec : Val) (root : Val → Val) (spec sf : Val)
    (keys : List String) (value o : Val) :
    fillDefaultsW h.lift rootSpec root spec sf keys value o
      = (fillDefaults h rootSpec spec sf o keys value).bind fun x => .ret (x, o) := by
  induction keys generalizing value with
  | nil => rfl
  | cons key keys ih =>
    simp only [fillDefaultsW, fillDefaults, setDefaultW_lift]
    split
    · cases (sf.get key).getProp "default" with
      | raise m => rfl
      | diverge => rfl
      | ret d =>
        simp only [Res.bind_ret]
        split
        · cases setDefault h (sf.get key) o with
          | raise m => rfl
          | diverge => rfl
          | ret r =>
            simp only [Res.bind_ret]
            split
            · rfl
            · exact ih _
        · exact ih _
    · exact ih _

theorem scrubPropsW_lift (childW : (Val → Val) → Val → Val → Val → Res Out)
    (child : Val → Val → Val → Res Out)
    (hc : ∀ root v s o, childW root v s o = child v s o)
    (rootSpec : Val) (root : Val → Val) (spec sf : Val) (keys : List String) (value o : Val) :
    scrubPropsW childW rootSpec root spec sf keys value o
      = scrubProps child rootSpec spec sf keys value o := by
  induction keys generalizing value o with
  | nil => rfl
  | cons key keys ih =>
    simp only [scrubPropsW, scrubProps, hc]
    split
    · cases child (value.get key) (sf.get key) (o.put "key" (.str key)) with
      | raise m => rfl
      | diverge => rfl
      | ret out =>
        simp only [Res.bind_ret]
        split
        · rfl
        · exact ih _ _
    · exact ih _ _

theorem scrubItemsW_lift (childW : (Val → Val) → Val → Val → Val → Res Out)
    (child : Val → Val → Val → Res Out)
    (hc : ∀ root v s o, childW root v s o = child v s o)
    (rootSpec : Val) (root : Val → Val) (spec : Val) (is : List Nat) (value o : Val) :
    scrubItemsW childW rootSpec root spec is value o
      = scrubItems child rootSpec spec is value o := by
  induction is generalizing value o with
  | nil => rfl
  | cons i is ih =>
    simp only [scrubItemsW, scrubItems, hc]
    cases child (value.item i) (spec.get "value") (o.put "key" (.num (Num.ofNat i))) with
    | raise m => rfl
    | diverge => rfl
    | ret out =>
      simp only [Res.bind_ret]
      split
      · rfl
      · exact ih _ _

theorem dispatchW_lift (h : Host) (childW : (Val → Val) → Val → Val → Val → Res Out)
    (child : Val → Val → Val → Res Out)
    (hc : ∀ root v s o, childW root v s o = child v s o)
    (rootSpec : Val) (root : Val → Val) (value spec o : Val) :
    dispatchW h.lift childW rootSpec root value spec o
      = dispatch h child rootSpec value spec o := by
  simp only [dispatchW, dispatch, checkObjectW, checkObject, checkArrayW, checkArray,
    fillDefaultsW_lift, scrubItemsW_lift childW child hc, lift_toHost]
  split
  · generalize (if (o.get "strict").truthy = true
      then unknownKey (specFields spec) value.keys else none) = st
    cases st with
    | some key => rfl
    | none =>
      simp only
      cases fillDefaults h rootSpec spec (specFields spec) o (specFields spec).keys value with
      | raise m => rfl
      | diverge => rfl
      | ret filled =>
        cases filled with
        | error out => rfl
        | ok v =>
          simp only [Res.bind_ret]
          cases (if (!(o.get "ignoreRequired").truthy) = true
              then missingRequired (specFields spec) v (specFields spec).keys
              else Res.ret none) with
          | raise m => rfl
          | diverge => rfl
          | ret missing =>
            cases missing with
            | some key => rfl
            | none =>
              simp only [Res.bind_ret]
              exact scrubPropsW_lift childW child hc _ _ _ _ _ _ _
  · rfl

theorem _scrubW_lift (h : Host) (rootSpec : Val) (fuel : Nat) (root : Val → Val)
    (value spec options : Val) :
    _scrubW h.lift rootSpec fuel root value spec options
      = _scrub h rootSpec fuel value spec options := by
  induction fuel generalizing root value spec options with
  | zero => rfl
  | succ fuel ih =>
    rw [_scrubW, _scrub]
    split
    · rfl
    · rw [scrubHeadW_lift]
      cases scrubHead h rootSpec value spec (override options spec false) with
      | raise m => rfl
      | diverge => rfl
      | ret head =>
        cases head with
        | error e => rfl
        | ok v =>
          simp only [keep_ret, Res.bind_ret]
          rw [dispatchW_lift h _ _ (fun root v s o => ih root v s o)]
          cases dispatch h (_scrub h rootSpec fuel) rootSpec v spec
              (override options spec false) with
          | raise m => rfl
          | diverge => rfl
          | ret c =>
            simp only [Res.bind_ret]
            split
            · rfl
            · rw [scrubTailW_lift]
              cases scrubTail h rootSpec c.result spec c.options with
              | raise m => rfl
              | diverge => rfl
              | ret tail => cases tail <;> rfl

theorem scrubW_lift (h : Host) (rootValue rootSpec rootOptions : Val) :
    scrubW h.lift rootValue rootSpec rootOptions = scrub h rootValue rootSpec rootOptions := by
  simp only [scrubW, scrub, _scrubW_lift]

theorem propStr_cons (h h' : Host) (k dflt k' : String) (v : Val) (rest : Props) :
    toStr h v = toStr h' v → propStr h k dflt rest = propStr h' k dflt rest →
    propStr h k dflt ((k', v) :: rest) = propStr h' k dflt ((k', v) :: rest) := by
  intro hv hr
  cases v <;> simp only [propStr, hr, hv]

theorem joinStr_cons (h h' : Host) (v w : Val) (rest : List Val) :
    elemStr h v = elemStr h' v → joinStr h (w :: rest) = joinStr h' (w :: rest) →
    joinStr h (v :: w :: rest) = joinStr h' (v :: w :: rest) := by
  intro hv hr
  simp only [joinStr, hv] at hr ⊢
  rw [hr]

theorem toStr_error_of (h h' : Host) (ps : Props) :
    propStr h "name" "Error" ps = propStr h' "name" "Error" ps →
    propStr h "message" "" ps = propStr h' "message" "" ps →
    toStr h (.error ps) = toStr h' (.error ps) ∧ elemStr h (.error ps) = elemStr h' (.error ps) := by
  intro h1 h2
  simp only [toStr, elemStr, h1, h2, and_self]

theorem toStr_arr_of (h h' : Host) (es : List Val) :
    joinStr h es = joinStr h' es →
    toStr h (.arr es) = toStr h' (.arr es) ∧ elemStr h (.arr es) = elemStr h' (.arr es) := by
  intro h1
  simp only [toStr, elemStr, h1, and_self]

theorem toStr_func_of (h h' : Host) (hs : h.source = h'.source) (id : Nat) :
    toStr h (.func id) = toStr h' (.func id) ∧ elemStr h (.func id) = elemStr h' (.func id) := by
  simp only [toStr, elemStr, hs, and_self]

theorem joinStr_single (h h' : Host) (v : Val) :
    elemStr h v = elemStr h' v → joinStr h [v] = joinStr h' [v] := by
  intro hv
  simp only [joinStr, hv]

mutual
theorem toStr_source (h h' : Host) (hs : h.source = h'.source) :
    ∀ v : Val, toStr h v = toStr h' v
  | .undefined => rfl
  | .null => rfl
  | .bool _ => rfl
  | .num _ => rfl
  | .str _ => rfl
  | .func id => (toStr_func_of h h' hs id).1
  | .obj _ => rfl
  | .arr es => (toStr_arr_of h h' es (joinStr_source h h' hs es)).1
  | .regexp _ => rfl
  | .date _ _ => rfl
  | .error ps => (toStr_error_of h h' ps (propStr_source h h' hs "name" "Error" ps)
      (propStr_source h h' hs "message" "" ps)).1
theorem joinStr_source (h h' : Host) (hs : h.source = h'.source) :
    ∀ es : List Val, joinStr h es = joinStr h' es
  | [] => rfl
  | [v] => joinStr_single h h' v (elemStr_source h h' hs v)
  | v :: w :: rest =>
    joinStr_cons h h' v w rest (elemStr_source h h' hs v) (joinStr_source h h' hs (w :: rest))
theorem elemStr_source (h h' : Host) (hs : h.source = h'.source) :
    ∀ v : Val, elemStr h v = elemStr h' v
  | .undefined => rfl
  | .null => rfl
  | .bool _ => rfl
  | .num _ => rfl
  | .str _ => rfl
  | .func id => (toStr_func_of h h' hs id).2
  | .obj _ => rfl
  | .arr es => (toStr_arr_of h h' es (joinStr_source h h' hs es)).2
  | .regexp _ => rfl
  | .date _ _ => rfl
  | .error ps => (toStr_error_of h h' ps (propStr_source h h' hs "name" "Error" ps)
      (propStr_source h h' hs "message" "" ps)).2
theorem propStr_source (h h' : Host) (hs : h.source = h'.source) (k dflt : String) :
    ∀ ps : Props, propStr h k dflt ps = propStr h' k dflt ps
  | [] => rfl
  | (k', v) :: rest =>
    propStr_cons h h' k dflt k' v rest (toStr_source h h' hs v)
      (propStr_source h h' hs k dflt rest)
end

theorem toStr_congr (h h' : Host) (hs : h.source = h'.source) : toStr h = toStr h' :=
  funext (toStr_source h h' hs)

theorem fail_source (h h' : Host) (hs : h.source = h'.source) (rootSpec : Val) (code : String)
    (msg : Val) (args : Args) : fail h rootSpec code msg args = fail h' rootSpec code msg args := by
  simp only [fail, newError, toStr_congr h h' hs]

theorem requiredStage_source (h h' : Host) (hs : h.source = h'.source)
    (rootSpec value spec options : Val) :
    requiredStage h rootSpec value spec options = requiredStage h' rootSpec value spec options := by
  simp only [requiredStage, fail_source h h' hs]

theorem coerceType_source (h h' : Host) (hs : h.source = h'.source)
    (hf : h.parseFloat = h'.parseFloat) (hi : h.parseInt = h'.parseInt)
    (value spec options : Val) :
    coerceType h value spec options = coerceType h' value spec options := by
  have e : isTruthy h value = isTruthy h' value := by
    cases value <;> simp only [isTruthy, hi]
  simp only [coerceType, coerceNumber, toStr_congr h h' hs, hf, hi, e]

theorem typeStage_source (h h' : Host) (hs : h.source = h'.source)
    (hf : h.parseFloat = h'.parseFloat) (hi : h.parseInt = h'.parseInt)
    (rootSpec value spec options : Val) :
    typeStage h rootSpec value spec options = typeStage h' rootSpec value spec options := by
  simp only [typeStage, fail_source h h' hs, coerceType_source h h' hs hf hi]

theorem callClientFunctionW_congr (hw hw' : HostW) (hs : hw'.source = hw.source)
    (self fn v o : Val) (hc : ∀ id, fn = .func id → hw'.call id = hw.call id) :
    callClientFunctionW hw' self fn v o = callClientFunctionW hw self fn v o := by
  cases fn <;> try rfl
  rename_i id
  have e : toStr (hw'.toHost self) = toStr (hw.toHost self) := toStr_congr _ _ hs
  simp only [callClientFunctionW, hc id rfl, e]

theorem initStageW_congr (hw hw' : HostW) (hs : hw'.source = hw.source)
    (rootSpec self value spec o : Val)
    (hc : ∀ id, spec.get "init" = .func id → hw'.call id = hw.call id) :
    initStageW hw' rootSpec self value spec o = initStageW hw rootSpec self value spec o := by
  simp only [initStageW, callSetterW, callClientFunctionW_congr hw hw' hs self _ value o hc]

theorem defaultStageW_congr (hw hw' : HostW) (hs : hw'.source = hw.source)
    (rootSpec self value spec o : Val)
    (hc : ∀ id, spec.get "default" = .func id → hw'.call id = hw.call id) :
    defaultStageW hw' rootSpec self value spec o
      = defaultStageW hw rootSpec self value spec o := by
  simp only [defaultStageW, setDefaultW, callSetterW,
    callClientFunctionW_congr hw hw' hs self _ .undefined o hc]

theorem _scrubW_head_error (hw : HostW) (rootSpec : Val) (fuel : Nat) (root : Val → Val)
    (value spec options e o : Val) (hs : isObject spec = true)
    (hh : scrubHeadW hw rootSpec (root value) value spec (override options spec false)
      = .ret (.error e, o)) :
    _scrubW hw rootSpec (fuel + 1) root value spec options = .ret ⟨e, value⟩ := by
  rw [_scrubW]
  simp [hs, hh]

/-! ## The claims -/

/-- C7. `checkScalar` equals its reference definition `checkScalarRef` on every spec
node: a null or undefined value is returned unchanged; for any other value the tag of
`spec.value` decides: `undefined` and `function` succeed, `string` succeeds iff the value
is strictly equal to one pipe-separated member, `number` and `boolean` succeed iff the
value is strictly equal to `spec.value`, every other tag gives an error with code
`badSpec`; success returns the value unchanged and failure is an error with code
`badValue`.  In particular 1 does not satisfy `value: true`.  A spec that is not a
plain object lets every value through unchanged. -/
theorem checkScalar_refines (h : Host) (rootSpec value : Val) (ps : Props) (options : Val) :
    (checkScalarRef value (.obj ps)).realisedBy value
        (checkScalar h rootSpec value (.obj ps) options) ∧
      (∀ spec : Val, isObject spec = false →
        checkScalar h rootSpec value spec options = value) ∧
      checkScalarRef (.num (.ofNat 1)) (.obj [("value", .bool true)]) = .fail "badValue" := by
  refine ⟨?_, fun spec hs => by simp [checkScalar, hs], by decide⟩
  unfold checkScalar checkScalarRef
  by_cases hv : (isNull value || isUndefined value) = true
  · have : (!isObject (Val.obj ps) || isNull value || isUndefined value) = true := by
      simp [isObject] at hv ⊢; exact hv
    simp [this, hv, Verdict.realisedBy]
  · have : (!isObject (Val.obj ps) || isNull value || isUndefined value) = false := by
      simp [isObject] at hv ⊢; exact hv
    simp only [this, hv]
    generalize hsv : (Val.obj ps).get "value" = sv
    cases sv with
    | str e =>
      by_cases hm : ((members e).any fun member => strictEq (.str member) value) = true
        <;> simp [tipe, Verdict.realisedBy, isError_fail, fail_code, enumMembers, matchEnum, hm]
    | num a =>
      by_cases hm : strictEq (.num a) value = true
        <;> simp [tipe, Verdict.realisedBy, isError_fail, fail_code, hm]
    | bool a =>
      by_cases hm : strictEq (.bool a) value = true
        <;> simp [tipe, Verdict.realisedBy, isError_fail, fail_code, hm]
    | _ => simp [tipe, Verdict.realisedBy, isError_fail, fail_code]

/-- C3, counterexample. An Error object checked against a type that lists its tag
`error` is not answered with null: `scrub` hands back the Error object itself. -/
theorem type_check_error_value :
    tipe (coerceType plainHost (.error [("message", .str "x")]) (.obj [("type", .str "error")])
        _options) ∈ members "error" ∧
      scrub plainHost (.error [("message", .str "x")]) (.obj [("type", .str "error")]) .undefined
        = .ret ⟨.error [("message", .str "x")], .error [("message", .str "x")]⟩ := by
  constructor
  · decide
  · rfl

/-- C3 (amended). Type checking applies to every defined value, null included, and
never to undefined.  Under default options `scrub(v, spec)` with `spec` the node that only
declares `type: t` returns an error with code `badType` whenever `v` is defined and the tag
of the (possibly coerced) value is not a pipe-separated member of `t`; for a value that is
not itself an Error object it returns null exactly when `v` is undefined or the tag is a
member of `t`; an Error object whose tag is listed is handed back itself.  Null fails
`type: string` and passes `type: string|null`. -/
theorem type_check_decides (h : Host) (v : Val) (t : String) :
    (isUndefined v = false →
      tipe (coerceType h v (.obj [("type", .str t)]) _options) ∉ members t →
      ∃ e, scrub h v (.obj [("type", .str t)]) .undefined = .ret ⟨e, v⟩ ∧
        isError e = true ∧ e.get "code" = .str "badType") ∧
    (isError v = false →
      (Returns (scrub h v (.obj [("type", .str t)]) .undefined) .null ↔
        (isUndefined v = true ∨
          tipe (coerceType h v (.obj [("type", .str t)]) _options) ∈ members t))) ∧
    (isError v = true →
      tipe (coerceType h v (.obj [("type", .str t)]) _options) ∈ members t →
      scrub h v (.obj [("type", .str t)]) .undefined = .ret ⟨v, v⟩) ∧
    (∃ e, scrub h .null (.obj [("type", .str "string")]) .undefined = .ret ⟨e, .null⟩ ∧
      isError e = true ∧ e.get "code" = .str "badType") ∧
    scrub h .null (.obj [("type", .str "string|null")]) .undefined = .ret ⟨.null, .null⟩ := by
  refine ⟨?_, ?_, ?_, ?_, ?_⟩
  · intro hu hm
    rw [← matchEnum_str_iff] at hm
    rw [scrub_typeOnly]
    simp only [hu, hm, Bool.false_eq_true, if_false]
    exact ⟨_, rfl, isError_fail _ _ _ _ _, fail_code _ _ _ _ _⟩
  · intro he
    rw [scrub_typeOnly, ← matchEnum_str_iff]
    by_cases hu : isUndefined v = true
    · simp [hu, Returns]
    · by_cases hm : matchEnum (.str (tipe (coerceType h v (.obj [("type", .str t)]) _options))) (.str t) = true
      · simp [hu, hm, he, Returns]
      · simp only [hu, hm, Bool.false_eq_true, if_false, or_self, iff_false, Returns]
        rintro ⟨post, hp⟩
        injection hp with hp
        injection hp with hr _
        have h1 := isError_fail h (.obj [("type", .str t)]) "badType"
          (.str (tipe (coerceType h v (.obj [("type", .str t)]) _options)))
          ⟨coerceType h v (.obj [("type", .str t)]) _options, .obj [("type", .str t)], _options⟩
        rw [hr] at h1
        exact absurd h1 (by decide)
  · intro he hm
    rw [← matchEnum_str_iff] at hm
    have hu : isUndefined v = false := by cases v <;> simp_all [isError, isUndefined]
    rw [scrub_typeOnly]
    simp [hu, hm, he]
  · rw [scrub_typeOnly]
    exact ⟨_, rfl, isError_fail _ _ _ _ _, fail_code _ _ _ _ _⟩
  · rw [scrub_typeOnly]
    rfl

/-- C6, counterexample. The enumeration `foo|bar|baz` accepts `undefined`, which is none
of the three strings. -/
theorem enum_accepts_undefined :
    scrub plainHost .undefined (.obj [("value", .str "foo|bar|baz")]) .undefined
        = .ret ⟨.null, .undefined⟩ ∧
      ¬(Val.undefined = .str "foo" ∨ Val.undefined = .str "bar" ∨ Val.undefined = .str "baz") := by
  constructor
  · rfl
  · simp

/-- C6 (amended). Under the spec whose `value` is the enumeration `foo|bar|baz`,
`undefined`, `null`, plain objects and arrays are accepted as they are; for every other
value `scrub` returns null exactly when the value is one of the strings `foo`, `bar`,
`baz`, and otherwise an error whose code is `badValue`. -/
theorem enum_accepts_exactly (h : Host) (v : Val) :
    ((isUndefined v || isNull v || isObject v || isArray v) = true →
      scrub h v (.obj [("value", .str "foo|bar|baz")]) .undefined = .ret ⟨.null, v⟩) ∧
    ((isUndefined v || isNull v || isObject v || isArray v) = false →
      (Returns (scrub h v (.obj [("value", .str "foo|bar|baz")]) .undefined) .null ↔
        (v = .str "foo" ∨ v = .str "bar" ∨ v = .str "baz")) ∧
      (¬(v = .str "foo" ∨ v = .str "bar" ∨ v = .str "baz") →
        ∃ e, scrub h v (.obj [("value", .str "foo|bar|baz")]) .undefined = .ret ⟨e, v⟩ ∧
          isError e = true ∧ e.get "code" = .str "badValue")) := by
  refine ⟨?_, ?_⟩
  · intro hun
    rw [scrub_enum]
    simp only [hun, if_true]
  · intro hun
    rw [scrub_enum, ← matchEnum_foobarbaz]
    simp only [hun, Bool.false_eq_true, if_false]
    by_cases hm : matchEnum v (.str "foo|bar|baz") = true
    · simp [hm, Returns]
    · simp only [hm, Bool.false_eq_true, if_false, iff_false, not_false_eq_true, true_implies]
      refine ⟨?_, _, rfl, isError_fail _ _ _ _ _, fail_code _ _ _ _ _⟩
      rintro ⟨post, hp⟩
      injection hp with hp
      injection hp with hr _
      have h1 := isError_fail h (.obj [("value", .str "foo|bar|baz")]) "badValue"
        (.str (toStr h (_options.get "key") ++ ": " ++ toStr h (.str "foo|bar|baz")))
        ⟨v, .obj [("value", .str "foo|bar|baz")], _options⟩
      rw [hr] at h1
      exact absurd h1 (by decide)

/-- C10. Numeric coercion equals its reference definition `coerceNumberRef`: for a
string checked against type exactly `number` with coercion enabled, with `f` the float
parse and `i` the integer parse, the coerced value is `f` when `|f| > |i|`, otherwise `i`
when `i` is a non-zero number, otherwise 0 for the text `0`, otherwise the string itself,
which `scrub` then rejects with `badType` (and a coerced string is accepted).  With the
decimal parsers, `100`, `-1`, `0.52`, `1.7` and `0` become the numbers they write. -/
theorem coerce_number_refines (h : Host) (s : String) (spec options : Val)
    (htype : spec.get "type" = .str "number")
    (hco : (options.get "doNotCoerce").truthy = false) :
    coerceType h (.str s) spec options = coerceNumberRef h s ∧
    (coerceNumberRef h s = .str s →
      ∃ e, scrub h (.str s) (.obj [("type", .str "number")]) .undefined = .ret ⟨e, .str s⟩ ∧
        isError e = true ∧ e.get "code" = .str "badType") ∧
    (coerceNumberRef h s ≠ .str s →
      scrub h (.str s) (.obj [("type", .str "number")]) .undefined = .ret ⟨.null, .str s⟩) ∧
    coerceType plainHost (.str "100") (.obj [("type", .str "number")]) _options
      = .num (.fin false 100 0) ∧
    coerceType plainHost (.str "-1") (.obj [("type", .str "number")]) _options
      = .num (.fin true 1 0) ∧
    coerceType plainHost (.str "0.52") (.obj [("type", .str "number")]) _options
      = .num (.fin false 52 (-2)) ∧
    coerceType plainHost (.str "1.7") (.obj [("type", .str "number")]) _options
      = .num (.fin false 17 (-1)) ∧
    coerceType plainHost (.str "0") (.obj [("type", .str "number")]) _options
      = .num (.fin false 0 0) := by
  have hc : ∀ o : Val, (o.get "doNotCoerce").truthy = false → ∀ sp : Val, sp.get "type" = .str "number" →
      coerceType h (.str s) sp o = coerceNumberRef h s := by
    intro o ho sp hsp
    unfold coerceType
    simp [ho, hsp, isString, strictEq, coerceNumber_eq_ref]
  have hc0 := hc _options rfl (.obj [("type", .str "number")]) rfl
  refine ⟨hc options hco spec htype, ?_, ?_, rfl, rfl, rfl, rfl, rfl⟩
  · intro hs
    rw [scrub_typeOnly, hc0, hs]
    exact ⟨_, rfl, isError_fail _ _ _ _ _, fail_code _ _ _ _ _⟩
  · intro hs
    rw [scrub_typeOnly, hc0]
    have : ∃ n, coerceNumberRef h s = .num n := by
      rw [← coerceNumber_eq_ref] at hs ⊢
      rcases coerceNumber_cases h s with hn | hn
      · exact hn
      · exact absurd hn hs
    obtain ⟨n, hn⟩ := this
    rw [hn]
    rfl

/-- C10, witness: the text `100` under the decimal host. -/
theorem coerce_number_witness :
    coerceType plainHost (.str "100") (.obj [("type", .str "number")]) _options
      = coerceNumberRef plainHost "100" :=
  (coerce_number_refines plainHost "100" (.obj [("type", .str "number")]) _options rfl rfl).1

/-- C2. A required value that is absent or null yields `missingParam`.  At the root:
for every spec node with a truthy `required` and no init hook, under default options, a
value that is null, or undefined with no default declared, makes `scrub` return an error
with code `missingParam`, whatever else the node declares.  As a declared field: for every
field map in effect in `checkObject` (strict mode and `ignoreRequired` off), a field with
`required` set that is still undefined or null once default-filling has completed makes
`checkObject`, and `scrub` when the field map is the root spec, return `missingParam`. -/
theorem required_yields_missingParam (h : Host) :
    (∀ (value : Val) (sp : Props),
      ((Val.obj sp).get "required").truthy = true →
      isFunction ((Val.obj sp).get "init") = false →
      (value = .null ∨ (value = .undefined ∧ (Val.obj sp).get "default" = .undefined)) →
      ∃ e, scrub h value (.obj sp) .undefined = .ret ⟨e, value⟩ ∧
        isError e = true ∧ e.get "code" = .str "missingParam") ∧
    (∀ (child : Val → Val → Val → Res Out) (rootSpec spec options : Val) (ps fm : Props)
        (filled : Val) (key : String),
      specFields spec = .obj fm → isFieldMap fm = true →
      (options.get "strict").truthy = false →
      (options.get "ignoreRequired").truthy = false →
      fillDefaults h rootSpec spec (.obj fm) options (Val.obj fm).keys (.obj ps)
        = .ret (.ok filled) →
      key ∈ (Val.obj fm).keys →
      (((Val.obj fm).get key).get "required").truthy = true →
      (isUndefined (filled.get key) || isNull (filled.get key)) = true →
      ∃ e, checkObject h child rootSpec (.obj ps) spec options = .ret ⟨e, filled, options⟩ ∧
        isError e = true ∧ e.get "code" = .str "missingParam") ∧
    (∀ (ps fm : Props) (filled : Val) (key : String),
      isFieldMap fm = true →
      fillDefaults h (.obj fm) (.obj fm) (.obj fm) _options (Val.obj fm).keys (.obj ps)
        = .ret (.ok filled) →
      key ∈ (Val.obj fm).keys →
      (((Val.obj fm).get key).get "required").truthy = true →
      (isUndefined (filled.get key) || isNull (filled.get key)) = true →
      ∃ e, scrub h (.obj ps) (.obj fm) .undefined = .ret ⟨e, filled⟩ ∧
        isError e = true ∧ e.get "code" = .str "missingParam") := by
  refine ⟨fun value sp h1 h2 h3 => required_at_root h value sp h1 h2 h3,
    fun child rootSpec spec options ps fm filled key h1 h2 h3 h4 h5 h6 h7 h8 =>
      required_in_checkObject h child rootSpec spec options ps fm filled key h1 h2 h3 h4 h5 h6 h7 h8,
    ?_⟩
  intro ps fm filled key hfm hfill hkey hreq hmiss
  obtain ⟨e, he, he1, he2⟩ := required_in_checkObject h
    (_scrub h (.obj fm) (Val.obj fm).depth) (.obj fm) (.obj fm) _options ps fm filled key
    (specFields_fieldMap hfm) hfm rfl rfl hfill hkey hreq hmiss
  refine ⟨e, ?_, he1, he2⟩
  unfold scrub
  have ho : isObject _options = true := rfl
  rw [override_root_undefined, _scrub_fieldMap h _ hfm ps ho _options_flat, he]
  simp [he1]

/-- C2, witness: `scrub(undefined, required: true)` and an object that lacks its
required field `o1`. -/
theorem required_yields_missingParam_witness :
    (∃ e, scrub plainHost .undefined (.obj [("required", .bool true)]) .undefined
        = .ret ⟨e, .undefined⟩ ∧ isError e = true ∧ e.get "code" = .str "missingParam") ∧
    (∃ e, scrub plainHost (.obj [("s1", .str "foo")])
        (.obj [("s1", .obj [("type", .str "string")]),
          ("o1", .obj [("type", .str "object"), ("required", .bool true)])]) .undefined
        = .ret ⟨e, .obj [("s1", .str "foo")]⟩ ∧
      isError e = true ∧ e.get "code" = .str "missingParam") :=
  ⟨(required_yields_missingParam plainHost).1 .undefined [("required", .bool true)] rfl rfl
      (Or.inr ⟨rfl, rfl⟩),
    (required_yields_missingParam plainHost).2.2 [("s1", .str "foo")]
      [("s1", .obj [("type", .str "string")]),
        ("o1", .obj [("type", .str "object"), ("required", .bool true)])]
      (.obj [("s1", .str "foo")]) "o1" rfl rfl (by decide) rfl rfl⟩

/-- C4, the failing input, and what holds beside it.  The object whose only key is
`toString`, against a field map that declares `s1`, with strict on: `scrub` returns null
and not `badParam`, because the read `specFields[key]` of the strict loop finds the member
`toString` that the field map inherits.  For every other key the claim holds: when strict
is in effect at a node, the keys before `key` are found in the field map (as entries that
are not `undefined`, or as inherited members), and the read of `key` is `undefined` (the
field map has no entry for it, or an entry that holds `undefined`, and in the first case
`key` is not the name of an inherited member), `checkObject` returns an error with code
`badParam` whose message names `key`.  The check
comes first: the value is left as it was (`post` is the value handed in) and no default or
required check runs before it.  With the strict option given by the caller and a field map
as root spec, `scrub` returns that error. -/
theorem strict_rejects_unknown_key (h : Host) (child : Val → Val → Val → Res Out)
    (rootSpec spec options : Val) (ps : Props) (pre rest : List String) (key : String)
    (hstrict : (options.get "strict").truthy = true)
    (hkeys : ps.map Prod.fst = pre ++ key :: rest)
    (hpre : ∀ k ∈ pre, isUndefined ((specFields spec).get k) = false ∨
      (inherits k = true ∧ k ∉ (specFields spec).keys))
    (hkey : isUndefined ((specFields spec).get key) = true)
    (hown : inherits key = false ∨ key ∈ (specFields spec).keys) :
    (∃ e, checkObject h child rootSpec (.obj ps) spec options = .ret ⟨e, .obj ps, options⟩ ∧
      isError e = true ∧ e.get "code" = .str "badParam" ∧
      e.get "message" = .str ("Unrecognized Parameter: " ++ key)) ∧
    (∀ fm : Props, spec = .obj fm → isFieldMap fm = true →
      ∃ e, scrub h (.obj ps) spec (.obj [("strict", .bool true)]) = .ret ⟨e, .obj ps⟩ ∧
        isError e = true ∧ e.get "code" = .str "badParam" ∧
        e.get "message" = .str ("Unrecognized Parameter: " ++ key)) ∧
    scrub h (.obj [("toString", .num (.ofNat 1))])
        (.obj [("s1", .obj [("type", .str "string")])]) (.obj [("strict", .bool true)])
      = .ret ⟨.null, .obj [("toString", .num (.ofNat 1))]⟩ ∧
    (∀ k, k ∈ objectPrototype → ∀ sf : Val, k ∉ sf.keys → unknownKey sf [k] = none) := by
  have hco : ∀ (c : Val → Val → Val → Res Out) (r o : Val), (o.get "strict").truthy = true →
      checkObject h c r (.obj ps) spec o
        = .ret ⟨fail h r "badParam" (.str key) ⟨.obj ps, spec, o⟩, .obj ps, o⟩ := by
    intro c r o ho
    unfold checkObject
    simp only [ho, if_true, Val.keys, hkeys, unknownKey_first _ pre rest key hpre hkey hown]
  have hmsg : ∀ (r : Val) (a : Args), (fail h r "badParam" (.str key) a).get "message"
      = .str ("Unrecognized Parameter: " ++ key) := by
    intro r a
    rw [fail_message, toStr_str]
    simp [codeMap, String.append_assoc]
  refine ⟨⟨_, hco child rootSpec options hstrict, isError_fail _ _ _ _ _, fail_code _ _ _ _ _,
    hmsg _ _⟩, ?_, rfl, ?_⟩
  · intro fm hspec hfm
    subst hspec
    refine ⟨fail h (.obj fm) "badParam" (.str key) ⟨.obj ps, .obj fm, strictOptions⟩, ?_,
      isError_fail _ _ _ _ _, fail_code _ _ _ _ _, hmsg _ _⟩
    unfold scrub
    have ho : override _options (.obj [("strict", .bool true)]) true = strictOptions := rfl
    have hso : isObject strictOptions = true := rfl
    rw [ho, _scrub_fieldMap h _ hfm ps hso strictOptions_flat, hco _ _ strictOptions rfl]
    simp [isError_fail]
  · intro k hk sf hno
    have hin : inherits k = true := by simp [inherits, hk]
    simp [unknownKey, hin, hno]

/-- C4, witness: the unknown key `x` is reported although the required field `s1` is
missing, and the value is left as it was. -/
theorem strict_rejects_unknown_key_witness :
    ∃ e, scrub plainHost (.obj [("x", .num (.ofNat 1))])
        (.obj [("s1", .obj [("required", .bool true)])]) (.obj [("strict", .bool true)])
        = .ret ⟨e, .obj [("x", .num (.ofNat 1))]⟩ ∧
      isError e = true ∧ e.get "code" = .str "badParam" ∧
      e.get "message" = .str ("Unrecognized Parameter: " ++ "x") :=
  (strict_rejects_unknown_key plainHost (fun _ _ _ => .diverge)
    (.obj [("s1", .obj [("required", .bool true)])])
    (.obj [("s1", .obj [("required", .bool true)])]) strictOptions
    [("x", .num (.ofNat 1))] [] [] "x" rfl rfl (by simp) rfl (Or.inl rfl)).2.1 _ rfl rfl

/-- C1, the failing input, and what holds beside it.  With the spec node that declares
`type: object|null` and `default: null`, and an empty object as value, `scrub` returns
neither null nor an error: reading `default` of the entry `null` raises a TypeError.
Whenever `scrub` does return: without `returnValue: true` in the options it returns null or
an error object, and with it `scrub` returns what `_scrub` returns, the final transformed
value; `scrub(undefined, default: 1, returnValue: true)` returns 1. -/
theorem scrub_returns :
    scrub plainHost (.obj []) (.obj [("type", .str "object|null"), ("default", .null)])
        .undefined
      = .raise "TypeError: Cannot read properties of null (reading default)" ∧
    (∀ (h : Host) (value spec options : Val) (out : Out),
      scrub h value spec options = .ret out → options.get "returnValue" ≠ .bool true →
      out.result = .null ∨ isError out.result = true) ∧
    (∀ (h : Host) (value spec : Val) (ops : Props) (out : Out),
      (Val.obj ops).get "returnValue" = .bool true →
      _scrub h spec (spec.depth + 1) value spec (override _options (.obj ops) true) = .ret out →
      scrub h value spec (.obj ops) = .ret out) ∧
    scrub plainHost .undefined (.obj [("default", .num (.ofNat 1))])
        (.obj [("returnValue", .bool true)])
      = .ret ⟨.num (.ofNat 1), .undefined⟩ := by
  refine ⟨rfl, ?_, ?_, rfl⟩
  · intro h value spec options out hs hrv
    unfold scrub at hs
    cases hr : _scrub h spec (spec.depth + 1) value spec (override _options options true) with
    | raise m => rw [hr] at hs; simp at hs
    | diverge => rw [hr] at hs; simp at hs
    | ret o =>
      rw [hr] at hs
      simp only [Res.bind_ret, returnValue_off options hrv, Bool.false_eq_true, if_false] at hs
      by_cases he : isError o.result = true
      · simp only [he, if_true] at hs
        injection hs with hs
        subst hs
        exact Or.inr he
      · simp only [he, if_false] at hs
        injection hs with hs
        subst hs
        exact Or.inl rfl
  · intro h value spec ops out hrv hs
    unfold scrub
    rw [hs, returnValue_on ops hrv]
    simp only [Res.bind_ret, Val.truthy, if_true]
    split <;> rfl

/-- C9, failing inputs.  A field map with a `null` entry makes `scrub` raise a TypeError,
in the default loop when the field is absent from the value and in the required loop when
it is present; so does a spec function that throws `null`, in the handler that catches
it.  The embedding itself never runs out of fuel. -/
theorem scrub_raises_on_null_entry :
    scrub plainHost (.obj []) (.obj [("a", .null)]) .undefined
      = .raise "TypeError: Cannot read properties of null (reading default)" ∧
    scrub plainHost (.obj [("a", .num (.ofNat 1))]) (.obj [("a", .null)]) .undefined
      = .raise "TypeError: Cannot read properties of null (reading required)" ∧
    scrub (throwHost .null) .undefined (.obj [("init", .func 0)]) .undefined
      = .raise "TypeError: Cannot read properties of null (reading message)" ∧
    (∀ (h : Host) (value spec options : Val), scrub h value spec options ≠ .diverge) :=
  ⟨rfl, rfl, rfl, scrub_ne_diverge⟩

/-- C8. When the run of `scrub` reaches an init hook, default generator, value setter,
validate function or finish hook that throws an Error object with message `m`, at the
root or in any node below it (`Throws`), `scrub` does not throw: it returns an error whose
code is `badSpec` and whose message is `Spec function threw exception: ` followed by `m`. -/
theorem thrown_hook_gives_badSpec (h : Host) (rootValue rootSpec rootOptions : Val) (m : String)
    (ht : Throws h rootSpec (rootSpec.depth + 1) rootValue rootSpec
      (override _options rootOptions true) m) :
    ∃ e post, scrub h rootValue rootSpec rootOptions = .ret ⟨e, post⟩ ∧
      isError e = true ∧ e.get "code" = .str "badSpec" ∧
      e.get "message" = .str ("Spec function threw exception: " ++ m) := by
  obtain ⟨e, post, he, h1, h2, h3⟩ := throws_gives_badSpec h rootSpec _ _ _ _ m ht
  refine ⟨e, post, ?_, h1, h2, h3⟩
  unfold scrub
  rw [he]
  simp [h1]

/-- C8, witness: the init hook of field `a` throws `I hurled`. -/
theorem thrown_hook_witness :
    ∃ e post, scrub (throwHost (.error [("message", .str "I hurled")]))
        (.obj [("a", .num (.ofNat 1))]) (.obj [("a", .obj [("init", .func 0)])]) .undefined
        = .ret ⟨e, post⟩ ∧
      isError e = true ∧ e.get "code" = .str "badSpec" ∧
      e.get "message" = .str ("Spec function threw exception: " ++ "I hurled") :=
  thrown_hook_gives_badSpec (throwHost (.error [("message", .str "I hurled")]))
    (.obj [("a", .num (.ofNat 1))]) (.obj [("a", .obj [("init", .func 0)])]) .undefined
    "I hurled"
    (@Throws.inField (throwHost (.error [("message", .str "I hurled")]))
      (.obj [("a", .obj [("init", .func 0)])]) 2
      (.obj [("a", .num (.ofNat 1))]) (.obj [("a", .obj [("init", .func 0)])]) _options
      (.obj [("a", .num (.ofNat 1))]) (.obj [("a", .num (.ofNat 1))]) [] [] "a"
      ⟨.obj [("a", .num (.ofNat 1))], .obj [("a", .num (.ofNat 1))], _options⟩ "I hurled"
      rfl rfl rfl rfl rfl rfl rfl rfl rfl rfl
      (@Throws.atInit (throwHost (.error [("message", .str "I hurled")]))
        (.obj [("a", .obj [("init", .func 0)])]) 1 (.num (.ofNat 1))
        (.obj [("init", .func 0)]) (_options.put "key" (.str "a")) 0
        (.error [("message", .str "I hurled")]) rfl rfl rfl rfl))

/-- C5, counterexamples.  A literal default that JSON does not write back as it is, the
array holding `undefined`, reaches the value as the array holding `null`; and a field
present with the value 0 ends up holding its default 1 when its init hook returns
undefined. -/
theorem default_not_structural :
    scrub plainHost (.obj []) (.obj [("a", .obj [("default", .arr [.undefined])])]) .undefined
      = .ret ⟨.null, .obj [("a", .arr [.null])]⟩ ∧
    scrub plainHost (.obj [("n1", .num (.ofNat 0))])
        (.obj [("n1", .obj [("init", .func 0), ("default", .num (.ofNat 1))])]) .undefined
      = .ret ⟨.null, .obj [("n1", .num (.ofNat 1))]⟩ :=
  ⟨rfl, rfl⟩

/-- C5 (amended).  For every field map (each entry a spec node) and object value, under
default options, after a successful `scrub`: a declared field that was undefined in the
input and declares a literal default holds what the field's own spec makes of the JSON
round-trip copy of that default (`clone`), which is the default itself when it is built
from null, booleans, strings, finite numbers, arrays and plain objects only; a field that
was present with a value other than undefined (null, false, 0 and the empty string
included) is left alone by default-filling and holds what its own spec makes of the input
value, and in that node the default stage is skipped for a defined value.
`scrub` on the empty object with field `n1` defaulting to 1 returns null and leaves `n1: 1`. -/
theorem default_fill (h : Host) (ps fm : Props) (post : Val)
    (hfm : isFieldMap fm = true) (hnd : (ps.map Prod.fst).Nodup)
    (hs : scrub h (.obj ps) (.obj fm) .undefined = .ret ⟨.null, post⟩) :
    (∀ k, k ∈ (Val.obj fm).keys →
      (isUndefined ((Val.obj ps).get k) = true →
        isDefined (((Val.obj fm).get k).get "default") = true →
        isFunction (((Val.obj fm).get k).get "default") = false →
        ∃ out, _scrub h (.obj fm) (Val.obj fm).depth
            (clone (((Val.obj fm).get k).get "default")) ((Val.obj fm).get k)
            (_options.put "key" (.str k)) = .ret out ∧
          isError out.result = false ∧ post.get k = out.result) ∧
      (isUndefined ((Val.obj ps).get k) = false →
        ∃ out, _scrub h (.obj fm) (Val.obj fm).depth ((Val.obj ps).get k) ((Val.obj fm).get k)
            (_options.put "key" (.str k)) = .ret out ∧
          isError out.result = false ∧ post.get k = out.result)) ∧
    (∀ rootSpec v spec o : Val, isUndefined v = false →
      defaultStage h rootSpec v spec o = .ret (.ok v)) ∧
    (∀ d : Val, isJson d = true → clone d = d) ∧
    scrub plainHost (.obj []) (.obj [("n1", .obj [("default", .num (.ofNat 1))])]) .undefined
      = .ret ⟨.null, .obj [("n1", .num (.ofNat 1))]⟩ := by
  refine ⟨?_, ?_, clone_json, rfl⟩
  · intro k hk
    obtain ⟨filled, c, hfill, hsp, hce, hpost⟩ := scrub_fieldMap_success h ps fm post hfm hs
    have hign : (_options.get "ignoreDefaults").truthy = false := rfl
    obtain ⟨hfo, hf1, hf2⟩ := fill_get h (.obj fm) (.obj fm) (.obj fm) _options k
      (Val.obj fm).keys (.obj ps) filled rfl hfill
    have hfn : filled.keys.Nodup :=
      fill_nodup h (.obj fm) (.obj fm) (.obj fm) _options _ (.obj ps) filled hnd hfill
    obtain ⟨hp1, _⟩ := props_get (_scrub h (.obj fm) (Val.obj fm).depth) (.obj fm) (.obj fm)
      (.obj fm) k filled.keys filled _options c hfn hfo hsp hce
    have hko := isObject_get_fieldMap hfm hk
    have hmem : ∀ x : Val, filled.get k = x → isUndefined x = false → k ∈ filled.keys := by
      intro x hx hxd
      obtain ⟨fps, rfl⟩ : ∃ fps, filled = .obj fps := by
        cases filled <;> simp_all [isObject]
      apply mem_keys_of_get
      rw [hx]
      intro e
      rw [e] at hxd
      exact absurd hxd (by decide)
    refine ⟨?_, ?_⟩
    · intro hu hdef hfun
      have hget := hf2 hu hk hdef hfun hign
      have hcd := clone_literal _ hdef hfun
      have hin := hmem _ hget (by simpa [isDefined] using hcd.1)
      obtain ⟨out, ho1, ho2, ho3⟩ := hp1 hin hko
      rw [hget] at ho1
      exact ⟨out, ho1, ho2, by rw [hpost]; exact ho3⟩
    · intro hu
      have hget := hf1 hu
      have hin := hmem _ hget hu
      obtain ⟨out, ho1, ho2, ho3⟩ := hp1 hin hko
      rw [hget] at ho1
      exact ⟨out, ho1, ho2, by rw [hpost]; exact ho3⟩
  · intro rootSpec v spec o hu
    simp [defaultStage, hu]

/-- C5, witness: the empty object against field `n1` with default 1. -/
theorem default_fill_witness :
    ∃ out, _scrub plainHost (.obj [("n1", .obj [("default", .num (.ofNat 1))])]) 2
        (clone (.num (.ofNat 1))) (.obj [("default", .num (.ofNat 1))])
        (_options.put "key" (.str "n1")) = .ret out ∧
      isError out.result = false ∧
      (Val.obj [("n1", .num (.ofNat 1))]).get "n1" = out.result :=
  ((default_fill plainHost [] [("n1", .obj [("default", .num (.ofNat 1))])]
    (.obj [("n1", .num (.ofNat 1))]) rfl (by simp) rfl).1 "n1" (by simp [Val.keys])).1
    rfl rfl rfl

/-- C11. Boolean coercion.  For a string `s` checked against type exactly `boolean` with
coercion enabled, the coerced value is the boolean that is true exactly when `s` in lower
case is `true` or `yes`, or the integer parse of `s` in lower case is greater than zero;
when the integer parser does not depend on the case of letters, as the decimal parser
`parseIntDec` does not, this is the reference `coerceBooleanRef`, which parses `s` itself.
The result is always a boolean, so `scrub` of any string against `type: boolean` returns
null.  With the decimal parsers `true` and `1` become true, `foo`, `0` and `-1` false. -/
theorem coerce_boolean_refines (h : Host) (s : String) (spec options : Val)
    (htype : spec.get "type" = .str "boolean")
    (hco : (options.get "doNotCoerce").truthy = false) :
    coerceType h (.str s) spec options
      = .bool (decide (toLowerCase s = "true" ∨ toLowerCase s = "yes" ∨
          Num.gt (h.parseInt (toLowerCase s)) (Num.ofNat 0) = true)) ∧
    (h.parseInt (toLowerCase s) = h.parseInt s →
      coerceType h (.str s) spec options = .bool (coerceBooleanRef h s)) ∧
    (∀ t : String, plainHost.parseInt (toLowerCase t) = plainHost.parseInt t) ∧
    scrub h (.str s) (.obj [("type", .str "boolean")]) .undefined = .ret ⟨.null, .str s⟩ ∧
    coerceType plainHost (.str "true") (.obj [("type", .str "boolean")]) _options = .bool true ∧
    coerceType plainHost (.str "1") (.obj [("type", .str "boolean")]) _options = .bool true ∧
    coerceType plainHost (.str "foo") (.obj [("type", .str "boolean")]) _options = .bool false ∧
    coerceType plainHost (.str "0") (.obj [("type", .str "boolean")]) _options = .bool false ∧
    coerceType plainHost (.str "-1") (.obj [("type", .str "boolean")]) _options
      = .bool false := by
  have ht : isTruthy h (.str s)
      = .bool (decide (toLowerCase s = "true" ∨ toLowerCase s = "yes" ∨
          Num.gt (h.parseInt (toLowerCase s)) (Num.ofNat 0) = true)) := by
    simp only [isTruthy]
    by_cases h1 : toLowerCase s = "true"
    · simp [h1]
    · by_cases h2 : toLowerCase s = "yes"
      · simp [h2]
      · by_cases h3 : Num.gt (h.parseInt (toLowerCase s)) (Num.ofNat 0) = true <;>
          simp [h1, h2, h3]
  have hc : ∀ o : Val, (o.get "doNotCoerce").truthy = false → ∀ sp : Val,
      sp.get "type" = .str "boolean" →
      coerceType h (.str s) sp o
        = .bool (decide (toLowerCase s = "true" ∨ toLowerCase s = "yes" ∨
            Num.gt (h.parseInt (toLowerCase s)) (Num.ofNat 0) = true)) := by
    intro o ho sp hsp
    unfold coerceType
    simp only [ho, hsp, isString, strictEq, ht]
    simp
  refine ⟨hc options hco spec htype, ?_, parseIntDec_lower, ?_, rfl, rfl, rfl, rfl, rfl⟩
  · intro hci
    rw [hc options hco spec htype, hci]
    simp [coerceBooleanRef, Bool.or_assoc]
  · rw [scrub_typeOnly, hc _options rfl (.obj [("type", .str "boolean")]) rfl]
    rfl

/-- C11, witness: the text `1` under the decimal host. -/
theorem coerce_boolean_witness :
    coerceType plainHost (.str "1") (.obj [("type", .str "boolean")]) _options
      = .bool (coerceBooleanRef plainHost "1") :=
  (coerce_boolean_refines plainHost "1" (.obj [("type", .str "boolean")]) _options rfl rfl).2.1
    (parseIntDec_lower "1")

/-- C12. `coerceType` returns its value unchanged whenever `options.doNotCoerce` is set,
or the value is not a string, or `spec.type` is neither exactly `number` nor exactly
`boolean` (the alternation `number|null` does not coerce the text `100`).  Consequently,
with `doNotCoerce: true`, every string checked against `type: number` or `type: boolean`
makes `scrub` return an error with code `badType`, as does the object whose field `n1`
holds the text `100`. -/
theorem coerceType_unchanged (h : Host) (value spec options : Val)
    (hno : (options.get "doNotCoerce").truthy = true ∨ isString value = false ∨
      (spec.get "type" ≠ .str "number" ∧ spec.get "type" ≠ .str "boolean")) :
    coerceType h value spec options = value ∧
    (∀ s t : String, t = "number" ∨ t = "boolean" →
      ∃ e, scrub h (.str s) (.obj [("type", .str t)]) (.obj [("doNotCoerce", .bool true)])
          = .ret ⟨e, .str s⟩ ∧ isError e = true ∧ e.get "code" = .str "badType") ∧
    coerceType h (.str "100") (.obj [("type", .str "number|null")]) _options = .str "100" ∧
    (∃ e post, scrub h (.obj [("n1", .str "100")]) (.obj [("n1", .obj [("type", .str "number")])])
        (.obj [("doNotCoerce", .bool true)]) = .ret ⟨e, post⟩ ∧
      isError e = true ∧ e.get "code" = .str "badType") := by
  refine ⟨?_, fun s t ht => scrub_doNotCoerce h s t ht, rfl, ⟨_, _, rfl, rfl, rfl⟩⟩
  unfold coerceType
  rcases hno with h1 | h1 | ⟨h1, h2⟩
  · simp [h1]
  · simp [h1]
  · have e1 : strictEq (spec.get "type") (.str "number") = false := by
      cases ht : spec.get "type" <;> simp_all [strictEq]
    have e2 : strictEq (spec.get "type") (.str "boolean") = false := by
      cases ht : spec.get "type" <;> simp_all [strictEq]
    simp [e1, e2]

/-- C12, witness: the text `100` against the alternation `number|null`. -/
theorem coerceType_unchanged_witness :
    coerceType plainHost (.str "100") (.obj [("type", .str "number|null")]) _options
      = .str "100" :=
  (coerceType_unchanged plainHost (.str "100") (.obj [("type", .str "number|null")]) _options
    (Or.inr (Or.inr ⟨(fun hh => absurd (Val.str.inj hh) (by decide)),
      (fun hh => absurd (Val.str.inj hh) (by decide))⟩))).1

/-- C13, counterexample.  The validator answers `Hello` with `undefined`, a falsy result,
and yet the node does not succeed: its finish hook returns an error, which `scrub`
returns. -/
theorem validator_pass_node_fails :
    demoHost.call 4 (.str "Hello") _options = .ret .undefined ∧
    (∃ e post, scrub demoHost (.str "Hello")
        (.obj [("type", .str "string"), ("validate", .func 4), ("finish", .func 2)])
        .undefined = .ret ⟨e, post⟩ ∧
      isError e = true ∧ e.get "message" = .str "I always error") :=
  ⟨rfl, ⟨_, _, rfl, rfl, rfl⟩⟩

/-- C13 (amended). Validator results.  At a node that the run of `scrub` reaches
(`Reaches`), whose stages before validation have passed on the value `c.result`, and whose
validate function answers `r`: when `r` is falsy the validate stage passes and leaves the
value unchanged, what the node returns is then decided by its finish stage alone, and the
node, if it has no finish hook, returns that value; when `r` is truthy `scrub` returns an
error whose message is `r` itself for a string, and for an error object its own message,
and whose code is the code of the error object when it has a truthy one and `badValue`
otherwise.  The validator of the examples lets `Hello` pass, and an element with `n1` not
above `n2` fails with the code `failedValidator` of the error returned. -/
theorem validator_results (h : Host) (rootValue rootSpec rootOptions : Val) (fuel : Nat)
    (value spec options v r : Val) (c : Checked) (id : Nat)
    (hreach : Reaches h rootSpec (fuel + 1) value spec options (rootSpec.depth + 1) rootValue
      rootSpec (override _options rootOptions true))
    (hs : isObject spec = true)
    (hh : scrubHead h rootSpec value spec (override options spec false) = .ret (.ok v))
    (hd : dispatch h (_scrub h rootSpec fuel) rootSpec v spec (override options spec false)
      = .ret c)
    (hok : isError c.result = false)
    (hval : spec.get "validate" = .func id)
    (hcall : h.call id c.result c.options = .ret r) :
    (r.truthy = false →
      validateStage h rootSpec c.result spec c.options = .ret (.ok c.result) ∧
      scrubTail h rootSpec c.result spec c.options
        = finishStage h rootSpec c.result spec c.options ∧
      (isFunction (spec.get "finish") = false →
        _scrub h rootSpec (fuel + 1) value spec options
          = .ret ⟨c.result, if inPlace value spec then c.post else value⟩)) ∧
    (r.truthy = true →
      ∃ e post, scrub h rootValue rootSpec rootOptions = .ret ⟨e, post⟩ ∧ isError e = true ∧
        e.get "message" = (if isError r then r.get "message" else .str (toStr h r)) ∧
        e.get "code" = (if isError r = true ∧ (r.get "code").truthy = true then r.get "code"
          else .str "badValue")) ∧
    scrub demoHost (.str "Hello") (.obj [("type", .str "string"), ("validate", .func 4)])
        .undefined
      = .ret ⟨.null, .str "Hello"⟩ ∧
    (∃ e post, scrub demoHost
        (.arr [.obj [("n1", .num (.ofNat 2)), ("n2", .num (.ofNat 1))],
          .obj [("n1", .num (.ofNat 1)), ("n2", .num (.ofNat 2))]])
        (.obj [("type", .str "array"),
          ("value", .obj [("type", .str "object"),
            ("value", .obj [("n1", .obj [("type", .str "number")]),
              ("n2", .obj [("type", .str "number")])]),
            ("validate", .func 5)])]) .undefined = .ret ⟨e, post⟩ ∧
      isError e = true ∧ e.get "code" = .str "failedValidator") := by
  have hf : isFunction (Val.func id) = true := rfl
  have hcv : callValidator h (.func id) c.result c.options =
      if r.truthy then
        .ret ((if !isError r then newError h r else r).put "code"
          (if ((if !isError r then newError h r else r).get "code").truthy
            then (if !isError r then newError h r else r).get "code" else .str "badValue"))
      else .ret .null := by
    simp only [callValidator, callClientFunction, hcall, Res.bind_ret]
  refine ⟨?_, ?_, rfl, ⟨_, _, rfl, rfl, rfl⟩⟩
  · intro hr
    have hvs : validateStage h rootSpec c.result spec c.options = .ret (.ok c.result) := by
      have hn : Val.truthy Val.null = false := rfl
      simp [validateStage, hval, hf, hcv, hr, hn]
    refine ⟨hvs, by simp [scrubTail, hvs], fun hfin => ?_⟩
    rw [_scrub]
    simp [hs, hh, hd, hok, scrubTail, hvs, finishStage, hfin]
  · intro hr
    -- the error that the validator stage hands to `fail`
    obtain ⟨err, herr, he1, he2, he3⟩ : ∃ err,
        callValidator h (.func id) c.result c.options = .ret err ∧ isError err = true ∧
        err.get "message" = (if isError r then r.get "message" else .str (toStr h r)) ∧
        err.get "code" = (if isError r = true ∧ (r.get "code").truthy = true then r.get "code"
          else .str "badValue") := by
      rw [hcv]
      simp only [hr, if_true]
      by_cases hre : isError r = true
      · obtain ⟨ps, rfl⟩ : ∃ ps, r = .error ps := by cases r <;> simp_all [isError]
        simp only [hre, Bool.not_true, Bool.false_eq_true, if_false, if_true, true_and]
        refine ⟨_, rfl, ?_, ?_, ?_⟩
        · rw [isError_put]; rfl
        · exact get_put_ne_error _ (by decide) _
        · rw [get_put_self_error]
      · have hre' : isError r = false := by simpa using hre
        have hne : newError h r = .error [("message", .str (toStr h r))] := by
          cases r <;> simp_all [newError, Val.truthy]
        have hnc : (Val.error [("message", .str (toStr h r))]).get "code" = .undefined := rfl
        have hut : Val.truthy Val.undefined = false := rfl
        simp only [hre', Bool.not_false, if_true, hne, Bool.false_eq_true, false_and, if_false,
          hnc, hut]
        exact ⟨_, rfl, rfl, rfl, rfl⟩
    have htruthy : err.truthy = true := by cases err <;> simp_all [isError, Val.truthy]
    have htail : scrubTail h rootSpec c.result spec c.options
        = .ret (.error (failWith rootSpec err ⟨c.result, spec, c.options⟩)) := by
      simp [scrubTail, validateStage, hval, hf, herr, htruthy]
    have hnode := _scrub_tail_error h rootSpec fuel value spec options v _ c hs hh hd hok htail
    obtain ⟨e', post, hsc, hsame⟩ := scrub_reaches_error h rootValue rootSpec rootOptions _ _ _ _
      _ _ hreach hnode (by rw [isError_failWith]; exact he1)
    refine ⟨e', post, hsc, hsame.1, ?_, ?_⟩
    · rw [hsame.2 "message" (by decide), failWith_message]; exact he2
    · rw [hsame.2 "code" (by decide), failWith_code]; exact he3

/-- C13, witness: the validator answers `hello` with the message `Must be uppercase`. -/
theorem validator_results_witness :
    ∃ e post, scrub demoHost (.str "hello")
        (.obj [("type", .str "string"), ("validate", .func 4)]) .undefined = .ret ⟨e, post⟩ ∧
      isError e = true ∧
      e.get "message" = (if isError (.str "Must be uppercase")
        then (Val.str "Must be uppercase").get "message"
        else .str (toStr demoHost (.str "Must be uppercase"))) ∧
      e.get "code" = (if isError (.str "Must be uppercase") = true ∧
          ((Val.str "Must be uppercase").get "code").truthy = true
        then (Val.str "Must be uppercase").get "code" else .str "badValue") :=
  (validator_results demoHost (.str "hello")
    (.obj [("type", .str "string"), ("validate", .func 4)]) .undefined 1 (.str "hello")
    (.obj [("type", .str "string"), ("validate", .func 4)]) _options (.str "hello")
    (.str "Must be uppercase") ⟨.str "hello", .str "hello", _options⟩ 4
    Reaches.here rfl rfl rfl rfl rfl rfl).2.1 rfl

/-- C14. Replace-or-abort semantics of setters.  At a node that the run of `scrub`
reaches (`Reaches`), for the init hook, for the value setter (the stages before it having
passed) and for the finish hook (validation having passed): when the hook returns an
error object `scrub` returns that error, every property but `details` preserved, its
code and message among them (`SameError`); otherwise what it returns replaces the working
value: it is the output of the init stage, the output of the stages before the dispatch,
and for finish what the node returns.  What a node returns is written into the parent
object under its key, and into the parent array at its index, before the loop goes on.
The setter that doubles `foo` leaves `s1: foofoo` in the object; the errors of the
examples keep the code `mustBeUppercase` and the message `I always error`. -/
theorem setter_replaces_or_aborts (h : Host) (rootValue rootSpec rootOptions : Val) (fuel : Nat)
    (value spec options : Val)
    (hreach : Reaches h rootSpec (fuel + 1) value spec options (rootSpec.depth + 1) rootValue
      rootSpec (override _options rootOptions true))
    (hs : isObject spec = true) :
    (∀ (id : Nat) (r : Val), spec.get "init" = .func id →
      h.call id value (override options spec false) = .ret r →
      (isError r = true →
        ∃ e post, scrub h rootValue rootSpec rootOptions = .ret ⟨e, post⟩ ∧ SameError r e) ∧
      (isError r = false →
        initStage h rootSpec value spec (override options spec false) = .ret (.ok r))) ∧
    (∀ (v1 v2 v3 v4 : Val) (id : Nat) (r : Val),
      initStage h rootSpec value spec (override options spec false) = .ret (.ok v1) →
      defaultStage h rootSpec v1 spec (override options spec false) = .ret (.ok v2) →
      requiredStage h rootSpec v2 spec (override options spec false) = .ret (.ok v3) →
      typeStage h rootSpec v3 spec (override options spec false) = .ret (.ok v4) →
      spec.get "value" = .func id →
      h.call id v4 (override options spec false) = .ret r →
      (isError r = true →
        ∃ e post, scrub h rootValue rootSpec rootOptions = .ret ⟨e, post⟩ ∧ SameError r e) ∧
      (isError r = false →
        scrubHead h rootSpec value spec (override options spec false) = .ret (.ok r))) ∧
    (∀ (v v' : Val) (c : Checked) (id : Nat) (r : Val),
      scrubHead h rootSpec value spec (override options spec false) = .ret (.ok v) →
      dispatch h (_scrub h rootSpec fuel) rootSpec v spec (override options spec false)
        = .ret c →
      isError c.result = false →
      validateStage h rootSpec c.result spec c.options = .ret (.ok v') →
      spec.get "finish" = .func id →
      h.call id v' c.options = .ret r →
      (isError r = true →
        ∃ e post, scrub h rootValue rootSpec rootOptions = .ret ⟨e, post⟩ ∧ SameError r e) ∧
      (isError r = false →
        _scrub h rootSpec (fuel + 1) value spec options
          = .ret ⟨r, if inPlace value spec then c.post else value⟩)) ∧
    (∀ (child : Val → Val → Val → Res Out) (sf : Val) (key : String) (keys : List String)
        (parent opts : Val) (out : Out),
      isObject (sf.get key) = true →
      child (parent.get key) (sf.get key) (opts.put "key" (.str key)) = .ret out →
      isError out.result = false →
      scrubProps child rootSpec spec sf (key :: keys) parent opts
        = scrubProps child rootSpec spec sf keys (parent.put key out.result)
            (opts.put "key" (.str key))) ∧
    (∀ (child : Val → Val → Val → Res Out) (i : Nat) (rest : List Nat)
        (parent opts : Val) (out : Out),
      child (parent.item i) (spec.get "value") (opts.put "key" (.num (Num.ofNat i))) = .ret out →
      isError out.result = false →
      scrubItems child rootSpec spec (i :: rest) parent opts
        = scrubItems child rootSpec spec rest (parent.setAt i out.result)
            (opts.put "key" (.num (Num.ofNat i)))) ∧
    scrub demoHost (.obj [("s1", .str "foo")])
        (.obj [("type", .str "object"),
          ("value", .obj [("s1", .obj [("type", .str "string"), ("value", .func 0)])])])
        .undefined
      = .ret ⟨.null, .obj [("s1", .str "foofoo")]⟩ ∧
    (∃ e post, scrub demoHost (.str "hello") (.obj [("type", .str "string"), ("value", .func 3)])
        .undefined = .ret ⟨e, post⟩ ∧
      isError e = true ∧ e.get "code" = .str "mustBeUppercase" ∧
      e.get "message" = .str "Must be uppercase") ∧
    (∃ e post, scrub demoHost (.obj [("s1", .str "foo")])
        (.obj [("init", .func 1), ("type", .str "array"), ("finish", .func 2)])
        (.obj [("returnValue", .bool true)]) = .ret ⟨e, post⟩ ∧
      isError e = true ∧ e.get "message" = .str "I always error") := by
  have hf : ∀ id, isFunction (Val.func id) = true := fun _ => rfl
  have hcs : ∀ (id : Nat) (a o r : Val), h.call id a o = .ret r →
      callSetter h (.func id) a o = .ret r := by
    intro id a o r hc
    simp [callSetter, callClientFunction, hc]
  refine ⟨?_, ?_, ?_, ?_, ?_, rfl, ⟨_, _, rfl, rfl, rfl, rfl⟩, ⟨_, _, rfl, rfl, rfl⟩⟩
  · intro id r hinit hcall
    constructor
    · intro he
      have hh : scrubHead h rootSpec value spec (override options spec false)
          = .ret (.error (failWith rootSpec r ⟨value, spec, override options spec false⟩)) := by
        simp [scrubHead, initStage, hinit, hf, orFail, hcs _ _ _ _ hcall, he]
      have hnode := _scrub_head_error h rootSpec fuel value spec options _ hs hh
      obtain ⟨e', post, hsc, hsame⟩ := scrub_reaches_error h rootValue rootSpec rootOptions _ _ _
        _ _ _ hreach hnode (by rw [isError_failWith]; exact he)
      refine ⟨e', post, hsc, hsame.1, fun k hk => ?_⟩
      rw [hsame.2 k hk]
      exact (sameError_failWith rootSpec _ (sameError_refl r he)).2 k hk
    · intro he
      simp [initStage, hinit, hf, orFail, hcs _ _ _ _ hcall, he]
  · intro v1 v2 v3 v4 id r h1 h2 h3 h4 hset hcall
    constructor
    · intro he
      have hh : scrubHead h rootSpec value spec (override options spec false)
          = .ret (.error (failWith rootSpec r ⟨v4, spec, override options spec false⟩)) := by
        simp [scrubHead, h1, h2, h3, h4, setterStage, hset, hf, orFail, hcs _ _ _ _ hcall, he]
      have hnode := _scrub_head_error h rootSpec fuel value spec options _ hs hh
      obtain ⟨e', post, hsc, hsame⟩ := scrub_reaches_error h rootValue rootSpec rootOptions _ _ _
        _ _ _ hreach hnode (by rw [isError_failWith]; exact he)
      refine ⟨e', post, hsc, hsame.1, fun k hk => ?_⟩
      rw [hsame.2 k hk]
      exact (sameError_failWith rootSpec _ (sameError_refl r he)).2 k hk
    · intro he
      simp [scrubHead, h1, h2, h3, h4, setterStage, hset, hf, orFail, hcs _ _ _ _ hcall, he]
  · intro v v' c id r hh hd hok hv hfin hcall
    constructor
    · intro he
      have ht : scrubTail h rootSpec c.result spec c.options
          = .ret (.error (failWith rootSpec r ⟨v', spec, c.options⟩)) := by
        simp [scrubTail, hv, finishStage, hfin, hf, orFail, hcs _ _ _ _ hcall, he]
      have hnode := _scrub_tail_error h rootSpec fuel value spec options v _ c hs hh hd hok ht
      obtain ⟨e', post, hsc, hsame⟩ := scrub_reaches_error h rootValue rootSpec rootOptions _ _ _
        _ _ _ hreach hnode (by rw [isError_failWith]; exact he)
      refine ⟨e', post, hsc, hsame.1, fun k hk => ?_⟩
      rw [hsame.2 k hk]
      exact (sameError_failWith rootSpec _ (sameError_refl r he)).2 k hk
    · intro he
      rw [_scrub]
      simp [hs, hh, hd, hok, scrubTail, hv, finishStage, hfin, hf, orFail, hcs _ _ _ _ hcall, he]
  · intro child sf key keys parent opts out hobj hc he
    simp [scrubProps, hobj, hc, he]
  · intro child i rest parent opts out hc he
    simp [scrubItems, hc, he]

/-- C14, witness: the value setter answers `hello` with an error of code `mustBeUppercase`. -/
theorem setter_replaces_or_aborts_witness :
    ∃ e post, scrub demoHost (.str "hello")
        (.obj [("type", .str "string"), ("value", .func 3)]) .undefined = .ret ⟨e, post⟩ ∧
      SameError
        (.error [("message", .str "Must be uppercase"), ("code", .str "mustBeUppercase")]) e :=
  ((setter_replaces_or_aborts demoHost (.str "hello")
    (.obj [("type", .str "string"), ("value", .func 3)]) .undefined 1 (.str "hello")
    (.obj [("type", .str "string"), ("value", .func 3)]) _options
    Reaches.here rfl).2.1 (.str "hello") (.str "hello") (.str "hello") (.str "hello") 3
    (.error [("message", .str "Must be uppercase"), ("code", .str "mustBeUppercase")])
    rfl rfl rfl rfl rfl rfl).1 rfl

/-- C15.  The node evaluator runs its stages in a fixed order, each on what the one before
it left, and the first failing stage decides the result.  The spec functions are called as
the source calls them, with the root value as `this` and the options object of the node,
which they share.  For a node with an init hook, a value setter, a validator and a finish
hook: init is called on the value that the node was handed; the default, the required
check and the type check work on what init returned; the setter is called on the coerced
value; the dispatch on what the setter returned; the validator on what the dispatch, the
fields or elements scrubbed, returned; finish on the same value; what finish returns is the
result, and each function is handed the options as the function before it left them.  An
error of any stage is the result; when the type check fails, it is the result on every
host that has the same init hook and default generator, whatever its other functions do.
With a type that is a string, the head of the node fails with `badType` unless the coerced result
of init matches the type.  On a host whose functions neither use `this` nor write to the
options, the evaluator is `_scrub`.  The examples: the hooks of the test
`initAndFinishWork` (the finish hook sees that init ran and appends an element; an array is
left alone; a finish hook that returns an error fails the run); five logging hooks run in
the order init, default, value, validate, finish; when the type check fails only init has
run; a validator reads through `this` the field `n1` as coerced; the validator sees
`foofoo` after the setter doubled `foo`; and finish returns `aa` although the node only
admits the string `a`. -/
theorem node_runs_stages_in_order (hw : HostW) (rootSpec : Val) (fuel : Nat)
    (root : Val → Val) (value spec options : Val) (hs : isObject spec = true) :
    (∀ (fi fs fv ff : Nat) (v1 o1 v2 o2 v3 v4 v5 o5 : Val) (c : Checked) (e o6 r o7 : Val),
      spec.get "init" = .func fi → spec.get "value" = .func fs →
      spec.get "validate" = .func fv → spec.get "finish" = .func ff →
      hw.call fi (root value) value (override options spec false) = ⟨.ret v1, o1⟩ →
      isError v1 = false →
      defaultStageW hw rootSpec (root value) v1 spec o1 = .ret (.ok v2, o2) →
      requiredStage (hw.toHost (root value)) rootSpec v2 spec o2 = .ret (.ok v3) →
      typeStage (hw.toHost (root value)) rootSpec v3 spec o2 = .ret (.ok v4) →
      hw.call fs (root value) v4 o2 = ⟨.ret v5, o5⟩ →
      isError v5 = false →
      dispatchW hw (_scrubW hw rootSpec fuel) rootSpec (fun _ => root value) v5 spec o5
        = .ret c →
      isError c.result = false →
      hw.call fv (root value) c.result c.options = ⟨.ret e, o6⟩ →
      e.truthy = false →
      hw.call ff (root value) c.result o6 = ⟨.ret r, o7⟩ →
      isError r = false →
      _scrubW hw rootSpec (fuel + 1) root value spec options = .ret ⟨r, value⟩) ∧
    (∀ e o1 : Val,
      initStageW hw rootSpec (root value) value spec (override options spec false)
        = .ret (.error e, o1) →
      _scrubW hw rootSpec (fuel + 1) root value spec options = .ret ⟨e, value⟩) ∧
    (∀ v1 o1 e o2 : Val,
      initStageW hw rootSpec (root value) value spec (override options spec false)
        = .ret (.ok v1, o1) →
      defaultStageW hw rootSpec (root value) v1 spec o1 = .ret (.error e, o2) →
      _scrubW hw rootSpec (fuel + 1) root value spec options = .ret ⟨e, value⟩) ∧
    (∀ v1 o1 v2 o2 e : Val,
      initStageW hw rootSpec (root value) value spec (override options spec false)
        = .ret (.ok v1, o1) →
      defaultStageW hw rootSpec (root value) v1 spec o1 = .ret (.ok v2, o2) →
      requiredStage (hw.toHost (root value)) rootSpec v2 spec o2 = .ret (.error e) →
      _scrubW hw rootSpec (fuel + 1) root value spec options = .ret ⟨e, value⟩) ∧
    (∀ hw' : HostW,
      hw'.source = hw.source → hw'.parseFloat = hw.parseFloat → hw'.parseInt = hw.parseInt →
      (∀ id, spec.get "init" = .func id ∨ spec.get "default" = .func id →
        hw'.call id = hw.call id) →
      ∀ v1 o1 v2 o2 v3 e : Val,
      initStageW hw rootSpec (root value) value spec (override options spec false)
        = .ret (.ok v1, o1) →
      defaultStageW hw rootSpec (root value) v1 spec o1 = .ret (.ok v2, o2) →
      requiredStage (hw.toHost (root value)) rootSpec v2 spec o2 = .ret (.ok v3) →
      typeStage (hw.toHost (root value)) rootSpec v3 spec o2 = .ret (.error e) →
      _scrubW hw' rootSpec (fuel + 1) root value spec options = .ret ⟨e, value⟩) ∧
    (∀ v1 o1 v2 o2 v3 v4 e o5 : Val,
      initStageW hw rootSpec (root value) value spec (override options spec false)
        = .ret (.ok v1, o1) →
      defaultStageW hw rootSpec (root value) v1 spec o1 = .ret (.ok v2, o2) →
      requiredStage (hw.toHost (root value)) rootSpec v2 spec o2 = .ret (.ok v3) →
      typeStage (hw.toHost (root value)) rootSpec v3 spec o2 = .ret (.ok v4) →
      setterStageW hw rootSpec (root value) v4 spec o2 = .ret (.error e, o5) →
      _scrubW hw rootSpec (fuel + 1) root value spec options = .ret ⟨e, value⟩) ∧
    (∀ (v o : Val) (c : Checked),
      scrubHeadW hw rootSpec (root value) value spec (override options spec false)
        = .ret (.ok v, o) →
      dispatchW hw (_scrubW hw rootSpec fuel) rootSpec
        (fun p => root (if inPlace value spec then p else value)) v spec o = .ret c →
      isError c.result = true →
      _scrubW hw rootSpec (fuel + 1) root value spec options
        = .ret ⟨c.result, if inPlace value spec then c.post else value⟩) ∧
    (∀ (v o e o6 : Val) (c : Checked),
      scrubHeadW hw rootSpec (root value) value spec (override options spec false)
        = .ret (.ok v, o) →
      dispatchW hw (_scrubW hw rootSpec fuel) rootSpec
        (fun p => root (if inPlace value spec then p else value)) v spec o = .ret c →
      isError c.result = false →
      validateStageW hw rootSpec (root (if inPlace value spec then c.post else value))
        c.result spec c.options = .ret (.error e, o6) →
      _scrubW hw rootSpec (fuel + 1) root value spec options
        = .ret ⟨e, if inPlace value spec then c.post else value⟩) ∧
    (∀ (v o v6 o6 : Val) (x : Except Val Val) (o7 : Val) (c : Checked),
      scrubHeadW hw rootSpec (root value) value spec (override options spec false)
        = .ret (.ok v, o) →
      dispatchW hw (_scrubW hw rootSpec fuel) rootSpec
        (fun p => root (if inPlace value spec then p else value)) v spec o = .ret c →
      isError c.result = false →
      validateStageW hw rootSpec (root (if inPlace value spec then c.post else value))
        c.result spec c.options = .ret (.ok v6, o6) →
      finishStageW hw rootSpec (root (if inPlace value spec then c.post else value))
        v6 spec o6 = .ret (x, o7) →
      _scrubW hw rootSpec (fuel + 1) root value spec options
        = .ret ⟨match x with
            | .ok r => r
            | .error e => e, if inPlace value spec then c.post else value⟩) ∧
    (∀ (fi : Nat) (r o1 : Val) (t : String),
      spec.get "init" = .func fi →
      hw.call fi (root value) value (override options spec false) = ⟨.ret r, o1⟩ →
      isError r = false →
      isUndefined r = false →
      requiredStage (hw.toHost (root value)) rootSpec r spec o1 = .ret (.ok r) →
      spec.get "type" = .str t →
      scrubHeadW hw rootSpec (root value) value spec (override options spec false) =
        if matchEnum (.str (tipe (coerceType (hw.toHost (root value)) r spec o1))) (.str t)
        then setterStageW hw rootSpec (root value)
          (coerceType (hw.toHost (root value)) r spec o1) spec o1
        else .ret (.error (fail (hw.toHost (root value)) rootSpec "badType"
          (.str (tipe (coerceType (hw.toHost (root value)) r spec o1)))
          ⟨coerceType (hw.toHost (root value)) r spec o1, spec, o1⟩), o1)) ∧
    (∀ h : Host, _scrubW h.lift rootSpec (fuel + 1) root value spec options
      = _scrub h rootSpec (fuel + 1) value spec options) ∧
    scrubW demoHostW (.obj [("s1", .str "foo")])
        (.obj [("init", .func 0), ("type", .str "array"), ("finish", .func 1)])
        (.obj [("returnValue", .bool true)])
      = .ret ⟨.arr [.obj [("s1", .str "foo")], .obj [("s1", .str "bar")]],
          .obj [("s1", .str "foo")]⟩ ∧
    scrubW demoHostW (.arr [.num (.ofNat 1), .num (.ofNat 2), .num (.ofNat 3)])
        (.obj [("init", .func 0), ("type", .str "array"), ("finish", .func 1)])
        (.obj [("returnValue", .bool true)])
      = .ret ⟨.arr [.num (.ofNat 1), .num (.ofNat 2), .num (.ofNat 3)],
          .arr [.num (.ofNat 1), .num (.ofNat 2), .num (.ofNat 3)]⟩ ∧
    (∃ e post, scrubW demoHostW (.obj [("s1", .str "foo")])
        (.obj [("init", .func 0), ("type", .str "array"), ("finish", .func 2)])
        (.obj [("returnValue", .bool true)]) = .ret ⟨e, post⟩ ∧
      isError e = true ∧ e.get "message" = .str "I always error") ∧
    scrubW demoHostW .undefined
        (.obj [("init", .func 4), ("default", .func 5), ("type", .str "string"),
          ("value", .func 6), ("validate", .func 7), ("finish", .func 8)])
        (.obj [("returnValue", .bool true)])
      = .ret ⟨.str "init default value validate finish ", .undefined⟩ ∧
    (∃ e post, scrubW demoHostW (.num (.ofNat 1))
        (.obj [("init", .func 4), ("type", .str "string"),
          ("value", .func 6), ("validate", .func 7), ("finish", .func 8)])
        .undefined = .ret ⟨e, post⟩ ∧
      isError e = true ∧ e.get "code" = .str "badType" ∧
      ((e.get "details").get "options").get "trace" = .str "init ") ∧
    scrubW demoHostW (.obj [("n1", .str "1"), ("n2", .num (.ofNat 1))])
        (.obj [("n1", .obj [("type", .str "number"), ("default", .num (.ofNat 0))]),
          ("n2", .obj [("type", .str "number"), ("validate", .func 3)])])
        (.obj [("n3", .num (.ofNat 1))])
      = .ret ⟨.null, .obj [("n1", .num (.ofNat 1)), ("n2", .num (.ofNat 1))]⟩ ∧
    (∃ e post, scrubW demoHost.lift (.str "foo")
        (.obj [("value", .func 0), ("validate", .func 8)]) .undefined = .ret ⟨e, post⟩ ∧
      isError e = true ∧ e.get "message" = .str "foofoo") ∧
    scrubW demoHost.lift (.str "a")
        (.obj [("type", .str "string"), ("value", .str "a"), ("finish", .func 0)])
        (.obj [("returnValue", .bool true)])
      = .ret ⟨.str "aa", .str "a"⟩ := by
  have hfn : ∀ id, isFunction (Val.func id) = true := fun _ => rfl
  have hhead : ∀ (v1 o1 v2 o2 v3 v4 : Val),
      initStageW hw rootSpec (root value) value spec (override options spec false)
        = .ret (.ok v1, o1) →
      defaultStageW hw rootSpec (root value) v1 spec o1 = .ret (.ok v2, o2) →
      requiredStage (hw.toHost (root value)) rootSpec v2 spec o2 = .ret (.ok v3) →
      typeStage (hw.toHost (root value)) rootSpec v3 spec o2 = .ret (.ok v4) →
      scrubHeadW hw rootSpec (root value) value spec (override options spec false)
        = setterStageW hw rootSpec (root value) v4 spec o2 := by
    intro v1 o1 v2 o2 v3 v4 h1 h2 h3 h4
    simp only [scrubHeadW, h1, andThenW_ok, h2, h3, keep_ret, h4]
  have herr : ∀ e o, scrubHeadW hw rootSpec (root value) value spec
      (override options spec false) = .ret (.error e, o) →
      _scrubW hw rootSpec (fuel + 1) root value spec options = .ret ⟨e, value⟩ :=
    fun e o hh => _scrubW_head_error hw rootSpec fuel root value spec options e o hs hh
  refine ⟨?_, ?_, ?_, ?_, ?_, ?_, ?_, ?_, ?_, ?_, ?_, rfl, rfl, ⟨_, _, rfl, rfl, rfl⟩, rfl,
    ⟨_, _, rfl, rfl, rfl, rfl⟩, rfl, ⟨_, _, rfl, rfl, rfl⟩, rfl⟩
  · intro fi fs fv ff v1 o1 v2 o2 v3 v4 v5 o5 c e o6 r o7 hi hv hva hf hc1 he1 hd hr ht hc2
      he2 hdisp hce hc3 he3 hc4 he4
    have h1 : initStageW hw rootSpec (root value) value spec (override options spec false)
        = .ret (.ok v1, o1) := by
      simp [initStageW, hi, hfn, orFailW, callSetterW, callClientFunctionW, hc1, he1]
    have h5 : setterStageW hw rootSpec (root value) v4 spec o2 = .ret (.ok v5, o5) := by
      simp [setterStageW, hv, hfn, orFailW, callSetterW, callClientFunctionW, hc2, he2]
    have hin : inPlace value spec = false := by simp [inPlace, hi, hfn]
    have h6 : validateStageW hw rootSpec (root value) c.result spec c.options
        = .ret (.ok c.result, o6) := by
      have hnull : Val.truthy .null = false := rfl
      simp [validateStageW, hva, hfn, callValidatorW, callClientFunctionW, hc3, he3, hnull]
    have h7 : finishStageW hw rootSpec (root value) c.result spec o6 = .ret (.ok r, o7) := by
      simp [finishStageW, hf, hfn, orFailW, callSetterW, callClientFunctionW, hc4, he4]
    rw [_scrubW]
    simp [hs, hhead _ _ _ _ _ _ h1 hd hr ht, h5, hin, hdisp, hce, scrubTailW, h6, h7,
      andThenW_ok]
  · intro e o1 h1
    exact herr e o1 (by simp only [scrubHeadW, h1, andThenW_error])
  · intro v1 o1 e o2 h1 h2
    exact herr e o2 (by simp only [scrubHeadW, h1, andThenW_ok, h2, andThenW_error])
  · intro v1 o1 v2 o2 e h1 h2 h3
    exact herr e o2 (by simp only [scrubHeadW, h1, andThenW_ok, h2, h3, keep_ret,
      andThenW_error])
  · intro hw' hs' hf' hi' hc v1 o1 v2 o2 v3 e h1 h2 h3 h4
    have e1 := initStageW_congr hw hw' hs' rootSpec (root value) value spec
      (override options spec false) (fun id hid => hc id (Or.inl hid))
    have e2 := defaultStageW_congr hw hw' hs' rootSpec (root value) v1 spec o1
      (fun id hid => hc id (Or.inr hid))
    have e3 := requiredStage_source (hw'.toHost (root value)) (hw.toHost (root value)) hs'
      rootSpec v2 spec o2
    have e4 := typeStage_source (hw'.toHost (root value)) (hw.toHost (root value)) hs' hf' hi'
      rootSpec v3 spec o2
    apply _scrubW_head_error hw' rootSpec fuel root value spec options e o2 hs
    simp only [scrubHeadW, e1, h1, andThenW_ok, e2, h2, e3, h3, keep_ret, e4, h4,
      andThenW_error]
  · intro v1 o1 v2 o2 v3 v4 e o5 h1 h2 h3 h4 h5
    exact herr e o5 (by rw [hhead _ _ _ _ _ _ h1 h2 h3 h4, h5])
  · intro v o c hh hd he
    rw [_scrubW]
    simp [hs, hh, hd, he]
  · intro v o e o6 c hh hd he hv
    rw [_scrubW]
    simp [hs, hh, hd, he, scrubTailW, hv, andThenW_error]
  · intro v o v6 o6 x o7 c hh hd he hv hf
    rw [_scrubW]
    simp only [hs, Bool.not_true, Bool.false_eq_true, if_false, hh, Res.bind_ret, hd, he,
      scrubTailW, hv, andThenW_ok, hf]
    cases x <;> rfl
  · intro fi r o1 t hi hc he hu hreq hty
    have h1 : initStageW hw rootSpec (root value) value spec (override options spec false)
        = .ret (.ok r, o1) := by
      simp [initStageW, hi, hfn, orFailW, callSetterW, callClientFunctionW, hc, he]
    have hd : defaultStageW hw rootSpec (root value) r spec o1 = .ret (.ok r, o1) := by
      simp [defaultStageW, hu]
    have f1 : isDefined (Val.str t) = true := rfl
    have f2 : isObject (Val.str t) = false := rfl
    have f3 : isString (Val.str t) = true := rfl
    have hdef : isDefined r = true := by simp [isDefined, hu]
    simp only [scrubHeadW, h1, andThenW_ok, hd, hreq, keep_ret, typeStage, hty, f1, f2, f3,
      hdef]
    by_cases hm : matchEnum (.str (tipe (coerceType (hw.toHost (root value)) r spec o1)))
        (.str t) = true
    · simp [hm, keep_ret, andThenW_ok]
    · simp [hm, keep_ret, andThenW_error]
  · intro h
    exact _scrubW_lift h rootSpec (fuel + 1) root value spec options

/-- C15, witness: the node of the test `initAndFinishWork`, whose finish hook reads the
option that its init hook wrote. -/
theorem node_runs_stages_witness :
    _scrubW demoHostW (.obj [("init", .func 0), ("type", .str "array"), ("finish", .func 1)])
        (1 + 1) (fun p => p) (.obj [("s1", .str "foo")])
        (.obj [("init", .func 0), ("type", .str "array"), ("finish", .func 1)])
        (override _options (.obj [("returnValue", .bool true)]) true)
      = .ret ⟨.arr [.obj [("s1", .str "foo")], .obj [("s1", .str "bar")]],
          .obj [("s1", .str "foo")]⟩ :=
  (node_runs_stages_in_order demoHostW
    (.obj [("init", .func 0), ("type", .str "array"), ("finish", .func 1)]) 1 (fun p => p)
    (.obj [("s1", .str "foo")])
    (.obj [("init", .func 0), ("type", .str "array"), ("finish", .func 1)])
    (override _options (.obj [("returnValue", .bool true)]) true) rfl).2.2.2.2.2.2.2.2.1
    (.arr [.obj [("s1", .str "foo")]]) _
    (.arr [.obj [("s1", .str "foo")]]) _
    (.ok (.arr [.obj [("s1", .str "foo")], .obj [("s1", .str "bar")]])) _ ⟨_, _, _⟩
    rfl rfl rfl rfl rfl

/-- C16.  The option `ignoreRequired` is not honoured by the node evaluator, which reads
`options.ignoreRequire`: with `ignoreRequired: true`, `scrub` of `undefined` against
`required: true` returns an error with code `missingParam`, and so does a field present
with the value null; in general every spec node with a truthy `required` and no init hook
still rejects a null value, or an undefined value when it declares no default.  Only the
loop of `checkObject` is skipped: a missing declared field is accepted. -/
theorem ignoreRequired_not_honoured (h : Host) :
    (∃ e post, scrub h .undefined (.obj [("required", .bool true)])
        (.obj [("ignoreRequired", .bool true)]) = .ret ⟨e, post⟩ ∧
      isError e = true ∧ e.get "code" = .str "missingParam") ∧
    (∃ e post, scrub h (.obj [("s1", .null)]) (.obj [("s1", .obj [("required", .bool true)])])
        (.obj [("ignoreRequired", .bool true)]) = .ret ⟨e, post⟩ ∧
      isError e = true ∧ e.get "code" = .str "missingParam") ∧
    (∀ (value : Val) (sp : Props),
      ((Val.obj sp).get "required").truthy = true →
      isFunction ((Val.obj sp).get "init") = false →
      (value = .null ∨ (value = .undefined ∧ (Val.obj sp).get "default" = .undefined)) →
      ∃ e, scrub h value (.obj sp) (.obj [("ignoreRequired", .bool true)]) = .ret ⟨e, value⟩ ∧
        isError e = true ∧ e.get "code" = .str "missingParam") ∧
    scrub h (.obj []) (.obj [("s1", .obj [("type", .str "string"), ("required", .bool true)])])
        (.obj [("ignoreRequired", .bool true)])
      = .ret ⟨.null, .obj []⟩ := by
  refine ⟨⟨_, _, rfl, rfl, rfl⟩, ⟨_, _, rfl, rfl, rfl⟩, ?_, rfl⟩
  intro value sp hreq hinit hval
  have ho : isObject (override _options (.obj [("ignoreRequired", .bool true)]) true) = true := rfl
  have hk : (override _options (.obj [("ignoreRequired", .bool true)]) true).get "ignoreRequire"
      = .undefined := rfl
  have hir : ((override (override _options (.obj [("ignoreRequired", .bool true)]) true)
      (.obj sp) false).get "ignoreRequire").truthy = false := by
    rw [override_get_absent _ _ _ ho hk]; rfl
  have hhead : scrubHead h (.obj sp) value (.obj sp)
      (override (override _options (.obj [("ignoreRequired", .bool true)]) true) (.obj sp) false)
      = .ret (.error (fail h (.obj sp) "missingParam"
          ((override (override _options (.obj [("ignoreRequired", .bool true)]) true)
            (.obj sp) false).get "key")
          ⟨value, .obj sp,
            override (override _options (.obj [("ignoreRequired", .bool true)]) true)
              (.obj sp) false⟩)) := by
    simp only [scrubHead, initStage, hinit, Bool.false_eq_true, if_false, Res.andThen_ok,
      defaultStage, requiredStage, hreq, hir]
    rcases hval with hv | ⟨hv, hd⟩
    · subst hv
      simp [isUndefined, isNull]
    · subst hv
      simp [isUndefined, isNull, hd, isDefined]
  unfold scrub
  rw [_scrub_head_error h _ _ _ _ _ _ (isObject_obj sp) hhead]
  simp only [Res.bind_ret, isError_fail, if_true]
  exact ⟨_, rfl, isError_fail _ _ _ _ _, fail_code _ _ _ _ _⟩

/-- C17.  The option `ignoreDefaults` is not honoured by the node evaluator, which reads
`options.IgnoreDefaults`: with `ignoreDefaults: true` and `returnValue: true`, `scrub` of
`undefined` against `default: n` returns `n`, not `undefined`, and a field present with the
value undefined is given its default `hi`; in general the default stage of a node puts
the copy of a literal default in place of `undefined` whatever `options.ignoreDefaults`
is.  Only the loop of `checkObject` is skipped: an absent declared field stays absent,
where without the option it is filled. -/
theorem ignoreDefaults_not_honoured (h : Host) :
    (∀ n : Num, scrub h .undefined (.obj [("default", .num n)])
        (.obj [("ignoreDefaults", .bool true), ("returnValue", .bool true)])
      = .ret ⟨.num n, .undefined⟩) ∧
    scrub h (.obj [("s1", .undefined)]) (.obj [("s1", .obj [("default", .str "hi")])])
        (.obj [("ignoreDefaults", .bool true)])
      = .ret ⟨.null, .obj [("s1", .str "hi")]⟩ ∧
    (∀ (rootSpec spec options : Val),
      isDefined (spec.get "default") = true →
      isFunction (spec.get "default") = false →
      isError (clone (spec.get "default")) = false →
      (options.get "IgnoreDefaults").truthy = false →
      defaultStage h rootSpec .undefined spec options
        = .ret (.ok (clone (spec.get "default")))) ∧
    scrub h (.obj []) (.obj [("s1", .obj [("type", .str "string"), ("default", .str "hi")])])
        (.obj [("ignoreDefaults", .bool true)])
      = .ret ⟨.null, .obj []⟩ ∧
    scrub h (.obj []) (.obj [("s1", .obj [("type", .str "string"), ("default", .str "hi")])])
        .undefined
      = .ret ⟨.null, .obj [("s1", .str "hi")]⟩ := by
  refine ⟨fun n => rfl, rfl, ?_, rfl, rfl⟩
  intro rootSpec spec options hd hf he hig
  simp [defaultStage, isUndefined, hd, hig, setDefault, hf, orFail, he]

/-- C18. Per-node option merge preserves option types.  For an options record `o` and
a spec node `s`, `override(o, s, false)` is a record that keeps the keys of `o` in place,
holds under `k` the value `s[k]` exactly when `s` has `k` and the tag of `s[k]` equals the
tag of `o[k]`, and `o[k]` otherwise, so that a key absent from `o` gets no defined value
and no key changes its tag.  Hence at every node that a run of `scrub` reaches
(`Reaches`) each of the six built-in options is a boolean, in the options handed to the
node and in those in effect in it.  A spec-local `strict: false` overrides an inherited
`strict: true`: under the root option `strict: true` the field `o1` with `strict: false`
admits its unknown key `s2`, with `strict: true` in the spec alone it rejects it with
`badParam`; and a spec-local `strict` that is a string is ignored. -/
theorem override_preserves_types (o s : Val) (ho : isObject o = true) (hs : isObject s = true) :
    isObject (override o s false) = true ∧
    o.keys <+: (override o s false).keys ∧
    (∀ k, (override o s false).get k =
      if k ∈ s.keys ∧ tipe (s.get k) = tipe (o.get k) then s.get k else o.get k) ∧
    (∀ k, o.get k = .undefined → (override o s false).get k = .undefined) ∧
    (∀ k, tipe ((override o s false).get k) = tipe (o.get k)) ∧
    (∀ (h : Host) (rootValue rootSpec rootOptions : Val) (n : Nat) (v sp op : Val),
      Reaches h rootSpec n v sp op (rootSpec.depth + 1) rootValue rootSpec
        (override _options rootOptions true) →
      booleanOptions op ∧ booleanOptions (override op sp false)) ∧
    (o.get "strict" = .bool true → s.get "strict" = .bool false →
      (override o s false).get "strict" = .bool false) ∧
    scrub plainHost
        (.obj [("s1", .str "foo"),
          ("o1", .obj [("s1", .str "I am required"), ("s2", .str "I am not allowed with strict")])])
        (.obj [("s1", .obj [("type", .str "string")]),
          ("o1", .obj [("type", .str "object"), ("required", .bool true), ("strict", .bool false),
            ("value", .obj [("s1", .obj [("type", .str "string"), ("required", .bool true)])])])])
        (.obj [("strict", .bool true)])
      = .ret ⟨.null,
          .obj [("s1", .str "foo"),
            ("o1", .obj [("s1", .str "I am required"),
              ("s2", .str "I am not allowed with strict")])]⟩ ∧
    (∃ e post, scrub plainHost
        (.obj [("s1", .str "foo"),
          ("o1", .obj [("s1", .str "I am required"), ("s2", .str "I am not allowed with strict")])])
        (.obj [("s1", .obj [("type", .str "string")]),
          ("o1", .obj [("type", .str "object"), ("required", .bool true), ("strict", .bool true),
            ("value", .obj [("s1", .obj [("type", .str "string"), ("required", .bool true)])])])])
        .undefined = .ret ⟨e, post⟩ ∧
      isError e = true ∧ e.get "code" = .str "badParam") ∧
    override (.obj [("strict", .bool true)]) (.obj [("strict", .str "no")]) false
      = .obj [("strict", .bool true)] := by
  have hget : ∀ k, (override o s false).get k =
      if k ∈ s.keys ∧ tipe (s.get k) = tipe (o.get k) then s.get k else o.get k := by
    intro k
    rw [override_get o s false ho hs k]
    by_cases hc : k ∈ s.keys ∧ tipe (s.get k) = tipe (o.get k)
    · rw [if_pos hc, if_pos ⟨hc.1, Or.inr hc.2.symm⟩]
    · rw [if_neg hc, if_neg]
      rintro ⟨h1, h2 | h2⟩
      · exact absurd h2.1 (by decide)
      · exact hc ⟨h1, h2.symm⟩
  refine ⟨isObject_override o s false ho, override_keys_extends o s false, hget, ?_, ?_, ?_, ?_,
    rfl, ⟨_, _, rfl, rfl, rfl⟩, rfl⟩
  · intro k hk
    rw [hget]
    split
    · rename_i hc
      rw [hk] at hc
      exact (tipe_undefined_iff _).1 hc.2
    · exact hk
  · intro k
    rw [hget]
    split
    · rename_i hc
      exact hc.2
    · rfl
  · intro h rootValue rootSpec rootOptions n v sp op hr
    have hb := reaches_booleanOptions h rootSpec n v sp op _ _ _ _ hr
      (booleanOptions_root rootOptions)
    exact ⟨hb, booleanOptions_override op sp hb⟩
  · intro h1 h2
    rw [hget, h1, h2]
    have hk : "strict" ∈ s.keys := by
      cases s with
      | obj ps => exact mem_keys_of_get ps "strict" (by rw [h2]; simp)
      | _ => simp [isObject] at hs
    simp [hk, tipe]

/-- C18, witness: `strict: false` in the spec over `strict: true` in the options. -/
theorem override_preserves_types_witness :
    (override strictOptions (.obj [("type", .str "object"), ("strict", .bool false)]) false).get
        "strict" = .bool false :=
  (override_preserves_types strictOptions
    (.obj [("type", .str "object"), ("strict", .bool false)]) rfl rfl).2.2.2.2.2.2.1 rfl rfl

/-- C19, counterexample.  A key `n3` supplied in the root options is not one of the six
built-in names, yet it is in the effective options record, and the validator of the field
`n2`, which compares its argument with `options.n3`, sees it: it accepts 1 when the caller
passes `n3: 1` and rejects it when the caller passes `n3: 3`. -/
theorem root_options_take_new_keys :
    (override _options (.obj [("n3", .num (.ofNat 1))]) true).get "n3" = .num (.ofNat 1) ∧
    "n3" ∉ builtinOptions ∧
    scrub demoHost (.obj [("n2", .num (.ofNat 1))])
        (.obj [("n2", .obj [("type", .str "number"), ("validate", .func 6)])])
        (.obj [("n3", .num (.ofNat 1))])
      = .ret ⟨.null, .obj [("n2", .num (.ofNat 1))]⟩ ∧
    (∃ e post, scrub demoHost (.obj [("n2", .num (.ofNat 1))])
        (.obj [("n2", .obj [("type", .str "number"), ("validate", .func 6)])])
        (.obj [("n3", .num (.ofNat 3))]) = .ret ⟨e, post⟩ ∧
      isError e = true ∧ e.get "message" = .str "n2 must equal options.n3") :=
  ⟨rfl, by decide, rfl, ⟨_, _, rfl, rfl, rfl⟩⟩

/-- C19 (amended).  Caller-supplied root options may introduce new keys.  For a root
options object, the effective record `override(_options, rootOptions, true)` holds under
each of the six built-in names the value of the caller when the caller supplies a boolean
and `false` otherwise, and under every other key what the caller supplied.  It is the
per-node merge with a spec that gives no key absent from the record a defined value. -/
theorem root_options_merge (rootOptions : Val) (hro : isObject rootOptions = true) :
    (∀ k, k ∈ builtinOptions →
      (override _options rootOptions true).get k =
        if k ∈ rootOptions.keys ∧ tipe (rootOptions.get k) = "boolean" then rootOptions.get k
        else .bool false) ∧
    (∀ k, k ∉ builtinOptions → (override _options rootOptions true).get k = rootOptions.get k) ∧
    (∀ (o s : Val) (k : String), isObject o = true → o.get k = .undefined →
      (override o s false).get k = .undefined) := by
  have ho : isObject _options = true := rfl
  refine ⟨?_, ?_, fun o s k ho hk => override_get_absent o s k ho hk⟩
  · intro k hk
    have hb : _options.get k = .bool false := by
      simp only [builtinOptions, List.mem_cons, List.mem_singleton, List.not_mem_nil, or_false] at hk
      rcases hk with rfl | rfl | rfl | rfl | rfl | rfl <;> rfl
    rw [override_get _ _ _ ho hro, hb]
    have hu : isUndefined (Val.bool false) = false := rfl
    have ht : tipe (Val.bool false) = "boolean" := rfl
    simp only [hu, Bool.false_eq_true, and_false, false_or, ht]
    by_cases hc : k ∈ rootOptions.keys ∧ tipe (rootOptions.get k) = "boolean"
    · rw [if_pos hc, if_pos ⟨hc.1, hc.2.symm⟩]
    · rw [if_neg hc, if_neg (fun hh => hc ⟨hh.1, hh.2.symm⟩)]
  · intro k hk
    have hb : _options.get k = .undefined := by
      simp only [builtinOptions, List.mem_cons, List.mem_singleton, List.not_mem_nil, or_false,
        not_or] at hk
      obtain ⟨h1, h2, h3, h4, h5, h6⟩ := hk
      simp [_options, Val.get, Props.find, Ne.symm h1, Ne.symm h2, Ne.symm h3, Ne.symm h4,
        Ne.symm h5, Ne.symm h6]
    rw [override_get _ _ _ ho hro, hb]
    have hu : isUndefined Val.undefined = true := rfl
    simp only [hu, and_self, true_or, and_true]
    split
    · rfl
    · rename_i hn
      cases rootOptions with
      | obj ps =>
        by_contra hne
        exact hn (mem_keys_of_get ps k (fun hh => hne hh.symm))
      | _ => simp [isObject] at hro

/-- C19, witness: the root options with the key `n3`. -/
theorem root_options_merge_witness :
    (override _options (.obj [("n3", .num (.ofNat 1))]) true).get "n3"
      = (Val.obj [("n3", .num (.ofNat 1))]).get "n3" :=
  (root_options_merge (.obj [("n3", .num (.ofNat 1))]) rfl).2.1 "n3" (by decide)

/-- C20, counterexample.  A validator that consults `options.strict` accepts the value
under `strict: true` and rejects it under `strict: false`. -/
theorem strict_monotone_fails :
    scrub demoHost (.num (.ofNat 1)) (.obj [("validate", .func 7)])
        (.obj [("strict", .bool true)])
      = .ret ⟨.null, .num (.ofNat 1)⟩ ∧
    (∃ e post, scrub demoHost (.num (.ofNat 1)) (.obj [("validate", .func 7)])
        (.obj [("strict", .bool false)]) = .ret ⟨e, post⟩ ∧
      isError e = true ∧ e.get "message" = .str "strict mode only") :=
  ⟨rfl, ⟨_, _, rfl, rfl, rfl⟩⟩

/-- C20 (amended). Strict-mode monotonicity.  When no function of the spec consults the
option `strict` (`IgnoresStrict`: its calls answer the same on option records that agree
on every other key), and `scrub(value, spec, strict: true)` returns null, then
`scrub(value, spec, strict: false)` returns null as well and leaves the value in the same
state.  A spec in which no function occurs meets the condition on every host. -/
theorem strict_monotone (h : Host) (value spec post : Val) (hig : IgnoresStrict h spec)
    (hT : scrub h value spec (.obj [("strict", .bool true)]) = .ret ⟨.null, post⟩) :
    scrub h value spec (.obj [("strict", .bool false)]) = .ret ⟨.null, post⟩ ∧
    (∀ (h' : Host) (value' spec' post' : Val), funcs spec' = [] →
      scrub h' value' spec' (.obj [("strict", .bool true)]) = .ret ⟨.null, post'⟩ →
      scrub h' value' spec' (.obj [("strict", .bool false)]) = .ret ⟨.null, post'⟩) := by
  have hoT : override _options (.obj [("strict", .bool true)]) true = strictOptions := rfl
  have hoF : override _options (.obj [("strict", .bool false)]) true = _options := rfl
  have hrel : Relaxes strictOptions _options := by
    refine ⟨rfl, rfl, ?_, true, false, rfl, rfl, fun hh => rfl⟩
    intro k hk
    simp only [_options, strictOptions, Val.get, Props.find]
    repeat (first | rfl | split)
    all_goals simp_all
  have hrvT : (strictOptions.get "returnValue").truthy = false := rfl
  have hrvF : (_options.get "returnValue").truthy = false := rfl
  have main : ∀ (g : Host) (v s p : Val), IgnoresStrict g s →
      scrub g v s (.obj [("strict", .bool true)]) = .ret ⟨.null, p⟩ →
      scrub g v s (.obj [("strict", .bool false)]) = .ret ⟨.null, p⟩ := by
    intro g v s p hg hT
    unfold scrub at hT ⊢
    rw [hoT] at hT
    rw [hoF]
    cases hs : _scrub g s (s.depth + 1) v s strictOptions with
    | raise m => simp [hs] at hT
    | diverge => simp [hs] at hT
    | ret out =>
      simp only [hs, Res.bind_ret, hrvT, Bool.false_eq_true, if_false] at hT
      by_cases he : isError out.result = true
      · simp only [he, if_true, Res.ret.injEq] at hT
        rw [hT] at he
        simp [isError] at he
      · simp only [he, Bool.false_eq_true, if_false, Res.ret.injEq, Out.mk.injEq,
          true_and] at hT
        have hF := _scrub_relax g s (s.depth + 1) v s strictOptions _options
          out.result out.post hg hrel hs (by simpa using he)
        simp only [hF, Res.bind_ret, he, Bool.false_eq_true, if_false, hrvF, hT]
  refine ⟨main h value spec post hig hT, fun h' value' spec' post' hnone hT' => ?_⟩
  apply main h' value' spec' post' _ hT'
  intro id hid
  rw [hnone] at hid
  simp at hid

/-- C20, witness: an object without unknown keys, under the host whose functions
return `undefined`. -/
theorem strict_monotone_witness :
    scrub plainHost
        (.obj [("s1", .str "foo"), ("o1", .obj [("s1", .str "I am required")])])
        (.obj [("s1", .obj [("type", .str "string")]),
          ("o1", .obj [("type", .str "object"), ("required", .bool true),
            ("value", .obj [("s1", .obj [("type", .str "string"), ("required", .bool true)])])])])
        (.obj [("strict", .bool false)])
      = .ret ⟨.null, .obj [("s1", .str "foo"), ("o1", .obj [("s1", .str "I am required")])]⟩ :=
  (strict_monotone plainHost
    (.obj [("s1", .str "foo"), ("o1", .obj [("s1", .str "I am required")])])
    (.obj [("s1", .obj [("type", .str "string")]),
      ("o1", .obj [("type", .str "object"), ("required", .bool true),
        ("value", .obj [("s1", .obj [("type", .str "string"), ("required", .bool true)])])])])
    (.obj [("s1", .str "foo"), ("o1", .obj [("s1", .str "I am required")])])
    (fun _ _ _ _ _ _ => rfl) rfl).1

/-- C21, counterexample.  Under the spec of type string whose value setter doubles a
string, with `returnValue` on, `scrub` turns `foo` into `foofoo`, and a second run on
`foofoo` does not give it back: it returns `foofoofoofoo`. -/
theorem setter_not_idempotent :
    scrub demoHost (.str "foo") (.obj [("type", .str "string"), ("value", .func 0)])
        (.obj [("returnValue", .bool true)])
      = .ret ⟨.str "foofoo", .str "foo"⟩ ∧
    scrub demoHost (.str "foofoo") (.obj [("type", .str "string"), ("value", .func 0)])
        (.obj [("returnValue", .bool true)])
      = .ret ⟨.str "foofoofoofoo", .str "foofoo"⟩ :=
  ⟨rfl, rfl⟩

/-- C21 (amended).  Idempotence for specs without functions.  When no function occurs in
the spec (no init or finish hook, default generator, value setter or validator) and
`scrub` succeeds on `v` with result `r`, leaving `v` in the state `p`: with `returnValue`
on, a run on the returned value `r` under the same spec and options returns `r` and leaves
it unchanged; and when `v` is an object or an array, a run on the mutated input `p`
returns the same result `r` and leaves `p` unchanged.  Defaults are not applied again and
coerced values are not coerced again. -/
theorem idempotent_without_functions (h : Host) (v spec rootOptions r p : Val)
    (hf : funcs spec = [])
    (hrun : scrub h v spec rootOptions = .ret ⟨r, p⟩)
    (hok : isError r = false) :
    (((override _options rootOptions true).get "returnValue").truthy = true →
      scrub h r spec rootOptions = .ret ⟨r, r⟩) ∧
    ((isObject v || isArray v) = true →
      scrub h p spec rootOptions = .ret ⟨r, p⟩) := by
  unfold scrub at hrun
  cases hs : _scrub h spec (spec.depth + 1) v spec (override _options rootOptions true) with
  | raise m => simp [hs] at hrun
  | diverge => simp [hs] at hrun
  | ret out =>
    obtain ⟨r0, p0⟩ := out
    simp only [hs, Res.bind_ret] at hrun
    by_cases he : isError r0 = true
    · simp only [he, if_true] at hrun
      injection hrun with hrun
      injection hrun with h1 h2
      rw [← h1, he] at hok
      exact absurd hok (by decide)
    · have hef : isError r0 = false := by simpa using he
      obtain ⟨hagain, _, _, hpost⟩ := _scrub_again h spec (spec.depth + 1) spec v
        (override _options rootOptions true) r0 p0 hf hs hef
      simp only [he, Bool.false_eq_true, if_false] at hrun
      by_cases hret : ((override _options rootOptions true).get "returnValue").truthy = true
      · simp only [hret, if_true] at hrun
        injection hrun with hrun
        injection hrun with h1 h2
        subst h1
        subst h2
        refine ⟨fun _ => ?_, fun hv => ?_⟩
        · unfold scrub
          simp only [hagain, Res.bind_ret, he, Bool.false_eq_true, if_false, hret, if_true]
        · rw [hpost hv]
          unfold scrub
          simp only [hagain, Res.bind_ret, he, Bool.false_eq_true, if_false, hret, if_true]
      · simp only [hret, Bool.false_eq_true, if_false] at hrun
        injection hrun with hrun
        injection hrun with h1 h2
        subst h1
        subst h2
        refine ⟨fun hh => absurd hh hret, fun hv => ?_⟩
        rw [hpost hv]
        unfold scrub
        simp only [hagain, Res.bind_ret, he, Bool.false_eq_true, if_false, hret]

/-- C21, witness: the number 12 that the text `12` is coerced to, and the object that
the defaults loop and the coercion of field `a` leave behind. -/
theorem idempotent_without_functions_witness :
    scrub plainHost (.num (Num.ofNat 12)) (.obj [("type", .str "number")])
        (.obj [("returnValue", .bool true)])
      = .ret ⟨.num (Num.ofNat 12), .num (Num.ofNat 12)⟩ ∧
    scrub plainHost (.obj [("a", .num (Num.ofNat 1)), ("b", .str "x")])
        (.obj [("a", .obj [("type", .str "number")]), ("b", .obj [("default", .str "x")])])
        .undefined
      = .ret ⟨.null, .obj [("a", .num (Num.ofNat 1)), ("b", .str "x")]⟩ :=
  ⟨(idempotent_without_functions plainHost (.str "12") (.obj [("type", .str "number")])
      (.obj [("returnValue", .bool true)]) (.num (Num.ofNat 12)) (.str "12") rfl rfl rfl).1 rfl,
   (idempotent_without_functions plainHost (.obj [("a", .str "1")])
      (.obj [("a", .obj [("type", .str "number")]), ("b", .obj [("default", .str "x")])])
      .undefined .null (.obj [("a", .num (Num.ofNat 1)), ("b", .str "x")]) rfl rfl rfl).2 rfl⟩

/-- C22, the failing input and what holds beside it.  For the spec `arraySpec elem`, that
is type `array` with the element spec `elem`, an array value and any root options: when
the elements before index `i` are scrubbed without error and element `i` fails with the
error `e`, `scrub` returns `e` with its details written anew (same code and message), the
details name the root spec, and `details.key` is the number `i` when `i` is not 0 but is
absent (undefined) when `i` is 0, because `fail` tests `options.key` for truthiness.  A
number at index 3 of a string array gives `badType` with key 3, at index 2 key 2, and at
index 0 no key at all. -/
theorem array_error_key (h : Host) (es : List Val) (elem rootOptions : Val) (i : Nat)
    (c : Checked) (e p : Val)
    (helem : isObject elem = true)
    (hi : i < es.length)
    (hloop : scrubItems (_scrub h (arraySpec elem) (arraySpec elem).depth) (arraySpec elem)
        (arraySpec elem) (List.range i) (.arr es)
        (override (override _options rootOptions true) (arraySpec elem) false) = .ret c)
    (hok : isError c.result = false)
    (hchild : _scrub h (arraySpec elem) (arraySpec elem).depth (c.post.item i) elem
        (c.options.put "key" (.num (Num.ofNat i))) = .ret ⟨e, p⟩)
    (he : isError e = true) :
    (∃ e', scrub h (.arr es) (arraySpec elem) rootOptions = .ret ⟨e', c.post.setAt i p⟩ ∧
      SameError e e' ∧
      (e'.get "details").get "rootSpec" = arraySpec elem ∧
      (e'.get "details").get "key" = if i = 0 then .undefined else .num (Num.ofNat i)) ∧
    (∃ e' post, scrub plainHost (.arr [.str "foo", .str "bar", .str "baz", .num (Num.ofNat 1)])
        (arraySpec (.obj [("type", .str "string")])) .undefined = .ret ⟨e', post⟩ ∧
      e'.get "code" = .str "badType" ∧
      (e'.get "details").get "key" = .num (Num.ofNat 3)) ∧
    (∃ e' post, scrub plainHost (.arr [.str "123", .str "456", .num (Num.ofNat 789)])
        (arraySpec (.obj [("type", .str "string")])) .undefined = .ret ⟨e', post⟩ ∧
      e'.get "code" = .str "badType" ∧
      (e'.get "details").get "key" = .num (Num.ofNat 2)) ∧
    (∃ e' post, scrub plainHost (.arr [.num (Num.ofNat 1)])
        (arraySpec (.obj [("type", .str "string")])) .undefined = .ret ⟨e', post⟩ ∧
      e'.get "code" = .str "badType" ∧
      (e'.get "details").get "key" = .undefined) := by
  refine ⟨?_, ⟨_, _, rfl, rfl, rfl⟩, ⟨_, _, rfl, rfl, rfl⟩, ⟨_, _, rfl, rfl, rfl⟩⟩
  have ho : isObject (override (override _options rootOptions true) (arraySpec elem) false)
      = true := isObject_override _ _ _ (isObject_override _ _ _ rfl)
  have hnd : (override (override _options rootOptions true) (arraySpec elem) false).keys.Nodup :=
    nodup_keys_override _ _ _ (nodup_keys_override _ _ _ nodup_keys_options)
  have hrun := _scrub_item_error h (arraySpec elem) (arraySpec elem).depth (.arr es)
    (arraySpec elem) (override _options rootOptions true) (.arr es) i c e p rfl
    (scrubHead_arraySpec h _ es elem _ helem) rfl helem hi hloop hok hchild he
  have hin : inPlace (.arr es) (arraySpec elem) = true := by
    obtain ⟨eps, rfl⟩ : ∃ eps, elem = .obj eps := by cases elem <;> simp_all [isObject]
    rfl
  rw [hin] at hrun
  simp only [if_true] at hrun
  obtain ⟨ops, hops⟩ : ∃ ops,
      override (override _options rootOptions true) (arraySpec elem) false = .obj ops := by
    cases hc : override (override _options rootOptions true) (arraySpec elem) false <;>
      simp_all [isObject]
  rw [hops] at hrun hnd
  have hkey : (prune ((Val.obj ops).put "key" (.num (Num.ofNat i)))).get "key"
      = if i = 0 then .undefined else .num (Num.ofNat i) := by
    have hn2 := nodup_keys_put (.obj ops) "key" (.num (Num.ofNat i)) hnd
    simp only [Val.put] at hn2 ⊢
    rw [prune_get _ _ hn2]
    have hg : (Val.obj (Props.set "key" (.num (Num.ofNat i)) ops)).get "key"
        = .num (Num.ofNat i) := get_put_self_obj ops "key" _
    rw [hg]
    by_cases h0 : i = 0
    · subst h0
      rfl
    · have ht : (Val.num (Num.ofNat i)).truthy = true := by
        simp [Val.truthy, Num.truthy, Num.ofNat, h0]
      simp only [ht, if_true, h0, if_false]
  unfold scrub
  have hdep : (arraySpec elem).depth + 1 = (arraySpec elem).depth + 1 := rfl
  rw [hrun]
  simp only [Res.bind_ret, isError_failWith, he, if_true]
  refine ⟨_, rfl, sameError_failWith _ _ (sameError_refl e he), ?_, ?_⟩
  · rw [failWith_details _ _ _ he, details_rootSpec]
  · rw [failWith_details _ _ _ he, details_key]
    simp only [hkey]
    by_cases h0 : i = 0
    · simp [h0, Val.truthy]
    · have ht : (Val.num (Num.ofNat i)).truthy = true := by
        simp [Val.truthy, Num.truthy, Num.ofNat, h0]
      simp only [h0, if_false, ht, if_true]

/-- C22, witness: the array of the text `a` and the number 1 against an array of strings
fails at index 1 with `badType` and `details.key` equal to 1. -/
theorem array_error_key_witness :
    ∃ e', scrub plainHost (.arr [.str "a", .num (Num.ofNat 1)])
        (arraySpec (.obj [("type", .str "string")])) .undefined
        = .ret ⟨e', .arr [.str "a", .num (Num.ofNat 1)]⟩ ∧
      e'.get "code" = .str "badType" ∧
      (e'.get "details").get "key" = .num (Num.ofNat 1) := by
  obtain ⟨e', h1, h2, _, h4⟩ := (array_error_key plainHost [.str "a", .num (Num.ofNat 1)]
    (.obj [("type", .str "string")]) .undefined 1 ⟨_, _, _⟩ _ _ rfl (by decide) rfl rfl rfl rfl).1
  exact ⟨e', h1, (h2.2 "code" (by decide)).trans rfl, h4⟩

/-- C23, counterexample.  The object with `a` equal to 1 and the present key `b` equal
to `undefined`, against the fields `a` of type string and `b` with default `x`: field `a`
fails with `badType`, yet the key `b`, which follows it, has been given its default. -/
theorem later_key_defaulted :
    ∃ e, scrub plainHost (.obj [("a", .num (Num.ofNat 1)), ("b", .undefined)])
        (.obj [("a", .obj [("type", .str "string")]), ("b", .obj [("default", .str "x")])])
        .undefined
        = .ret ⟨e, .obj [("a", .num (Num.ofNat 1)), ("b", .str "x")]⟩ ∧
      isError e = true ∧ e.get "code" = .str "badType" :=
  ⟨_, rfl, rfl, rfl⟩

/-- C23 (amended).  First failure wins.  In `checkArray`, whatever the recursive call
`child` is: when the elements before index `i` are scrubbed without error and element `i`
fails with error `e`, the function returns `e` with its details written anew, every element
before `i` holds its scrubbed result, element `i` holds the state in which its own run left
it, and every element after `i` is as it was (the recursive call is not made on them: the
statement assumes nothing about it there).  In `checkObject` the same holds of the keys of
the object in iteration order, with respect to the object as the defaults loop leaves it,
when none of its keys is then an array index (`isIntegerKey`; such keys are enumerated
first, whenever they were inserted): that loop runs before the recursion and has already
filled every undefined field that has a default, also under keys that follow the failing
one.  The array of the texts `1`, `x`, `3` against numbers ends with 1, `x`, `3`. -/
theorem first_failure_wins (h : Host) (child : Val → Val → Val → Res Out)
    (rootSpec spec options : Val) :
    (∀ (es : List Val) (i : Nat) (e p : Val),
      isObject (spec.get "value") = true →
      i < es.length →
      (∀ j, j < i → ∃ out, child ((Val.arr es).item j) (spec.get "value")
          (options.put "key" (.num (Num.ofNat j))) = .ret out ∧ isError out.result = false) →
      child ((Val.arr es).item i) (spec.get "value")
          (options.put "key" (.num (Num.ofNat i))) = .ret ⟨e, p⟩ →
      isError e = true →
      ∃ post, checkArray child rootSpec (.arr es) spec options
          = .ret ⟨failWith rootSpec e ⟨post, spec, options.put "key" (.num (Num.ofNat i))⟩,
              post, options.put "key" (.num (Num.ofNat i))⟩ ∧
        post.length = es.length ∧
        (∀ j, j < i → ∃ out, child ((Val.arr es).item j) (spec.get "value")
            (options.put "key" (.num (Num.ofNat j))) = .ret out ∧ post.item j = out.result) ∧
        post.item i = p ∧
        (∀ j, i < j → post.item j = (Val.arr es).item j)) ∧
    (∀ (ps : Props) (filled : Val) (pre rest : List String) (key : String) (e p : Val),
      (if (options.get "strict").truthy
        then unknownKey (specFields spec) (Val.obj ps).keys else none) = none →
      fillDefaults h rootSpec spec (specFields spec) options (specFields spec).keys (.obj ps)
        = .ret (.ok filled) →
      (if !(options.get "ignoreRequired").truthy
        then missingRequired (specFields spec) filled (specFields spec).keys
        else .ret none) = .ret none →
      filled.keys = pre ++ key :: rest →
      filled.keys.Nodup →
      (∀ k, k ∈ filled.keys → isIntegerKey k = false) →
      (∀ k, k ∈ pre → isObject ((specFields spec).get k) = true →
        ∃ out, child (filled.get k) ((specFields spec).get k) (options.put "key" (.str k))
          = .ret out ∧ isError out.result = false) →
      isObject ((specFields spec).get key) = true →
      child (filled.get key) ((specFields spec).get key) (options.put "key" (.str key))
        = .ret ⟨e, p⟩ →
      isError e = true →
      ∃ post, checkObject h child rootSpec (.obj ps) spec options
          = .ret ⟨failWith rootSpec e ⟨post, spec, options.put "key" (.str key)⟩,
              post, options.put "key" (.str key)⟩ ∧
        (∀ k, k ∈ pre → isObject ((specFields spec).get k) = true →
          ∃ out, child (filled.get k) ((specFields spec).get k) (options.put "key" (.str k))
            = .ret out ∧ post.get k = out.result) ∧
        (∀ k, k ∈ pre → isObject ((specFields spec).get k) = false →
          post.get k = filled.get k) ∧
        post.get key = p ∧
        (∀ k, k ∈ rest → post.get k = filled.get k)) ∧
    (∃ e, scrub plainHost (.arr [.str "1", .str "x", .str "3"])
        (.obj [("type", .str "array"), ("value", .obj [("type", .str "number")])]) .undefined
        = .ret ⟨e, .arr [.num (Num.ofNat 1), .str "x", .str "3"]⟩ ∧
      isError e = true ∧ e.get "code" = .str "badType") := by
  refine ⟨?_, ?_, ?_⟩
  · intro es i e p hobj hi hall hchild he
    obtain ⟨post, o', hrun, hsh, hpe, hlen, hbefore, hafter⟩ :=
      scrubItems_run child rootSpec spec (.arr es) options i (Nat.le_of_lt hi) rfl hall
    obtain ⟨rest, hrange⟩ := @range_split i (Val.arr es).length hi
    have hopt := put_key_of_shape (.num (Num.ofNat i)) hsh
    refine ⟨post.setAt i p, ?_, ?_, ?_, ?_, ?_⟩
    · simp only [checkArray, hobj, if_true, hrange]
      rw [scrubItems_append _ _ _ _ _ (Val.arr es) _ rfl, hrun]
      simp only [Res.bind_ret, hpe, Bool.false_eq_true, if_false, scrubItems, hopt,
        hafter i (Nat.le_refl i), hchild, he, if_true]
    · rw [length_setAt, hlen]
      rfl
    · intro j hj
      obtain ⟨out, h1, h2⟩ := hbefore j hj
      exact ⟨out, h1, by rw [item_setAt_ne _ (Nat.ne_of_lt hj), h2]⟩
    · exact item_setAt_self _ (by rw [hlen]; exact hi) _
    · intro j hj
      rw [item_setAt_ne _ (Nat.ne_of_gt hj), hafter j (Nat.le_of_lt hj)]
  · intro ps filled pre rest key e p hstrict hfill hreq hkeys hnd _ hall hobj hchild he
    have hfo : isObject filled = true :=
      (fill_get h rootSpec spec (specFields spec) options "" _ (.obj ps) _ rfl hfill).1
    have hfe : isError filled = false := by
      cases filled <;> simp_all [isObject, isError]
    rw [hkeys] at hnd
    have hndpre : pre.Nodup := (List.nodup_append.mp hnd).1
    have hdisj := (List.nodup_append.mp hnd).2.2
    have hcons := List.nodup_cons.mp (List.nodup_append.mp hnd).2.1
    have hkpre : key ∉ pre := fun hh => hdisj hh (List.mem_cons_self _ _)
    obtain ⟨post, o', hrun, hsh, hpo, hin, hout⟩ :=
      scrubProps_run child rootSpec spec (specFields spec) options pre hndpre filled options hfo
        (Or.inl rfl) hall
    have hopt := put_key_of_shape (.str key) hsh
    refine ⟨post.put key p, ?_, ?_, ?_, ?_, ?_⟩
    · simp only [checkObject, hstrict, hfill, Res.bind_ret, hreq, hkeys]
      rw [scrubProps_append _ _ _ _ _ _ _ _ hfe, hrun]
      have hpe : isError post = false := by cases post <;> simp_all [isObject, isError]
      simp only [Res.bind_ret, hpe, Bool.false_eq_true, if_false, scrubProps, hobj, if_true,
        hopt, hout key (Or.inl hkpre), hchild, he]
    · intro k hk hko
      obtain ⟨out, h1, h2⟩ := hin k hk hko
      refine ⟨out, h1, ?_⟩
      rw [get_put_ne _ (fun (hh : k = key) => hkpre (by rw [← hh]; exact hk)), h2]
    · intro k hk hko
      rw [get_put_ne _ (fun (hh : k = key) => hkpre (by rw [← hh]; exact hk)),
        hout k (Or.inr hko)]
    · exact get_put_self _ hpo _ _
    · intro k hk
      have hne : k ≠ key := fun hh => hcons.1 (by rw [← hh]; exact hk)
      have hnp : k ∉ pre := fun hh => hdisj hh (List.mem_cons_of_mem _ hk)
      rw [get_put_ne _ hne, hout k (Or.inl hnp)]
  · exact ⟨_, rfl, rfl, rfl⟩

/-- C24, counterexample.  The default generator that returns the Error object `I always
error`: `scrub` returns that error with its own (absent) code, not `badSpec`, at the root
and in a field. -/
theorem generator_error_keeps_code :
    demoHost.call 2 .undefined _options = .ret (.error [("message", .str "I always error")]) ∧
    (∃ e post, scrub demoHost .undefined (.obj [("default", .func 2)]) .undefined
        = .ret ⟨e, post⟩ ∧
      isError e = true ∧ e.get "code" = .undefined ∧
      e.get "message" = .str "I always error") ∧
    (∃ e post, scrub demoHost (.obj []) (.obj [("a", .obj [("default", .func 2)])]) .undefined
        = .ret ⟨e, post⟩ ∧
      isError e = true ∧ e.get "code" = .undefined) :=
  ⟨rfl, ⟨_, _, rfl, rfl, rfl, rfl⟩, ⟨_, _, rfl, rfl, rfl⟩⟩

/-- C24 (amended).  Failures to produce a default, at a node that the run of `scrub`
reaches.  When the value of the node is undefined (after init) and its default is a
generator, or when the defaults loop of `checkObject` comes to a field whose value is
undefined and whose default is a generator: a generator that returns an Error object makes
`scrub` return that error with its details written anew, its code and message kept as the
generator set them; a generator that throws an Error makes `scrub` return an error of code
`badSpec`.  A literal default (defined and not a function) is cloned by `setDefault` to a
defined value that is not an error: values here are finite trees, and the circular literal,
for which the `catch` block of `clone` answers `badSpec`, is not one of them; an error that
`clone` does return has the code `badSpec`.  The field `a` whose generator throws gives
`badSpec`. -/
theorem default_failures (h : Host) (rootValue rootSpec rootOptions : Val) (fuel : Nat)
    (value spec options : Val)
    (hreach : Reaches h rootSpec (fuel + 1) value spec options (rootSpec.depth + 1) rootValue
      rootSpec (override _options rootOptions true))
    (hs : isObject spec = true) :
    (∀ (v1 : Val) (id : Nat),
      initStage h rootSpec value spec (override options spec false) = .ret (.ok v1) →
      isUndefined v1 = true →
      ((override options spec false).get "IgnoreDefaults").truthy = false →
      spec.get "default" = .func id →
      (∀ r, h.call id .undefined (override options spec false) = .ret r → isError r = true →
        ∃ e post, scrub h rootValue rootSpec rootOptions = .ret ⟨e, post⟩ ∧ SameError r e) ∧
      (∀ x, h.call id .undefined (override options spec false) = .throw x → isError x = true →
        ∃ e post, scrub h rootValue rootSpec rootOptions = .ret ⟨e, post⟩ ∧
          isError e = true ∧ e.get "code" = .str "badSpec")) ∧
    (∀ (v filled : Val) (pre rest : List String) (key : String) (id : Nat),
      scrubHead h rootSpec value spec (override options spec false) = .ret (.ok v) →
      tipe v = "object" →
      (if ((override options spec false).get "strict").truthy
        then unknownKey (specFields spec) v.keys else none) = none →
      (specFields spec).keys = pre ++ key :: rest →
      fillDefaults h rootSpec spec (specFields spec) (override options spec false) pre v
        = .ret (.ok filled) →
      isUndefined (filled.get key) = true →
      ((override options spec false).get "ignoreDefaults").truthy = false →
      ((specFields spec).get key).get "default" = .func id →
      (∀ r, h.call id .undefined (override options spec false) = .ret r → isError r = true →
        ∃ e post, scrub h rootValue rootSpec rootOptions = .ret ⟨e, post⟩ ∧ SameError r e) ∧
      (∀ x, h.call id .undefined (override options spec false) = .throw x → isError x = true →
        ∃ e post, scrub h rootValue rootSpec rootOptions = .ret ⟨e, post⟩ ∧
          isError e = true ∧ e.get "code" = .str "badSpec")) ∧
    (∀ sp o : Val, isDefined (sp.get "default") = true → isFunction (sp.get "default") = false →
      setDefault h sp o = .ret (clone (sp.get "default")) ∧
      isDefined (clone (sp.get "default")) = true ∧
      isError (clone (sp.get "default")) = false) ∧
    (∀ d : Val, isError (clone d) = true → (clone d).get "code" = .str "badSpec") ∧
    (∃ e post, scrub (throwHost (.error [("message", .str "boom")])) (.obj [])
        (.obj [("a", .obj [("default", .func 0)])]) .undefined = .ret ⟨e, post⟩ ∧
      isError e = true ∧ e.get "code" = .str "badSpec") := by
  have hd2 : ∀ id, isDefined (Val.func id) = true := fun _ => rfl
  have hf : ∀ id, isFunction (Val.func id) = true := fun _ => rfl
  refine ⟨?_, ?_, ?_, ?_, ⟨_, _, rfl, rfl, rfl⟩⟩
  · intro v1 id hinit hu hig hdef
    refine ⟨?_, ?_⟩
    · intro r hcall he
      have hh : scrubHead h rootSpec value spec (override options spec false)
          = .ret (.error (failWith rootSpec r ⟨v1, spec, override options spec false⟩)) := by
        simp [scrubHead, hinit, defaultStage, hu, hdef, hd2, hig, setDefault, hf, callSetter,
          callClientFunction, hcall, orFail, he]
      have hnode := _scrub_head_error h rootSpec fuel value spec options _ hs hh
      obtain ⟨e', post, hsc, hsame⟩ := scrub_reaches_error h rootValue rootSpec rootOptions _ _
        _ _ _ _ hreach hnode (by rw [isError_failWith]; exact he)
      refine ⟨e', post, hsc, hsame.1, fun k hk => ?_⟩
      rw [hsame.2 k hk]
      exact (sameError_failWith rootSpec _ (sameError_refl r he)).2 k hk
    · intro x hcall hx
      obtain ⟨e, he, hthrown⟩ := orFail_thrown h rootSpec id .undefined
        (override options spec false) x ⟨v1, spec, override options spec false⟩ hcall hx
      have hh : scrubHead h rootSpec value spec (override options spec false)
          = .ret (.error e) := by
        simp [scrubHead, hinit, defaultStage, hu, hdef, hd2, hig, setDefault, hf, he]
      have hnode := _scrub_head_error h rootSpec fuel value spec options _ hs hh
      obtain ⟨e', post, hsc, hsame⟩ := scrub_reaches_error h rootValue rootSpec rootOptions _ _
        _ _ _ _ hreach hnode hthrown.1
      refine ⟨e', post, hsc, hsame.1, ?_⟩
      rw [hsame.2 "code" (by decide)]
      exact hthrown.2.1
  · intro v filled pre rest key id hh hty hstrict hkeys hfill hu hig hdef
    have hgp : ((specFields spec).get key).getProp "default" = .ret (.func id) := by
      rw [getProp_of_get_ne _ _ (by rw [hdef]; simp), hdef]
    have hrun : ∀ e, callClientFunction h (.func id) .undefined (override options spec false)
        = .ret e → isError e = true →
        _scrub h rootSpec (fuel + 1) value spec options
          = .ret ⟨failWith rootSpec e ⟨filled, spec, override options spec false⟩,
              if inPlace value spec then filled else value⟩ := by
      intro e he hee
      have hfd : fillDefaults h rootSpec spec (specFields spec) (override options spec false)
          (specFields spec).keys v
          = .ret (.error ⟨failWith rootSpec e ⟨filled, spec, override options spec false⟩,
              filled⟩) := by
        rw [hkeys, fillDefaults_append, hfill]
        simp [fillDefaults, hu, hgp, hd2, hig, setDefault, hdef, hf, callSetter, he, hee]
      have hd : dispatch h (_scrub h rootSpec fuel) rootSpec v spec (override options spec false)
          = .ret ⟨failWith rootSpec e ⟨filled, spec, override options spec false⟩, filled,
              override options spec false⟩ := by
        simp [dispatch, hty, checkObject, hstrict, hfd]
      exact _scrub_dispatch_error h rootSpec fuel value spec options v _ hs hh hd
        (by rw [isError_failWith]; exact hee)
    refine ⟨?_, ?_⟩
    · intro r hcall he
      have hnode := hrun r (by simp [callClientFunction, hcall]) he
      obtain ⟨e', post, hsc, hsame⟩ := scrub_reaches_error h rootValue rootSpec rootOptions _ _
        _ _ _ _ hreach hnode (by rw [isError_failWith]; exact he)
      refine ⟨e', post, hsc, hsame.1, fun k hk => ?_⟩
      rw [hsame.2 k hk]
      exact (sameError_failWith rootSpec _ (sameError_refl r he)).2 k hk
    · intro x hcall hx
      obtain ⟨e, he, hthrown⟩ := callClientFunction_thrown h id .undefined
        (override options spec false) x hcall hx
      have hnode := hrun e he hthrown.1
      obtain ⟨e', post, hsc, hsame⟩ := scrub_reaches_error h rootValue rootSpec rootOptions _ _
        _ _ _ _ hreach hnode (by rw [isError_failWith]; exact hthrown.1)
      refine ⟨e', post, hsc, hsame.1, ?_⟩
      rw [hsame.2 "code" (by decide), failWith_code]
      exact hthrown.2.1
  · intro sp o hd hfn
    refine ⟨by simp [setDefault, hfn], clone_literal _ hd hfn⟩
  · intro d hd
    cases d <;> first | rfl | simp [clone, isScalar, jsonVal, isError] at hd

/-- C24, witness: the root node whose default generator returns `I always error`. -/
theorem default_failures_witness :
    ∃ e post, scrub demoHost .undefined (.obj [("default", .func 2)]) .undefined
        = .ret ⟨e, post⟩ ∧
      SameError (.error [("message", .str "I always error")]) e :=
  ((default_failures demoHost .undefined (.obj [("default", .func 2)]) .undefined 1 .undefined
    (.obj [("default", .func 2)]) _options Reaches.here rfl).1 .undefined 2 rfl rfl rfl rfl).1
    (.error [("message", .str "I always error")]) rfl rfl

/-- C25, counterexample.  With a numeric `type`, the value `null` under `required`
fails with `missingParam`, not `badSpec`; and the undefined value is examined against the
type once a default has replaced it, failing with `badSpec`. -/
theorem bad_type_not_always_badSpec :
    (∃ e post, scrub plainHost .null (.obj [("type", .num (.ofNat 1)), ("required", .bool true)])
        .undefined = .ret ⟨e, post⟩ ∧
      isError e = true ∧ e.get "code" = .str "missingParam") ∧
    (∃ e post, scrub plainHost .undefined
        (.obj [("type", .num (.ofNat 1)), ("default", .num (.ofNat 5))])
        .undefined = .ret ⟨e, post⟩ ∧
      isError e = true ∧ e.get "code" = .str "badSpec") :=
  ⟨⟨_, _, rfl, rfl, rfl⟩, ⟨_, _, rfl, rfl, rfl⟩⟩

/-- C25 (amended).  A non-string type declaration.  For a defined value (null included)
and a spec without init hook whose `type` is defined but neither a string nor a plain
object, the value not being null when the spec says `required`: `scrub` returns an error
of code `badSpec` and leaves the value as it is.  When `type` is a plain object the type
stage applies no constraint, and on an undefined value it examines nothing. -/
theorem non_string_type_is_badSpec (h : Host) (value : Val) (sp : Props)
    (hv : isUndefined value = false)
    (hty : isDefined ((Val.obj sp).get "type") = true ∧
      isString ((Val.obj sp).get "type") = false ∧ isObject ((Val.obj sp).get "type") = false)
    (hinit : isFunction ((Val.obj sp).get "init") = false)
    (hreq : ((Val.obj sp).get "required").truthy = false ∨ isNull value = false) :
    (∃ e, scrub h value (.obj sp) .undefined = .ret ⟨e, value⟩ ∧
      isError e = true ∧ e.get "code" = .str "badSpec") ∧
    (∀ (rootSpec v spec options : Val), isObject (spec.get "type") = true →
      typeStage h rootSpec v spec options = .ret (.ok v)) ∧
    (∀ (rootSpec spec options : Val),
      typeStage h rootSpec .undefined spec options = .ret (.ok .undefined)) ∧
    (∃ e post, scrub h (.num (.ofNat 1)) (.obj [("type", .num (.ofNat 1))]) .undefined
        = .ret ⟨e, post⟩ ∧ isError e = true ∧ e.get "code" = .str "badSpec") ∧
    scrub h (.obj [("type", .str "I am a field named type of type string")])
        (.obj [("type", .obj [("type", .str "string")])]) .undefined
      = .ret ⟨.null, .obj [("type", .str "I am a field named type of type string")]⟩ ∧
    scrub h .undefined (.obj [("type", .num (.ofNat 1))]) .undefined
      = .ret ⟨.null, .undefined⟩ := by
  refine ⟨?_, ?_, ?_, ⟨_, _, rfl, rfl, rfl⟩, rfl, rfl⟩
  · obtain ⟨h1, h2, h3⟩ := hty
    have hhead : scrubHead h (.obj sp) value (.obj sp) (override _options (.obj sp) false)
        = .ret (.error (fail h (.obj sp) "badSpec" (.str "spec.type must be a string")
            ⟨value, .obj sp, override _options (.obj sp) false⟩)) := by
      have hdef : isDefined value = true := by simp [isDefined, hv]
      have hrq : (((Val.obj sp).get "required").truthy &&
          !((override _options (.obj sp) false).get "ignoreRequire").truthy &&
          (isUndefined value || isNull value)) = false := by
        rcases hreq with hr | hr
        · simp [hr]
        · simp [hv, hr]
      have s1 : initStage h (.obj sp) value (.obj sp) (override _options (.obj sp) false)
          = .ret (.ok value) := by
        simp only [initStage, hinit, Bool.false_eq_true, if_false]
      have s2 : defaultStage h (.obj sp) value (.obj sp) (override _options (.obj sp) false)
          = .ret (.ok value) := by
        simp only [defaultStage, hv, Bool.false_and, Bool.false_eq_true, if_false]
      have s3 : requiredStage h (.obj sp) value (.obj sp) (override _options (.obj sp) false)
          = .ret (.ok value) := by
        simp only [requiredStage, hrq, Bool.false_eq_true, if_false]
      have s4 : typeStage h (.obj sp) value (.obj sp) (override _options (.obj sp) false)
          = .ret (.error (fail h (.obj sp) "badSpec" (.str "spec.type must be a string")
              ⟨value, .obj sp, override _options (.obj sp) false⟩)) := by
        simp only [typeStage, hdef, h1, h3, h2, Bool.not_false, Bool.and_self, if_true]
      simp only [scrubHead, s1, s2, s3, s4, Res.andThen_ok, Res.andThen_error]
    unfold scrub
    rw [override_root_undefined, _scrub_head_error h _ _ _ _ _ _ (isObject_obj sp) hhead]
    simp only [Res.bind_ret, isError_fail, if_true]
    exact ⟨_, rfl, isError_fail _ _ _ _ _, fail_code _ _ _ _ _⟩
  · intro rootSpec v spec options ho
    simp [typeStage, ho]
  · intro rootSpec spec options
    simp [typeStage, isDefined, isUndefined]

/-- C25, witness: `null` against a spec whose type is an array. -/
theorem non_string_type_witness :
    ∃ e, scrub plainHost .null (.obj [("type", .arr [])]) .undefined = .ret ⟨e, .null⟩ ∧
      isError e = true ∧ e.get "code" = .str "badSpec" :=
  (non_string_type_is_badSpec plainHost .null [("type", .arr [])] rfl ⟨rfl, rfl, rfl⟩ rfl
    (Or.inl rfl)).1

/-- C26, counterexample.  An Error object as the value is returned as it is, as a failure,
under a spec that is a number and under the empty spec; and the empty spec rejects the
object with the key `a` when strict mode is on. -/
theorem specless_error_value :
    scrub plainHost (.error [("message", .str "x")]) (.num (.ofNat 1)) .undefined
      = .ret ⟨.error [("message", .str "x")], .error [("message", .str "x")]⟩ ∧
    scrub plainHost (.error [("message", .str "x")]) (.obj []) .undefined
      = .ret ⟨.error [("message", .str "x")], .error [("message", .str "x")]⟩ ∧
    (∃ e post, scrub plainHost (.obj [("a", .num (.ofNat 1))]) (.obj [])
        (.obj [("strict", .bool true)]) = .ret ⟨e, post⟩ ∧
      isError e = true ∧ e.get "code" = .str "badParam") :=
  ⟨rfl, rfl, ⟨_, _, rfl, rfl, rfl⟩⟩

/-- C26 (amended).  A spec-less node.  When the spec is not a plain object, `scrub`
leaves the value unchanged and returns null, or the value itself when `returnValue` is on,
unless the value is an Error object, which is returned as it is.  The empty spec does the
same whenever strict mode is off, or the value is not a plain object, or every key of the
value is the name of a member that objects inherit (other than `__proto__`).  In strict
mode the empty spec rejects with `badParam` an object that has a key which is not such a
name, naming the first one, and leaves the object as it is. -/
theorem specless_succeeds (h : Host) (value rootOptions : Val) :
    (∀ spec : Val, isObject spec = false →
      scrub h value spec rootOptions
        = .ret ⟨if isError value then value
            else if ((override _options rootOptions true).get "returnValue").truthy then value
            else .null, value⟩) ∧
    (((override _options rootOptions true).get "strict").truthy = false ∨
        isObject value = false ∨
        (∀ k, k ∈ value.keys → inherits k = true ∧ k ≠ "__proto__") →
      scrub h value (.obj []) rootOptions
        = .ret ⟨if isError value then value
            else if ((override _options rootOptions true).get "returnValue").truthy then value
            else .null, value⟩) ∧
    (∀ (ps : Props) (pre rest : List String) (key : String),
      ((override _options rootOptions true).get "strict").truthy = true →
      value = .obj ps →
      ps.map Prod.fst = pre ++ key :: rest →
      (∀ k, k ∈ pre → inherits k = true) →
      inherits key = false →
      ∃ e, scrub h value (.obj []) rootOptions = .ret ⟨e, value⟩ ∧
        isError e = true ∧ e.get "code" = .str "badParam" ∧
        e.get "message" = .str ("Unrecognized Parameter: " ++ key)) ∧
    scrub h (.num (.ofNat 1)) (.num (.ofNat 1)) .undefined = .ret ⟨.null, .num (.ofNat 1)⟩ ∧
    scrub h .undefined .undefined .undefined = .ret ⟨.null, .undefined⟩ ∧
    scrub h (.obj [("toString", .num (.ofNat 1))]) (.obj []) (.obj [("strict", .bool true)])
      = .ret ⟨.null, .obj [("toString", .num (.ofNat 1))]⟩ := by
  have ho : isObject (override _options rootOptions true) = true :=
    isObject_override _ _ _ rfl
  have hov : override (override _options rootOptions true) (.obj []) false
      = override _options rootOptions true := by
    unfold override
    simp [ho, isObject, Val.keys]
  have hhead : scrubHead h (.obj []) value (.obj []) (override _options rootOptions true)
      = .ret (.ok value) := by
    simp [scrubHead, initStage, defaultStage, requiredStage, typeStage, setterStage, Val.get,
      Props.find, isFunction, isDefined, isUndefined, Val.truthy]
  refine ⟨?_, ?_, ?_, rfl, rfl, rfl⟩
  · intro spec hs
    unfold scrub
    rw [_scrub]
    simp only [hs, Bool.not_false, if_true, Res.bind_ret]
    by_cases he : isError value = true
    · simp [he]
    · by_cases hr : ((override _options rootOptions true).get "returnValue").truthy = true
      · simp [he, hr]
      · simp [he, hr]
  · intro hcond
    have htail : ∀ o, scrubTail h (.obj []) value (.obj []) o = .ret (.ok value) := by
      intro o
      simp [scrubTail, validateStage, finishStage, Val.get, Props.find, isFunction]
    have hdisp : ∃ o, dispatch h (_scrub h (.obj []) 1) (.obj []) value (.obj [])
        (override _options rootOptions true) = .ret ⟨value, value, o⟩ := by
      unfold dispatch
      by_cases h1 : tipe value = "object"
      · obtain ⟨ps, rfl⟩ : ∃ ps, value = .obj ps := by
          cases value <;> simp_all [tipe]
        have hsf : specFields (.obj []) = .obj [] := rfl
        have hst : (if ((override _options rootOptions true).get "strict").truthy = true
            then unknownKey (specFields (.obj [])) (Val.obj ps).keys else none) = none := by
          rcases hcond with hc | hc | hc
          · simp only [hc, Bool.false_eq_true, if_false]
          · simp [isObject] at hc
          · split
            · exact (unknownKey_none _ _).mpr
                (fun k hk => Or.inr ⟨(hc k hk).1, by simp [hsf, Val.keys]⟩)
            · rfl
        simp only [h1, if_true, checkObject, hst]
        simp only [hsf, Val.keys, List.map_nil, fillDefaults, Res.bind_ret, missingRequired]
        have hmr : (if (!((override _options rootOptions true).get "ignoreRequired").truthy) = true
            then (Res.ret none : Res (Option String)) else Res.ret none) = Res.ret none := by
          split <;> rfl
        rw [hmr]
        simp only [Res.bind_ret]
        have := scrubProps_skip (_scrub h (.obj []) 1) (.obj []) (.obj []) (.obj [])
          (ps.map Prod.fst) (.obj ps) (override _options rootOptions true)
          (fun k _ => rfl)
        exact ⟨_, this⟩
      · simp only [h1, if_false]
        by_cases h2 : tipe value = "array"
        · simp [h2, checkArray, Val.get, Props.find, isObject]
        · have hcs : checkScalar h (.obj []) value (.obj []) (override _options rootOptions true)
              = value := by
            simp [checkScalar, Val.get, Props.find, tipe]
          simp only [h2, if_false, hcs]
          exact ⟨_, rfl⟩
    obtain ⟨o, hd⟩ := hdisp
    have hpost : (if inPlace value (.obj []) then value else value) = value := by
      split <;> rfl
    unfold scrub
    have hdep : (Val.obj []).depth + 1 = 1 + 1 := rfl
    rw [hdep, _scrub]
    simp only [isObject, Bool.not_true, Bool.false_eq_true, if_false, hov, hhead, Res.bind_ret, hd,
      htail, hpost]
    by_cases he : isError value = true
    · simp [he]
    · by_cases hr : ((override _options rootOptions true).get "returnValue").truthy = true
      · simp [he, hr]
      · simp [he, hr]
  · intro ps pre rest key hstrict hval hkeys hpre hown
    subst hval
    have hd : dispatch h (_scrub h (.obj []) 1) (.obj []) (.obj ps) (.obj [])
        (override _options rootOptions true)
        = .ret ⟨fail h (.obj []) "badParam" (.str key)
            ⟨.obj ps, .obj [], override _options rootOptions true⟩, .obj ps,
            override _options rootOptions true⟩ := by
      have h1 : tipe (Val.obj ps) = "object" := rfl
      have hsf : specFields (.obj []) = .obj [] := rfl
      simp only [dispatch, h1, if_true, checkObject, hstrict, hsf, Val.keys, hkeys,
        unknownKey_first (.obj []) pre rest key
          (fun k hk => Or.inr ⟨hpre k hk, by simp [Val.keys]⟩) rfl (Or.inl hown)]
    have hrun := _scrub_dispatch_error h (.obj []) 1 (.obj ps) (.obj [])
      (override _options rootOptions true) (.obj ps) _ rfl (by rw [hov]; exact hhead)
      (by rw [hov]; exact hd) (isError_fail _ _ _ _ _)
    have hin : inPlace (Val.obj ps) (.obj []) = true := rfl
    simp only [hin, if_true] at hrun
    unfold scrub
    have hdep : (Val.obj []).depth + 1 = 1 + 1 := rfl
    rw [hdep, hrun]
    simp only [Res.bind_ret, isError_fail, if_true]
    refine ⟨_, rfl, isError_fail _ _ _ _ _, fail_code _ _ _ _ _, ?_⟩
    rw [fail_message, toStr_str]
    simp [codeMap, String.append_assoc]

/-- C27, counterexamples.  Adding `strict: true` to the root node makes the unknown key
`b` of the value fail with `badParam`; adding the key `b` with a spec node as its value to
a field map declares a required field, and the value fails with `missingParam`; adding
`doNotCoerce: true` makes the text `1` fail against type number with `badType`. -/
theorem extra_key_matters :
    (scrub plainHost (.obj [("a", .num (Num.ofNat 1)), ("b", .num (Num.ofNat 2))])
        (.obj [("a", .obj [("type", .str "number")])]) .undefined
      = .ret ⟨.null, .obj [("a", .num (Num.ofNat 1)), ("b", .num (Num.ofNat 2))]⟩ ∧
     ∃ e post, scrub plainHost (.obj [("a", .num (Num.ofNat 1)), ("b", .num (Num.ofNat 2))])
        (.obj [("a", .obj [("type", .str "number")]), ("strict", .bool true)]) .undefined
        = .ret ⟨e, post⟩ ∧ isError e = true ∧ e.get "code" = .str "badParam") ∧
    (scrub plainHost (.obj [("a", .num (Num.ofNat 1))])
        (.obj [("a", .obj [("type", .str "number")])]) .undefined
      = .ret ⟨.null, .obj [("a", .num (Num.ofNat 1))]⟩ ∧
     ∃ e post, scrub plainHost (.obj [("a", .num (Num.ofNat 1))])
        (.obj [("a", .obj [("type", .str "number")]), ("b", .obj [("required", .bool true)])])
        .undefined
        = .ret ⟨e, post⟩ ∧ isError e = true ∧ e.get "code" = .str "missingParam") ∧
    (scrub plainHost (.str "1") (.obj [("type", .str "number")]) .undefined
      = .ret ⟨.null, .str "1"⟩ ∧
     ∃ e post, scrub plainHost (.str "1")
        (.obj [("type", .str "number"), ("doNotCoerce", .bool true)]) .undefined
        = .ret ⟨e, post⟩ ∧ isError e = true ∧ e.get "code" = .str "badType") :=
  ⟨⟨rfl, _, _, rfl, rfl, rfl⟩, ⟨rfl, _, _, rfl, rfl, rfl⟩, ⟨rfl, _, _, rfl, rfl, rfl⟩⟩

/-- C27 (amended).  Extra keys on a spec node.  Let `spec'` be `spec` with the entry `k: x`
added to one node: the root, or a node reached through `value` entries and field names
that are not spec keywords (`Pads`).  When `k` is not a spec keyword, is not `key` and
names no option in effect, `x` is a string, a number or a boolean, the options hold no
object, and strict mode is off (in the options, and no spec node has a key `strict`):
the two runs of `scrub` end alike; they leave the value in the same state and return the
same value, or two errors that agree on every property but `details` (same code and
message). -/
theorem extra_key_ignored (h : Host) (k : String) (x : Val)
    (value spec spec' rootOptions : Val)
    (hp : Pads k x spec spec')
    (hk : k ∉ keywords) (hkey : k ≠ "key")
    (hx : isScalar x = true ∧ isUndefined x = false ∧ isNull x = false)
    (hm : mentions "strict" spec = false)
    (hu : Unaffected k (override _options rootOptions true)) :
    Res.Rel SameOut (scrub h value spec rootOptions) (scrub h value spec' rootOptions) ∧
    (∀ r p, scrub h value spec rootOptions = .ret ⟨r, p⟩ →
      ∃ r', scrub h value spec' rootOptions = .ret ⟨r', p⟩ ∧
        isError r' = isError r ∧ (isError r = false → r' = r) ∧
        (∀ key, key ≠ "details" → r'.get key = r.get key)) := by
  have hrel : Res.Rel SameOut (scrub h value spec rootOptions)
      (scrub h value spec' rootOptions) := by
    unfold scrub
    rw [pads_depth hx.1 hp]
    apply Res.rel_bind (_scrub_pads k x h spec spec' hk hkey hx (spec.depth + 1) spec spec'
      value _ hp hm hu)
    intro out out' hout
    obtain ⟨hpost, hres⟩ := hout
    rcases hres with ⟨he, heq⟩ | ⟨he, hse⟩
    · have hoo : out' = out := by
        cases out
        cases out'
        simp only at hpost heq
        rw [hpost, heq]
      rw [hoo]
      simp only [he, Bool.false_eq_true, if_false]
      split
      · exact ⟨rfl, sameResult_self _⟩
      · exact ⟨rfl, sameResult_self _⟩
    · simp only [he, hse.1, if_true]
      exact ⟨hpost, sameResult_error he hse⟩
  refine ⟨hrel, ?_⟩
  intro r p hrun
  rw [hrun] at hrel
  cases hrun' : scrub h value spec' rootOptions with
  | raise m => simp [hrun', Res.Rel] at hrel
  | diverge => simp [hrun', Res.Rel] at hrel
  | ret out' =>
    rw [hrun'] at hrel
    obtain ⟨hpost, hres⟩ := hrel
    obtain ⟨r', p'⟩ := out'
    simp only at hpost hres
    subst hpost
    refine ⟨r', rfl, sameResult_isError hres, ?_, ?_⟩
    · intro he
      rcases hres with ⟨_, heq⟩ | ⟨he2, _⟩
      · exact heq
      · rw [he] at he2
        exact absurd he2 (by decide)
    · intro key hkey2
      rcases hres with ⟨_, heq⟩ | ⟨_, hse⟩
      · rw [heq]
      · exact hse.2 key hkey2

/-- C27, witness: the field `s1` of type string with the extra entry `foo: bar`. -/
theorem extra_key_ignored_witness :
    Res.Rel SameOut
      (scrub plainHost (.obj [("s1", .str "hello")])
        (.obj [("s1", .obj [("type", .str "string")])]) .undefined)
      (scrub plainHost (.obj [("s1", .str "hello")])
        (.obj [("s1", .obj [("type", .str "string"), ("foo", .str "bar")])]) .undefined) :=
  (extra_key_ignored plainHost "foo" (.str "bar") (.obj [("s1", .str "hello")])
    (.obj [("s1", .obj [("type", .str "string")])])
    (.obj [("s1", .obj [("type", .str "string"), ("foo", .str "bar")])]) .undefined
    (Pads.field [("s1", .obj [("type", .str "string")])] "s1"
      (.obj [("type", .str "string"), ("foo", .str "bar")]) (Or.inr (by decide)) rfl
      (Pads.here [("type", .str "string")] (by decide)))
    (by decide) (by decide) ⟨rfl, rfl, rfl⟩ rfl
    ⟨rfl, options_flat, rfl, rfl⟩).1

/-- C29. Numeric strings that denote zero or have no integer part are not coerced.  For a
string `s` other than `0` whose integer parse is zero or NaN (falsy) and whose float parse
does not exceed it in magnitude, `coerceType` against type `number` returns `s` unchanged
when coercion is enabled, so `scrub` against type `number` returns an error of code
`badType`.  Under the decimal host this covers `0.0`, `00`, `-0` and `.5` (whose integer
parse is NaN); the text `0` itself is coerced to the number 0. -/
theorem zero_strings_not_coerced (h : Host) (s : String) (spec options : Val)
    (htype : spec.get "type" = .str "number")
    (hco : (options.get "doNotCoerce").truthy = false)
    (hs : s ≠ "0")
    (hi : (h.parseInt s).truthy = false)
    (hf : Num.gt (h.parseFloat s).abs (h.parseInt s).abs = false) :
    coerceType h (.str s) spec options = .str s ∧
    (∃ e, scrub h (.str s) (.obj [("type", .str "number")]) .undefined = .ret ⟨e, .str s⟩ ∧
      isError e = true ∧ e.get "code" = .str "badType") ∧
    (∀ t : String, t = "0.0" ∨ t = "00" ∨ t = "-0" ∨ t = ".5" →
      t ≠ "0" ∧ (plainHost.parseInt t).truthy = false ∧
      Num.gt (plainHost.parseFloat t).abs (plainHost.parseInt t).abs = false ∧
      coerceType plainHost (.str t) (.obj [("type", .str "number")]) _options = .str t) ∧
    plainHost.parseInt ".5" = .nan ∧
    coerceType plainHost (.str "0") (.obj [("type", .str "number")]) _options
      = .num (.ofNat 0) := by
  have hc : ∀ o : Val, (o.get "doNotCoerce").truthy = false → ∀ sp : Val,
      sp.get "type" = .str "number" → coerceType h (.str s) sp o = .str s := by
    intro o ho sp hsp
    unfold coerceType
    simp only [ho, hsp, isString, strictEq, coerceNumber_eq_ref]
    simp [coerceNumberRef, hi, hf, hs]
  refine ⟨hc options hco spec htype, ?_, ?_, rfl, rfl⟩
  · rw [scrub_typeOnly, hc _options rfl (.obj [("type", .str "number")]) rfl]
    exact ⟨_, rfl, isError_fail _ _ _ _ _, fail_code _ _ _ _ _⟩
  · intro t ht
    rcases ht with rfl | rfl | rfl | rfl
    · exact ⟨by decide, rfl, rfl, rfl⟩
    · exact ⟨by decide, rfl, rfl, rfl⟩
    · exact ⟨by decide, rfl, rfl, rfl⟩
    · exact ⟨by decide, rfl, rfl, rfl⟩

/-- C29, witness: the text `0.0` under the decimal host. -/
theorem zero_strings_witness :
    coerceType plainHost (.str "0.0") (.obj [("type", .str "number")]) _options = .str "0.0" :=
  (zero_strings_not_coerced plainHost "0.0" (.obj [("type", .str "number")]) _options rfl rfl
    (by decide) rfl rfl).1

/-- C30, what the details of a nested failure hold.  When the failure comes from the node
of a field or of an array element of the root, the frame of `checkObject` or `checkArray`
at the root writes the details anew: `details.spec` and `details.rootSpec` are the root
spec, `details.value` is the root value as it then stands, `details.options` holds only
truthy entries and no entry `key`, and `details.key` is the key of the field or the index
of the element at the root, except that the empty key and the index 0, being falsy, are
left out: `details.key` is then absent. -/
theorem details_of_root_frame (h : Host) (rootValue rootSpec rootOptions : Val)
    (hs : isObject rootSpec = true) :
    (∀ (w filled : Val) (pre rest : List String) (key : String) (c : Checked) (e p : Val),
      scrubHead h rootSpec rootValue rootSpec
        (override (override _options rootOptions true) rootSpec false) = .ret (.ok w) →
      tipe w = "object" →
      (if ((override (override _options rootOptions true) rootSpec false).get "strict").truthy
        then unknownKey (specFields rootSpec) w.keys else none) = none →
      fillDefaults h rootSpec rootSpec (specFields rootSpec)
        (override (override _options rootOptions true) rootSpec false)
        (specFields rootSpec).keys w = .ret (.ok filled) →
      (if !((override (override _options rootOptions true) rootSpec false).get
            "ignoreRequired").truthy
        then missingRequired (specFields rootSpec) filled (specFields rootSpec).keys
        else .ret none) = .ret none →
      filled.keys = pre ++ key :: rest →
      scrubProps (_scrub h rootSpec rootSpec.depth) rootSpec rootSpec (specFields rootSpec) pre
        filled (override (override _options rootOptions true) rootSpec false) = .ret c →
      isError c.result = false →
      isObject ((specFields rootSpec).get key) = true →
      _scrub h rootSpec rootSpec.depth (c.post.get key) ((specFields rootSpec).get key)
        (c.options.put "key" (.str key)) = .ret ⟨e, p⟩ →
      isError e = true →
      ∃ e' post, scrub h rootValue rootSpec rootOptions = .ret ⟨e', post⟩ ∧
        SameError e e' ∧
        (e'.get "details").get "spec" = rootSpec ∧
        (e'.get "details").get "value" = c.post.put key p ∧
        (e'.get "details").get "rootSpec" = rootSpec ∧
        (e'.get "details").get "key" = (if key = "" then .undefined else .str key) ∧
        ∃ ps, (e'.get "details").get "options" = .obj ps ∧
          (∀ q ∈ ps, q.2.truthy = true) ∧ "key" ∉ ps.map Prod.fst) ∧
    (∀ (w : Val) (i : Nat) (c : Checked) (e p : Val),
      scrubHead h rootSpec rootValue rootSpec
        (override (override _options rootOptions true) rootSpec false) = .ret (.ok w) →
      tipe w = "array" →
      isObject (rootSpec.get "value") = true →
      i < w.length →
      scrubItems (_scrub h rootSpec rootSpec.depth) rootSpec rootSpec (List.range i) w
        (override (override _options rootOptions true) rootSpec false) = .ret c →
      isError c.result = false →
      _scrub h rootSpec rootSpec.depth (c.post.item i) (rootSpec.get "value")
        (c.options.put "key" (.num (Num.ofNat i))) = .ret ⟨e, p⟩ →
      isError e = true →
      ∃ e' post, scrub h rootValue rootSpec rootOptions = .ret ⟨e', post⟩ ∧
        SameError e e' ∧
        (e'.get "details").get "spec" = rootSpec ∧
        (e'.get "details").get "value" = c.post.setAt i p ∧
        (e'.get "details").get "rootSpec" = rootSpec ∧
        (e'.get "details").get "key" = (if i = 0 then .undefined else .num (Num.ofNat i)) ∧
        ∃ ps, (e'.get "details").get "options" = .obj ps ∧
          (∀ q ∈ ps, q.2.truthy = true) ∧ "key" ∉ ps.map Prod.fst) := by
  have ho : isObject (override (override _options rootOptions true) rootSpec false) = true :=
    isObject_override _ _ _ (isObject_override _ _ _ rfl)
  have hnd : (override (override _options rootOptions true) rootSpec false).keys.Nodup :=
    nodup_keys_override _ _ _ (nodup_keys_override _ _ _ nodup_keys_options)
  constructor
  · intro w filled pre rest key c e p hh hty hstrict hfill hreq hkeys hloop hok hobj hchild he
    have hrun := _scrub_field_error h rootSpec rootSpec.depth rootValue rootSpec
      (override _options rootOptions true) w filled pre rest key c e p hs hh hty hstrict hfill
      hreq hkeys hloop hok hobj hchild he
    unfold scrub
    rw [hrun]
    simp only [Res.bind_ret, isError_failWith, he, if_true]
    obtain ⟨d1, d2, d3, d4, d5⟩ := details_frame rootSpec e (c.post.put key p) rootSpec
      (override (override _options rootOptions true) rootSpec false) (.str key) he ho hnd
    refine ⟨_, _, rfl, sameError_failWith _ _ (sameError_refl e he), d1, d2, d3, ?_, d5⟩
    rw [d4]
    by_cases hk : key = ""
    · subst hk
      rfl
    · simp [Val.truthy, hk]
  · intro w i c e p hh hty hobj hi hloop hok hchild he
    have hrun := _scrub_item_error h rootSpec rootSpec.depth rootValue rootSpec
      (override _options rootOptions true) w i c e p hs hh hty hobj hi hloop hok hchild he
    unfold scrub
    rw [hrun]
    simp only [Res.bind_ret, isError_failWith, he, if_true]
    obtain ⟨d1, d2, d3, d4, d5⟩ := details_frame rootSpec e (c.post.setAt i p) rootSpec
      (override (override _options rootOptions true) rootSpec false) (.num (Num.ofNat i)) he ho hnd
    refine ⟨_, _, rfl, sameError_failWith _ _ (sameError_refl e he), d1, d2, d3, ?_, d5⟩
    rw [d4]
    by_cases h0 : i = 0
    · subst h0
      rfl
    · simp [Val.truthy, Num.truthy, Num.ofNat, h0]

/-- C30, witness and failing input.  The failure of field `b` inside field `a` is
reported with key `a`; the failure of field `b` inside element 0 of an array is reported
without any key. -/
theorem details_of_root_frame_witness :
    (∃ e' post, scrub plainHost (.obj [("a", .obj [("b", .num (Num.ofNat 1))])])
        (.obj [("a", .obj [("type", .str "object"),
          ("value", .obj [("b", .obj [("type", .str "string")])])])]) .undefined
        = .ret ⟨e', post⟩ ∧
      (e'.get "details").get "key" = .str "a" ∧
      (e'.get "details").get "spec" = .obj [("a", .obj [("type", .str "object"),
          ("value", .obj [("b", .obj [("type", .str "string")])])])]) ∧
    (∃ e' post, scrub plainHost (.arr [.obj [("b", .num (Num.ofNat 1))]])
        (arraySpec (.obj [("b", .obj [("type", .str "string")])])) .undefined
        = .ret ⟨e', post⟩ ∧
      (e'.get "details").get "key" = .undefined ∧
      (e'.get "details").get "spec"
        = arraySpec (.obj [("b", .obj [("type", .str "string")])])) := by
  constructor
  · obtain ⟨e', post, h1, _, h3, _, _, h6, _⟩ :=
      (details_of_root_frame plainHost (.obj [("a", .obj [("b", .num (Num.ofNat 1))])])
        (.obj [("a", .obj [("type", .str "object"),
          ("value", .obj [("b", .obj [("type", .str "string")])])])]) .undefined rfl).1
        _ _ [] [] "a" ⟨_, _, _⟩ _ _ rfl rfl rfl rfl rfl rfl rfl rfl rfl rfl rfl
    exact ⟨e', post, h1, h6, h3⟩
  · obtain ⟨e', post, h1, _, h3, _, _, h6, _⟩ :=
      (details_of_root_frame plainHost (.arr [.obj [("b", .num (Num.ofNat 1))]])
        (arraySpec (.obj [("b", .obj [("type", .str "string")])])) .undefined rfl).2
        _ 0 ⟨_, _, _⟩ _ _ rfl rfl rfl (by decide) rfl rfl rfl rfl
    exact ⟨e', post, h1, h6, h3⟩

end Scrub
